import Mathlib

/-!
DCP-o-matic: transcoding loop, subtitle grouping, reels, frame-info index, gap fill

A shallow embedding of the parts of DCP-o-matic that the verified properties are about.

* `Transcoder::go` (`src/lib/transcoder.cc`) is embedded as a function producing the
  ordered trace of calls it makes on its collaborators (encoder, writer, job).
* `render_text` (`src/lib/render_text.cc`) is embedded as the function computing the
  lists of subtitles that are handed to `render_line`, one list per image.
* `Film::reels`, the frame-info index of `ReelWriter`, `DCPContent::can_reference` and the
  gap computation of `Player::setup_pieces` live in files that are not part of the sources
  (`film.cc`, `reel_writer.cc`, `dcp_content.cc`, `player.cc`); they are modelled from the
  specification and from the unit tests that exercise them.

Times are `DCPTime` ticks (natural numbers; the source uses non-negative `int64_t`
values here, far below the overflow bound).
-/

namespace DCPOMatic

/-! ## Transcoder::go -/

/-- Modelled from the spec: the number of `DCPTime` units in one second, declared in
`dcpomatic_time.h` which is not part of the sources; the tests fix it
(24 frames at 24 fps are `DCPTime (96000)`). -/
def HZ : Nat := 96000

/-- Modelled from the spec: `DCPTime::from_frames (f, r)` of `dcpomatic_time.h` (not part
of the sources), the time of `f` frames at `r` frames per second, in whole ticks. -/
def from_frames (f r : Nat) : Nat := f * HZ / r

/-- The eye tag of a video frame (`EYES_BOTH`, `EYES_LEFT`, `EYES_RIGHT`). -/
inductive Eyes where
  | BOTH
  | LEFT
  | RIGHT
deriving DecidableEq, Repr

/-- A video frame as returned by the player: an image, identified by a number, and its
eye tag. -/
structure PlayerVideo where
  image : Nat
  eyes : Eyes
deriving DecidableEq, Repr

/-- `PlayerVideo::set_eyes`. -/
def PlayerVideo.set_eyes (i : PlayerVideo) (e : Eyes) : PlayerVideo :=
  { i with eyes := e }

/-- The subtitle part of a piece of content: whether it is used and whether it is burnt
into the image. -/
structure SubtitleContent where
  use : Bool
  burn : Bool
deriving DecidableEq, Repr

/-- What `Transcoder::go` reads of a piece of content: its optional subtitle part. -/
structure TContent where
  subtitle : Option SubtitleContent
deriving DecidableEq, Repr

/-- What `Transcoder::go` reads of the film. -/
structure TFilm where
  three_d : Bool
  video_frame_rate : Nat
  length : Nat
  content : List TContent
deriving DecidableEq, Repr

/-- What `Transcoder::go` asks of the player: the video frames at a time and the
referenced reel assets (identified by numbers).  The audio and the subtitles of a quantum
are identified by the arguments of the request. -/
structure TPlayer where
  get_video : Nat → List PlayerVideo
  get_reel_assets : List Nat

/-- One call made by `Transcoder::go` on the writer, the encoder or the job. -/
inductive Event where
  | writerStart
  | encoderBegin
  | jobSub
  | writeFonts
  | encode (i : PlayerVideo)
  | writeAudio (t frame : Nat)
  | writeSubtitles (t frame : Nat)
  | setProgress (t length : Nat)
  | writeReelAsset (a : Nat)
  | encoderEnd
  | writerFinish
deriving DecidableEq, Repr

/-- The counting loop at the head of `Transcoder::go`: the pair
`(burnt_subtitles, non_burnt_subtitles)`. -/
def countSubtitles : List TContent → Nat × Nat
  | [] => (0, 0)
  | c :: rest =>
    let r := countSubtitles rest
    match c.subtitle with
    | some s =>
      if s.use then
        if s.burn then (r.1 + 1, r.2) else (r.1, r.2 + 1)
      else r
    | none => r

/-- The inner loop of `Transcoder::go` over the frames of `get_video (t, true)`: the
calls of `_encoder->encode`, in order. -/
def encodeVideo (three_d : Bool) : List PlayerVideo → List Event
  | [] => []
  | i :: rest =>
    if !three_d then
      if i.eyes = Eyes.RIGHT then
        encodeVideo three_d rest
      else if i.eyes = Eyes.LEFT then
        Event.encode (i.set_eyes Eyes.BOTH) :: encodeVideo three_d rest
      else
        Event.encode i :: encodeVideo three_d rest
    else
      Event.encode i :: encodeVideo three_d rest

/-- The body of the main loop of `Transcoder::go` at time `t`. -/
def quantum (film : TFilm) (player : TPlayer) (non_burnt_subtitles frame t : Nat) :
    List Event :=
  encodeVideo film.three_d (player.get_video t)
    ++ [Event.writeAudio t frame]
    ++ (if non_burnt_subtitles ≠ 0 then [Event.writeSubtitles t frame] else [])
    ++ [Event.setProgress t film.length]

/-- The main loop `for (DCPTime t; t < length; t += frame)` run for at most `fuel`
iterations from time `t`: the calls made, and whether the loop has been left. -/
def goLoop (film : TFilm) (player : TPlayer) (non_burnt_subtitles frame : Nat) :
    Nat → Nat → List Event × Bool
  | 0, t => ([], decide (¬ t < film.length))
  | fuel + 1, t =>
    if t < film.length then
      let r := goLoop film player non_burnt_subtitles frame fuel (t + frame)
      (quantum film player non_burnt_subtitles frame t ++ r.1, r.2)
    else
      ([], true)

/-- `Transcoder::go` with its main loop run for at most `fuel` iterations: the calls made
so far, in order, and whether `go` has returned. -/
def go (film : TFilm) (player : TPlayer) (fuel : Nat) : List Event × Bool :=
  let frame := from_frames 1 film.video_frame_rate
  let non_burnt_subtitles := (countSubtitles film.content).2
  let r := goLoop film player non_burnt_subtitles frame fuel 0
  ([Event.writerStart, Event.encoderBegin, Event.jobSub]
    ++ (if non_burnt_subtitles ≠ 0 then [Event.writeFonts] else [])
    ++ r.1
    ++ (if r.2 then
          player.get_reel_assets.map Event.writeReelAsset
            ++ [Event.encoderEnd, Event.writerFinish]
        else []),
   r.2)

/-- The frames passed to the encoder in a trace, in order. -/
def encoded : List Event → List PlayerVideo
  | [] => []
  | Event.encode i :: rest => i :: encoded rest
  | _ :: rest => encoded rest

/-- The value `float(t.get()) / length.get()` given to `Job::set_progress`, where `rnd`
is the rounding of an exact value to single precision (`rnd = id` is the exact
quotient). -/
def progressValue (rnd : ℚ → ℚ) (t length : Nat) : ℚ :=
  rnd (rnd (t : ℚ) / rnd (length : ℚ))

/-- The progress values reported to the job in a trace, in order. -/
def progressValues (rnd : ℚ → ℚ) : List Event → List ℚ
  | [] => []
  | Event.setProgress t l :: rest => progressValue rnd t l :: progressValues rnd rest
  | _ :: rest => progressValues rnd rest

/-- A film of three frames at 24 fps with one used, not burnt-in subtitle content. -/
def scheduleFilm : TFilm :=
  { three_d := false, video_frame_rate := 24, length := 12000,
    content := [{ subtitle := some { use := true, burn := false } }] }

/-- A player giving one left-eye and one right-eye frame at every time. -/
def schedulePlayer : TPlayer :=
  { get_video := fun t => [{ image := t, eyes := Eyes.LEFT }, { image := t, eyes := Eyes.RIGHT }],
    get_reel_assets := [7] }


/-! ## Floating point -/

/-- The integer nearest to a rational, the even one of the two when it is half way. -/
def round_half_even (q : ℚ) : Int :=
  if q - ⌊q⌋ < 1 / 2 then ⌊q⌋
  else if 1 / 2 < q - ⌊q⌋ then ⌊q⌋ + 1
  else if ⌊q⌋ % 2 = 0 then ⌊q⌋ else ⌊q⌋ + 1

/-- The binary floating-point number with a significand of `p` bits that is nearest to
`q`, with ties to even (the rounding of IEEE 754 arithmetic); the range of the exponent
is not bounded, so this is the rounding of the machine for results in the normal range of
the format. -/
def nearest (p : Nat) (q : ℚ) : ℚ :=
  if q = 0 then 0
  else (round_half_even (q * 2 ^ ((p : Int) - 1 - Int.log 2 |q|)) : ℚ)
    / 2 ^ ((p : Int) - 1 - Int.log 2 |q|)

/-- The rounding of an exact value to a `float`, which has a significand of 24 bits. -/
def to_float (q : ℚ) : ℚ := nearest 24 q

/-- The rounding of an exact value to a `double`, which has a significand of 53 bits. -/
def to_double (q : ℚ) : ℚ := nearest 53 q

/-! ## render_text -/

/-- Vertical alignment of a subtitle (`dcp::VAlign`). -/
inductive VAlign where
  | TOP
  | CENTER
  | BOTTOM
deriving DecidableEq, Repr

/-- What `render_text` reads of a `StringText` to decide the grouping: its vertical
alignment and its vertical position, a `float` given by its value; `text` stands for
everything else it carries. -/
structure StringText where
  text : String
  v_align : VAlign
  v_position : ℚ
deriving DecidableEq, Repr

/-- The value of the literal `1e-4`: the `double` nearest to 1/10000. -/
def tolerance : ℚ := 7378697629483821 / 73786976294838206464

/-- The test of the loop of `render_text`:
`!pending.empty() && (i.v_align() != pending.back().v_align()
|| fabs(i.v_position() - pending.back().v_position()) > 1e-4)`.  The difference of the two
`float` values is a `float`: `rnd` is the rounding of an exact value to single precision.
Its absolute value is compared as a `double` with the literal. -/
def startsNewLine (rnd : ℚ → ℚ) (i : StringText) (pending : List StringText) : Bool :=
  match pending.getLast? with
  | none => false
  | some b =>
    decide (i.v_align ≠ b.v_align ∨ |rnd (i.v_position - b.v_position)| > tolerance)

/-- The loop of `render_text` over the subtitles still to come, with the state `pending`
and `images`, followed by the final flush of `pending`. -/
def render_text_loop {α : Type} (rnd : ℚ → ℚ) (render_line : List StringText → α) :
    List StringText → List StringText → List α → List α
  | [], pending, images =>
    if !pending.isEmpty then images ++ [render_line pending] else images
  | i :: rest, pending, images =>
    if startsNewLine rnd i pending then
      render_text_loop rnd render_line rest [i] (images ++ [render_line pending])
    else
      render_text_loop rnd render_line rest (pending ++ [i]) images

/-- `render_text`: the list of images, each the result of `render_line` on one list of
subtitles.  With `render_line := id` it is the list of rendering units. -/
def render_text {α : Type} (rnd : ℚ → ℚ) (render_line : List StringText → α)
    (subtitles : List StringText) : List α :=
  render_text_loop rnd render_line subtitles [] []

/-- Whether a subtitle `b` that comes right after `a` stays on the line of `a` as
`render_text` tests it: the same vertical alignment, and a difference of the vertical
positions that, taken in single precision, is no more than the literal `1e-4` in absolute
value. -/
def sameLineComputed (rnd : ℚ → ℚ) (a b : StringText) : Prop :=
  b.v_align = a.v_align ∧ |rnd (b.v_position - a.v_position)| ≤ tolerance

/-- Whether two subtitles are on the same line in the words of the specification: the same
vertical alignment and vertical positions that differ by at most 1e-4. -/
def sameLine (a b : StringText) : Prop :=
  b.v_align = a.v_align ∧ |b.v_position - a.v_position| ≤ 1 / 10000

instance (a b : StringText) : Decidable (sameLine a b) := by
  unfold sameLine
  infer_instance

/-- Three subtitles, top, bottom, top, all at vertical position 0. -/
def interleaved : List StringText :=
  [{ text := "a", v_align := VAlign.TOP, v_position := 0 },
   { text := "b", v_align := VAlign.BOTTOM, v_position := 0 },
   { text := "c", v_align := VAlign.TOP, v_position := 0 }]

/-- Three top-aligned subtitles whose vertical positions rise in steps of 2^-14. -/
def drifting : List StringText :=
  [{ text := "d", v_align := VAlign.TOP, v_position := 0 },
   { text := "e", v_align := VAlign.TOP, v_position := 1 / 16384 },
   { text := "f", v_align := VAlign.TOP, v_position := 1 / 8192 }]

/-- Two top-aligned subtitles whose vertical positions are the `float` values
8388613 / 2^40 and 1849059 / 2^34: they differ by a little more than 1e-4, and their
difference taken in single precision is a little less. -/
def rounded : List StringText :=
  [{ text := "g", v_align := VAlign.TOP, v_position := 8388613 / 1099511627776 },
   { text := "h", v_align := VAlign.TOP, v_position := 1849059 / 17179869184 }]

/-! ## Timeline, film and reels -/

/-- Modelled from the spec: a `DCPTimePeriod` (`dcpomatic_time.h` is not part of the sources),
the half-open interval `[from, to)` of the output timeline. -/
structure Period where
  from_ : Nat
  to_ : Nat
deriving DecidableEq, Repr

/-- Whether a time lies in a period. -/
def Period.contains (p : Period) (t : Nat) : Prop := p.from_ ≤ t ∧ t < p.to_

instance (p : Period) (t : Nat) : Decidable (p.contains t) := by
  unfold Period.contains
  infer_instance

/-- Modelled from the spec: a placed piece of content (section 3 of the specification; the
class `Content` is declared in `content.h`, not part of the sources).  `length` is its
length on the output timeline after trimming; `reel_lengths` are the lengths of the reels
of an imported DCP (`DCPContent::_reel_lengths`, here in ticks), empty for other content. -/
structure Content where
  position : Nat
  length : Nat
  video : Bool
  audio : Bool
  reel_lengths : List Nat
deriving DecidableEq, Repr

/-- Modelled from the spec: `Content::end`, the end of the content on the output timeline. -/
def Content.end_ (c : Content) : Nat := c.position + c.length

/-- Modelled from the spec: the output period `[position, end)` of a piece of content. -/
def Content.period (c : Content) : Period := ⟨c.position, c.end_⟩

/-- Modelled from the spec: consecutive periods of the given lengths starting at `start`, the
way the reels of an imported DCP follow one another. -/
def periodsFrom : Nat → List Nat → List Period
  | _, [] => []
  | start, l :: ls => ⟨start, start + l⟩ :: periodsFrom (start + l) ls

/-- Modelled from the spec: `DCPContent::reels`, the reels of an imported DCP laid on the
output timeline from the position of the content. -/
def Content.reels (c : Content) : List Period := periodsFrom c.position c.reel_lengths

/-- Modelled from the spec: the points of the output timeline where a piece of content, or
one of the reels of an imported DCP, starts or ends. -/
def Content.split_points (c : Content) : List Nat :=
  [c.position, c.end_] ++ c.reels.map Period.from_ ++ c.reels.map Period.to_

/-- Modelled from the spec: the reel policies of section 4.3 (`REELTYPE_SINGLE`,
`REELTYPE_BY_VIDEO_CONTENT`, `REELTYPE_BY_LENGTH`). -/
inductive ReelType where
  | SINGLE
  | BY_VIDEO_CONTENT
  | BY_LENGTH
deriving DecidableEq, Repr

/-- Modelled from the spec: what the reel computation reads of the `Film` (class declared in
`film.h`, not part of the sources): the content of its playlist, the reel policy, the byte
budget of a reel, the J2K bandwidth in bits per second and the video frame rate. -/
structure Film where
  content : List Content
  reel_type : ReelType
  reel_length : Nat
  j2k_bandwidth : Nat
  video_frame_rate : Nat
deriving DecidableEq, Repr

/-- Modelled from the spec: `DCPTime::round_up (rate)` of `dcpomatic_time.h` (not part of the
sources), the time rounded up to a whole number of frames at `rate`. -/
def round_up (t rate : Nat) : Nat :=
  (t + from_frames 1 rate - 1) / from_frames 1 rate * from_frames 1 rate

/-- Modelled from the spec: the latest end of any content of the playlist. -/
def contentEnd : List Content → Nat
  | [] => 0
  | c :: rest => max c.end_ (contentEnd rest)

/-- Modelled from the spec: `Film::length`, the end of the last content rounded up to the
next video frame (`player_subframe_test`). -/
def Film.length (film : Film) : Nat :=
  round_up (contentEnd film.content) film.video_frame_rate

/-- Modelled from the spec: the reels cut at the given boundaries, the first one starting at
`start`. -/
def periodsBetween : Nat → List Nat → List Period
  | _, [] => []
  | start, t :: ts => ⟨start, t⟩ :: periodsBetween t ts

/-- Modelled from the spec: the points strictly inside `(0, length)` where a video content
(or a reel of an imported DCP with video) starts or ends, in increasing order, each once. -/
def Film.video_split_points (film : Film) : List Nat :=
  (((film.content.filter (fun c => c.video)).flatMap Content.split_points).filter
    (fun t => decide (0 < t ∧ t < film.length))).insertionSort (· ≤ ·) |>.dedup

/-- Modelled from the spec: the number of frames of a reel under the by-length policy,
`floor (budget_bits / bits_per_frame)` with `budget_bits = 8 * reel_length` and
`bits_per_frame = j2k_bandwidth / video_frame_rate`. -/
def Film.reel_in_frames (film : Film) : Nat :=
  film.reel_length * 8 * film.video_frame_rate / film.j2k_bandwidth

/-- Modelled from the spec: the by-length loop, cutting a reel of `step` ticks (the last one
shorter) from `current` until the length is reached; `none` when `fuel` iterations do
not reach it. -/
def reelsByLengthLoop (step length : Nat) : Nat → Nat → Option (List Period)
  | 0, current => if current < length then none else some []
  | fuel + 1, current =>
    if current < length then
      (reelsByLengthLoop step length fuel (min length (current + step))).map
        (fun rest => ⟨current, min length (current + step)⟩ :: rest)
    else
      some []

/-- Modelled from the spec: `Film::reels` (`film.cc` is not part of the sources), following
section 4.3 of the specification.  The by-length loop is given `length` iterations, which
it exceeds only when a reel would have no tick at all and the loop would never end. -/
def Film.reels (film : Film) : Option (List Period) :=
  match film.reel_type with
  | ReelType.SINGLE => some [⟨0, film.length⟩]
  | ReelType.BY_VIDEO_CONTENT =>
    some (periodsBetween 0 (film.video_split_points ++ [film.length]))
  | ReelType.BY_LENGTH =>
    reelsByLengthLoop (from_frames film.reel_in_frames film.video_frame_rate) film.length
      film.length 0

/-- The two pieces of content of `reels_test1`: twice `test.mp4`, 288000 ticks each,
one after the other. -/
def reelsTest1Content : List Content :=
  [{ position := 0, length := 288000, video := true, audio := true, reel_lengths := [] },
   { position := 288000, length := 288000, video := true, audio := true, reel_lengths := [] }]

/-- The film of `reels_test1` under a given reel policy. -/
def reelsTest1 (ty : ReelType) : Film :=
  { content := reelsTest1Content, reel_type := ty, reel_length := 31253154,
    j2k_bandwidth := 100000000, video_frame_rate := 24 }

/-- The film of `reels_test3`: a DCP of three reels of 96000 ticks and a subtitle file
running to 300001 ticks. -/
def reelsTest3 : Film :=
  { content :=
      [{ position := 0, length := 288000, video := true, audio := true,
         reel_lengths := [96000, 96000, 96000] },
       { position := 0, length := 300001, video := false, audio := false, reel_lengths := [] }],
    reel_type := ReelType.BY_VIDEO_CONTENT, reel_length := 2000000000,
    j2k_bandwidth := 100000000, video_frame_rate := 24 }

/-- The last of the boundaries `start :: bs`. -/
def lastBoundary : Nat → List Nat → Nat
  | start, [] => start
  | _, t :: ts => lastBoundary t ts

/-! ## The frame-info index of a reel -/

/-- A `dcp::FrameInfo`: where an encoded frame lies in the asset file, its size and the
hash of its data. -/
structure FrameInfo where
  offset : Nat
  size : Nat
  hash : String
deriving DecidableEq, Repr

/-- Modelled from the spec: the info file of a reel (`reel_writer.cc` is not part of the
sources), an index mapping a frame index and an eye to a `FrameInfo` (sections 3 and 6 of
the specification), kept as the list of its entries. -/
abbrev InfoFile := List ((Nat × Eyes) × FrameInfo)

/-- Modelled from the spec: `ReelWriter::write_frame_info`, which overwrites the one entry
of the key `(frame, eyes)` where it stands, or adds the entry if the key has none. -/
def write_frame_info : InfoFile → Nat → Eyes → FrameInfo → InfoFile
  | [], frame, eyes, info => [((frame, eyes), info)]
  | e :: rest, frame, eyes, info =>
    if e.1 = (frame, eyes) then ((frame, eyes), info) :: rest
    else e :: write_frame_info rest frame eyes info

/-- Modelled from the spec: `ReelWriter::read_frame_info`, the entry of the key
`(frame, eyes)`, if there is one. -/
def read_frame_info : InfoFile → Nat → Eyes → Option FrameInfo
  | [], _, _ => none
  | e :: rest, frame, eyes =>
    if e.1 = (frame, eyes) then some e.2 else read_frame_info rest frame eyes

/-- The info file after a sequence of `write_frame_info` calls on an empty file. -/
def writeAll (writes : List ((Nat × Eyes) × FrameInfo)) : InfoFile :=
  writes.foldl (fun file w => write_frame_info file w.1.1 w.1.2 w.2) []

/-- The four writes of `write_frame_info_test`. -/
def frameInfoTestWrites : List ((Nat × Eyes) × FrameInfo) :=
  [((0, Eyes.LEFT), ⟨0, 123, "12345678901234567890123456789012"⟩),
   ((5, Eyes.RIGHT), ⟨596, 14921, "123acb789f1234ae782012n456339522"⟩),
   ((10, Eyes.LEFT), ⟨12494, 99157123, "xxxxyyyyabc12356ffsfdsf456339522"⟩),
   ((5, Eyes.RIGHT), ⟨55512494, 123599157123, "ABCDEFGyabc12356ffsfdsf4563395ZZ"⟩)]

/-! ## Referencing an imported DCP -/

/-- Modelled from the spec: whether the output periods of two pieces of content overlap. -/
def Content.overlaps (d c : Content) : Bool :=
  decide (d.position < c.end_ ∧ c.position < d.end_)

/-- Modelled from the spec: `DCPContent::can_reference` (`dcp_content.cc` is not part of
the sources) for the content at index `i` of the playlist and the media kind `part`: every
reel of the DCP must be one of the reels of the film, and no other content of that kind
may overlap the DCP (sections 4.2 and 8 of the specification, `vf_test1`). -/
def can_reference (film : Film) (i : Nat) (part : Content → Bool) : Option Bool :=
  match film.content.get? i, film.reels with
  | some c, some fr =>
    some (c.reels.all (fun r => decide (r ∈ fr))
      && (film.content.eraseIdx i).all (fun d => !(part d && d.overlaps c)))
  | _, _ => none

/-- Modelled from the spec: `DCPContent::can_reference_video`. -/
def can_reference_video (film : Film) (i : Nat) : Option Bool :=
  can_reference film i (fun c => c.video)

/-- Modelled from the spec: `DCPContent::can_reference_audio`. -/
def can_reference_audio (film : Film) (i : Nat) : Option Bool :=
  can_reference film i (fun c => c.audio)

/-- The DCP of `vf_test1` (`reels_test2`: three reels of 96000 ticks). -/
def vfDcp : Content :=
  { position := 0, length := 288000, video := true, audio := true,
    reel_lengths := [96000, 96000, 96000] }

/-- The other content of `vf_test1` (`test.mp4`, 288000 ticks) at a given position. -/
def vfOther (position : Nat) : Content :=
  { position := position, length := 288000, video := true, audio := true, reel_lengths := [] }

/-- A film of `vf_test1` with the given content and reel policy. -/
def vfFilm (content : List Content) (ty : ReelType) : Film :=
  { content := content, reel_type := ty, reel_length := 2000000000,
    j2k_bandwidth := 100000000, video_frame_rate := 24 }

/-! ## Black and silence -/

/-- Modelled from the spec: what remains of the period `a` when `b` is taken away. -/
def Period.subtract (a b : Period) : List Period :=
  if b.from_ < b.to_ ∧ b.from_ < a.to_ ∧ a.from_ < b.to_ then
    (if a.from_ < b.from_ then [⟨a.from_, b.from_⟩] else [])
      ++ (if b.to_ < a.to_ then [⟨b.to_, a.to_⟩] else [])
  else [a]

/-- Modelled from the spec: the complement within `a` of the union of the periods `bs`,
as a list of periods. -/
def subtract (a : Period) (bs : List Period) : List Period :=
  bs.foldl (fun acc b => acc.flatMap (fun p => p.subtract b))
    (if a.from_ < a.to_ then [a] else [])

/-- What `Player::setup_pieces` leaves in `_black._periods` and `_silent._periods`. -/
structure Player where
  black : List Period
  silent : List Period
deriving DecidableEq, Repr

/-- Modelled from the spec: the gap computation of `Player::setup_pieces` (`player.cc` is
not part of the sources): the complement, within `[0, film length)`, of the union of the
output periods of the video content, and of the audio content (section 4.2, step 4). -/
def Player.setup_pieces (film : Film) : Player :=
  { black := subtract ⟨0, film.length⟩
      ((film.content.filter (fun c => c.video)).map Content.period),
    silent := subtract ⟨0, film.length⟩
      ((film.content.filter (fun c => c.audio)).map Content.period) }

/-- The film of `player_subframe_test`: 72 frames of video and 289920 ticks of audio at
24 fps. -/
def subframeFilm : Film :=
  { content :=
      [{ position := 0, length := 288000, video := true, audio := false, reel_lengths := [] },
       { position := 0, length := 289920, video := false, audio := true, reel_lengths := [] }],
    reel_type := ReelType.SINGLE, reel_length := 2000000000,
    j2k_bandwidth := 100000000, video_frame_rate := 24 }

/-! ## AudioMapping -/

/-- An `AudioMapping` (`src/lib/audio_mapping.cc`): the channel counts and the matrix of
gains `_gain[input][output]`, a vector of rows.  Gains are single-precision values, kept
here as exact rationals; channel numbers are the non-negative `int`s. -/
structure AudioMapping where
  _input_channels : Nat
  _output_channels : Nat
  _gain : List (List ℚ)
deriving DecidableEq, Repr

/-- The result of `std::vector::resize (n)`: the first `n` elements, followed by
value-initialised elements `d` if there were fewer. -/
def resize {α : Type} (l : List α) (n : Nat) (d : α) : List α :=
  l.take n ++ List.replicate (n - l.length) d

/-- The rows, columns and cells of an `AudioMapping` agree: `_gain` has `_input_channels`
rows of `_output_channels` gains each. -/
def AudioMapping.WF (m : AudioMapping) : Prop :=
  m._gain.length = m._input_channels ∧ ∀ row ∈ m._gain, row.length = m._output_channels

/-- The assignment `_gain[i][j] = g`. -/
def setCell (gain : List (List ℚ)) (i j : Nat) (g : ℚ) : List (List ℚ) :=
  gain.modify (fun row => row.set j g) i

/-- The gain read as `_gain[i][j]`. -/
def cell (gain : List (List ℚ)) (i j : Nat) : ℚ :=
  (gain.getD i []).getD j 0

/-- A matrix of `n` rows of `k` gains each. -/
def Shape (gain : List (List ℚ)) (n k : Nat) : Prop :=
  gain.length = n ∧ ∀ row ∈ gain, row.length = k

/-- `AudioMapping::make_zero`: the two nested loops assigning 0 to every cell. -/
def AudioMapping.make_zero (m : AudioMapping) : AudioMapping :=
  { m with
    _gain := (List.range m._input_channels).foldl
      (fun gain i => (List.range m._output_channels).foldl
        (fun gain j => setCell gain i j 0) gain)
      m._gain }

/-- `AudioMapping::setup`. -/
def AudioMapping.setup (m : AudioMapping) (input_channels output_channels : Nat) :
    AudioMapping :=
  AudioMapping.make_zero
    { _input_channels := input_channels,
      _output_channels := output_channels,
      _gain := (resize m._gain input_channels []).map
        (fun row => resize row output_channels 0) }

/-- The constructor `AudioMapping::AudioMapping (int input_channels, int output_channels)`. -/
def AudioMapping.create (input_channels output_channels : Nat) : AudioMapping :=
  AudioMapping.setup { _input_channels := 0, _output_channels := 0, _gain := [] }
    input_channels output_channels

/-- `AudioMapping::input_channels`. -/
def AudioMapping.input_channels (m : AudioMapping) : Nat := m._input_channels

/-- `AudioMapping::output_channels`. -/
def AudioMapping.output_channels (m : AudioMapping) : Nat := m._output_channels

/-- `AudioMapping::set (int, int, float)`; `none` when one of its two `DCPOMATIC_ASSERT`s
fails (the macro throws a `ProgrammingError`). -/
def AudioMapping.set (m : AudioMapping) (input_channel output_channel : Nat) (g : ℚ) :
    Option AudioMapping :=
  if input_channel < m._gain.length then
    if output_channel < (m._gain.getD 0 []).length then
      some { m with _gain := setCell m._gain input_channel output_channel g }
    else none
  else none

/-- `AudioMapping::get (int, int)`; `none` when one of its two `DCPOMATIC_ASSERT`s fails. -/
def AudioMapping.get (m : AudioMapping) (input_channel output_channel : Nat) : Option ℚ :=
  if input_channel < m._gain.length then
    if output_channel < (m._gain.getD 0 []).length then
      some (cell m._gain input_channel output_channel)
    else none
  else none

/-- The table `regex[]` of `AudioMapping::make_default`: a pattern for the file name and the
output channel it stands for. -/
def channelRegex : List (String × Nat) :=
  [(".*[\\._-]L[\\._-].*", 0),
   (".*[\\._-]R[\\._-].*", 1),
   (".*[\\._-]C[\\._-].*", 2),
   (".*[\\._-]Lfe[\\._-].*", 3),
   (".*[\\._-]LFE[\\._-].*", 3),
   (".*[\\._-]Lss[\\._-].*", 4),
   (".*[\\._-]Lsr[\\._-].*", 6),
   (".*[\\._-]Ls[\\._-].*", 4),
   (".*[\\._-]Rss[\\._-].*", 5),
   (".*[\\._-]Rsr[\\._-].*", 7),
   (".*[\\._-]Rs[\\._-].*", 5)]

/-- The number of `dcp::Channel::CENTRE` in the channel enumeration of libdcp (the table of
`make_default` sends the pattern for `C` to the same channel). -/
def CENTRE : Nat := 2

/-- The loop of `make_default` over the patterns, for a file name: the mapping and the flag
`guessed`; `regex_match` is `boost::regex_match` with `boost::regex::icase`. -/
def guessLoop (regex_match : String → String → Bool) (filename : String) :
    List (String × Nat) → AudioMapping × Bool → Option (AudioMapping × Bool)
  | [], state => some state
  | (regex, channel) :: rest, (m, guessed) =>
    if regex_match filename regex && decide (channel < m.output_channels) then
      match m.set 0 channel 1 with
      | some m' => guessLoop regex_match filename rest (m', true)
      | none => none
    else guessLoop regex_match filename rest (m, guessed)

/-- The loop `for (int i = 0; i < min (input_channels(), output_channels()); ++i)
set (i, i, 1)` of `make_default`, over the given indices. -/
def diagonalLoop : List Nat → AudioMapping → Option AudioMapping
  | [], m => some m
  | i :: rest, m =>
    match m.set i i 1 with
    | some m' => diagonalLoop rest m'
    | none => none

/-- `AudioMapping::make_default`; `processor` is the effect of
`AudioProcessor::make_audio_mapping_default` when there is a processor; `none` when an
assertion fails. -/
def AudioMapping.make_default (m : AudioMapping)
    (processor : Option (AudioMapping → AudioMapping)) (filename : Option String)
    (regex_match : String → String → Bool) : Option AudioMapping :=
  match processor with
  | some p => some (p m)
  | none =>
    let m := m.make_zero
    if m.input_channels = 1 then
      match (match filename with
        | some f => guessLoop regex_match f channelRegex (m, false)
        | none => some (m, false)) with
      | none => none
      | some (m, guessed) =>
        if !guessed then m.set 0 CENTRE 1 else some m
    else
      diagonalLoop (List.range (min m.input_channels m.output_channels)) m

/-- The class `Digester` (`digester.h` is not part of the sources), taken as a parameter:
a state `init` to which `add` feeds values one after another, here the `int` channel counts
and the `float` gains, and from which `get` computes the digest, a value of the type `D`. -/
structure Digester (σ D : Type) where
  init : σ
  add_int : σ → Nat → σ
  add_float : σ → ℚ → σ
  get : σ → D

/-- `AudioMapping::digest`. -/
def AudioMapping.digest {σ D : Type} (digester : Digester σ D) (m : AudioMapping) : D :=
  digester.get
    ((List.range m._input_channels).foldl
      (fun s i => (List.range m._output_channels).foldl
        (fun s j => digester.add_float s (cell m._gain i j)) s)
      (digester.add_int (digester.add_int digester.init m._input_channels)
        m._output_channels))

/-- A digester that keeps every value it is fed, in order, and gives them all back. -/
def recorder : Digester (List (Nat ⊕ ℚ)) (List (Nat ⊕ ℚ)) :=
  { init := [],
    add_int := fun s n => s ++ [Sum.inl n],
    add_float := fun s g => s ++ [Sum.inr g],
    get := fun s => s }

/-- The values that `AudioMapping::digest` feeds its digester, in order. -/
def AudioMapping.fed (m : AudioMapping) : List (Nat ⊕ ℚ) :=
  m.digest recorder

/-- Feeding a digester a list of values. -/
def feed {σ D : Type} (digester : Digester σ D) (values : List (Nat ⊕ ℚ)) : σ :=
  values.foldl
    (fun s v => match v with
      | Sum.inl n => digester.add_int s n
      | Sum.inr g => digester.add_float s g)
    digester.init

/-- Two mappings have the same configuration: the same channel counts and the same gain in
every cell. -/
def sameConfig (m1 m2 : AudioMapping) : Prop :=
  m1.input_channels = m2.input_channels ∧ m1.output_channels = m2.output_channels
  ∧ ∀ a b, a < m1.input_channels → b < m1.output_channels → m1.get a b = m2.get a b

/-- The mapping of one input channel to six output channels with the given whole-number
gains, each at most 2^24 and so a single-precision value. -/
def wholeGains (v : Fin 6 → Fin (2 ^ 24 + 1)) : AudioMapping :=
  { _input_channels := 1, _output_channels := 6,
    _gain := [List.ofFn (fun k => ((v k : Nat) : ℚ))] }

/-! ## JSONServer -/

/-- What `JSONServer::request` reads of a `Job`: the DCP name of its film if it has one, its
JSON name, its progress if known, and its JSON status. -/
structure Job where
  film : Option String
  json_name : String
  progress : Option ℚ
  json_status : String
deriving DecidableEq, Repr

/-- What the body of the loop of `JSONServer::request` writes for one job, before the
separator; `show_float` is the stream's formatting of a `float`. -/
def jobEntry (show_float : ℚ → String) (i : Job) : String :=
  "\x7b "
    ++ (match i.film with
        | some dcp_name => "\"dcp\": \"" ++ dcp_name ++ "\", "
        | none => "")
    ++ "\"name\": \"" ++ i.json_name ++ "\", "
    ++ (match i.progress with
        | some p => "\"progress\": " ++ show_float p ++ ", "
        | none => "\"progress\": unknown, ")
    ++ "\"status\": \"" ++ i.json_status ++ "\""
    ++ " \x7d"

/-- The loop of `JSONServer::request` over the jobs: each entry, followed by `", "` unless
the job is the last one. -/
def jobsLoop (show_float : ℚ → String) : List Job → String
  | [] => ""
  | i :: rest =>
    jobEntry show_float i ++ (if rest ≠ [] then ", " else "") ++ jobsLoop show_float rest

/-- The body `json` that `JSONServer::request` builds for a URL; `split_get_request` is the
function of `util.cc` (not part of the sources) splitting the parameters of the URL. -/
def requestBody (split_get_request : String → List (String × String))
    (show_float : ℚ → String) (url : String) (jobs : List Job) : String :=
  let r := split_get_request url
  let action := match r.lookup "action" with
    | some a => a
    | none => ""
  if action = "status" then
    let json := "\x7b \"jobs\": [" ++ jobsLoop show_float jobs ++ "] \x7d"
    if json.isEmpty then json ++ "\x7b \x7d" else json
  else ""

/-- `JSONServer::request`: the reply written to the socket, and the jobs of the job manager
after the request; the jobs are only read, through `const` accessors. -/
def request (split_get_request : String → List (String × String))
    (show_float : ℚ → String) (url : String) (jobs : List Job) : String × List Job :=
  let json := requestBody split_get_request show_float url jobs
  ("HTTP/1.1 200 OK\r\n"
      ++ "Content-Length: " ++ toString json.utf8ByteSize ++ "\r\n"
      ++ "Content-Type: application/json\r\n"
      ++ "\r\n"
      ++ json ++ "\r\n",
   jobs)

/-- Two jobs, the first of a film and with known progress, the second without either. -/
def statusJobs : List Job :=
  [{ film := some "Film_FTR", json_name := "transcode", progress := some (1 / 2),
     json_status := "running" },
   { film := none, json_name := "examine", progress := none, json_status := "new" }]

/-! ## kdm_cli: durations -/

/-- An exception raised by a collaborator of `kdm_cli.cc` (boost, libdcp, the film, the
writers of KDM files): a `FileError` with its file, or any other exception derived from
`std::exception`, with its `what ()`. -/
inductive Exn where
  | file_error (what : String) (file : String)
  | std (what : String)
deriving DecidableEq, Repr

/-- The `what ()` of the exception. -/
def Exn.what : Exn → String
  | Exn.file_error what _ => what
  | Exn.std what => what

/-- The places of `kdm_cli.cc` that raise a `KDMCLIError`, each with what it carries;
`thrown` is an exception of a collaborator on its way out. -/
inductive Failure where
  | formulation (optarg : String)
  | no_validity
  | no_valid_from
  | no_thing
  | no_screens
  | no_cinema (cinema_name : String)
  | duration (d : String)
  | not_found (thing : String)
  | film_read (film_dir : String) (what : String)
  | no_cpls
  | many_cpls
  | signer_invalid
  | file (what : String) (file : String)
  | thrown (e : Exn)
deriving DecidableEq, Repr

deriving instance DecidableEq for Except

/-- The text of the exception: a `KDMCLIError` puts the program name and a colon before its
message. -/
def Failure.what (program_name : String) : Failure → String
  | Failure.formulation optarg =>
    program_name ++ ": " ++ "unrecognised KDM formulation " ++ optarg
  | Failure.no_validity =>
    program_name ++ ": " ++ "you must specify a --valid-duration or --valid-to"
  | Failure.no_valid_from => program_name ++ ": " ++ "you must specify --valid-from"
  | Failure.no_thing => program_name ++ ": " ++ "no film, CPL ID or DKDM specified"
  | Failure.no_screens =>
    program_name ++ ": "
      ++ "you must specify either a cinema or one or more screens using certificate files"
  | Failure.no_cinema cinema_name =>
    program_name ++ ": " ++ "could not find cinema \"" ++ cinema_name ++ "\""
  | Failure.duration d =>
    program_name ++ ": " ++ "could not understand duration \"" ++ d ++ "\""
  | Failure.not_found thing =>
    program_name ++ ": " ++ "could not find film or CPL ID corresponding to " ++ thing
  | Failure.film_read film_dir what =>
    program_name ++ ": " ++ "error reading film \"" ++ film_dir ++ "\" (" ++ what ++ ")"
  | Failure.no_cpls => program_name ++ ": " ++ "no CPLs found in film"
  | Failure.many_cpls => program_name ++ ": " ++ "more than one CPL found in film"
  | Failure.signer_invalid => program_name ++ ": " ++ "signing certificate chain is invalid."
  | Failure.file what path => program_name ++ ": " ++ what ++ " (" ++ path ++ ")"
  | Failure.thrown e => e.what

/-- The value of an `int` computation whose exact result is `x`, on a machine where `int`
has 32 bits and wraps around. -/
def wrap32 (x : Int) : Int := (x + 2 ^ 31) % 2 ^ 32 - 2 ^ 31

/-- `isspace` in the C locale. -/
def isspace (c : Char) : Bool :=
  c == ' ' || c == '\t' || c == '\n' || c == Char.ofNat 11 || c == Char.ofNat 12 || c == '\r'

/-- `isdigit`. -/
def isdigit (c : Char) : Bool := decide ('0' ≤ c ∧ c ≤ '9')

/-- The characters of `d.c_str ()`: those before the first NUL. -/
def c_str (d : String) : List Char := d.data.takeWhile (fun c => c != Char.ofNat 0)

/-- The number written by a sequence of decimal digits. -/
def digitsValue (ds : List Char) : Nat :=
  ds.foldl (fun acc c => 10 * acc + (c.toNat - 48)) 0

/-- The conversion `%d` of `sscanf`: white space is skipped, then an optional sign and a
non-empty sequence of digits are read; the number and the input left, or `none` if there
is no such sequence. -/
def scan_int (s : List Char) : Option (Int × List Char) :=
  let s := s.dropWhile isspace
  let signed : Bool × List Char :=
    match s with
    | '-' :: t => (true, t)
    | '+' :: t => (false, t)
    | _ => (false, s)
  let ds := signed.2.takeWhile isdigit
  if ds.isEmpty then none
  else some (if signed.1 then - (digitsValue ds : Int) else (digitsValue ds : Int),
    signed.2.dropWhile isdigit)

/-- The directive of white space followed by the conversion `%63s` of `sscanf`: white space
is skipped, then up to `width` characters other than white space are read. -/
def scan_word (width : Nat) (s : List Char) : List Char :=
  ((s.dropWhile isspace).takeWhile (fun c => !isspace c)).take width

/-- The call `sscanf (d.c_str(), "%d %63s", &N, unit_buf)` of `duration_from_string`: the
values of `N` and of `unit_buf` after it.  `N` is not initialised, so it keeps an
arbitrary value `garbage` when no number can be read; `unit_buf` starts empty. -/
def scan_duration (garbage : Int) (d : String) : Int × String :=
  match scan_int (c_str d) with
  | none => (garbage, "")
  | some (n, rest) => (wrap32 n, String.mk (scan_word 63 rest))

/-- `duration_from_string`: the number of hours of the `time_duration` returned, or the
exception raised. -/
def duration_from_string (garbage : Int) (d : String) : Except Failure Int :=
  let N := (scan_duration garbage d).1
  let unit := (scan_duration garbage d).2
  if N = 0 then
    Except.error (Failure.duration d)
  else if unit = "year" ∨ unit = "years" then
    Except.ok (wrap32 (wrap32 (N * 24) * 365))
  else if unit = "week" ∨ unit = "weeks" then
    Except.ok (wrap32 (wrap32 (N * 24) * 7))
  else if unit = "day" ∨ unit = "days" then
    Except.ok (wrap32 (N * 24))
  else if unit = "hour" ∨ unit = "hours" then
    Except.ok N
  else
    Except.error (Failure.duration d)

/-- The unit names that `duration_from_string` knows, each with its number of hours. -/
def unitHours : List (String × Int) :=
  [("hour", 1), ("hours", 1), ("day", 24), ("days", 24),
   ("week", 168), ("weeks", 168), ("year", 8760), ("years", 8760)]

/-- The text of a duration: an optional minus sign, the digits of the count, a space, the
unit, and whatever follows. -/
def durationText (negative : Bool) (ds : List Char) (unit : String) (tail : List Char) :
    String :=
  String.mk ((if negative then ['-'] else []) ++ ds ++ ' ' :: unit.data ++ tail)

/-! ## kdm_cli: finding a DKDM -/

/-- A `dcp::EncryptedKDM` as far as `kdm_cli.cc` reads it: the id of its CPL, and its text. -/
structure EncryptedKDM where
  cpl_id : String
  xml : String
deriving DecidableEq, Repr

/-- An entry of the DKDM list of the configuration: a `DKDMGroup` with its name and its
children, or a `DKDM`. -/
inductive DKDMBase where
  | group (name : String) (children : List DKDMBase)
  | dkdm (dkdm : EncryptedKDM)

/-- A `DKDMGroup`: its name and its children. -/
structure DKDMGroup where
  name : String
  children : List DKDMBase

mutual
/-- The loop of `sub_find_dkdm` over the children of a group: the first child in which a
DKDM is found ends the search. -/
def sub_find_dkdm_loop (cpl_id : String) : List DKDMBase → Option EncryptedKDM
  | [] => none
  | i :: rest =>
    match sub_find_dkdm_child cpl_id i with
    | some dkdm => some dkdm
    | none => sub_find_dkdm_loop cpl_id rest
/-- The body of the loop of `sub_find_dkdm` for one child: a group is searched by a
recursive call, a DKDM is compared by the id of its CPL. -/
def sub_find_dkdm_child (cpl_id : String) : DKDMBase → Option EncryptedKDM
  | DKDMBase.group _ children => sub_find_dkdm_loop cpl_id children
  | DKDMBase.dkdm d => if d.cpl_id = cpl_id then some d else none
end

/-- The function `sub_find_dkdm` of `kdm_cli.cc`. -/
def sub_find_dkdm (group : DKDMGroup) (cpl_id : String) : Option EncryptedKDM :=
  sub_find_dkdm_loop cpl_id group.children

mutual
/-- The DKDMs below a list of children at any depth, in depth-first order, children in
their order. -/
def all_dkdms : List DKDMBase → List EncryptedKDM
  | [] => []
  | i :: rest => dkdms_below i ++ all_dkdms rest
/-- The DKDMs of one entry: those below it when it is a group, itself when it is a DKDM. -/
def dkdms_below : DKDMBase → List EncryptedKDM
  | DKDMBase.group _ children => all_dkdms children
  | DKDMBase.dkdm d => [d]
end

mutual
/-- The loop of `dump_dkdm_group` over the children of a group, with the lines given to
`out` as its result. -/
def dump_dkdm_loop (indent : Nat) : List DKDMBase → List String
  | [] => []
  | i :: rest => dump_dkdm_child indent i ++ dump_dkdm_loop indent rest
/-- The body of the loop of `dump_dkdm_group` for one child; a group is dumped with two
more spaces, so its name is always written. -/
def dump_dkdm_child (indent : Nat) : DKDMBase → List String
  | DKDMBase.group name children =>
    (String.mk (List.replicate (indent + 2) ' ') ++ name) :: dump_dkdm_loop (indent + 2) children
  | DKDMBase.dkdm d => [String.mk (List.replicate indent ' ') ++ d.cpl_id]
end

/-- The function `dump_dkdm_group` of `kdm_cli.cc`, with the lines given to `out` as its
result. -/
def dump_dkdm_group (group : DKDMGroup) (indent : Nat) : List String :=
  (if indent > 0 then [String.mk (List.replicate indent ' ') ++ group.name] else [])
    ++ dump_dkdm_loop indent group.children

/-! ## kdm_cli: the command -/

/-- A `Cinema` as the KDM code reads it through a pointer. -/
structure Cinema where
  name : String
  emails : List String
  notes : String
  utc_offset_hour : Int
  utc_offset_minute : Int
deriving DecidableEq, Repr

/-- A `Screen`: its name, the certificate of its projector if it has one, the certificates
of its trusted devices, and the cinema it belongs to, if any. -/
structure Screen where
  name : String
  notes : String
  recipient : Option String
  trusted_devices : List String
  cinema : Option Cinema
deriving DecidableEq, Repr

/-- The KDM formulations. -/
inductive Formulation where
  | MODIFIED_TRANSITIONAL_1
  | MULTIPLE_MODIFIED_TRANSITIONAL_1
  | DCI_ANY
  | DCI_SPECIFIC
deriving DecidableEq, Repr

/-- A `dcp::LocalTime` made from a time and an offset from UTC. -/
structure LocalTime where
  time : Int
  utc_offset_hour : Int
  utc_offset_minute : Int
deriving DecidableEq, Repr

/-- A `dcp::DecryptedKDM` as far as `kdm_cli.cc` reads and builds it. -/
structure DecryptedKDM where
  not_valid_before : LocalTime
  not_valid_after : LocalTime
  annotation_text : Option String
  content_title_text : String
  issue_date : String
  keys : List String
deriving DecidableEq, Repr

/-- The method `add_key` of `dcp::DecryptedKDM`. -/
def DecryptedKDM.add_key (kdm : DecryptedKDM) (key : String) : DecryptedKDM :=
  { kdm with keys := kdm.keys ++ [key] }

/-- A `KDMWithMetadata`: the values for its file name, its cinema, the e-mail addresses
and the KDM. -/
structure KDMWithMetadata where
  name_values : List (Char × String)
  cinema : Option Cinema
  emails : List String
  kdm : EncryptedKDM
deriving DecidableEq, Repr

/-- What `kdm_cli.cc` reads of a `Film`. -/
structure KDMFilm where
  name : String
  dcp_name : String
  cpls : List String
deriving DecidableEq, Repr

/-- What `kdm_cli` does that can be seen from outside: a line given to `out`, and the calls
that write KDM files, write ZIP files and send e-mails. -/
inductive Effect where
  | out (s : String)
  | write_files (kdms : List KDMWithMetadata) (output : String) (filename_format : String)
  | write_zip_files (kdms : List (List KDMWithMetadata)) (output : String)
      (container_name_format : String) (filename_format : String)
  | send_emails (kdms : List (List KDMWithMetadata)) (container_name_format : String)
      (filename_format : String) (cpl_name : String)
deriving DecidableEq, Repr

/-- Whether an effect writes or e-mails KDMs. -/
def Effect.delivers : Effect → Bool
  | Effect.out _ => false
  | _ => true

/-- How a computation of `kdm_cli` stops early: `exit (EXIT_SUCCESS)`, or an exception. -/
inductive Stop where
  | exit
  | raise (f : Failure)
deriving DecidableEq, Repr

/-- A computation of `kdm_cli`: what it did, and its result or how it stopped. -/
def Cli (α : Type) : Type := List Effect × Except Stop α

/-- A computation that does nothing and gives `a`. -/
def Cli.pure {α : Type} (a : α) : Cli α := ([], Except.ok a)

/-- One computation and then the next, which does not run when the first stops. -/
def Cli.bind {α β : Type} (m : Cli α) (k : α → Cli β) : Cli β :=
  match m with
  | (es, Except.error s) => (es, Except.error s)
  | (es, Except.ok a) => (es ++ (k a).1, (k a).2)

instance : Monad Cli where
  pure := Cli.pure
  bind := Cli.bind

/-- A call of `out`. -/
def out (s : String) : Cli Unit := ([Effect.out s], Except.ok ())

/-- A call of `out` for each line. -/
def outs (lines : List String) : Cli Unit := (lines.map Effect.out, Except.ok ())

/-- The statement `throw`. -/
def raise {α : Type} (f : Failure) : Cli α := ([], Except.error (Stop.raise f))

/-- The call `exit (EXIT_SUCCESS)`. -/
def exit {α : Type} : Cli α := ([], Except.error Stop.exit)

/-- A call of a collaborator that raises an exception or gives a result. -/
def call {α : Type} (r : Except Exn α) : Cli α :=
  match r with
  | Except.ok a => Cli.pure a
  | Except.error e => raise (Failure.thrown e)

/-- A call of a collaborator that does something seen from outside and then raises an
exception or gives a result. -/
def perform {α : Type} (e : Effect) (r : Except Exn α) : Cli α :=
  match r with
  | Except.ok a => ([e], Except.ok a)
  | Except.error x => ([e], Except.error (Stop.raise (Failure.thrown x)))

/-- The handler `catch (FileError& e)` of `from_film` and `from_dkdm`, which raises a
`KDMCLIError` with the text and the file of the `FileError`. -/
def catch_file_error {α : Type} (m : Cli α) : Cli α :=
  match m with
  | (es, Except.error (Stop.raise (Failure.thrown (Exn.file_error what file)))) =>
    (es, Except.error (Stop.raise (Failure.file what file)))
  | r => r

/-- The handler `catch (std::exception& e)` of `from_film`, which raises a `KDMCLIError`
with the directory of the film and the text of the exception. -/
def catch_film_read {α : Type} (program_name : String) (film_dir : String) (m : Cli α) :
    Cli α :=
  match m with
  | (es, Except.error (Stop.raise f)) =>
    (es, Except.error (Stop.raise (Failure.film_read film_dir (f.what program_name))))
  | r => r

/-- The collaborators of `kdm_cli.cc`: the configuration, the clock, the file system, and
the functions of boost, libdcp and the rest of the program that it calls. -/
structure Env where
  current_path : String
  kdm_container_name_format : String
  kdm_filename_format : String
  cinemas : List Cinema
  screens : Cinema → List Screen
  dkdms : DKDMGroup
  signer_valid : Bool
  local_time : Int
  posix_time_from_string : String → Except Exn Int
  to_simple_string : Int → String
  date : LocalTime → String
  time_of_day : LocalTime → String
  now_as_string : String
  garbage : Int
  atoi : String → Int
  address_list : List String → String
  file_to_string : String → Except Exn String
  is_directory : String → Bool
  is_regular_file : String → Bool
  path_append : String → String → String
  certificate_chain_leaf : String → Except Exn String
  certificate : String → Except Exn String
  thumbprint : String → String
  encrypted_kdm : String → Except Exn EncryptedKDM
  decrypted_kdm : EncryptedKDM → Except Exn DecryptedKDM
  encrypt : DecryptedKDM → String → List String → Formulation → Bool → Option Int →
    Except Exn EncryptedKDM
  read_film : String → Except Exn KDMFilm
  kdm_for_screen : KDMFilm → String → Screen → Int → Int → Formulation → Bool → Option Int →
    Except Exn (Option KDMWithMetadata)
  collect : List KDMWithMetadata → List (List KDMWithMetadata)
  write_files : List KDMWithMetadata → String → String → (String → Bool) → Except Exn Nat
  write_zip_files : List (List KDMWithMetadata) → String → String → String →
    (String → Bool) → Except Exn Nat
  send_emails : List (List KDMWithMetadata) → String → String → String → Except Exn Unit

/-- The function `help` of `kdm_cli.cc`, with the lines given to `out` as its result. -/
def help (program_name : String) : List String :=
  ["Syntax: " ++ program_name ++ " [OPTION] <FILM|CPL-ID|DKDM>",
   "  -h, --help                               show this help",
   "  -o, --output                             output file or directory",
   "  -K, --filename-format                    filename format for KDMs",
   "  -Z, --container-name-format              filename format for ZIP containers",
   "  -f, --valid-from                         valid from time (in local time zone of the cinema) (e.g. \"2013-09-28 01:41:51\") or \"now\"",
   "  -t, --valid-to                           valid to time (in local time zone of the cinema) (e.g. \"2014-09-28 01:41:51\")",
   "  -d, --valid-duration                     valid duration (e.g. \"1 day\", \"4 hours\", \"2 weeks\")",
   "  -F, --formulation                        modified-transitional-1, multiple-modified-transitional-1, dci-any or dci-specific [default modified-transitional-1]",
   "  -p, --disable-forensic-marking-picture   disable forensic marking of pictures essences",
   "  -a, --disable-forensic-marking-audio     disable forensic marking of audio essences (optionally above a given channel, e.g 12)",
   "  -e, --email                              email KDMs to cinemas",
   "  -z, --zip                                ZIP each cinema's KDMs into its own file",
   "  -v, --verbose                            be verbose",
   "  -c, --cinema                             specify a cinema, either by name or email address",
   "  -S, --screen                             screen description",
   "  -C, --certificate                        file containing projector certificate",
   "  -T, --trusted-device                     file containing a trusted device's certificate",
   "      --list-cinemas                       list known cinemas from the DCP-o-matic settings",
   "      --list-dkdm-cpls                     list CPLs for which DCP-o-matic has DKDMs",
   "",
   "CPL-ID must be the ID of a CPL that is mentioned in DCP-o-matic's DKDM list.",
   "",
   "For example:",
   "",
   "Create KDMs for my_great_movie to play in all of Fred's Cinema's screens for the next two weeks and zip them up.",
   "(Fred's Cinema must have been set up in DCP-o-matic's KDM window)",
   "",
   "\t" ++ program_name ++ " -c \"Fred's Cinema\" -f now -d \"2 weeks\" -z my_great_movie"]

/-- The function `time_from_string` of `kdm_cli.cc`. -/
def time_from_string (env : Env) (t : String) : Except Exn Int :=
  if t = "now" then Except.ok env.local_time else env.posix_time_from_string t

/-- The function `always_overwrite` of `kdm_cli.cc`. -/
def always_overwrite : Bool := true

/-- The function `write_files` of `kdm_cli.cc`. -/
def write_files (env : Env) (kdms : List KDMWithMetadata) (zip : Bool) (output : String)
    (container_name_format : String) (filename_format : String) (verbose : Bool) :
    Cli Unit :=
  if zip then do
    let N ← perform
      (Effect.write_zip_files (env.collect kdms) output container_name_format filename_format)
      (env.write_zip_files (env.collect kdms) output container_name_format filename_format
        (fun _ => always_overwrite))
    if verbose then
      out ("Wrote " ++ toString N ++ " ZIP files to " ++ output)
  else do
    let N ← perform (Effect.write_files kdms output filename_format)
      (env.write_files kdms output filename_format (fun _ => always_overwrite))
    if verbose then
      out ("Wrote " ++ toString N ++ " KDM files to " ++ output)

/-- The loop of `find_cinema`: the first cinema with the given name, or with the given
text among its e-mail addresses. -/
def find_cinema_loop (cinema_name : String) : List Cinema → Option Cinema
  | [] => none
  | i :: rest =>
    if i.name ≠ cinema_name ∧ cinema_name ∉ i.emails then find_cinema_loop cinema_name rest
    else some i

/-- The function `find_cinema` of `kdm_cli.cc`. -/
def find_cinema (env : Env) (cinema_name : String) : Cli Cinema :=
  match find_cinema_loop cinema_name env.cinemas with
  | none => raise (Failure.no_cinema cinema_name)
  | some i => Cli.pure i

/-- The loop of `from_film` that makes a KDM for each screen. -/
def from_film_loop (env : Env) (film : KDMFilm) (cpl : String) (valid_from valid_to : Int)
    (formulation : Formulation) (disable_forensic_marking_picture : Bool)
    (disable_forensic_marking_audio : Option Int) :
    List Screen → List KDMWithMetadata → Cli (List KDMWithMetadata)
  | [], kdms => Cli.pure kdms
  | i :: rest, kdms => do
    let p ← call (env.kdm_for_screen film cpl i valid_from valid_to formulation
      disable_forensic_marking_picture disable_forensic_marking_audio)
    match p with
    | some p =>
      from_film_loop env film cpl valid_from valid_to formulation
        disable_forensic_marking_picture disable_forensic_marking_audio rest (kdms ++ [p])
    | none =>
      from_film_loop env film cpl valid_from valid_to formulation
        disable_forensic_marking_picture disable_forensic_marking_audio rest kdms

/-- The function `from_film` of `kdm_cli.cc`. -/
def from_film (env : Env) (program_name : String) (screens : List Screen) (film_dir : String)
    (verbose : Bool) (output : String) (container_name_format : String)
    (filename_format : String) (valid_from valid_to : Int) (formulation : Formulation)
    (disable_forensic_marking_picture : Bool) (disable_forensic_marking_audio : Option Int)
    (email : Bool) (zip : Bool) : Cli Unit := do
  let film ← catch_film_read program_name film_dir (do
    let film ← call (env.read_film film_dir)
    if verbose then
      out ("Read film " ++ film.name)
    Cli.pure film)
  match film.cpls with
  | [] => raise Failure.no_cpls
  | _ :: _ :: _ => raise Failure.many_cpls
  | [cpl] =>
    catch_file_error (do
      let kdms ← from_film_loop env film cpl valid_from valid_to formulation
        disable_forensic_marking_picture disable_forensic_marking_audio screens []
      write_files env kdms zip output container_name_format filename_format verbose
      if email then
        perform (Effect.send_emails [kdms] container_name_format filename_format film.dcp_name)
          (env.send_emails [kdms] container_name_format filename_format film.dcp_name))

/-- The function `kdm_from_dkdm` of `kdm_cli.cc`. -/
def kdm_from_dkdm (env : Env) (dkdm : DecryptedKDM) (target : String)
    (trusted_devices : List String) (valid_from valid_to : LocalTime)
    (formulation : Formulation) (disable_forensic_marking_picture : Bool)
    (disable_forensic_marking_audio : Option Int) : Cli EncryptedKDM :=
  if ¬ env.signer_valid then
    raise Failure.signer_invalid
  else
    let kdm : DecryptedKDM :=
      { not_valid_before := valid_from
        not_valid_after := valid_to
        annotation_text := some (dkdm.annotation_text.getD "")
        content_title_text := dkdm.content_title_text
        issue_date := env.now_as_string
        keys := [] }
    let kdm := dkdm.keys.foldl DecryptedKDM.add_key kdm
    call (env.encrypt kdm target trusted_devices formulation disable_forensic_marking_picture
      disable_forensic_marking_audio)

/-- The loop of `from_dkdm` that makes a KDM for each screen that has a recipient. -/
def from_dkdm_loop (env : Env) (dkdm : DecryptedKDM) (valid_from valid_to : Int)
    (formulation : Formulation) (disable_forensic_marking_picture : Bool)
    (disable_forensic_marking_audio : Option Int) :
    List Screen → List KDMWithMetadata → Cli (List KDMWithMetadata)
  | [], kdms => Cli.pure kdms
  | i :: rest, kdms =>
    match i.recipient with
    | none =>
      from_dkdm_loop env dkdm valid_from valid_to formulation disable_forensic_marking_picture
        disable_forensic_marking_audio rest kdms
    | some recipient => do
      let offset_hour := match i.cinema with
        | some cinema => cinema.utc_offset_hour
        | none => 0
      let offset_minute := match i.cinema with
        | some cinema => cinema.utc_offset_minute
        | none => 0
      let begin_ : LocalTime := ⟨valid_from, offset_hour, offset_minute⟩
      let end_ : LocalTime := ⟨valid_to, offset_hour, offset_minute⟩
      let kdm ← kdm_from_dkdm env dkdm recipient (i.trusted_devices.map env.thumbprint)
        begin_ end_ formulation disable_forensic_marking_picture
        disable_forensic_marking_audio
      let name_values : List (Char × String) :=
        [('c', match i.cinema with
               | some cinema => cinema.name
               | none => ""),
         ('s', i.name),
         ('f', dkdm.annotation_text.getD ""),
         ('b', env.date begin_ ++ " " ++ env.time_of_day begin_),
         ('e', env.date end_ ++ " " ++ env.time_of_day end_),
         ('i', kdm.cpl_id)]
      let emails := match i.cinema with
        | some cinema => cinema.emails
        | none => []
      from_dkdm_loop env dkdm valid_from valid_to formulation disable_forensic_marking_picture
        disable_forensic_marking_audio rest (kdms ++ [⟨name_values, i.cinema, emails, kdm⟩])

/-- The function `from_dkdm` of `kdm_cli.cc`. -/
def from_dkdm (env : Env) (screens : List Screen) (dkdm : DecryptedKDM) (verbose : Bool)
    (output : String) (container_name_format : String) (filename_format : String)
    (valid_from valid_to : Int) (formulation : Formulation)
    (disable_forensic_marking_picture : Bool) (disable_forensic_marking_audio : Option Int)
    (email : Bool) (zip : Bool) : Cli Unit :=
  catch_file_error (do
    let kdms ← from_dkdm_loop env dkdm valid_from valid_to formulation
      disable_forensic_marking_picture disable_forensic_marking_audio screens []
    write_files env kdms zip output container_name_format filename_format verbose
    if email then
      perform
        (Effect.send_emails [kdms] container_name_format filename_format
          (dkdm.annotation_text.getD ""))
        (env.send_emails [kdms] container_name_format filename_format
          (dkdm.annotation_text.getD "")))

/-- The function `find_dkdm` of `kdm_cli.cc`. -/
def find_dkdm (env : Env) (cpl_id : String) : Option EncryptedKDM :=
  sub_find_dkdm env.dkdms cpl_id

/-- A result of `getopt_long`: the character of the option, with `optarg` where the option
takes an argument; for `a` also the argument that follows, `argv[optind]`, if there is
one; `unknown` is any result that the `switch` has no case for. -/
inductive Opt where
  | h
  | o (optarg : String)
  | K (optarg : String)
  | Z (optarg : String)
  | f (optarg : String)
  | t (optarg : String)
  | d (optarg : String)
  | F (optarg : String)
  | p
  | a (optarg : Option String) (next : Option String)
  | e
  | z
  | v
  | c (optarg : String)
  | S (optarg : String)
  | C (optarg : String)
  | T (optarg : String)
  | B
  | D
  | unknown
deriving DecidableEq, Repr

/-- The local variables of `kdm_cli`. -/
structure CliState where
  output : String
  container_name_format : String
  filename_format : String
  cinema_name : Option String
  cinema : Option Cinema
  screen_description : String
  screens : List Screen
  valid_from : Option Int
  valid_to : Option Int
  zip : Bool
  list_cinemas : Bool
  list_dkdm_cpls : Bool
  duration_string : Option String
  verbose : Bool
  formulation : Formulation
  disable_forensic_marking_picture : Bool
  disable_forensic_marking_audio : Option Int
  email : Bool
deriving DecidableEq, Repr

/-- The local variables of `kdm_cli` as they are initialised. -/
def CliState.initial (env : Env) : CliState :=
  { output := env.current_path
    container_name_format := env.kdm_container_name_format
    filename_format := env.kdm_filename_format
    cinema_name := none
    cinema := none
    screen_description := ""
    screens := []
    valid_from := none
    valid_to := none
    zip := false
    list_cinemas := false
    list_dkdm_cpls := false
    duration_string := none
    verbose := false
    formulation := Formulation.MODIFIED_TRANSITIONAL_1
    disable_forensic_marking_picture := false
    disable_forensic_marking_audio := none
    email := false }

/-- The `switch` of `kdm_cli` on one result of `getopt_long`. -/
def option_step (env : Env) (program_name : String) (s : CliState) : Opt → Cli CliState
  | Opt.h => do
    outs (help program_name)
    exit
  | Opt.o optarg => Cli.pure { s with output := optarg }
  | Opt.K optarg => Cli.pure { s with filename_format := optarg }
  | Opt.Z optarg => Cli.pure { s with container_name_format := optarg }
  | Opt.f optarg => do
    let time ← call (time_from_string env optarg)
    Cli.pure { s with valid_from := some time }
  | Opt.t optarg => do
    let time ← call (time_from_string env optarg)
    Cli.pure { s with valid_to := some time }
  | Opt.d optarg => Cli.pure { s with duration_string := some optarg }
  | Opt.F optarg =>
    if optarg = "modified-transitional-1" then
      Cli.pure { s with formulation := Formulation.MODIFIED_TRANSITIONAL_1 }
    else if optarg = "multiple-modified-transitional-1" then
      Cli.pure { s with formulation := Formulation.MULTIPLE_MODIFIED_TRANSITIONAL_1 }
    else if optarg = "dci-any" then
      Cli.pure { s with formulation := Formulation.DCI_ANY }
    else if optarg = "dci-specific" then
      Cli.pure { s with formulation := Formulation.DCI_SPECIFIC }
    else
      raise (Failure.formulation optarg)
  | Opt.p => Cli.pure { s with disable_forensic_marking_picture := true }
  | Opt.a optarg next =>
    match optarg, next with
    | none, some arg =>
      if arg.data.head? ≠ some '-' then
        Cli.pure { s with disable_forensic_marking_audio := some (env.atoi arg) }
      else
        Cli.pure { s with disable_forensic_marking_audio := some 0 }
    | none, none => Cli.pure { s with disable_forensic_marking_audio := some 0 }
    | some optarg, _ =>
      Cli.pure { s with disable_forensic_marking_audio := some (env.atoi optarg) }
  | Opt.e => Cli.pure { s with email := true }
  | Opt.z => Cli.pure { s with zip := true }
  | Opt.v => Cli.pure { s with verbose := true }
  | Opt.c optarg =>
    Cli.pure { s with cinema_name := some optarg, cinema := some ⟨optarg, [], "", 0, 0⟩ }
  | Opt.S optarg => Cli.pure { s with screen_description := optarg }
  | Opt.C optarg => do
    let text ← call (env.file_to_string optarg)
    let leaf ← call (env.certificate_chain_leaf text)
    let screen : Screen := ⟨s.screen_description, "", some leaf, [], s.cinema⟩
    Cli.pure { s with screens := s.screens ++ [screen] }
  | Opt.T optarg =>
    match s.screens.getLast? with
    | none => Cli.pure s
    | some back => do
      let text ← call (env.file_to_string optarg)
      let device ← call (env.certificate text)
      Cli.pure { s with screens := s.screens.dropLast
        ++ [{ back with trusted_devices := back.trusted_devices ++ [device] }] }
  | Opt.B => Cli.pure { s with list_cinemas := true }
  | Opt.D => Cli.pure { s with list_dkdm_cpls := true }
  | Opt.unknown => Cli.pure s

/-- The loop of `kdm_cli` over the results of `getopt_long`. -/
def option_loop (env : Env) (program_name : String) : List Opt → CliState → Cli CliState
  | [], s => Cli.pure s
  | c :: rest, s => do
    let s ← option_step env program_name s c
    option_loop env program_name rest s

/-- The two listings of `kdm_cli`, each of which ends the program. -/
def listings (env : Env) (s : CliState) : Cli Unit :=
  if s.list_cinemas then do
    outs (env.cinemas.map (fun i => i.name ++ " (" ++ env.address_list i.emails ++ ")"))
    exit
  else if s.list_dkdm_cpls then do
    outs (dump_dkdm_group env.dkdms 0)
    exit
  else
    Cli.pure ()

/-- The screens that `kdm_cli` makes KDMs for: those given by certificate files, or those
of the cinema that was named. -/
def choose_screens (env : Env) (s : CliState) : Cli (List Screen) :=
  if s.screens = [] then
    match s.cinema_name with
    | none => raise Failure.no_screens
    | some cinema_name => do
      let cinema ← find_cinema env cinema_name
      Cli.pure (env.screens cinema)
  else
    Cli.pure s.screens

/-- The end of the validity: the start and the duration when a duration is given, else
`valid_to`; the first check of `arguments` leaves no other case. -/
def choose_valid_to (env : Env) (s : CliState) (valid_from : Int) : Cli Int :=
  match s.duration_string, s.valid_to with
  | some duration_string, _ =>
    match duration_from_string env.garbage duration_string with
    | Except.ok hours => Cli.pure (valid_from + hours * 3600)
    | Except.error f => raise f
  | none, some valid_to => Cli.pure valid_to
  | none, none => raise Failure.no_validity

/-- The making of the KDMs at the end of `kdm_cli`, from a film or from a DKDM. -/
def generate (env : Env) (program_name : String) (s : CliState) (screens : List Screen)
    (valid_from valid_to : Int) (thing : String) : Cli Unit :=
  if env.is_directory thing ∧ env.is_regular_file (env.path_append thing "metadata.xml") then
    from_film env program_name screens thing s.verbose s.output s.container_name_format
      s.filename_format valid_from valid_to s.formulation s.disable_forensic_marking_picture
      s.disable_forensic_marking_audio s.email s.zip
  else do
    let dkdm ← (if env.is_regular_file thing then do
        let text ← call (env.file_to_string thing)
        let dkdm ← call (env.encrypted_kdm text)
        Cli.pure (some dkdm)
      else
        Cli.pure (find_dkdm env thing))
    match dkdm with
    | none => raise (Failure.not_found thing)
    | some dkdm => do
      let decrypted ← call (env.decrypted_kdm dkdm)
      from_dkdm env screens decrypted s.verbose s.output s.container_name_format
        s.filename_format valid_from valid_to s.formulation
        s.disable_forensic_marking_picture s.disable_forensic_marking_audio s.email s.zip

/-- What the checks of `kdm_cli` leave for the making of the KDMs: the screens, the
validity, and the film, CPL id or DKDM file, `argv[optind]`. -/
structure Checked where
  screens : List Screen
  valid_from : Int
  valid_to : Int
  thing : String
deriving DecidableEq, Repr

/-- The checks of the arguments of `kdm_cli`, with the screens and the validity that they
leave. -/
def arguments (env : Env) (s : CliState) (things : List String) : Cli Checked :=
  if s.duration_string = none ∧ s.valid_to = none then
    raise Failure.no_validity
  else
    match s.valid_from with
    | none => raise Failure.no_valid_from
    | some valid_from =>
      match things with
      | [] => raise Failure.no_thing
      | thing :: _ => do
        let screens ← choose_screens env s
        let valid_to ← choose_valid_to env s valid_from
        if s.verbose then
          out ("Making KDMs valid from " ++ env.to_simple_string valid_from ++ " to "
            ++ env.to_simple_string valid_to)
        Cli.pure ⟨screens, valid_from, valid_to, thing⟩

/-- The body of `kdm_cli` between the options and the making of the KDMs: the listings, and
the checks of the arguments. -/
def checks (env : Env) (s : CliState) (things : List String) : Cli Checked := do
  listings env s
  arguments env s things

/-- The body of `kdm_cli`, for the results of `getopt_long` in their order and the
arguments left after the options, `argv[optind]` and what follows. -/
def kdm_cli_body (env : Env) (program_name : String) (opts : List Opt)
    (things : List String) : Cli Unit := do
  let s ← option_loop env program_name opts (CliState.initial env)
  let r ← checks env s things
  generate env program_name s r.screens r.valid_from r.valid_to r.thing

/-- How a run of `kdm_cli` ends: the program exits, or `kdm_cli` returns, with an error
message or without. -/
inductive Outcome where
  | exited
  | returned (error : Option String)
deriving DecidableEq, Repr

/-- A run of `kdm_cli`: what it did and how it ended. -/
structure Run where
  effects : List Effect
  outcome : Outcome
deriving DecidableEq, Repr

/-- The function `kdm_cli`: its body, and the handler `catch (std::exception& e)` that
returns the text of the exception. -/
def kdm_cli (env : Env) (program_name : String) (opts : List Opt) (things : List String) :
    Run :=
  match kdm_cli_body env program_name opts things with
  | (es, Except.ok _) => ⟨es, Outcome.returned none⟩
  | (es, Except.error (Stop.raise f)) => ⟨es, Outcome.returned (some (f.what program_name))⟩
  | (es, Except.error Stop.exit) => ⟨es, Outcome.exited⟩

/-- A configuration and a file system like those of `kdm_cli_test_certificate`: no cinema,
no stored DKDM, a valid signer, and two files, a certificate and a DKDM. -/
def testEnv : Env :=
  { current_path := "build"
    kdm_container_name_format := "KDM %f %c"
    kdm_filename_format := "KDM %f %c %s"
    cinemas := []
    screens := fun _ => []
    dkdms := ⟨"root", []⟩
    signer_valid := true
    local_time := 1000
    posix_time_from_string := fun t => Except.error (Exn.std ("bad time " ++ t))
    to_simple_string := fun t => toString t
    date := fun t => toString t.time
    time_of_day := fun _ => "00:00"
    now_as_string := "now"
    garbage := 0
    atoi := fun _ => 0
    address_list := fun l => ", ".intercalate l
    file_to_string := fun f =>
      if f = "test/data/cert.pem" then Except.ok "CERT"
      else if f = "test/data/dkdm.xml" then Except.ok "DKDM"
      else Except.error (Exn.file_error "could not open file" f)
    is_directory := fun _ => false
    is_regular_file := fun f => f = "test/data/cert.pem" ∨ f = "test/data/dkdm.xml"
    path_append := fun a b => a ++ "/" ++ b
    certificate_chain_leaf := fun text =>
      if text = "CERT" then Except.ok "leaf" else Except.error (Exn.std "bad certificate")
    certificate := fun text =>
      if text = "CERT" then Except.ok "leaf" else Except.error (Exn.std "bad certificate")
    thumbprint := fun c => c
    encrypted_kdm := fun text =>
      if text = "DKDM" then Except.ok ⟨"cpl", "DKDM"⟩ else Except.error (Exn.std "bad KDM")
    decrypted_kdm := fun _ =>
      Except.ok ⟨⟨0, 0, 0⟩, ⟨0, 0, 0⟩, some "film", "title", "then", ["key"]⟩
    encrypt := fun _ target _ _ _ _ => Except.ok ⟨"cpl", target⟩
    read_film := fun d => Except.error (Exn.std ("no film in " ++ d))
    kdm_for_screen := fun _ _ _ _ _ _ _ _ => Except.ok none
    collect := fun kdms => [kdms]
    write_files := fun kdms _ _ _ => Except.ok kdms.length
    write_zip_files := fun kdms _ _ _ _ => Except.ok kdms.length
    send_emails := fun _ _ _ _ => Except.ok () }

/-- The configuration of `testEnv` with a signing certificate chain that is not valid. -/
def unsignedEnv : Env := { testEnv with signer_valid := false }

/-- A computation that, when it stops early, does so by raising a failure with the
property `Q`; it does not exit. -/
def Raises {α : Type} (Q : Failure → Prop) (m : Cli α) : Prop :=
  ∀ s, m.2 = Except.error s → ∃ f, s = Stop.raise f ∧ Q f

/-- Whether a failure is the one of `kdm_cli` for a film or CPL id that is not found. -/
def Failure.is_not_found : Failure → Bool
  | Failure.not_found _ => true
  | _ => false

/-- A computation that, when it raises a failure, raises one with the property `Q`. -/
def Fails {α : Type} (Q : Failure → Prop) (m : Cli α) : Prop :=
  ∀ f, m.2 = Except.error (Stop.raise f) → Q f

/-- The configuration of `testEnv` with some stored DKDMs: a group holding a DKDM and a
group with a DKDM for the CPL `b`, and then another DKDM for `b`. -/
def storedEnv : Env :=
  { testEnv with
    dkdms := ⟨"root",
      [DKDMBase.group "g"
        [DKDMBase.dkdm ⟨"a", "1"⟩, DKDMBase.group "h" [DKDMBase.dkdm ⟨"b", "2"⟩]],
       DKDMBase.dkdm ⟨"b", "3"⟩]⟩ }

/-! ## ScreenKDM and CinemaKDMs -/

/-- A `ScreenKDM`: its screen, and the id and the text of its KDM. -/
structure ScreenKDM where
  screen : Screen
  kdm_id : String
  kdm_as_xml : String
deriving DecidableEq, Repr

/-- A `CinemaKDMs`: a cinema and the KDMs of its screens. -/
structure CinemaKDMs where
  cinema : Option Cinema
  screen_kdms : List ScreenKDM
deriving DecidableEq, Repr

/-- How a loop over a `std::list` ends: with a result, by using an iterator whose element
was erased, which the language leaves undefined, or not within the steps granted. -/
inductive Halt (α : Type) where
  | result (a : α)
  | undefined
  | unfinished
deriving DecidableEq, Repr

/-- The method `remove` of `std::list`: every element equal to `value` goes. -/
def list_remove (l : List ScreenKDM) (value : ScreenKDM) : List ScreenKDM :=
  l.filter (fun x => x ≠ value)

/-- The inner loop of `CinemaKDMs::collect`, for at most `fuel` steps: `before` holds the
elements of `screen_kdms` before the iterator `i` and the other list those from `i` on.
An element of the cinema of `ck` is added to `ck`, `i` moves on, and `remove` takes every
element equal to it out of `screen_kdms`; when the element that `i` has moved to is one
of them, `i` is used after its element was erased. -/
def collect_inner :
    Nat → List ScreenKDM → List ScreenKDM → CinemaKDMs → Halt (List ScreenKDM × CinemaKDMs)
  | _, before, [], ck => Halt.result (before, ck)
  | 0, _, _ :: _, _ => Halt.unfinished
  | fuel + 1, before, x :: rest, ck =>
    if x.screen.cinema = ck.cinema then
      if rest.head? = some x then
        Halt.undefined
      else
        collect_inner fuel (list_remove before x) (list_remove rest x)
          { ck with screen_kdms := ck.screen_kdms ++ [x] }
    else
      collect_inner fuel (before ++ [x]) rest ck

/-- The outer loop of `CinemaKDMs::collect`, for at most `fuel` steps: the first element
starts a `CinemaKDMs`, is removed with every element equal to it, and the inner loop goes
over the rest. -/
def collect_loop : Nat → List ScreenKDM → List CinemaKDMs → Halt (List CinemaKDMs)
  | _, [], cinema_kdms => Halt.result cinema_kdms
  | 0, _ :: _, _ => Halt.unfinished
  | fuel + 1, x :: rest, cinema_kdms =>
    if rest.head? = some x then
      Halt.undefined
    else
      match collect_inner (list_remove rest x).length [] (list_remove rest x)
          ⟨x.screen.cinema, [x]⟩ with
      | Halt.result (screen_kdms, ck) => collect_loop fuel screen_kdms (cinema_kdms ++ [ck])
      | Halt.undefined => Halt.undefined
      | Halt.unfinished => Halt.unfinished

/-- The function `CinemaKDMs::collect`, with as many steps as the list has elements. -/
def CinemaKDMs.collect (screen_kdms : List ScreenKDM) : Halt (List CinemaKDMs) :=
  collect_loop screen_kdms.length screen_kdms []

/-- A cinema with two screens, and another cinema with one. -/
def cinemaA : Cinema := ⟨"A", [], "", 0, 0⟩

/-- The KDM of the first screen of `cinemaA`. -/
def kdmA1 : ScreenKDM := ⟨⟨"A1", "", none, [], some cinemaA⟩, "id-1", "kdm 1"⟩

/-- The KDM of the second screen of `cinemaA`. -/
def kdmA2 : ScreenKDM := ⟨⟨"A2", "", none, [], some cinemaA⟩, "id-2", "kdm 2"⟩

/-- The KDM of a screen of another cinema. -/
def kdmB : ScreenKDM := ⟨⟨"B1", "", none, [], some ⟨"B", [], "", 0, 0⟩⟩, "id-3", "kdm 3"⟩

/-! ## ScreenKDM::write_files -/

/-- The file system and the standard output as `ScreenKDM::write_files` meets them: the
paths that exist, the texts sent to `cout`, and the files written, each with its text, in
their order. -/
structure FileSystem where
  paths : List String
  stdout : List String
  writes : List (String × String)
deriving DecidableEq, Repr

/-- The function `boost::filesystem::exists`. -/
def FileSystem.path_exists (fs : FileSystem) (p : String) : Bool := decide (p ∈ fs.paths)

/-- The function `boost::filesystem::create_directories`. -/
def FileSystem.create_directories (fs : FileSystem) (p : String) : FileSystem :=
  { fs with paths := fs.paths ++ [p] }

/-- The writing of a file, after which it exists. -/
def FileSystem.write (fs : FileSystem) (p : String) (text : String) : FileSystem :=
  { fs with paths := fs.paths ++ [p], writes := fs.writes ++ [(p, text)] }

/-- The functions that make the name of a file: `dcp::NameFormat::get` for the format
given to `write_files`, `careful_string_filter`, and `/` on paths. -/
structure Naming where
  get : (Char → Option String) → String → String
  careful_string_filter : String → String
  path_append : String → String → String

/-- An assignment `name_values[key] = value` to a `dcp::NameFormat::Map`. -/
def map_set (name_values : Char → Option String) (key : Char) (value : String) :
    Char → Option String :=
  fun k => if k = key then some value else name_values k

/-- The variables of the second loop of `ScreenKDM::write_files`. -/
structure WriteState where
  written : Nat
  name_values : Char → Option String
  fs : FileSystem

/-- The name values that `ScreenKDM::write_files` sets for one KDM. -/
def write_name_values (name_values : Char → Option String) (i : ScreenKDM) :
    Char → Option String :=
  map_set
    (map_set
      (map_set name_values 'c'
        (match i.screen.cinema with
         | some cinema => cinema.name
         | none => ""))
      's' i.screen.name)
    'i' i.kdm_id

/-- The path `out` that `ScreenKDM::write_files` makes for one KDM. -/
def write_out (naming : Naming) (directory : String) (name_values : Char → Option String)
    (i : ScreenKDM) : String :=
  naming.path_append directory
    (naming.careful_string_filter (naming.get (write_name_values name_values i) ".xml"))

/-- The body of the second loop of `ScreenKDM::write_files` for one KDM. -/
def write_step (naming : Naming) (directory : String) (confirm_overwrite : String → Bool)
    (st : WriteState) (i : ScreenKDM) : WriteState :=
  if ¬ st.fs.path_exists (write_out naming directory st.name_values i) = true
      ∨ confirm_overwrite (write_out naming directory st.name_values i) = true then
    { written := st.written + 1
      name_values := write_name_values st.name_values i
      fs := st.fs.write (write_out naming directory st.name_values i) i.kdm_as_xml }
  else
    { st with name_values := write_name_values st.name_values i }

/-- The body of the first loop of `ScreenKDM::write_files`, which sends a KDM to `cout`. -/
def stdout_step (st : Nat × FileSystem) (i : ScreenKDM) : Nat × FileSystem :=
  (st.1 + 1, { st.2 with stdout := st.2.stdout ++ [i.kdm_as_xml] })

/-- The state in which the second loop of `ScreenKDM::write_files` starts: nothing is
written, and the directory exists. -/
def write_start (directory : String) (name_values : Char → Option String) (fs : FileSystem) :
    WriteState :=
  { written := 0
    name_values := name_values
    fs := if ¬ fs.path_exists directory = true then fs.create_directories directory else fs }

/-- The function `ScreenKDM::write_files`: the number that it returns, and the file system
and the standard output as it leaves them. -/
def ScreenKDM.write_files (naming : Naming) (screen_kdms : List ScreenKDM)
    (directory : String) (name_values : Char → Option String)
    (confirm_overwrite : String → Bool) (fs : FileSystem) : Nat × FileSystem :=
  if directory = "-" then
    screen_kdms.foldl stdout_step (0, fs)
  else
    let st := screen_kdms.foldl (write_step naming directory confirm_overwrite)
      (write_start directory name_values fs)
    (st.written, st.fs)

/-- A naming that puts the name of the screen and the extension after the directory. -/
def screenNaming : Naming :=
  { get := fun name_values extension => (name_values 's').getD "" ++ extension
    careful_string_filter := fun s => s
    path_append := fun a b => a ++ "/" ++ b }

/-- The grouping by cinema that is expected of `collect`, for at most `fuel` groups: the
first KDM and the later KDMs of its cinema make the first group, and the KDMs of the
other cinemas are grouped in the same way. -/
def groups_by_cinema : Nat → List ScreenKDM → List CinemaKDMs
  | 0, _ => []
  | _, [] => []
  | fuel + 1, x :: rest =>
    ⟨x.screen.cinema, x :: rest.filter (fun y => y.screen.cinema = x.screen.cinema)⟩
      :: groups_by_cinema fuel (rest.filter (fun y => y.screen.cinema ≠ x.screen.cinema))

/-! ## Decoder -/

/-- A part of a decoder (`DecoderPart`: the video, the audio or a caption decoder) as
`Decoder::position` reads it: whether it is ignored, and its position, a `ContentTime`. -/
structure DecoderPart where
  ignore : Bool
  position : Int
deriving DecidableEq, Repr

/-- A `Decoder`: its video and audio parts, each of which may be missing, and its caption
decoders. -/
structure Decoder where
  video : Option DecoderPart
  audio : Option DecoderPart
  caption : List DecoderPart
deriving DecidableEq, Repr

/-- One `if` of `Decoder::position`: a part that is not ignored gives its position to `pos`
when `pos` is empty or the position of the part is earlier. -/
def consider (pos : Option Int) (part : DecoderPart) : Option Int :=
  if !part.ignore
      && (match pos with
          | none => true
          | some p => decide (part.position < p)) then
    some part.position
  else
    pos

/-- The function `Decoder::position`; the zero `ContentTime` is 0. -/
def Decoder.position (d : Decoder) : Int :=
  let pos : Option Int := none
  let pos := match d.video with
    | some video => consider pos video
    | none => pos
  let pos := match d.audio with
    | some audio => consider pos audio
    | none => pos
  let pos := d.caption.foldl consider pos
  pos.getD 0

/-- The parts of a decoder that are not ignored: the video, the audio and the caption
decoders, in this order. -/
def Decoder.parts (d : Decoder) : List DecoderPart :=
  (d.video.toList ++ d.audio.toList ++ d.caption).filter (fun part => !part.ignore)

/-! ## AudioMapping: every `int` as an index, XML, mapped channels -/

/-- What stops a method of `AudioMapping` short of its result: a `DCPOMATIC_ASSERT` that
fails, an element read or written outside its vector, which the language leaves
undefined, a negative channel count, or a child or attribute that the XML node does not
have. -/
inductive Fault where
  | assertion
  | outside
  | negative
  | xml (name : String)
deriving DecidableEq, Repr

/-- The method `AudioMapping::set (int, int, float)` for every `int`: the two assertions
compare the indices with the sizes only from above, the second reads `_gain[0]`, and the
assignment is to `_gain[input_channel][output_channel]`. -/
def AudioMapping.set_at (m : AudioMapping) (input_channel output_channel : Int) (g : ℚ) :
    Except Fault AudioMapping :=
  if ¬ input_channel < (m._gain.length : Int) then
    Except.error Fault.assertion
  else
    match m._gain with
    | [] => Except.error Fault.outside
    | row :: _ =>
      if ¬ output_channel < (row.length : Int) then
        Except.error Fault.assertion
      else if input_channel < 0 then
        Except.error Fault.outside
      else if output_channel < 0
          ∨ ((m._gain.getD input_channel.toNat []).length : Int) ≤ output_channel then
        Except.error Fault.outside
      else
        Except.ok
          { m with _gain := setCell m._gain input_channel.toNat output_channel.toNat g }

/-- The method `AudioMapping::get (int, int)` for every `int`. -/
def AudioMapping.get_at (m : AudioMapping) (input_channel output_channel : Int) :
    Except Fault ℚ :=
  if ¬ input_channel < (m._gain.length : Int) then
    Except.error Fault.assertion
  else
    match m._gain with
    | [] => Except.error Fault.outside
    | row :: _ =>
      if ¬ output_channel < (row.length : Int) then
        Except.error Fault.assertion
      else if input_channel < 0 then
        Except.error Fault.outside
      else if output_channel < 0
          ∨ ((m._gain.getD input_channel.toNat []).length : Int) ≤ output_channel then
        Except.error Fault.outside
      else
        Except.ok (cell m._gain input_channel.toNat output_channel.toNat)

/-- A child of an element, with its name and its text. -/
structure Leaf where
  name : String
  content : String
deriving DecidableEq, Repr

/-- An element of an XML node as `AudioMapping` writes and reads it: its name, its
attributes, its text and its children. -/
structure Element where
  name : String
  attributes : List (String × String)
  content : String
  children : List Leaf
deriving DecidableEq, Repr

/-- The conversions between numbers and text of libdcp (`raw_convert`), which are not part
of the sources. -/
structure Convert where
  int_to_string : Int → String
  float_to_string : ℚ → String
  string_to_int : String → Int
  string_to_float : String → ℚ

/-- The element `Gain` that `as_xml` adds for a cell. -/
def gain_element (conv : Convert) (c d : Nat) (g : ℚ) : Element :=
  ⟨"Gain", [("Input", conv.int_to_string c), ("Output", conv.int_to_string d)],
    conv.float_to_string g, []⟩

/-- The inner loop of `AudioMapping::as_xml` over the output channels; `none` when an
assertion of `get` fails. -/
def as_xml_gains (conv : Convert) (m : AudioMapping) (c : Nat) :
    List Nat → List Element → Option (List Element)
  | [], node => some node
  | d :: rest, node =>
    match m.get c d with
    | some g => as_xml_gains conv m c rest (node ++ [gain_element conv c d g])
    | none => none

/-- The outer loop of `AudioMapping::as_xml` over the input channels. -/
def as_xml_rows (conv : Convert) (m : AudioMapping) :
    List Nat → List Element → Option (List Element)
  | [], node => some node
  | c :: rest, node =>
    match as_xml_gains conv m c (List.range m._output_channels) node with
    | some node => as_xml_rows conv m rest node
    | none => none

/-- The method `AudioMapping::as_xml`: the children of the node after the call, for the
children before it. -/
def AudioMapping.as_xml (conv : Convert) (m : AudioMapping) (node : List Element) :
    Option (List Element) :=
  as_xml_rows conv m (List.range m._input_channels)
    (node
      ++ [⟨"InputChannels", [], conv.int_to_string m._input_channels, []⟩,
          ⟨"OutputChannels", [], conv.int_to_string m._output_channels, []⟩])

/-- The method `number_child<int>` of a `cxml` node, which wants exactly one child of the
name. -/
def number_child (conv : Convert) (node : List Element) (name : String) : Except Fault Int :=
  match node.filter (fun e => e.name = name) with
  | [e] => Except.ok (conv.string_to_int e.content)
  | _ => Except.error (Fault.xml name)

/-- The method `number_attribute<int>` of a `cxml` node. -/
def number_attribute (conv : Convert) (e : Element) (name : String) : Except Fault Int :=
  match e.attributes.lookup name with
  | some text => Except.ok (conv.string_to_int text)
  | none => Except.error (Fault.xml name)

/-- The method `number_child<int>` of a `cxml` node, for a child of an element. -/
def leaf_number_child (conv : Convert) (children : List Leaf) (name : String) :
    Except Fault Int :=
  match children.filter (fun e => e.name = name) with
  | [e] => Except.ok (conv.string_to_int e.content)
  | _ => Except.error (Fault.xml name)

/-- The method `AudioMapping::setup` as a constructor calls it, for every `int`.  A
negative count is not followed further: `resize` fails for it, or, with no row to
resize, the object keeps a count that this model of `AudioMapping` does not hold. -/
def setup_at (input_channels output_channels : Int) : Except Fault AudioMapping :=
  if input_channels < 0 ∨ output_channels < 0 then
    Except.error Fault.negative
  else
    Except.ok (AudioMapping.create input_channels.toNat output_channels.toNat)

/-- The loop of the XML constructor over the `Map` children of the oldest files. -/
def read_maps (conv : Convert) : List Element → AudioMapping → Except Fault AudioMapping
  | [], m => Except.ok m
  | i :: rest, m => do
    let content_index ← leaf_number_child conv i.children "ContentIndex"
    let dcp ← leaf_number_child conv i.children "DCP"
    let m ← m.set_at content_index dcp 1
    read_maps conv rest m

/-- The loop of the XML constructor over the `Gain` children. -/
def read_gains (conv : Convert) (state_version : Int) :
    List Element → AudioMapping → Except Fault AudioMapping
  | [], m => Except.ok m
  | i :: rest, m => do
    let input ← number_attribute conv i (if state_version < 32 then "Content" else "Input")
    let output ← number_attribute conv i (if state_version < 32 then "DCP" else "Output")
    let m ← m.set_at input output (conv.string_to_float i.content)
    read_gains conv state_version rest m

/-- The constructor `AudioMapping::AudioMapping (cxml::ConstNodePtr node, int
state_version)`, for the children of the node; `MAX_DCP_AUDIO_CHANNELS` is a constant of
`types.h`, which is not part of the sources. -/
def AudioMapping.from_xml (conv : Convert) (MAX_DCP_AUDIO_CHANNELS : Int)
    (node : List Element) (state_version : Int) : Except Fault AudioMapping := do
  let m ← (if state_version < 32 then do
      let content_channels ← number_child conv node "ContentChannels"
      setup_at content_channels MAX_DCP_AUDIO_CHANNELS
    else do
      let input_channels ← number_child conv node "InputChannels"
      let output_channels ← number_child conv node "OutputChannels"
      setup_at input_channels output_channels)
  if state_version ≤ 5 then
    read_maps conv (node.filter (fun e => e.name = "Map")) m
  else
    read_gains conv state_version (node.filter (fun e => e.name = "Gain")) m

/-- A conversion for examples: whole numbers in tally marks, and the gains 0 and 1. -/
def tallyConvert : Convert :=
  { int_to_string := fun n => String.mk (List.replicate n.toNat 'I')
    float_to_string := fun g => if g = 0 then "0" else "1"
    string_to_int := fun s => s.length
    string_to_float := fun s => if s = "0" then 0 else 1 }

/-- The gain of -96 dB, `minus_96_db`, below which `mapped_output_channels` takes a channel
as not mapped. -/
def minus_96_db : ℚ := 15849 / 1000000000

/-- The inner loop of `AudioMapping::mapped_output_channels`, over the used channels, for
one row `i` of the matrix: `i[j]` is read for each of them. -/
def mapped_row (row : List ℚ) : List Nat → List Nat → Except Fault (List Nat)
  | [], mapped => Except.ok mapped
  | j :: rest, mapped =>
    if row.length ≤ j then
      Except.error Fault.outside
    else if |row.getD j 0| > minus_96_db then
      mapped_row row rest (mapped ++ [j])
    else
      mapped_row row rest mapped

/-- The outer loop of `AudioMapping::mapped_output_channels`, over the rows. -/
def mapped_rows (used : List Nat) : List (List ℚ) → List Nat → Except Fault (List Nat)
  | [], mapped => Except.ok mapped
  | i :: rest, mapped =>
    match mapped_row i used mapped with
    | Except.ok mapped => mapped_rows used rest mapped
    | Except.error f => Except.error f

/-- The method `unique` of `std::list`: of equal elements in a row only the first stays. -/
def list_unique : List Nat → List Nat
  | [] => []
  | [a] => [a]
  | a :: b :: rest => if a = b then list_unique (b :: rest) else a :: list_unique (b :: rest)

/-- The method `AudioMapping::mapped_output_channels`; `used` is the result of
`dcp::used_audio_channels ()`, as channel numbers. -/
def AudioMapping.mapped_output_channels (used : List Nat) (m : AudioMapping) :
    Except Fault (List Nat) :=
  match mapped_rows used m._gain [] with
  | Except.ok mapped => Except.ok (list_unique (mapped.insertionSort (fun a b => a ≤ b)))
  | Except.error f => Except.error f

/-- A mapping of one input channel to the second of two output channels. -/
def monoRight : AudioMapping := ⟨1, 2, [[0, 1]]⟩

/-- The result of `dcp::used_audio_channels ()` of libdcp, which is not part of the
sources, as channel numbers: left, right, centre, LFE, Ls, Rs, HI, VI, BsL, BsR, motion
data, sync signal and sign language. -/
def used_audio_channels : List Nat := [0, 1, 2, 3, 4, 5, 6, 7, 10, 11, 12, 13, 14]

/-! ## JSONServer: the length of the body -/

/-- What is left of a text after a prefix, when it starts with that prefix. -/
def drop_leading : List Char → List Char → Option (List Char)
  | [], l => some l
  | _ :: _, [] => none
  | p :: ps, c :: rest => if p = c then drop_leading ps rest else none

/-- What follows the first occurrence of a text in another. -/
def find_after (p : List Char) : List Char → Option (List Char)
  | [] => drop_leading p []
  | c :: rest =>
    match drop_leading p (c :: rest) with
    | some r => some r
    | none => find_after p rest

/-- The value of the header `Content-Length` of an HTTP reply. -/
def content_length (reply : String) : Option Nat :=
  (find_after "Content-Length: ".data reply.data).map
    (fun r => digitsValue (r.takeWhile isdigit))

/-- The number of bytes of an HTTP reply after the blank line that ends its headers. -/
def bytes_after_headers (reply : String) : Option Nat :=
  (find_after "\r\n\r\n".data reply.data).map (fun r => (String.mk r).utf8ByteSize)

/-! ## FFmpegExaminer: pull-down -/

/-- The number `PULLDOWN_CHECK_FRAMES` of frames at the start of a video that are looked
at for soft 2:3 pull-down. -/
def PULLDOWN_CHECK_FRAMES : Nat := 16

/-- What `avcodec_receive_frame` leaves: `AVERROR(EAGAIN)`, `AVERROR_EOF`, or a frame in
`_video_frame`, of which the examiner reads `top_field_first`, `repeat_pict` and, through
`frame_time`, its time if it has one. -/
inductive Received where
  | again
  | eof
  | frame (top_field_first : Bool) (repeat_pict : Int) (frame_time : Option Int)
deriving DecidableEq, Repr

/-- What stops the examiner: a `DecodeError` with the result of `avcodec_send_packet`, or
an assertion that fails. -/
inductive ExaminerError where
  | decode (r : Int)
  | assertion
deriving DecidableEq, Repr

/-- The members of `FFmpegExaminer` that `video_packet` and the end of the constructor use,
with the string `temporal_reference` of the constructor. -/
structure Examiner where
  video_stream : Option Nat
  first_video : Option Int
  need_video_length : Bool
  video_length : Int
  temporal_reference : String
  pulldown : Bool
deriving DecidableEq, Repr

/-- The two characters that `video_packet` adds for a frame: `T` or `B` for the top or the
bottom field first, then `3` or `2` for `repeat_pict` set or not. -/
def frame_reference (top_field_first : Bool) (repeat_pict : Int) : String :=
  (if top_field_first then "T" else "B") ++ (if repeat_pict ≠ 0 then "3" else "2")

/-- The method `FFmpegExaminer::video_packet`: `send` is the result of
`avcodec_send_packet`, `flush` tells that the packet is `nullptr`, `received` is what
`avcodec_receive_frame` leaves, `AVERROR_EOF` is the constant of FFmpeg and `frames_round`
the conversion of a time to frames at the video frame rate.  The result is the value
returned and the examiner after the call. -/
def video_packet (AVERROR_EOF : Int) (frames_round : Int → Int) (ex : Examiner) (send : Int)
    (flush : Bool) (received : Received) : Except ExaminerError (Bool × Examiner) :=
  if ex.video_stream = none then
    Except.error ExaminerError.assertion
  else if ex.first_video ≠ none ∧ ex.need_video_length = false
      ∧ ex.temporal_reference.length ≥ PULLDOWN_CHECK_FRAMES * 2 then
    Except.ok (false, ex)
  else if send < 0 ∧ ¬ (send = AVERROR_EOF ∧ flush = true) then
    Except.error (ExaminerError.decode send)
  else
    match received with
    | Received.again => Except.ok (true, ex)
    | Received.eof => Except.ok (false, ex)
    | Received.frame top_field_first repeat_pict frame_time =>
      Except.ok (true,
        { ex with
          first_video := if ex.first_video = none then frame_time else ex.first_video
          video_length :=
            if ex.need_video_length then frames_round (frame_time.getD 0) else ex.video_length
          temporal_reference :=
            if ex.temporal_reference.length < PULLDOWN_CHECK_FRAMES * 2 then
              ex.temporal_reference ++ frame_reference top_field_first repeat_pict
            else ex.temporal_reference })

/-- A packet that `av_read_frame` gives in the first loop of the constructor: the index of
its stream, what the decoder answers if `video_packet` gets to ask it, and what the part
of the loop for the audio streams gives, an exception or whether every audio stream has
its first audio. -/
structure ReadPacket where
  stream_index : Nat
  send : Int
  received : Received
  got_all_audio : Except ExaminerError Bool

/-- The first loop of the constructor, over the packets until `av_read_frame` fails. -/
def read_loop (AVERROR_EOF : Int) (frames_round : Int → Int) :
    List ReadPacket → Examiner → Except ExaminerError Examiner
  | [], ex => Except.ok ex
  | packet :: rest, ex => do
    let ex ← (if ex.video_stream = some packet.stream_index then do
        let r ← video_packet AVERROR_EOF frames_round ex packet.send false packet.received
        pure r.2
      else pure ex)
    let got_all_audio ← packet.got_all_audio
    if ex.first_video ≠ none ∧ got_all_audio = true
        ∧ ex.temporal_reference.length ≥ PULLDOWN_CHECK_FRAMES * 2 then
      pure ex
    else
      read_loop AVERROR_EOF frames_round rest ex

/-- The loop `while (video_packet (context, temporal_reference, nullptr)) {}` of the
constructor, which empties the decoder: the answers of the decoder are given in their
order, and after them no more output is coming. -/
def flush_loop (AVERROR_EOF : Int) (frames_round : Int → Int) :
    List (Int × Received) → Examiner → Except ExaminerError Examiner
  | [], ex => do
    let r ← video_packet AVERROR_EOF frames_round ex AVERROR_EOF true Received.eof
    pure r.2
  | answer :: rest, ex => do
    let r ← video_packet AVERROR_EOF frames_round ex answer.1 true answer.2
    if r.1 then flush_loop AVERROR_EOF frames_round rest r.2 else pure r.2

/-- Whether `find` of `std::string` finds a text, that is, gives something other than
`npos`. -/
def found (s : String) (text : String) : Bool := (find_after text.data s.data).isSome

/-- The end of the constructor: the check of `temporal_reference` for the two sequences
that suggest 2:3 pull-down. -/
def check_pulldown (ex : Examiner) : Examiner :=
  if found ex.temporal_reference "T2T3B2B3T2T3B2B3" = true
      ∨ found ex.temporal_reference "B2B3T2T3B2B3T2T3" = true then
    { ex with pulldown := true }
  else ex

/-- The loops of the constructor `FFmpegExaminer::FFmpegExaminer` from the declaration of
`temporal_reference` on, for the examiner as the first part of the constructor leaves it;
`audio_flush` is what the loop that empties the audio decoders gives.  The progress of
the job, the log and the rotation are left out. -/
def decode_all (AVERROR_EOF : Int) (frames_round : Int → Int) (ex : Examiner)
    (packets : List ReadPacket) (flush : List (Int × Received))
    (audio_flush : Except ExaminerError Unit) : Except ExaminerError Examiner := do
  let ex := { ex with temporal_reference := "", pulldown := false }
  let ex ← read_loop AVERROR_EOF frames_round packets ex
  let ex ← (if ex.video_stream ≠ none then flush_loop AVERROR_EOF frames_round flush ex
    else pure ex)
  audio_flush
  pure ex

/-- The constructor `FFmpegExaminer::FFmpegExaminer` from the declaration of
`temporal_reference` on: the loops, and the check for pull-down. -/
def examine (AVERROR_EOF : Int) (frames_round : Int → Int) (ex : Examiner)
    (packets : List ReadPacket) (flush : List (Int × Received))
    (audio_flush : Except ExaminerError Unit) : Except ExaminerError Examiner :=
  match decode_all AVERROR_EOF frames_round ex packets flush audio_flush with
  | Except.ok ex => Except.ok (check_pulldown ex)
  | Except.error e => Except.error e

/-- The text of a list of frames, two characters for each. -/
def frames_reference (frames : List (Bool × Int)) : List Char :=
  frames.flatMap (fun f => (frame_reference f.1 f.2).data)

/-- A packet of the video stream 0 that gives a frame with the given flags. -/
def videoPacket (top_field_first : Bool) (repeat_pict : Int) : ReadPacket :=
  ⟨0, 0, Received.frame top_field_first repeat_pict (some 0), Except.ok true⟩

/-- Sixteen frames with the flags of soft 2:3 pull-down. -/
def telecinePackets : List ReadPacket :=
  [videoPacket true 0, videoPacket true 1, videoPacket false 0, videoPacket false 1,
   videoPacket true 0, videoPacket true 1, videoPacket false 0, videoPacket false 1,
   videoPacket true 0, videoPacket true 1, videoPacket false 0, videoPacket false 1,
   videoPacket true 0, videoPacket true 1, videoPacket false 0, videoPacket false 1]

/-- The frame that an answer of the decoder holds, with its two flags, if it holds one. -/
def received_frame : Received → List (Bool × Int)
  | Received.frame top_field_first repeat_pict _ => [(top_field_first, repeat_pict)]
  | Received.again => []
  | Received.eof => []

/-- The frames that the decoder has for the packets of the video stream, in the order of
the packets. -/
def video_frames (video_stream : Option Nat) (packets : List ReadPacket) : List (Bool × Int) :=
  packets.flatMap (fun packet =>
    if video_stream = some packet.stream_index then received_frame packet.received else [])

/-- The frames that the decoder has when it is emptied, up to the answer that no more
output is coming. -/
def flush_frames : List (Int × Received) → List (Bool × Int)
  | [] => []
  | answer :: rest =>
    if answer.2 = Received.eof then [] else received_frame answer.2 ++ flush_frames rest

/-- The video frames that the decoder has for the constructor, in order: those of the
packets, and then those that are left in the decoder when it is emptied. -/
def decoded_frames (video_stream : Option Nat) (packets : List ReadPacket)
    (flush : List (Int × Received)) : List (Bool × Int) :=
  video_frames video_stream packets ++ (if video_stream ≠ none then flush_frames flush else [])

/-- What is left in the decoder after the first fourteen packets of `telecinePackets`: two
frames, and then the answer that no more output is coming. -/
def telecineFlush : List (Int × Received) :=
  [(0, Received.frame false 0 (some 0)), (0, Received.frame false 1 (some 0)),
   (-541478725, Received.eof)]

/-! ## content_factory -/

/-- A content object that `content_factory` makes for a path, by its class. -/
inductive MadeContent where
  | ImageContent (path : String)
  | StringTextFileContent (path : String)
  | DCPSubtitleContent (path : String)
  | VideoMXFContent (path : String)
  | AtmosMXFContent (path : String)
  | FFmpegContent (path : String)
deriving DecidableEq, Repr

/-- What `content_factory` raises: `KDMAsContentError`, or the exception of a collaborator
on its way out. -/
inductive FactoryError where
  | KDMAsContentError
  | thrown (e : Exn)
deriving DecidableEq, Repr

/-- The file system and the functions of boost, libcxml, libdcp and the rest of the program
that `content_factory` calls: `root_name` reads an XML file as `cxml::Document::read_file`
does and gives the name of its root, `entries` is what a `directory_iterator` goes over. -/
structure FactoryEnv where
  is_directory : String → Bool
  is_empty : String → Bool
  entries : String → List String
  leaf : String → String
  is_regular_file : String → Bool
  valid_image_file : String → Bool
  valid_sound_file : String → Bool
  extension : String → String
  root_name : String → Except Exn String
  smpte_subtitle_valid_mxf : String → Bool
  video_valid_mxf : String → Bool
  atmos_valid_mxf : String → Bool

/-- The call `transform (ext.begin (), ext.end (), ext.begin (), ::tolower)`. -/
def tolower (ext : String) : String := String.mk (ext.data.map Char.toLower)

/-- The first loop of `content_factory` over a directory: the numbers of image files and of
sound files among the first ten entries that are regular files and not hidden. -/
def count_files (env : FactoryEnv) : List String → Nat → Nat → Nat → Nat × Nat
  | [], image_files, sound_files, _ => (image_files, sound_files)
  | i :: rest, image_files, sound_files, read =>
    if ¬ read < 10 then
      (image_files, sound_files)
    else if (env.leaf i).data.head? = some '.' then
      count_files env rest image_files sound_files read
    else if ¬ env.is_regular_file i = true then
      count_files env rest image_files sound_files read
    else
      count_files env rest
        (if env.valid_image_file i then image_files + 1 else image_files)
        (if env.valid_sound_file i then sound_files + 1 else sound_files)
        (read + 1)

/-- The function `content_factory (boost::filesystem::path)`; the lines written to the log
are left out. -/
def content_factory (env : FactoryEnv) (path : String) :
    Except FactoryError (List MadeContent) :=
  if env.is_directory path then
    if env.is_empty path then
      Except.ok []
    else
      let counts := count_files env (env.entries path) 0 0 0
      if counts.1 > 0 ∧ counts.2 = 0 then
        Except.ok [MadeContent.ImageContent path]
      else if counts.1 = 0 ∧ counts.2 > 0 then
        Except.ok ((env.entries path).map MadeContent.FFmpegContent)
      else
        Except.ok []
  else
    let ext := tolower (env.extension path)
    if env.valid_image_file path then
      Except.ok [MadeContent.ImageContent path]
    else if ext = ".srt" ∨ ext = ".ssa" ∨ ext = ".ass" ∨ ext = ".stl" then
      Except.ok [MadeContent.StringTextFileContent path]
    else if ext = ".xml" then
      match env.root_name path with
      | Except.error e => Except.error (FactoryError.thrown e)
      | Except.ok root_name =>
        if root_name = "DCinemaSecurityMessage" then
          Except.error FactoryError.KDMAsContentError
        else
          Except.ok [MadeContent.DCPSubtitleContent path]
    else if ext = ".mxf" ∧ env.smpte_subtitle_valid_mxf path = true then
      Except.ok [MadeContent.DCPSubtitleContent path]
    else if ext = ".mxf" ∧ env.video_valid_mxf path = true then
      Except.ok [MadeContent.VideoMXFContent path]
    else if ext = ".mxf" ∧ env.atmos_valid_mxf path = true then
      Except.ok [MadeContent.AtmosMXFContent path]
    else
      Except.ok [MadeContent.FFmpegContent path]

/-- A file system for examples: no directory, image files end in `.png`, the extension of a
path is its last four characters, `kdm.xml` is a KDM, `broken.xml` cannot be read and the
other XML files are subtitles. -/
def exampleFiles : FactoryEnv :=
  { is_directory := fun _ => false
    is_empty := fun _ => false
    entries := fun _ => []
    leaf := fun p => p
    is_regular_file := fun _ => true
    valid_image_file := fun p => String.mk (p.data.drop (p.data.length - 4)) = ".png"
    valid_sound_file := fun p => String.mk (p.data.drop (p.data.length - 4)) = ".wav"
    extension := fun p => String.mk (p.data.drop (p.data.length - 4))
    root_name := fun p =>
      if p = "kdm.xml" then Except.ok "DCinemaSecurityMessage"
      else if p = "broken.xml" then Except.error (Exn.std "could not parse XML")
      else Except.ok "SubtitleReel"
    smpte_subtitle_valid_mxf := fun _ => false
    video_valid_mxf := fun _ => true
    atmos_valid_mxf := fun _ => true }

/-! ## guess_crop -/

/-- The pixel formats that `guess_crop` tells apart: the two that it handles, and every
other value of `AVPixelFormat`. -/
inductive AVPixelFormat where
  | AV_PIX_FMT_RGB24
  | AV_PIX_FMT_YUV420P
  | other (id : Nat)
deriving DecidableEq, Repr

/-- What `guess_crop` uses of an `Image`: its pixel format, its size, `stride()[0]` and the
first plane, given by the value stored at each offset from `data()[0]`.  A `uint8_t` that is
read from the plane is the stored value modulo 256. -/
structure Image where
  pixel_format : AVPixelFormat
  width : Int
  height : Int
  stride : Int
  data : Int → Nat

/-- The struct `Crop`; `Crop{}` has four zeros. -/
structure Crop where
  left : Int
  right : Int
  top : Int
  bottom : Int
deriving DecidableEq, Repr

/-- The `uint8_t` at `data[k]`, for `data` at `offset` from the start of the plane. -/
def Image.byte (image : Image) (offset k : Int) : Nat := image.data (offset + k) % 256

/-- The value `static_cast<double> (data[0] + data[1] + data[2]) / (3 * 256)`, for `data` at
`offset` from the start of the plane: the quotient of two `double` values, where `rnd` is
the rounding of an exact value to double precision. -/
def Image.average_rgb (rnd : ℚ → ℚ) (image : Image) (offset : Int) : ℚ :=
  rnd (((image.byte offset 0 + image.byte offset 1 + image.byte offset 2 : Nat) : ℚ)
    / (3 * 256))

/-- The value `static_cast<double> (*data) / 256`, a quotient by a power of two that is a
`double` as it is. -/
def Image.just_y (image : Image) (offset : Int) : ℚ := ((image.byte offset 0 : Nat) : ℚ) / 256

/-- The loop of `image_in_line` for `AV_PIX_FMT_RGB24`, with `data` at `offset` from the
start of the plane and `step` what is added to `data` after each pixel. -/
def line_rgb24 (rnd : ℚ → ℚ) (image : Image) (step : Int) : Nat → Int → ℚ → ℚ
  | 0, _, brightest => brightest
  | pixels + 1, offset, brightest =>
    line_rgb24 rnd image step pixels (offset + step)
      (max brightest (image.average_rgb rnd offset))

/-- The loop of `image_in_line` for `AV_PIX_FMT_YUV420P`. -/
def line_yuv420p (image : Image) (step : Int) : Nat → Int → ℚ → ℚ
  | 0, _, brightest => brightest
  | pixels + 1, offset, brightest =>
    line_yuv420p image step pixels (offset + step) (max brightest (image.just_y offset))

/-- The lambda `image_in_line` of `guess_crop`; a failed `DCPOMATIC_ASSERT` is
`Fault.assertion`. -/
def image_in_line (rnd : ℚ → ℚ) (image : Image) (threshold : ℚ) (start_x start_y pixels : Int)
    (rows : Bool) : Except Fault Bool :=
  match image.pixel_format with
  | AVPixelFormat.AV_PIX_FMT_RGB24 =>
    Except.ok (decide (line_rgb24 rnd image (if rows then 3 else image.stride) pixels.toNat
      (start_x * 3 + start_y * image.stride) 0 > threshold))
  | AVPixelFormat.AV_PIX_FMT_YUV420P =>
    Except.ok (decide (line_yuv420p image (if rows then 1 else image.stride) pixels.toNat
      (start_x + start_y * image.stride) 0 > threshold))
  | AVPixelFormat.other _ => Except.error Fault.assertion

/-- The values that `for (auto y = 0; y < height; ++y)` gives to `y`, in order. -/
def ascending (height : Int) : List Int := (List.range height.toNat).map Int.ofNat

/-- The values that `for (auto y = height - 1; y >= 0; --y)` gives to `y`, in order. -/
def descending (height : Int) : List Int := (List.range height.toNat).reverse.map Int.ofNat

/-- One of the four loops of `guess_crop` over the values of its variable: the value at
which the loop reaches `break`, if it does. -/
def first_line (test : Int → Except Fault Bool) : List Int → Except Fault (Option Int)
  | [] => Except.ok none
  | y :: rest =>
    match test y with
    | Except.error e => Except.error e
    | Except.ok true => Except.ok (some y)
    | Except.ok false => first_line test rest

/-- The function `guess_crop (shared_ptr<const Image>, double)`; `rnd` is the rounding of
an exact value to double precision. -/
def guess_crop (rnd : ℚ → ℚ) (image : Image) (threshold : ℚ) : Except Fault Crop :=
  let width := image.width
  let height := image.height
  let crop : Crop := ⟨0, 0, 0, 0⟩
  match first_line (fun y => image_in_line rnd image threshold 0 y width true)
      (ascending height) with
  | Except.error e => Except.error e
  | Except.ok top =>
    let crop : Crop := match top with
      | some y => { crop with top := y }
      | none => crop
    match first_line (fun y => image_in_line rnd image threshold 0 y width true)
        (descending height) with
    | Except.error e => Except.error e
    | Except.ok bottom =>
      let crop : Crop := match bottom with
        | some y => { crop with bottom := height - 1 - y }
        | none => crop
      match first_line (fun x => image_in_line rnd image threshold x 0 height false)
          (ascending width) with
      | Except.error e => Except.error e
      | Except.ok left =>
        let crop : Crop := match left with
          | some x => { crop with left := x }
          | none => crop
        match first_line (fun x => image_in_line rnd image threshold x 0 height false)
            (descending width) with
        | Except.error e => Except.error e
        | Except.ok right =>
          let crop : Crop := match right with
            | some x => { crop with right := width - 1 - x }
            | none => crop
          Except.ok crop

/-- The brightness of the pixel in column `x` of row `y` as the specification has it: the
mean of R, G and B divided by 256 for `AV_PIX_FMT_RGB24`, Y divided by 256 for
`AV_PIX_FMT_YUV420P`. -/
def Image.brightness (image : Image) (x y : Int) : ℚ :=
  match image.pixel_format with
  | AVPixelFormat.AV_PIX_FMT_RGB24 =>
    (((image.byte (x * 3 + y * image.stride) 0 : ℚ)
        + image.byte (x * 3 + y * image.stride) 1
        + image.byte (x * 3 + y * image.stride) 2) / 3) / 256
  | AVPixelFormat.AV_PIX_FMT_YUV420P => (image.byte (x + y * image.stride) 0 : ℚ) / 256
  | AVPixelFormat.other _ => 0

/-- A pixel of the picture whose brightness, in the words of the specification, is greater
than the threshold. -/
def Image.bright (image : Image) (threshold : ℚ) (x y : Int) : Prop :=
  0 ≤ x ∧ x < image.width ∧ 0 ≤ y ∧ y < image.height ∧ threshold < image.brightness x y

/-- The brightness of the pixel in column `x` of row `y` as `guess_crop` computes it: the
quotient in double precision of the sum of R, G and B by `3 * 256` for `AV_PIX_FMT_RGB24`,
and Y divided by 256 for `AV_PIX_FMT_YUV420P`. -/
def Image.computed_brightness (rnd : ℚ → ℚ) (image : Image) (x y : Int) : ℚ :=
  match image.pixel_format with
  | AVPixelFormat.AV_PIX_FMT_RGB24 => image.average_rgb rnd (x * 3 + y * image.stride)
  | AVPixelFormat.AV_PIX_FMT_YUV420P => image.just_y (x + y * image.stride)
  | AVPixelFormat.other _ => 0

/-- A pixel of the picture whose brightness as `guess_crop` computes it is greater than the
threshold. -/
def Image.computed_bright (rnd : ℚ → ℚ) (image : Image) (threshold : ℚ) (x y : Int) : Prop :=
  0 ≤ x ∧ x < image.width ∧ 0 ≤ y ∧ y < image.height
  ∧ threshold < image.computed_brightness rnd x y

/-- An image of three columns and three rows in `AV_PIX_FMT_YUV420P` with a stride of four,
black but for the pixel in the middle. -/
def dotImage : Image :=
  { pixel_format := AVPixelFormat.AV_PIX_FMT_YUV420P
    width := 3
    height := 3
    stride := 4
    data := fun offset => if offset = 5 then 200 else 0 }

/-- An image of three columns and three rows in `AV_PIX_FMT_RGB24` with a stride of nine,
black but for the pixel in the middle, whose red is 1. -/
def faintImage : Image :=
  { pixel_format := AVPixelFormat.AV_PIX_FMT_RGB24
    width := 3
    height := 3
    stride := 9
    data := fun offset => if offset = 12 then 1 else 0 }

/-- The `double` nearest to 1/768, which is less than 1/768. -/
def faintThreshold : ℚ := 6004799503160661 / 4611686018427387904
/-! ## Theorems -/

/-! ### Transcoder::go: the frames handed to the encoder -/

theorem encoded_append (a b : List Event) : encoded (a ++ b) = encoded a ++ encoded b := by
  induction a with
  | nil => rfl
  | cons e a ih => cases e <;> simp [encoded, ih]

theorem progressValues_append (rnd : ℚ → ℚ) (a b : List Event) :
    progressValues rnd (a ++ b) = progressValues rnd a ++ progressValues rnd b := by
  induction a with
  | nil => rfl
  | cons e a ih => cases e <;> simp [progressValues, ih]

theorem progressValues_encodeVideo (rnd : ℚ → ℚ) (three_d : Bool) (vs : List PlayerVideo) :
    progressValues rnd (encodeVideo three_d vs) = [] := by
  induction vs with
  | nil => rfl
  | cons i vs ih =>
    unfold encodeVideo
    split_ifs <;> simp [progressValues, ih]

theorem progressValues_map_writeReelAsset (rnd : ℚ → ℚ) (l : List Nat) :
    progressValues rnd (l.map Event.writeReelAsset) = [] := by
  induction l with
  | nil => rfl
  | cons a l ih => simp [progressValues, ih]

theorem encoded_encodeVideo (three_d : Bool) (vs : List PlayerVideo) :
    encoded (encodeVideo three_d vs)
      = vs.filterMap (fun i =>
          if three_d then some i
          else match i.eyes with
            | Eyes.RIGHT => none
            | Eyes.LEFT => some { image := i.image, eyes := Eyes.BOTH }
            | Eyes.BOTH => some i) := by
  induction vs with
  | nil => rfl
  | cons i vs ih =>
    obtain ⟨img, e⟩ := i
    cases three_d <;> cases e <;>
      simp [encodeVideo, encoded, PlayerVideo.set_eyes, ih]

theorem encoded_quantum (film : TFilm) (player : TPlayer) (nb frame t : Nat) :
    encoded (quantum film player nb frame t)
      = encoded (encodeVideo film.three_d (player.get_video t)) := by
  unfold quantum
  split_ifs <;> simp [encoded_append, encoded]

theorem encoded_map_writeReelAsset (l : List Nat) :
    encoded (l.map Event.writeReelAsset) = [] := by
  induction l with
  | nil => rfl
  | cons a l ih => simp [encoded, ih]

theorem encodeVideo_two_d_both (vs : List PlayerVideo) :
    ∀ v ∈ encoded (encodeVideo false vs), v.eyes = Eyes.BOTH := by
  induction vs with
  | nil => intro v hv; simp [encodeVideo, encoded] at hv
  | cons i vs ih =>
    obtain ⟨img, e⟩ := i
    intro v hv
    cases e <;> simp [encodeVideo, encoded, PlayerVideo.set_eyes] at hv
    · rcases hv with rfl | hv
      · rfl
      · exact ih v hv
    · rcases hv with rfl | hv
      · rfl
      · exact ih v hv
    · exact ih v hv

theorem goLoop_two_d_both (film : TFilm) (player : TPlayer) (nb frame : Nat)
    (h2 : film.three_d = false) :
    ∀ fuel t, ∀ v ∈ encoded (goLoop film player nb frame fuel t).1, v.eyes = Eyes.BOTH := by
  intro fuel
  induction fuel with
  | zero => intro t v hv; simp [goLoop, encoded] at hv
  | succ fuel ih =>
    intro t v hv
    unfold goLoop at hv
    split_ifs at hv with hlt
    · simp only [encoded_append, encoded_quantum, List.mem_append] at hv
      rcases hv with hv | hv
      · rw [h2] at hv
        exact encodeVideo_two_d_both _ v hv
      · exact ih _ v hv
    · simp [encoded] at hv

/-! ### Transcoder::go: the order of the calls -/

theorem countSubtitles_non_burnt (content : List TContent) :
    (countSubtitles content).2 ≠ 0
      ↔ ∃ c ∈ content, ∃ s, c.subtitle = some s ∧ s.use = true ∧ s.burn = false := by
  induction content with
  | nil => simp [countSubtitles]
  | cons c rest ih =>
    obtain ⟨sub⟩ := c
    cases sub with
    | none => simp [countSubtitles, ih]
    | some s =>
      obtain ⟨u, b⟩ := s
      cases u <;> cases b <;> simp [countSubtitles, ih]

theorem remaining_succ (length frame t : Nat) (hf : 0 < frame) (ht : t < length) :
    (length - t + frame - 1) / frame = (length - (t + frame) + frame - 1) / frame + 1 := by
  by_cases h : t + frame ≤ length
  · have e : length - t + frame - 1 = (length - (t + frame) + frame - 1) + frame := by omega
    rw [e, Nat.add_div_right _ hf]
  · have e1 : length - (t + frame) + frame - 1 = frame - 1 := by omega
    have e2 : length - t + frame - 1 = (length - t - 1) + frame := by omega
    rw [e1, e2, Nat.add_div_right _ hf, Nat.div_eq_of_lt (by omega), Nat.div_eq_of_lt (by omega)]

theorem goLoop_eq (film : TFilm) (player : TPlayer) (nb frame : Nat) (hf : 0 < frame) :
    ∀ fuel t, (film.length - t + frame - 1) / frame ≤ fuel →
      goLoop film player nb frame fuel t
        = ((((List.range ((film.length - t + frame - 1) / frame)).map
              (fun k => t + k * frame)).map (quantum film player nb frame)).flatten, true) := by
  intro fuel
  induction fuel with
  | zero =>
    intro t h
    have h0 : (film.length - t + frame - 1) / frame = 0 := Nat.le_zero.mp h
    have hlt : ¬ t < film.length := by
      intro hlt
      rw [remaining_succ film.length frame t hf hlt] at h0
      exact Nat.succ_ne_zero _ h0
    simp [goLoop, h0, hlt]
  | succ fuel ih =>
    intro t h
    unfold goLoop
    by_cases hlt : t < film.length
    · have hs := remaining_succ film.length frame t hf hlt
      rw [if_pos hlt, hs]
      have := ih (t + frame) (by omega)
      simp only [this, List.range_succ_eq_map, List.map_cons, List.flatten_cons, List.map_map,
        Nat.zero_mul, Nat.add_zero]
      congr 3
      apply List.map_congr_left
      intro k _
      simp only [Function.comp]
      congr 1
      rw [Nat.succ_mul]
      omega
    · have h0 : (film.length - t + frame - 1) / frame = 0 := by
        apply Nat.div_eq_of_lt
        omega
      simp [hlt, h0]

theorem encoded_flatten (ls : List (List Event)) :
    encoded ls.flatten = (ls.map encoded).flatten := by
  induction ls with
  | nil => rfl
  | cons l ls ih => simp [encoded_append, ih]

theorem encoded_go (film : TFilm) (player : TPlayer)
    (hf : 0 < from_frames 1 film.video_frame_rate) (fuel : Nat)
    (hfuel : (film.length + from_frames 1 film.video_frame_rate - 1)
        / from_frames 1 film.video_frame_rate ≤ fuel) :
    (go film player fuel).2 = true
    ∧ encoded (go film player fuel).1
      = (((List.range ((film.length + from_frames 1 film.video_frame_rate - 1)
              / from_frames 1 film.video_frame_rate)).map
            (fun k => k * from_frames 1 film.video_frame_rate)).map
          (fun t => encoded (encodeVideo film.three_d (player.get_video t)))).flatten := by
  generalize hfr : from_frames 1 film.video_frame_rate = f at hf hfuel
  have h := goLoop_eq film player (countSubtitles film.content).2 f hf fuel 0
    (by simpa using hfuel)
  unfold go
  simp only [hfr, h, Nat.sub_zero, Nat.zero_add, if_true, true_and]
  simp only [encoded_append, encoded_flatten, encoded_map_writeReelAsset, List.map_map]
  have e1 : encoded [Event.writerStart, Event.encoderBegin, Event.jobSub] = [] := rfl
  have e2 : encoded (if (countSubtitles film.content).2 ≠ 0 then [Event.writeFonts] else [])
      = [] := by split_ifs <;> rfl
  have e3 : encoded [Event.encoderEnd, Event.writerFinish] = [] := rfl
  rw [e1, e2, e3]
  simp only [List.nil_append, List.append_nil]
  congr 1
  apply List.map_congr_left
  intro k _
  simp only [Function.comp, encoded_quantum]

/-- C1: `Transcoder::go` returns when the one-frame duration `f` is positive, and the
frames that it passes to the encoder are, for the times `t = 0, f, 2f, ...` below the
length of the film in this order, the frames of `get_video (t)` in their order where, in
a film that is not 3D, a frame tagged right-eye is left out, a frame tagged left-eye is
passed retagged both-eyes and every other frame is passed unchanged, and where in a 3D
film every frame is passed with its eye tag unchanged; so in a film that is not 3D the
encoder receives only frames tagged both-eyes. -/
theorem go_eye_handling (film : TFilm) (player : TPlayer)
    (hf : 0 < from_frames 1 film.video_frame_rate) (fuel : Nat)
    (hfuel : (film.length + from_frames 1 film.video_frame_rate - 1)
        / from_frames 1 film.video_frame_rate ≤ fuel) :
    (go film player fuel).2 = true
    ∧ encoded (go film player fuel).1
      = (((List.range ((film.length + from_frames 1 film.video_frame_rate - 1)
              / from_frames 1 film.video_frame_rate)).map
            (fun k => k * from_frames 1 film.video_frame_rate)).map
          (fun t => (player.get_video t).filterMap (fun i =>
            if film.three_d then some i
            else match i.eyes with
              | Eyes.RIGHT => none
              | Eyes.LEFT => some { image := i.image, eyes := Eyes.BOTH }
              | Eyes.BOTH => some i))).flatten
    ∧ (film.three_d = true →
        encoded (go film player fuel).1
          = (((List.range ((film.length + from_frames 1 film.video_frame_rate - 1)
                / from_frames 1 film.video_frame_rate)).map
              (fun k => k * from_frames 1 film.video_frame_rate)).map
            player.get_video).flatten)
    ∧ (film.three_d = false → ∀ v ∈ encoded (go film player fuel).1, v.eyes = Eyes.BOTH) := by
  obtain ⟨hret, henc⟩ := encoded_go film player hf fuel hfuel
  refine ⟨hret, ?_, fun h3 => ?_, fun h2 v hv => ?_⟩
  · rw [henc]
    congr 1
    apply List.map_congr_left
    intro t _
    exact encoded_encodeVideo _ _
  · rw [henc]
    congr 1
    apply List.map_congr_left
    intro t _
    rw [encoded_encodeVideo, h3]
    simp
  · unfold go at hv
    simp only [encoded_append, List.mem_append] at hv
    rcases hv with ((hv | hv) | hv) | hv
    · simp [encoded] at hv
    · split_ifs at hv <;> simp [encoded] at hv
    · exact goLoop_two_d_both film player _ _ h2 _ _ v hv
    · split_ifs at hv
      · simp [encoded_append, encoded_map_writeReelAsset, encoded] at hv
      · simp [encoded] at hv

theorem go_eye_handling_witness :
    0 < from_frames 1 scheduleFilm.video_frame_rate
    ∧ schedulePlayer.get_video 4000
        = [{ image := 4000, eyes := Eyes.LEFT }, { image := 4000, eyes := Eyes.RIGHT }]
    ∧ encoded (go scheduleFilm schedulePlayer 3).1
        = [{ image := 0, eyes := Eyes.BOTH }, { image := 4000, eyes := Eyes.BOTH },
           { image := 8000, eyes := Eyes.BOTH }] :=
  ⟨by decide, rfl,
   (go_eye_handling scheduleFilm schedulePlayer (by decide) 3 (by decide)).2.1.trans
     (by decide)⟩

/-- C2: when the one-frame duration `f` is positive, `Transcoder::go` returns (its loop needs
`ceil (L / f)` iterations), and the calls it makes are, in order: the start-up calls; then
for each time `t = 0, f, 2f, ...` below the film length `L`, in increasing order, the
encoding of that time's video frames, then the writing of that quantum's audio, then (only if
some used subtitle content is not burnt in) the writing of that quantum's subtitles, then the
progress report; then, after the last quantum, the writing of the referenced reel assets and
the closing calls. -/
theorem go_schedule (film : TFilm) (player : TPlayer)
    (hf : 0 < from_frames 1 film.video_frame_rate) (fuel : Nat)
    (hfuel : (film.length + from_frames 1 film.video_frame_rate - 1)
        / from_frames 1 film.video_frame_rate ≤ fuel) :
    go film player fuel
      = ([Event.writerStart, Event.encoderBegin, Event.jobSub]
          ++ (if (countSubtitles film.content).2 ≠ 0 then [Event.writeFonts] else [])
          ++ (((List.range ((film.length + from_frames 1 film.video_frame_rate - 1)
                  / from_frames 1 film.video_frame_rate)).map
                (fun k => k * from_frames 1 film.video_frame_rate)).map
              (fun t =>
                encodeVideo film.three_d (player.get_video t)
                  ++ [Event.writeAudio t (from_frames 1 film.video_frame_rate)]
                  ++ (if (countSubtitles film.content).2 ≠ 0
                      then [Event.writeSubtitles t (from_frames 1 film.video_frame_rate)]
                      else [])
                  ++ [Event.setProgress t film.length])).flatten
          ++ (player.get_reel_assets.map Event.writeReelAsset
              ++ [Event.encoderEnd, Event.writerFinish]),
         true)
    ∧ (∀ t, t ∈ (List.range ((film.length + from_frames 1 film.video_frame_rate - 1)
                  / from_frames 1 film.video_frame_rate)).map
                (fun k => k * from_frames 1 film.video_frame_rate)
          ↔ (∃ k, t = k * from_frames 1 film.video_frame_rate) ∧ t < film.length)
    ∧ ((List.range ((film.length + from_frames 1 film.video_frame_rate - 1)
                  / from_frames 1 film.video_frame_rate)).map
                (fun k => k * from_frames 1 film.video_frame_rate)).Pairwise (· < ·)
    ∧ ((countSubtitles film.content).2 ≠ 0
          ↔ ∃ c ∈ film.content, ∃ s, c.subtitle = some s ∧ s.use = true ∧ s.burn = false) := by
  generalize hfr : from_frames 1 film.video_frame_rate = f at hf hfuel
  refine ⟨?_, ?_, ?_, countSubtitles_non_burnt _⟩
  · have h := goLoop_eq film player (countSubtitles film.content).2 f hf fuel 0
      (by simpa using hfuel)
    unfold go
    simp only [hfr, h, Nat.sub_zero, Nat.zero_add, if_true]
    rfl
  · intro t
    simp only [List.mem_map, List.mem_range]
    constructor
    · rintro ⟨k, hk, rfl⟩
      refine ⟨⟨k, rfl⟩, ?_⟩
      have h1 : k + 1 ≤ (film.length + f - 1) / f := hk
      have h2 := (Nat.le_div_iff_mul_le hf).mp h1
      rw [Nat.succ_mul] at h2
      omega
    · rintro ⟨⟨k, rfl⟩, hlt⟩
      refine ⟨k, ?_, rfl⟩
      have : k + 1 ≤ (film.length + f - 1) / f := by
        rw [Nat.le_div_iff_mul_le hf, Nat.succ_mul]
        omega
      exact this
  · rw [List.pairwise_map]
    refine List.Pairwise.imp ?_ (List.pairwise_lt_range _)
    intro a b hab
    exact Nat.mul_lt_mul_of_pos_right hab hf

theorem go_schedule_witness :
    0 < from_frames 1 scheduleFilm.video_frame_rate
    ∧ go scheduleFilm schedulePlayer 3
      = ([Event.writerStart, Event.encoderBegin, Event.jobSub, Event.writeFonts,
          Event.encode { image := 0, eyes := Eyes.BOTH },
          Event.writeAudio 0 4000, Event.writeSubtitles 0 4000, Event.setProgress 0 12000,
          Event.encode { image := 4000, eyes := Eyes.BOTH },
          Event.writeAudio 4000 4000, Event.writeSubtitles 4000 4000,
          Event.setProgress 4000 12000,
          Event.encode { image := 8000, eyes := Eyes.BOTH },
          Event.writeAudio 8000 4000, Event.writeSubtitles 8000 4000,
          Event.setProgress 8000 12000,
          Event.writeReelAsset 7, Event.encoderEnd, Event.writerFinish], true) :=
  ⟨by decide,
   (go_schedule scheduleFilm schedulePlayer (by decide) 3 (by decide)).1.trans (by decide)⟩

/-! ### Transcoder::go: the progress reports -/

theorem progressValue_mono (rnd : ℚ → ℚ) (hmono : Monotone rnd) (h1 : rnd 1 = 1)
    (t u length : Nat) (htu : t ≤ u) (hl : 0 < length) :
    progressValue rnd t length ≤ progressValue rnd u length := by
  unfold progressValue
  apply hmono
  have hpos : (0 : ℚ) ≤ rnd (length : ℚ) := by
    have : rnd 1 ≤ rnd (length : ℚ) := hmono (by exact_mod_cast hl)
    linarith
  exact div_le_div_of_nonneg_right (hmono (by exact_mod_cast htu)) hpos

theorem progressValue_range (rnd : ℚ → ℚ) (hmono : Monotone rnd) (h0 : rnd 0 = 0)
    (h1 : rnd 1 = 1) (t length : Nat) (ht : t < length) :
    0 ≤ progressValue rnd t length ∧ progressValue rnd t length ≤ 1 := by
  unfold progressValue
  have hpos : (0 : ℚ) < rnd (length : ℚ) := by
    have : rnd 1 ≤ rnd (length : ℚ) := hmono (by exact_mod_cast (show 1 ≤ length by omega))
    linarith
  have ht0 : (0 : ℚ) ≤ rnd (t : ℚ) := by
    have : rnd 0 ≤ rnd (t : ℚ) := hmono (by exact_mod_cast Nat.zero_le t)
    linarith
  have htl : rnd (t : ℚ) ≤ rnd (length : ℚ) := hmono (by exact_mod_cast ht.le)
  constructor
  · have : rnd 0 ≤ rnd (rnd (t : ℚ) / rnd (length : ℚ)) := hmono (div_nonneg ht0 hpos.le)
    linarith
  · have : rnd (rnd (t : ℚ) / rnd (length : ℚ)) ≤ rnd 1 :=
      hmono ((div_le_one hpos).mpr htl)
    linarith

theorem progressValues_quantum (rnd : ℚ → ℚ) (film : TFilm) (player : TPlayer)
    (nb frame t : Nat) :
    progressValues rnd (quantum film player nb frame t) = [progressValue rnd t film.length] := by
  unfold quantum
  split_ifs <;>
    simp [progressValues_append, progressValues_encodeVideo, progressValues]

theorem goLoop_progress (rnd : ℚ → ℚ) (hmono : Monotone rnd) (h0 : rnd 0 = 0)
    (h1 : rnd 1 = 1) (film : TFilm) (player : TPlayer) (nb frame : Nat) :
    ∀ fuel t,
      (progressValues rnd (goLoop film player nb frame fuel t).1).Pairwise (· ≤ ·)
      ∧ ∀ p ∈ progressValues rnd (goLoop film player nb frame fuel t).1,
          progressValue rnd t film.length ≤ p ∧ 0 ≤ p ∧ p ≤ 1 := by
  intro fuel
  induction fuel with
  | zero => intro t; simp [goLoop, progressValues]
  | succ fuel ih =>
    intro t
    unfold goLoop
    by_cases hlt : t < film.length
    · rw [if_pos hlt]
      simp only [progressValues_append, progressValues_quantum, List.singleton_append,
        List.pairwise_cons, List.mem_cons]
      obtain ⟨ihs, ihb⟩ := ih (t + frame)
      have hstep : progressValue rnd t film.length ≤ progressValue rnd (t + frame) film.length :=
        progressValue_mono rnd hmono h1 t (t + frame) film.length (Nat.le_add_right _ _)
          (by omega)
      refine ⟨⟨fun p hp => le_trans hstep (ihb p hp).1, ihs⟩, ?_⟩
      rintro p (rfl | hp)
      · exact ⟨le_refl _, progressValue_range rnd hmono h0 h1 t film.length hlt⟩
      · exact ⟨le_trans hstep (ihb p hp).1, (ihb p hp).2⟩
    · rw [if_neg hlt]
      simp [progressValues]

/-- C3: over one run of `Transcoder::go` (complete, or cut after any number of loop
iterations), the progress values `float(t) / length` reported to the job are
non-decreasing and every one of them lies in `[0, 1]`; `rnd` is the rounding to single
precision, of which only monotonicity and the exactness of 0 and 1 are used. -/
theorem go_progress_monotone (rnd : ℚ → ℚ) (hmono : Monotone rnd) (h0 : rnd 0 = 0)
    (h1 : rnd 1 = 1) (film : TFilm) (player : TPlayer) (fuel : Nat) :
    (progressValues rnd (go film player fuel).1).Pairwise (· ≤ ·)
    ∧ ∀ p ∈ progressValues rnd (go film player fuel).1, 0 ≤ p ∧ p ≤ 1 := by
  obtain ⟨hs, hb⟩ := goLoop_progress rnd hmono h0 h1 film player
    (countSubtitles film.content).2 (from_frames 1 film.video_frame_rate) fuel 0
  have e : progressValues rnd (go film player fuel).1
      = progressValues rnd (goLoop film player (countSubtitles film.content).2
          (from_frames 1 film.video_frame_rate) fuel 0).1 := by
    unfold go
    simp only [progressValues_append]
    split_ifs <;>
      simp [progressValues, progressValues_append, progressValues_map_writeReelAsset]
  rw [e]
  exact ⟨hs, fun p hp => (hb p hp).2⟩

theorem scheduleFilm_progress :
    progressValues id (go scheduleFilm schedulePlayer 3).1 = [0, 1 / 3, 2 / 3] := by
  have e : go scheduleFilm schedulePlayer 3
      = ([Event.writerStart, Event.encoderBegin, Event.jobSub, Event.writeFonts,
          Event.encode { image := 0, eyes := Eyes.BOTH },
          Event.writeAudio 0 4000, Event.writeSubtitles 0 4000, Event.setProgress 0 12000,
          Event.encode { image := 4000, eyes := Eyes.BOTH },
          Event.writeAudio 4000 4000, Event.writeSubtitles 4000 4000,
          Event.setProgress 4000 12000,
          Event.encode { image := 8000, eyes := Eyes.BOTH },
          Event.writeAudio 8000 4000, Event.writeSubtitles 8000 4000,
          Event.setProgress 8000 12000,
          Event.writeReelAsset 7, Event.encoderEnd, Event.writerFinish], true) := by
    decide
  rw [e]
  simp [progressValues, progressValue]
  norm_num

theorem go_progress_monotone_witness :
    Monotone (id : ℚ → ℚ)
    ∧ progressValues id (go scheduleFilm schedulePlayer 3).1 = [0, 1 / 3, 2 / 3]
    ∧ (progressValues id (go scheduleFilm schedulePlayer 3).1).Pairwise (· ≤ ·) :=
  ⟨monotone_id, scheduleFilm_progress,
   (go_progress_monotone id monotone_id rfl rfl scheduleFilm schedulePlayer 3).1⟩

/-! ### Floating point -/

theorem round_half_even_intCast (z : Int) : round_half_even (z : ℚ) = z := by
  unfold round_half_even
  rw [Int.floor_intCast]
  norm_num

theorem int_log_eq (q : ℚ) (e : Int) (h1 : (2 : ℚ) ^ e ≤ q) (h2 : q < (2 : ℚ) ^ (e + 1)) :
    Int.log 2 q = e := by
  have hq : 0 < q := lt_of_lt_of_le (by positivity) h1
  apply le_antisymm
  · have h := Int.zpow_log_le_self (by norm_num : 1 < 2) hq
    have h3 : ((2 : ℕ) : ℚ) ^ Int.log 2 q < ((2 : ℕ) : ℚ) ^ (e + 1) :=
      lt_of_le_of_lt h (by exact_mod_cast h2)
    have := (zpow_lt_zpow_iff_right₀ (by norm_num : (1 : ℚ) < ((2 : ℕ) : ℚ))).mp h3
    omega
  · have h := Int.lt_zpow_succ_log_self (by norm_num : 1 < 2) q
    have h3 : ((2 : ℕ) : ℚ) ^ e < ((2 : ℕ) : ℚ) ^ (Int.log 2 q + 1) :=
      lt_of_le_of_lt (by exact_mod_cast h1) h
    have := (zpow_lt_zpow_iff_right₀ (by norm_num : (1 : ℚ) < ((2 : ℕ) : ℚ))).mp h3
    omega

theorem round_half_even_nonneg (q : ℚ) (h : 0 ≤ q) : 0 ≤ round_half_even q := by
  have hf : 0 ≤ ⌊q⌋ := Int.floor_nonneg.mpr h
  unfold round_half_even
  split_ifs <;> omega

theorem nearest_nonneg (p : Nat) (q : ℚ) (h : 0 ≤ q) : 0 ≤ nearest p q := by
  unfold nearest
  split_ifs
  · exact le_refl 0
  · apply div_nonneg
    · exact_mod_cast round_half_even_nonneg _ (mul_nonneg h (by positivity))
    · positivity

theorem to_float_drift : to_float (1 / 16384) = 1 / 16384 := by
  have hl : Int.log 2 |(1 / 16384 : ℚ)| = -14 := by
    apply int_log_eq
    · rw [abs_of_pos (by norm_num)]; norm_num
    · rw [abs_of_pos (by norm_num)]; norm_num
  have hm : (1 / 16384 : ℚ) * 2 ^ ((24 : Nat) - 1 - (-14) : Int) = ((8388608 : Int) : ℚ) := by
    norm_num
  unfold to_float nearest
  rw [if_neg (by norm_num), hl, hm, round_half_even_intCast]
  norm_num

theorem to_double_faint : to_double (1 / 768) = faintThreshold := by
  have hl : Int.log 2 |(1 / 768 : ℚ)| = -10 := by
    apply int_log_eq
    · rw [abs_of_pos (by norm_num)]; norm_num
    · rw [abs_of_pos (by norm_num)]; norm_num
  have hf : ⌊(1 / 768 : ℚ) * 2 ^ (62 : Int)⌋ = 6004799503160661 := by
    rw [Int.floor_eq_iff]
    norm_num
  unfold to_double nearest faintThreshold
  rw [if_neg (by norm_num), hl]
  norm_num [round_half_even, hf]

theorem to_double_tolerance : to_double (1 / 10000) = tolerance := by
  have hl : Int.log 2 |(1 / 10000 : ℚ)| = -14 := by
    apply int_log_eq
    · rw [abs_of_pos (by norm_num)]; norm_num
    · rw [abs_of_pos (by norm_num)]; norm_num
  have hf : ⌊(1 / 10000 : ℚ) * 2 ^ (66 : Int)⌋ = 7378697629483820 := by
    rw [Int.floor_eq_iff]
    norm_num
  unfold to_double nearest tolerance
  rw [if_neg (by norm_num), hl]
  norm_num [round_half_even, hf]

/-! ### render_text: grouping of subtitles into images -/

theorem to_float_zero : to_float 0 = 0 := by
  simp [to_float, nearest]

theorem tolerance_pos : 0 < tolerance := by
  unfold tolerance
  norm_num

theorem render_text_interleaved :
    render_text to_float id interleaved
      = [[{ text := "a", v_align := VAlign.TOP, v_position := 0 }],
         [{ text := "b", v_align := VAlign.BOTTOM, v_position := 0 }],
         [{ text := "c", v_align := VAlign.TOP, v_position := 0 }]] := by
  simp [render_text, render_text_loop, interleaved, startsNewLine]

theorem render_text_drifting :
    render_text to_float id drifting = [drifting] := by
  have h1 : ¬ (tolerance < |to_float (1 / 16384 - 0)|) := by
    rw [sub_zero, to_float_drift, abs_of_pos (by norm_num)]
    unfold tolerance
    norm_num
  have h2 : ¬ (tolerance < |to_float (1 / 8192 - 1 / 16384)|) := by
    have e : (1 / 8192 - 1 / 16384 : ℚ) = 1 / 16384 := by norm_num
    rw [e, to_float_drift, abs_of_pos (by norm_num)]
    unfold tolerance
    norm_num
  unfold render_text drifting
  simp only [render_text_loop, startsNewLine, List.getLast?_nil, List.nil_append,
    List.getLast?_singleton, List.getLast?_append, List.getLast?_cons_cons, Option.or,
    ne_eq, not_true_eq_false, false_or, gt_iff_lt, h1, h2, decide_False, Bool.false_eq_true,
    if_false, List.isEmpty_cons, Bool.not_false, if_true, id, List.singleton_append,
    List.cons_append]

theorem startsNewLine_true (rnd : ℚ → ℚ) (i : StringText) (pending : List StringText)
    (h : startsNewLine rnd i pending = true) :
    ∃ b, pending.getLast? = some b ∧ ¬ sameLineComputed rnd b i := by
  unfold startsNewLine at h
  cases hb : pending.getLast? with
  | none => simp [hb] at h
  | some b =>
    refine ⟨b, rfl, ?_⟩
    simp only [hb, decide_eq_true_eq] at h
    unfold sameLineComputed
    rintro ⟨h1, h2⟩
    rcases h with h | h
    · exact h h1
    · exact absurd h2 (not_le.mpr h)

theorem startsNewLine_false (rnd : ℚ → ℚ) (i : StringText) (pending : List StringText)
    (h : startsNewLine rnd i pending = false) :
    ∀ b ∈ pending.getLast?, sameLineComputed rnd b i := by
  intro b hb
  unfold startsNewLine at h
  rw [Option.mem_def] at hb
  simp only [hb, decide_eq_false_iff_not, not_or, not_not, not_lt] at h
  exact h

theorem render_text_loop_images {α : Type} (rnd : ℚ → ℚ) (f : List StringText → α) :
    ∀ (rest pending : List StringText) (images : List α),
      render_text_loop rnd f rest pending images = images ++ render_text_loop rnd f rest pending [] := by
  intro rest
  induction rest with
  | nil =>
    intro pending images
    cases pending <;> simp [render_text_loop]
  | cons i rest ih =>
    intro pending images
    unfold render_text_loop
    split_ifs
    · rw [ih [i] (images ++ [f pending]), ih [i] ([] ++ [f pending])]
      simp
    · exact ih _ _

theorem render_text_loop_map {α : Type} (rnd : ℚ → ℚ) (f : List StringText → α) :
    ∀ (rest pending : List StringText),
      render_text_loop rnd f rest pending [] = (render_text_loop rnd id rest pending []).map f := by
  intro rest
  induction rest with
  | nil =>
    intro pending
    cases pending <;> simp [render_text_loop]
  | cons i rest ih =>
    intro pending
    unfold render_text_loop
    split_ifs
    · rw [render_text_loop_images rnd f, render_text_loop_images rnd id, ih]
      simp
    · exact ih _

theorem render_text_loop_flatten (rnd : ℚ → ℚ) :
    ∀ (rest pending : List StringText),
      (render_text_loop rnd id rest pending []).flatten = pending ++ rest := by
  intro rest
  induction rest with
  | nil =>
    intro pending
    cases pending <;> simp [render_text_loop]
  | cons i rest ih =>
    intro pending
    unfold render_text_loop
    split_ifs
    · rw [render_text_loop_images rnd id, List.flatten_append, ih]
      simp
    · rw [ih]
      simp

theorem render_text_loop_head (rnd : ℚ → ℚ) :
    ∀ (rest pending : List StringText), pending ≠ [] →
      ∃ ext tail, render_text_loop rnd id rest pending [] = (pending ++ ext) :: tail := by
  intro rest
  induction rest with
  | nil =>
    intro pending hp
    refine ⟨[], [], ?_⟩
    cases pending with
    | nil => exact absurd rfl hp
    | cons a l => simp [render_text_loop]
  | cons i rest ih =>
    intro pending hp
    unfold render_text_loop
    split_ifs
    · rw [render_text_loop_images rnd id]
      exact ⟨[], render_text_loop rnd id rest [i] [], by simp⟩
    · obtain ⟨ext, tail, h⟩ := ih (pending ++ [i]) (by simp)
      exact ⟨[i] ++ ext, tail, by rw [h]; simp⟩

theorem render_text_loop_nonempty (rnd : ℚ → ℚ) :
    ∀ (rest pending : List StringText), [] ∉ render_text_loop rnd id rest pending [] := by
  intro rest
  induction rest with
  | nil =>
    intro pending
    cases pending <;> simp [render_text_loop]
  | cons i rest ih =>
    intro pending
    unfold render_text_loop
    split_ifs with h
    · rw [render_text_loop_images rnd id]
      obtain ⟨b, hb, _⟩ := startsNewLine_true rnd i pending h
      have hp : pending ≠ [] := by
        rintro rfl
        simp at hb
      simp only [List.nil_append, id, List.mem_append, List.mem_singleton, not_or]
      exact ⟨fun e => hp e.symm, ih _⟩
    · exact ih _

theorem render_text_loop_chain (rnd : ℚ → ℚ) :
    ∀ (rest pending : List StringText), pending.Chain' (sameLineComputed rnd) →
      ∀ g ∈ render_text_loop rnd id rest pending [], g.Chain' (sameLineComputed rnd) := by
  intro rest
  induction rest with
  | nil =>
    intro pending hp g hg
    cases pending with
    | nil => simp [render_text_loop] at hg
    | cons a l =>
      simp [render_text_loop] at hg
      rw [hg]
      exact hp
  | cons i rest ih =>
    intro pending hp g hg
    unfold render_text_loop at hg
    split_ifs at hg with h
    · rw [render_text_loop_images rnd id] at hg
      simp only [List.nil_append, id, List.mem_append, List.mem_singleton] at hg
      rcases hg with rfl | hg
      · exact hp
      · exact ih [i] (List.chain'_singleton i) g hg
    · refine ih (pending ++ [i]) ?_ g hg
      refine List.Chain'.append hp (List.chain'_singleton i) ?_
      intro x hx y hy
      simp only [List.head?_cons, Option.mem_def, Option.some.injEq] at hy
      rw [← hy]
      exact startsNewLine_false rnd i pending (by simpa using h) x hx

theorem render_text_loop_breaks (rnd : ℚ → ℚ) :
    ∀ (rest pending : List StringText),
      (render_text_loop rnd id rest pending []).Chain'
        (fun g h => ∃ a b, g.getLast? = some a ∧ h.head? = some b ∧ ¬ sameLineComputed rnd a b) := by
  intro rest
  induction rest with
  | nil =>
    intro pending
    cases pending <;> simp [render_text_loop]
  | cons i rest ih =>
    intro pending
    unfold render_text_loop
    split_ifs with h
    · rw [render_text_loop_images rnd id]
      obtain ⟨b, hb, hnb⟩ := startsNewLine_true rnd i pending h
      obtain ⟨ext, tail, e⟩ := render_text_loop_head rnd rest [i] (by simp)
      have ih' := ih [i]
      rw [e] at ih' ⊢
      simp only [List.nil_append, id, List.singleton_append]
      exact List.Chain'.cons ⟨b, i, hb, by simp, hnb⟩ ih'
    · exact ih _

theorem chain_same_align (rnd : ℚ → ℚ) (g : List StringText) (h : g.Chain' (sameLineComputed rnd)) :
    ∀ a ∈ g, ∀ b ∈ g, a.v_align = b.v_align := by
  induction g with
  | nil => intro a ha; simp at ha
  | cons x l ih =>
    have hl := ih h.tail
    have hx : ∀ b ∈ l, x.v_align = b.v_align := by
      intro b hb
      cases l with
      | nil => simp at hb
      | cons y l' =>
        have hxy : sameLineComputed rnd x y := (List.chain'_cons.mp h).1
        rw [← hxy.1]
        exact hl y (List.mem_cons_self _ _) b hb
    intro a ha b hb
    rcases List.mem_cons.mp ha with ha | ha <;> rcases List.mem_cons.mp hb with hb | hb
    · rw [ha, hb]
    · rw [ha]
      exact hx b hb
    · rw [hb]
      exact (hx a ha).symm
    · exact hl a ha b hb

theorem to_float_rounded :
    to_float (1849059 / 17179869184 - 8388613 / 1099511627776) = 13743895 / 137438953472 := by
  have e : (1849059 / 17179869184 - 8388613 / 1099511627776 : ℚ)
      = 109951163 / 1099511627776 := by norm_num
  have hl : Int.log 2 |(109951163 / 1099511627776 : ℚ)| = -14 := by
    apply int_log_eq
    · rw [abs_of_pos (by norm_num)]; norm_num
    · rw [abs_of_pos (by norm_num)]; norm_num
  have hf : ⌊(109951163 / 1099511627776 : ℚ) * 2 ^ (37 : Int)⌋ = 13743895 := by
    rw [Int.floor_eq_iff]
    norm_num
  rw [e]
  unfold to_float nearest
  rw [if_neg (by norm_num), hl]
  norm_num [round_half_even, hf]

theorem render_text_rounded :
    render_text to_float id rounded = [rounded] := by
  have h1 : ¬ (tolerance
      < |to_float (1849059 / 17179869184 - 8388613 / 1099511627776)|) := by
    rw [to_float_rounded, abs_of_pos (by norm_num)]
    unfold tolerance
    norm_num
  unfold render_text rounded
  simp only [render_text_loop, startsNewLine, List.getLast?_nil, List.nil_append,
    List.getLast?_singleton, ne_eq, not_true_eq_false, false_or, gt_iff_lt, h1, decide_False,
    Bool.false_eq_true, if_false, List.isEmpty_cons, Bool.not_false, if_true, id,
    List.singleton_append]

/-- C4 (does not hold as stated): with three subtitles top, bottom, top at the same vertical
position, the first and the third have the same alignment and positions 0 apart, yet each
of the three is rendered into an image of its own; and three top-aligned subtitles at
positions 0, 2^-14, 2^-13 are rendered into one image although the first and the third are
more than 1e-4 apart; and two top-aligned subtitles at the positions 8388613 / 2^40 and
1849059 / 2^34, which are more than 1e-4 apart, are rendered into one image, their
difference in single precision being less than 1e-4. -/
theorem render_text_grouping_counterexample :
    (render_text to_float id interleaved
        = [[{ text := "a", v_align := VAlign.TOP, v_position := 0 }],
           [{ text := "b", v_align := VAlign.BOTTOM, v_position := 0 }],
           [{ text := "c", v_align := VAlign.TOP, v_position := 0 }]]
      ∧ sameLine { text := "a", v_align := VAlign.TOP, v_position := 0 }
          { text := "c", v_align := VAlign.TOP, v_position := 0 }
      ∧ ¬ ∃ g ∈ render_text to_float id interleaved,
          ({ text := "a", v_align := VAlign.TOP, v_position := 0 } : StringText) ∈ g
          ∧ ({ text := "c", v_align := VAlign.TOP, v_position := 0 } : StringText) ∈ g)
    ∧ (render_text to_float id drifting
        = [[{ text := "d", v_align := VAlign.TOP, v_position := 0 },
            { text := "e", v_align := VAlign.TOP, v_position := 1 / 16384 },
            { text := "f", v_align := VAlign.TOP, v_position := 1 / 8192 }]]
      ∧ ¬ sameLine { text := "d", v_align := VAlign.TOP, v_position := 0 }
          { text := "f", v_align := VAlign.TOP, v_position := 1 / 8192 })
    ∧ (render_text to_float id rounded
        = [[{ text := "g", v_align := VAlign.TOP, v_position := 8388613 / 1099511627776 },
            { text := "h", v_align := VAlign.TOP, v_position := 1849059 / 17179869184 }]]
      ∧ ¬ sameLine { text := "g", v_align := VAlign.TOP, v_position := 8388613 / 1099511627776 }
          { text := "h", v_align := VAlign.TOP, v_position := 1849059 / 17179869184 }) := by
  refine ⟨⟨render_text_interleaved, ?_, ?_⟩, ⟨render_text_drifting, ?_⟩,
    render_text_rounded, ?_⟩
  · simp [sameLine]
  · rw [render_text_interleaved]
    simp
  · simp only [sameLine, true_and, sub_zero, not_le]
    rw [abs_of_pos (by norm_num)]
    norm_num
  · simp only [sameLine, true_and, not_le]
    rw [abs_of_pos (by norm_num)]
    norm_num

/-- C4 (amended): `render_text` cuts the list of subtitles, in order, into maximal runs of
consecutive subtitles in which every subtitle has the same vertical alignment as the one
before it and a vertical position whose difference from that of the one before it, taken
in single precision as the code takes it, is at most the literal 1e-4 in absolute value,
and renders one image per run: the runs are non-empty and concatenate to the input,
adjacent members of a run are on the same line in this sense, the last subtitle of a run
and the first of the next are not, all members of a run have the same vertical alignment
(so subtitles with differing alignment are in different images), and an empty list yields
no image.  This holds whatever the rounding `rnd` of a difference to single precision
is. -/
theorem render_text_runs {α : Type} (rnd : ℚ → ℚ) (render_line : List StringText → α)
    (subtitles : List StringText) :
    render_text rnd render_line subtitles = (render_text rnd id subtitles).map render_line
    ∧ (render_text rnd id subtitles).flatten = subtitles
    ∧ (∀ g ∈ render_text rnd id subtitles, g ≠ [])
    ∧ (∀ g ∈ render_text rnd id subtitles, g.Chain' (sameLineComputed rnd))
    ∧ (render_text rnd id subtitles).Chain'
        (fun g h => ∃ a b, g.getLast? = some a ∧ h.head? = some b
          ∧ ¬ sameLineComputed rnd a b)
    ∧ (∀ g ∈ render_text rnd id subtitles, ∀ a ∈ g, ∀ b ∈ g, a.v_align = b.v_align)
    ∧ render_text rnd render_line [] = [] := by
  unfold render_text
  refine ⟨render_text_loop_map rnd render_line subtitles [], ?_, ?_, ?_, ?_, ?_, ?_⟩
  · simpa using render_text_loop_flatten rnd subtitles []
  · intro g hg e
    exact render_text_loop_nonempty rnd subtitles [] (e ▸ hg)
  · exact render_text_loop_chain rnd subtitles [] List.chain'_nil
  · exact render_text_loop_breaks rnd subtitles []
  · intro g hg
    exact chain_same_align rnd g (render_text_loop_chain rnd subtitles [] List.chain'_nil g hg)
  · simp [render_text_loop]

/-! ### Film::reels: by length -/

theorem reelsByLengthLoop_eq (step length : Nat) (hs : 0 < step) :
    ∀ fuel current, length - current ≤ fuel →
      reelsByLengthLoop step length fuel current
        = some ((List.range ((length - current + step - 1) / step)).map
            (fun k => ⟨current + k * step, min length (current + (k + 1) * step)⟩)) := by
  intro fuel
  induction fuel with
  | zero =>
    intro current h
    have h0 : (length - current + step - 1) / step = 0 := by
      apply Nat.div_eq_of_lt
      omega
    have hlt : ¬ current < length := by omega
    simp [reelsByLengthLoop, h0, hlt]
  | succ fuel ih =>
    intro current h
    unfold reelsByLengthLoop
    by_cases hlt : current < length
    · rw [if_pos hlt, remaining_succ length step current hs hlt,
        ih (min length (current + step)) (by omega)]
      simp only [Option.map_some', List.range_succ_eq_map, List.map_cons, List.map_map,
        Nat.zero_mul, Nat.add_zero, Nat.zero_add, Nat.one_mul, Option.some.injEq,
        List.cons.injEq, true_and]
      by_cases hc : current + step < length
      · rw [Nat.min_eq_right hc.le]
        apply List.map_congr_left
        intro k _
        simp only [Function.comp, Nat.succ_mul, Period.mk.injEq]
        constructor
        · omega
        · congr 1
          omega
      · have e1 : (length - min length (current + step) + step - 1) / step = 0 := by
          apply Nat.div_eq_of_lt
          omega
        have e2 : (length - (current + step) + step - 1) / step = 0 := by
          apply Nat.div_eq_of_lt
          omega
        rw [e1, e2]
        rfl
    · have h0 : (length - current + step - 1) / step = 0 := by
        apply Nat.div_eq_of_lt
        omega
      simp [hlt, h0]

theorem reel_step_budget (film : Film) :
    from_frames film.reel_in_frames film.video_frame_rate * film.j2k_bandwidth
      ≤ film.reel_length * 8 * HZ := by
  unfold from_frames Film.reel_in_frames
  by_cases hr : film.video_frame_rate = 0
  · simp [hr]
  · have hr' : 0 < film.video_frame_rate := Nat.pos_of_ne_zero hr
    apply Nat.le_of_mul_le_mul_right _ hr'
    calc film.reel_length * 8 * film.video_frame_rate / film.j2k_bandwidth * HZ
            / film.video_frame_rate * film.j2k_bandwidth * film.video_frame_rate
        = (film.reel_length * 8 * film.video_frame_rate / film.j2k_bandwidth * HZ
            / film.video_frame_rate * film.video_frame_rate) * film.j2k_bandwidth := by ring
      _ ≤ (film.reel_length * 8 * film.video_frame_rate / film.j2k_bandwidth * HZ)
            * film.j2k_bandwidth :=
          Nat.mul_le_mul_right _ (Nat.div_mul_le_self _ _)
      _ = (film.reel_length * 8 * film.video_frame_rate / film.j2k_bandwidth
            * film.j2k_bandwidth) * HZ := by ring
      _ ≤ (film.reel_length * 8 * film.video_frame_rate) * HZ :=
          Nat.mul_le_mul_right _ (Nat.div_mul_le_self _ _)
      _ = film.reel_length * 8 * HZ * film.video_frame_rate := by ring

/-- C5: under the by-length policy, when a reel of `floor (reel_length * 8 * frame_rate /
j2k_bandwidth)` frames has at least one tick, `Film::reels` returns the consecutive
periods `[k * step, min (length, (k + 1) * step))` for `k = 0, 1, ...` while
`k * step < length`, where `step` is the duration of that many frames: reels of that many
frames each, the last one taking the remainder.  The J2K data of each reel (its duration
times the bandwidth) stays within the budget of `8 * reel_length` bits.  For 100 Mbit/s,
31,253,154 bytes, 24 fps and the 144 frames of `reels_test1` the reels end at frames 60,
120 and 144. -/
theorem reels_by_length (film : Film) (hty : film.reel_type = ReelType.BY_LENGTH)
    (hstep : 0 < from_frames film.reel_in_frames film.video_frame_rate) :
    film.reel_in_frames = film.reel_length * 8 * film.video_frame_rate / film.j2k_bandwidth
    ∧ film.reels
      = some ((List.range
            ((film.length + from_frames film.reel_in_frames film.video_frame_rate - 1)
              / from_frames film.reel_in_frames film.video_frame_rate)).map
          (fun k =>
            ⟨k * from_frames film.reel_in_frames film.video_frame_rate,
             min film.length
              ((k + 1) * from_frames film.reel_in_frames film.video_frame_rate)⟩))
    ∧ (∀ rs, film.reels = some rs → ∀ p ∈ rs,
        (p.to_ - p.from_) * film.j2k_bandwidth ≤ film.reel_length * 8 * HZ)
    ∧ (reelsTest1 ReelType.BY_LENGTH).length = from_frames 144 24
    ∧ (reelsTest1 ReelType.BY_LENGTH).reels
      = some [⟨0, from_frames 60 24⟩, ⟨from_frames 60 24, from_frames 120 24⟩,
          ⟨from_frames 120 24, from_frames 144 24⟩] := by
  have hreels : film.reels
      = some ((List.range
            ((film.length + from_frames film.reel_in_frames film.video_frame_rate - 1)
              / from_frames film.reel_in_frames film.video_frame_rate)).map
          (fun k =>
            ⟨k * from_frames film.reel_in_frames film.video_frame_rate,
             min film.length
              ((k + 1) * from_frames film.reel_in_frames film.video_frame_rate)⟩)) := by
    unfold Film.reels
    rw [hty]
    simp only
    rw [reelsByLengthLoop_eq _ _ hstep film.length 0 (by omega)]
    simp
  refine ⟨rfl, hreels, ?_, by decide, by decide⟩
  intro rs hrs p hp
  rw [hreels] at hrs
  injection hrs with hrs
  rw [← hrs] at hp
  simp only [List.mem_map, List.mem_range] at hp
  obtain ⟨k, _, rfl⟩ := hp
  refine le_trans (Nat.mul_le_mul_right _ ?_) (reel_step_budget film)
  simp only
  rw [Nat.succ_mul]
  omega

theorem reels_by_length_witness :
    0 < from_frames (reelsTest1 ReelType.BY_LENGTH).reel_in_frames 24
    ∧ (reelsTest1 ReelType.BY_LENGTH).reel_in_frames = 60
    ∧ (reelsTest1 ReelType.BY_LENGTH).reels
      = some [⟨0, 240000⟩, ⟨240000, 480000⟩, ⟨480000, 576000⟩] :=
  ⟨by decide, by decide,
   (reels_by_length (reelsTest1 ReelType.BY_LENGTH) rfl (by decide)).2.1.trans (by decide)⟩

/-! ### Film::reels: by video content -/

theorem periodsBetween_map_to (bs : List Nat) :
    ∀ s, (periodsBetween s bs).map Period.to_ = bs := by
  induction bs with
  | nil => intro s; rfl
  | cons t ts ih => intro s; simp [periodsBetween, ih]

theorem periodsBetween_chain (bs : List Nat) :
    ∀ s, (periodsBetween s bs).Chain' (fun p q => p.to_ = q.from_) := by
  induction bs with
  | nil => intro s; exact List.chain'_nil
  | cons t ts ih =>
    intro s
    unfold periodsBetween
    refine List.Chain'.cons' (ih t) ?_
    intro q hq
    cases ts with
    | nil => simp [periodsBetween] at hq
    | cons u us =>
      simp only [periodsBetween, List.head?_cons, Option.mem_def, Option.some.injEq] at hq
      rw [← hq]

theorem periodsBetween_nonempty (bs : List Nat) :
    ∀ s, (s :: bs).Sorted (· < ·) → ∀ p ∈ periodsBetween s bs, p.from_ < p.to_ := by
  induction bs with
  | nil => intro s _ p hp; simp [periodsBetween] at hp
  | cons t ts ih =>
    intro s hs p hp
    rw [List.sorted_cons] at hs
    simp only [periodsBetween, List.mem_cons] at hp
    rcases hp with rfl | hp
    · exact hs.1 t (List.mem_cons_self _ _)
    · exact ih t hs.2 p hp

theorem periodsBetween_getLast (bs : List Nat) (b : Nat) :
    ∀ s, (periodsBetween s (bs ++ [b])).getLast? = some ⟨lastBoundary s bs, b⟩ := by
  induction bs with
  | nil => intro s; rfl
  | cons t ts ih =>
    intro s
    have h := ih t
    show (⟨s, t⟩ :: periodsBetween t (ts ++ [b])).getLast? = some ⟨lastBoundary t ts, b⟩
    cases hts : periodsBetween t (ts ++ [b]) with
    | nil => rw [hts] at h; simp at h
    | cons q qs =>
      rw [hts] at h
      rw [List.getLast?_cons_cons]
      exact h

theorem lastBoundary_mem (bs : List Nat) :
    ∀ s, lastBoundary s bs = s ∨ lastBoundary s bs ∈ bs := by
  induction bs with
  | nil => intro s; exact Or.inl rfl
  | cons t ts ih =>
    intro s
    right
    rcases ih t with h | h
    · simp [lastBoundary, h]
    · simp [lastBoundary, h]

theorem le_lastBoundary (bs : List Nat) :
    ∀ s, (s :: bs).Sorted (· < ·) → ∀ x ∈ s :: bs, x ≤ lastBoundary s bs := by
  induction bs with
  | nil =>
    intro s _ x hx
    simp only [List.mem_singleton] at hx
    simp [lastBoundary, hx]
  | cons t ts ih =>
    intro s hs x hx
    rw [List.sorted_cons] at hs
    have ht := ih t hs.2
    rcases List.mem_cons.mp hx with rfl | hx
    · exact le_trans (hs.1 t (List.mem_cons_self _ _)).le (ht t (List.mem_cons_self _ _))
    · exact ht x hx

theorem mem_video_split_points (film : Film) (t : Nat) :
    t ∈ film.video_split_points
      ↔ (∃ c ∈ film.content, c.video = true ∧ t ∈ c.split_points)
        ∧ 0 < t ∧ t < film.length := by
  unfold Film.video_split_points
  simp only [List.mem_dedup, List.mem_insertionSort, List.mem_filter, List.mem_flatMap,
    decide_eq_true_eq]
  constructor
  · rintro ⟨⟨c, ⟨hc, hv⟩, ht⟩, h⟩
    exact ⟨⟨c, hc, hv, ht⟩, h⟩
  · rintro ⟨⟨c, hc, hv, ht⟩, h⟩
    exact ⟨⟨c, ⟨hc, hv⟩, ht⟩, h⟩

theorem sorted_video_split_points (film : Film) :
    film.video_split_points.Sorted (· < ·) := by
  unfold Film.video_split_points
  refine List.Sorted.lt_of_le ?_ (List.nodup_dedup _)
  exact List.Pairwise.sublist (List.dedup_sublist _) (List.sorted_insertionSort (· ≤ ·) _)

theorem sorted_boundaries (film : Film) (hlen : 0 < film.length) :
    (0 :: (film.video_split_points ++ [film.length])).Sorted (· < ·) := by
  rw [List.sorted_cons]
  constructor
  · intro b hb
    rcases List.mem_append.mp hb with hb | hb
    · exact ((mem_video_split_points film b).mp hb).2.1
    · simp only [List.mem_singleton] at hb
      omega
  · unfold List.Sorted
    rw [List.pairwise_append]
    refine ⟨sorted_video_split_points film, List.pairwise_singleton _ _, ?_⟩
    intro a ha b hb
    simp only [List.mem_singleton] at hb
    rw [hb]
    exact ((mem_video_split_points film a).mp ha).2.2

theorem periodsFrom_bounds (ls : List Nat) :
    ∀ s, ∀ p ∈ periodsFrom s ls, p.from_ ≤ s + ls.sum ∧ p.to_ ≤ s + ls.sum := by
  induction ls with
  | nil => intro s p hp; simp [periodsFrom] at hp
  | cons l ls ih =>
    intro s p hp
    simp only [periodsFrom, List.mem_cons] at hp
    simp only [List.sum_cons]
    rcases hp with rfl | hp
    · simp only
      omega
    · have := ih (s + l) p hp
      omega

theorem split_points_le_end (c : Content) (hc : c.reel_lengths.sum ≤ c.length) :
    ∀ t ∈ c.split_points, t ≤ c.end_ := by
  intro t ht
  unfold Content.split_points Content.reels at ht
  unfold Content.end_
  simp only [List.mem_append, List.mem_cons, List.mem_singleton, List.mem_map,
    List.not_mem_nil, or_false, Content.end_] at ht
  rcases ht with ((rfl | rfl) | ⟨p, hp, rfl⟩) | ⟨p, hp, rfl⟩
  · omega
  · omega
  · have := (periodsFrom_bounds c.reel_lengths c.position p hp).1
    omega
  · have := (periodsFrom_bounds c.reel_lengths c.position p hp).2
    omega

theorem periodsBetween_cover (bs : List Nat) :
    ∀ s t, s ≤ t → t < lastBoundary s bs → ∃ p ∈ periodsBetween s bs, p.contains t := by
  induction bs with
  | nil =>
    intro s t h1 h2
    simp only [lastBoundary] at h2
    omega
  | cons u us ih =>
    intro s t h1 h2
    by_cases htu : t < u
    · exact ⟨⟨s, u⟩, by simp [periodsBetween], ⟨h1, htu⟩⟩
    · obtain ⟨p, hp, hc⟩ := ih u t (by omega) h2
      exact ⟨p, by simp [periodsBetween, hp], hc⟩

theorem lastBoundary_append (bs : List Nat) (b : Nat) :
    ∀ s, lastBoundary s (bs ++ [b]) = b := by
  induction bs with
  | nil => intro s; rfl
  | cons t ts ih => intro s; simpa [lastBoundary] using ih t

theorem periodsBetween_from_mem (bs : List Nat) :
    ∀ s, ∀ p ∈ periodsBetween s bs, p.from_ ∈ s :: bs := by
  induction bs with
  | nil => intro s p hp; simp [periodsBetween] at hp
  | cons t ts ih =>
    intro s p hp
    simp only [periodsBetween, List.mem_cons] at hp
    rcases hp with rfl | hp
    · simp
    · exact List.mem_cons_of_mem _ (ih t p hp)

theorem periodsBetween_disjoint (bs : List Nat) :
    ∀ s, (s :: bs).Sorted (· < ·) →
      (periodsBetween s bs).Pairwise (fun p q => p.to_ ≤ q.from_) := by
  induction bs with
  | nil => intro s _; exact List.Pairwise.nil
  | cons t ts ih =>
    intro s hs
    rw [List.sorted_cons] at hs
    unfold periodsBetween
    rw [List.pairwise_cons]
    refine ⟨?_, ih t hs.2⟩
    intro q hq
    have hm := periodsBetween_from_mem ts t q hq
    rcases List.mem_cons.mp hm with h | h
    · simp [h]
    · exact ((List.sorted_cons.mp hs.2).1 _ h).le

/-- C6: under the by-video-content policy `Film::reels` returns periods that are contiguous,
pairwise non-overlapping, non-empty (for a non-empty film), start at 0, end at the film
length and cover every time below it; the boundaries between reels are exactly the points
strictly inside the timeline where a video content (or a reel of an imported DCP with
video) starts or ends, each once and in increasing order; when the last video content ends
at `E` before the film length, the final reel is `[E, length)`; the film length is a whole
number of video frames.  For the two back-to-back items of `reels_test1` the reels are
`[0, 288000)` and `[288000, 576000)`; for the three-reel DCP plus longer subtitles of
`reels_test3` a fourth reel runs from the end of the DCP to the film length. -/
theorem reels_by_video_content (film : Film)
    (hty : film.reel_type = ReelType.BY_VIDEO_CONTENT) :
    ∃ rs, film.reels = some rs
      ∧ rs.Chain' (fun p q => p.to_ = q.from_)
      ∧ rs.Pairwise (fun p q => p.to_ ≤ q.from_)
      ∧ (0 < film.length → ∀ p ∈ rs, p.from_ < p.to_)
      ∧ rs.head?.map Period.from_ = some 0
      ∧ rs.getLast?.map Period.to_ = some film.length
      ∧ (∀ t, t < film.length → ∃ p ∈ rs, p.contains t)
      ∧ (∀ t, (t ∈ rs.map Period.to_ ∧ t ≠ film.length)
          ↔ ((∃ c ∈ film.content, c.video = true ∧ t ∈ c.split_points)
              ∧ 0 < t ∧ t < film.length))
      ∧ (rs.map Period.to_).Sorted (· < ·)
      ∧ (∀ E, (∃ c ∈ film.content, c.video = true ∧ c.end_ = E) →
          (∀ c ∈ film.content, c.video = true →
            c.end_ ≤ E ∧ c.reel_lengths.sum ≤ c.length) →
          E < film.length → rs.getLast? = some ⟨E, film.length⟩)
      ∧ film.length % from_frames 1 film.video_frame_rate = 0
      ∧ (reelsTest1 ReelType.BY_VIDEO_CONTENT).reels
          = some [⟨0, 288000⟩, ⟨288000, 576000⟩]
      ∧ reelsTest3.reels
          = some [⟨0, 96000⟩, ⟨96000, 192000⟩, ⟨192000, 288000⟩, ⟨288000, 304000⟩] := by
  have hsorted : (film.video_split_points ++ [film.length]).Sorted (· < ·) := by
    unfold List.Sorted
    rw [List.pairwise_append]
    refine ⟨sorted_video_split_points film, List.pairwise_singleton _ _, ?_⟩
    intro a ha b hb
    simp only [List.mem_singleton] at hb
    rw [hb]
    exact ((mem_video_split_points film a).mp ha).2.2
  refine ⟨periodsBetween 0 (film.video_split_points ++ [film.length]), ?_, ?_, ?_, ?_, ?_, ?_,
    ?_, ?_, ?_, ?_, ?_, by decide, by decide⟩
  · unfold Film.reels
    rw [hty]
  · exact periodsBetween_chain _ _
  · by_cases hlen : 0 < film.length
    · exact periodsBetween_disjoint _ 0 (sorted_boundaries film hlen)
    · have h0 : film.length = 0 := by omega
      have hv : film.video_split_points = [] := by
        apply List.eq_nil_iff_forall_not_mem.mpr
        intro a ha
        have := ((mem_video_split_points film a).mp ha).2
        omega
      rw [hv, h0]
      simp [periodsBetween]
  · intro hlen
    exact periodsBetween_nonempty _ 0 (sorted_boundaries film hlen)
  · cases hv : film.video_split_points <;> simp [periodsBetween]
  · rw [periodsBetween_getLast]
    rfl
  · intro t ht
    exact periodsBetween_cover _ 0 t (Nat.zero_le _) (by rw [lastBoundary_append]; exact ht)
  · intro t
    rw [periodsBetween_map_to, ← mem_video_split_points]
    simp only [List.mem_append, List.mem_singleton]
    constructor
    · rintro ⟨h | h, hne⟩
      · exact h
      · exact absurd h hne
    · intro h
      exact ⟨Or.inl h, (((mem_video_split_points film t).mp h).2.2).ne⟩
  · rw [periodsBetween_map_to]
    exact hsorted
  · rintro E ⟨c, hc, hv, rfl⟩ hall hE
    rw [periodsBetween_getLast]
    have hs0 : (0 :: film.video_split_points).Sorted (· < ·) := by
      rw [List.sorted_cons]
      exact ⟨fun b hb => ((mem_video_split_points film b).mp hb).2.1,
        sorted_video_split_points film⟩
    have hle : lastBoundary 0 film.video_split_points ≤ c.end_ := by
      rcases lastBoundary_mem film.video_split_points 0 with h | h
      · omega
      · obtain ⟨⟨d, hd, hdv, hdt⟩, _⟩ := (mem_video_split_points film _).mp h
        exact le_trans (split_points_le_end d (hall d hd hdv).2 _ hdt) (hall d hd hdv).1
    have hge : c.end_ ≤ lastBoundary 0 film.video_split_points := by
      apply le_lastBoundary film.video_split_points 0 hs0
      by_cases h0 : c.end_ = 0
      · simp [h0]
      · apply List.mem_cons_of_mem
        rw [mem_video_split_points]
        refine ⟨⟨c, hc, hv, ?_⟩, by omega, hE⟩
        simp [Content.split_points]
    rw [le_antisymm hle hge]
  · unfold Film.length round_up
    exact Nat.mul_mod_left _ _

theorem reels_by_video_content_witness :
    (reelsTest1 ReelType.BY_VIDEO_CONTENT).reels = some [⟨0, 288000⟩, ⟨288000, 576000⟩]
    ∧ ([⟨0, 288000⟩, ⟨288000, 576000⟩] : List Period).Chain' (fun p q => p.to_ = q.from_)
    ∧ ([⟨0, 288000⟩, ⟨288000, 576000⟩] : List Period).getLast?.map Period.to_
        = some (reelsTest1 ReelType.BY_VIDEO_CONTENT).length := by
  obtain ⟨rs, h1, h2, _, _, _, h6, _⟩ :=
    reels_by_video_content (reelsTest1 ReelType.BY_VIDEO_CONTENT) rfl
  have e : (reelsTest1 ReelType.BY_VIDEO_CONTENT).reels
      = some [⟨0, 288000⟩, ⟨288000, 576000⟩] := by decide
  have hrs : rs = [⟨0, 288000⟩, ⟨288000, 576000⟩] := by
    rw [e] at h1
    exact (Option.some.inj h1).symm
  rw [hrs] at h2 h6
  exact ⟨e, h2, h6⟩

/-! ### Film::reels: single reel -/

theorem le_round_up (t rate : Nat) (h : 0 < from_frames 1 rate) : t ≤ round_up t rate := by
  unfold round_up
  generalize from_frames 1 rate = n at h
  have h1 := Nat.div_add_mod (t + n - 1) n
  have h2 := Nat.mod_lt (t + n - 1) h
  rw [Nat.mul_comm] at h1
  omega

theorem end_le_contentEnd (content : List Content) :
    ∀ c ∈ content, c.end_ ≤ contentEnd content := by
  induction content with
  | nil => intro c hc; simp at hc
  | cons d rest ih =>
    intro c hc
    unfold contentEnd
    rcases List.mem_cons.mp hc with rfl | hc
    · exact le_max_left _ _
    · exact le_trans (ih c hc) (le_max_right _ _)

/-- C7: under the single-reel policy `Film::reels` returns exactly one period, `[0, film
length)`; when a video frame has at least one tick, every piece of content ends within it;
for the two back-to-back items of `reels_test1`, 288000 ticks each, it is `[0, 576000)`. -/
theorem reels_single (film : Film) (hty : film.reel_type = ReelType.SINGLE) :
    film.reels = some [⟨0, film.length⟩]
    ∧ (0 < from_frames 1 film.video_frame_rate →
        ∀ c ∈ film.content, c.end_ ≤ film.length)
    ∧ (reelsTest1 ReelType.SINGLE).reels = some [⟨0, 576000⟩] := by
  refine ⟨?_, ?_, by decide⟩
  · unfold Film.reels
    rw [hty]
  · intro h c hc
    exact le_trans (end_le_contentEnd film.content c hc) (le_round_up _ _ h)

theorem reels_single_witness :
    (reelsTest1 ReelType.SINGLE).reels = some [⟨0, (reelsTest1 ReelType.SINGLE).length⟩]
    ∧ (reelsTest1 ReelType.SINGLE).length = 576000 :=
  ⟨(reels_single (reelsTest1 ReelType.SINGLE) rfl).1, by decide⟩

/-! ### The frame-info index -/

theorem read_write_same (file : InfoFile) (frame : Nat) (eyes : Eyes) (info : FrameInfo) :
    read_frame_info (write_frame_info file frame eyes info) frame eyes = some info := by
  induction file with
  | nil => simp [write_frame_info, read_frame_info]
  | cons e rest ih =>
    unfold write_frame_info
    split_ifs with h
    · simp [read_frame_info]
    · simp [read_frame_info, h, ih]

theorem read_write_other (file : InfoFile) (frame : Nat) (eyes : Eyes) (info : FrameInfo)
    (frame' : Nat) (eyes' : Eyes) (hne : (frame', eyes') ≠ (frame, eyes)) :
    read_frame_info (write_frame_info file frame eyes info) frame' eyes'
      = read_frame_info file frame' eyes' := by
  induction file with
  | nil =>
    have : ¬ (frame, eyes) = (frame', eyes') := fun e => hne e.symm
    simp [write_frame_info, read_frame_info, this]
  | cons e rest ih =>
    unfold write_frame_info
    split_ifs with h
    · have h1 : ¬ (frame, eyes) = (frame', eyes') := fun e => hne e.symm
      have h2 : ¬ e.1 = (frame', eyes') := fun e' => hne (e'.symm.trans h)
      simp [read_frame_info, h1, h2]
    · by_cases h' : e.1 = (frame', eyes')
      · simp [read_frame_info, h']
      · simp [read_frame_info, h', ih]

theorem write_frame_info_keys (file : InfoFile) (frame : Nat) (eyes : Eyes) (info : FrameInfo)
    (hk : (frame, eyes) ∈ file.map Prod.fst) :
    (write_frame_info file frame eyes info).map Prod.fst = file.map Prod.fst := by
  induction file with
  | nil => simp at hk
  | cons e rest ih =>
    unfold write_frame_info
    split_ifs with h
    · simp [h]
    · simp only [List.map_cons, List.mem_cons] at hk
      rcases hk with hk | hk
      · exact absurd hk.symm h
      · simp [ih hk]

theorem read_writeAll (writes : List ((Nat × Eyes) × FrameInfo)) (frame : Nat) (eyes : Eyes) :
    read_frame_info (writeAll writes) frame eyes
      = (writes.reverse.find? (fun w => decide (w.1 = (frame, eyes)))).map Prod.snd := by
  induction writes using List.reverseRecOn with
  | nil => simp [writeAll, read_frame_info]
  | append_singleton ws w ih =>
    unfold writeAll at ih ⊢
    rw [List.foldl_append, List.reverse_concat]
    simp only [List.foldl_cons, List.foldl_nil, List.find?_cons]
    by_cases h : w.1 = (frame, eyes)
    · have e1 : w.1.1 = frame := congrArg Prod.fst h
      have e2 : w.1.2 = eyes := congrArg Prod.snd h
      simp only [h, decide_True, Option.map_some']
      exact read_write_same _ _ _ _
    · simp only [h, decide_False]
      rw [← ih]
      exact read_write_other _ _ _ _ _ _ (fun e => h e.symm)

/-- C8: on the frame-info index of a reel, reading a key just written gives what was
written; writing a key leaves what is read for every other key unchanged, and overwriting
an existing key leaves the keys of the index, and their order, unchanged; so after any
sequence of writes, reading `(frame, eyes)` gives the offset, size and hash of the most
recent write to that key.  After the four writes of `write_frame_info_test` the keys
`(0, left)`, `(5, right)`, `(10, left)` read back the first, fourth and third info. -/
theorem frame_info_index :
    (∀ (file : InfoFile) frame eyes info,
      read_frame_info (write_frame_info file frame eyes info) frame eyes = some info)
    ∧ (∀ (file : InfoFile) frame eyes info frame' eyes', (frame', eyes') ≠ (frame, eyes) →
        read_frame_info (write_frame_info file frame eyes info) frame' eyes'
          = read_frame_info file frame' eyes')
    ∧ (∀ (file : InfoFile) frame eyes info, (frame, eyes) ∈ file.map Prod.fst →
        (write_frame_info file frame eyes info).map Prod.fst = file.map Prod.fst)
    ∧ (∀ (writes : List ((Nat × Eyes) × FrameInfo)) frame eyes,
        read_frame_info (writeAll writes) frame eyes
          = (writes.reverse.find? (fun w => decide (w.1 = (frame, eyes)))).map Prod.snd)
    ∧ read_frame_info (writeAll frameInfoTestWrites) 0 Eyes.LEFT
        = some ⟨0, 123, "12345678901234567890123456789012"⟩
    ∧ read_frame_info (writeAll frameInfoTestWrites) 5 Eyes.RIGHT
        = some ⟨55512494, 123599157123, "ABCDEFGyabc12356ffsfdsf4563395ZZ"⟩
    ∧ read_frame_info (writeAll frameInfoTestWrites) 10 Eyes.LEFT
        = some ⟨12494, 99157123, "xxxxyyyyabc12356ffsfdsf456339522"⟩ :=
  ⟨read_write_same, read_write_other, write_frame_info_keys, read_writeAll,
    by decide, by decide, by decide⟩

theorem frame_info_index_witness :
    read_frame_info
        (write_frame_info (writeAll frameInfoTestWrites) 5 Eyes.RIGHT ⟨1, 2, "h"⟩) 0 Eyes.LEFT
      = some ⟨0, 123, "12345678901234567890123456789012"⟩ :=
  (frame_info_index.2.1 (writeAll frameInfoTestWrites) 5 Eyes.RIGHT ⟨1, 2, "h"⟩ 0 Eyes.LEFT
    (by decide)).trans (by decide)

/-! ### Referencing an imported DCP -/

theorem can_reference_eq (film : Film) (i : Nat) (c : Content) (fr : List Period)
    (part : Content → Bool) (hc : film.content.get? i = some c) (hfr : film.reels = some fr) :
    can_reference film i part
      = some (c.reels.all (fun r => decide (r ∈ fr))
          && (film.content.eraseIdx i).all (fun d => !(part d && d.overlaps c))) := by
  unfold can_reference
  rw [hc, hfr]

theorem multi_reel_not_single (c : Content) (length : Nat) (hlen : 0 < length)
    (h2 : 2 ≤ c.reel_lengths.length) : ∃ r ∈ c.reels, r ∉ [(⟨0, length⟩ : Period)] := by
  unfold Content.reels
  cases hl : c.reel_lengths with
  | nil => rw [hl] at h2; simp at h2
  | cons l1 ls =>
    cases ls with
    | nil => rw [hl] at h2; simp at h2
    | cons l2 ls' =>
      by_cases h : (⟨c.position, c.position + l1⟩ : Period) = ⟨0, length⟩
      · refine ⟨⟨c.position + l1, c.position + l1 + l2⟩, by simp [periodsFrom], ?_⟩
        simp only [Period.mk.injEq] at h
        simp only [List.mem_singleton, Period.mk.injEq, not_and]
        omega
      · exact ⟨⟨c.position, c.position + l1⟩, by simp [periodsFrom], by simpa using h⟩

/-- C9: for the DCP at index `i` of the playlist and either media kind, `can_reference`
returns false whenever one of the reels of the DCP is not one of the reels of the film (in
particular for a DCP of two or more reels under the single-reel policy), and whenever
another content of that kind overlaps the period of the DCP; it returns true when the
reels coincide and every other content of that kind lies entirely after the end or
before the start of the DCP, so content placed exactly at the end of the DCP does not
prevent referencing.  The four situations of `vf_test1` give false, true, false, true for
video and for audio. -/
theorem can_reference_rules (film : Film) (i : Nat) (c : Content) (fr : List Period)
    (part : Content → Bool) (hc : film.content.get? i = some c) (hfr : film.reels = some fr) :
    ((∃ r ∈ c.reels, r ∉ fr) → can_reference film i part = some false)
    ∧ ((∃ d ∈ film.content.eraseIdx i,
          part d = true ∧ d.position < c.end_ ∧ c.position < d.end_) →
        can_reference film i part = some false)
    ∧ ((∀ r ∈ c.reels, r ∈ fr) →
        (∀ d ∈ film.content.eraseIdx i, part d = true →
          c.end_ ≤ d.position ∨ d.end_ ≤ c.position) →
        can_reference film i part = some true)
    ∧ (film.reel_type = ReelType.SINGLE → 0 < film.length → 2 ≤ c.reel_lengths.length →
        can_reference film i part = some false)
    ∧ can_reference_video film i = can_reference film i (fun c => c.video)
    ∧ can_reference_audio film i = can_reference film i (fun c => c.audio)
    ∧ can_reference_video (vfFilm [vfDcp] ReelType.SINGLE) 0 = some false
    ∧ can_reference_audio (vfFilm [vfDcp] ReelType.SINGLE) 0 = some false
    ∧ can_reference_video (vfFilm [vfDcp] ReelType.BY_VIDEO_CONTENT) 0 = some true
    ∧ can_reference_audio (vfFilm [vfDcp] ReelType.BY_VIDEO_CONTENT) 0 = some true
    ∧ can_reference_video (vfFilm [vfDcp, vfOther 0] ReelType.BY_VIDEO_CONTENT) 0 = some false
    ∧ can_reference_audio (vfFilm [vfDcp, vfOther 0] ReelType.BY_VIDEO_CONTENT) 0 = some false
    ∧ can_reference_video (vfFilm [vfDcp, vfOther vfDcp.end_] ReelType.BY_VIDEO_CONTENT) 0
        = some true
    ∧ can_reference_audio (vfFilm [vfDcp, vfOther vfDcp.end_] ReelType.BY_VIDEO_CONTENT) 0
        = some true := by
  have hmis : (∃ r ∈ c.reels, r ∉ fr) → can_reference film i part = some false := by
    rintro ⟨r, hr, hnr⟩
    rw [can_reference_eq film i c fr part hc hfr]
    have : c.reels.all (fun r => decide (r ∈ fr)) = false := by
      rw [List.all_eq_false]
      exact ⟨r, hr, by simpa using hnr⟩
    rw [this]
    rfl
  refine ⟨hmis, ?_, ?_, ?_, rfl, rfl, by decide, by decide, by decide, by decide, by decide,
    by decide, by decide, by decide⟩
  · rintro ⟨d, hd, hp, h1, h2⟩
    rw [can_reference_eq film i c fr part hc hfr]
    have : (film.content.eraseIdx i).all (fun d => !(part d && d.overlaps c)) = false := by
      rw [List.all_eq_false]
      refine ⟨d, hd, ?_⟩
      simp [hp, Content.overlaps, h1, h2]
    rw [this, Bool.and_false]
  · intro hall hsep
    rw [can_reference_eq film i c fr part hc hfr]
    have h1 : c.reels.all (fun r => decide (r ∈ fr)) = true := by
      rw [List.all_eq_true]
      intro r hr
      simpa using hall r hr
    have h2 : (film.content.eraseIdx i).all (fun d => !(part d && d.overlaps c)) = true := by
      rw [List.all_eq_true]
      intro d hd
      by_cases hp : part d = true
      · have := hsep d hd hp
        have hov : d.overlaps c = false := by
          unfold Content.overlaps
          rw [decide_eq_false_iff_not]
          omega
        simp [hov]
      · simp [hp]
    rw [h1, h2]
    rfl
  · intro hty hlen h2
    apply hmis
    have hfr' : fr = [⟨0, film.length⟩] := by
      unfold Film.reels at hfr
      rw [hty] at hfr
      simp only [Option.some.injEq] at hfr
      exact hfr.symm
    rw [hfr']
    exact multi_reel_not_single c film.length hlen h2

theorem can_reference_rules_witness :
    can_reference (vfFilm [vfDcp, vfOther 0] ReelType.BY_VIDEO_CONTENT) 0 (fun c => c.video)
        = some false
    ∧ can_reference (vfFilm [vfDcp, vfOther 288000] ReelType.BY_VIDEO_CONTENT) 0
        (fun c => c.video) = some true
    ∧ can_reference (vfFilm [vfDcp] ReelType.SINGLE) 0 (fun c => c.video) = some false :=
  ⟨(can_reference_rules (vfFilm [vfDcp, vfOther 0] ReelType.BY_VIDEO_CONTENT) 0 vfDcp
      [⟨0, 96000⟩, ⟨96000, 192000⟩, ⟨192000, 288000⟩] (fun c => c.video) rfl
      (by decide)).2.1 ⟨vfOther 0, by decide, by decide, by decide, by decide⟩,
   (can_reference_rules (vfFilm [vfDcp, vfOther 288000] ReelType.BY_VIDEO_CONTENT) 0 vfDcp
      [⟨0, 96000⟩, ⟨96000, 192000⟩, ⟨192000, 288000⟩, ⟨288000, 576000⟩] (fun c => c.video) rfl
      (by decide)).2.2.1 (by decide) (by decide),
   (can_reference_rules (vfFilm [vfDcp] ReelType.SINGLE) 0 vfDcp
      [⟨0, 288000⟩] (fun c => c.video) rfl
      (by decide)).2.2.2.1 rfl (by decide) (by decide)⟩

/-! ### Black and silence -/

theorem period_subtract_contains (a b : Period) (t : Nat) :
    (∃ p ∈ a.subtract b, p.contains t) ↔ a.contains t ∧ ¬ b.contains t := by
  unfold Period.subtract
  by_cases h : b.from_ < b.to_ ∧ b.from_ < a.to_ ∧ a.from_ < b.to_
  · rw [if_pos h]
    by_cases h1 : a.from_ < b.from_ <;> by_cases h2 : b.to_ < a.to_ <;>
      simp only [h1, h2, if_true, if_false, List.append_nil, List.nil_append,
        List.singleton_append, List.mem_cons, List.mem_singleton, List.not_mem_nil,
        exists_eq_or_imp, exists_eq_left, false_and, exists_false, or_false,
        Period.contains, false_iff] <;>
      omega
  · rw [if_neg h]
    simp only [List.mem_singleton, exists_eq_left, Period.contains]
    omega

theorem period_subtract_pieces (a b : Period) (ha : a.from_ < a.to_) :
    (∀ p ∈ a.subtract b, p.from_ < p.to_ ∧ a.from_ ≤ p.from_ ∧ p.to_ ≤ a.to_)
    ∧ (a.subtract b).Pairwise (fun p q => p.to_ < q.from_) := by
  unfold Period.subtract
  by_cases h : b.from_ < b.to_ ∧ b.from_ < a.to_ ∧ a.from_ < b.to_
  · rw [if_pos h]
    by_cases h1 : a.from_ < b.from_ <;> by_cases h2 : b.to_ < a.to_ <;>
      simp only [h1, h2, if_true, if_false, List.append_nil, List.nil_append,
        List.singleton_append, List.mem_cons, List.mem_singleton, List.not_mem_nil,
        forall_eq_or_imp, forall_eq, List.pairwise_cons, List.Pairwise.nil, and_true,
        false_implies, implies_true, true_and] <;>
      omega
  · rw [if_neg h]
    simp only [List.mem_singleton, forall_eq, List.pairwise_cons, List.not_mem_nil,
      false_implies, implies_true, List.Pairwise.nil, and_true, true_and]
    omega

theorem subtract_step_contains (acc : List Period) (b : Period) (t : Nat) :
    (∃ p ∈ acc.flatMap (fun p => p.subtract b), p.contains t)
      ↔ (∃ a ∈ acc, a.contains t) ∧ ¬ b.contains t := by
  constructor
  · rintro ⟨p, hp, ht⟩
    obtain ⟨a, ha, hpa⟩ := List.mem_flatMap.mp hp
    have := (period_subtract_contains a b t).mp ⟨p, hpa, ht⟩
    exact ⟨⟨a, ha, this.1⟩, this.2⟩
  · rintro ⟨⟨a, ha, hat⟩, hb⟩
    obtain ⟨p, hp, ht⟩ := (period_subtract_contains a b t).mpr ⟨hat, hb⟩
    exact ⟨p, List.mem_flatMap.mpr ⟨a, ha, hp⟩, ht⟩

theorem subtract_fold_contains (bs : List Period) (t : Nat) :
    ∀ acc : List Period,
      (∃ p ∈ bs.foldl (fun acc b => acc.flatMap (fun p => p.subtract b)) acc, p.contains t)
        ↔ (∃ a ∈ acc, a.contains t) ∧ ∀ b ∈ bs, ¬ b.contains t := by
  induction bs with
  | nil => intro acc; simp
  | cons b bs ih =>
    intro acc
    rw [List.foldl_cons, ih, subtract_step_contains]
    simp only [List.mem_cons, forall_eq_or_imp]
    tauto

theorem subtract_contains (a : Period) (bs : List Period) (t : Nat) :
    (∃ p ∈ subtract a bs, p.contains t) ↔ a.contains t ∧ ∀ b ∈ bs, ¬ b.contains t := by
  unfold subtract
  rw [subtract_fold_contains]
  by_cases h : a.from_ < a.to_
  · simp [h]
  · simp only [h, if_false, List.not_mem_nil, false_and, exists_false, false_iff, not_and]
    intro hc
    unfold Period.contains at hc
    omega

theorem subtract_step_gaps (acc : List Period) (b : Period)
    (h1 : ∀ p ∈ acc, p.from_ < p.to_) (h2 : acc.Pairwise (fun p q => p.to_ < q.from_)) :
    (∀ p ∈ acc.flatMap (fun p => p.subtract b), p.from_ < p.to_)
    ∧ (acc.flatMap (fun p => p.subtract b)).Pairwise (fun p q => p.to_ < q.from_) := by
  constructor
  · intro p hp
    obtain ⟨a, ha, hpa⟩ := List.mem_flatMap.mp hp
    exact ((period_subtract_pieces a b (h1 a ha)).1 p hpa).1
  · rw [List.pairwise_flatMap]
    constructor
    · intro a ha
      exact (period_subtract_pieces a b (h1 a ha)).2
    · refine List.Pairwise.imp_of_mem ?_ h2
      intro a1 a2 ha1 ha2 h12 x hx y hy
      have hx' := (period_subtract_pieces a1 b (h1 a1 ha1)).1 x hx
      have hy' := (period_subtract_pieces a2 b (h1 a2 ha2)).1 y hy
      omega

theorem subtract_gaps (a : Period) (bs : List Period) :
    (∀ p ∈ subtract a bs, p.from_ < p.to_)
    ∧ (subtract a bs).Pairwise (fun p q => p.to_ < q.from_) := by
  unfold subtract
  have hgen : ∀ (bs : List Period) (acc : List Period),
      (∀ p ∈ acc, p.from_ < p.to_) → acc.Pairwise (fun p q => p.to_ < q.from_) →
      (∀ p ∈ bs.foldl (fun acc b => acc.flatMap (fun p => p.subtract b)) acc,
          p.from_ < p.to_)
      ∧ (bs.foldl (fun acc b => acc.flatMap (fun p => p.subtract b)) acc).Pairwise
          (fun p q => p.to_ < q.from_) := by
    intro bs
    induction bs with
    | nil => intro acc h1 h2; exact ⟨h1, h2⟩
    | cons b bs ih =>
      intro acc h1 h2
      rw [List.foldl_cons]
      exact ih _ (subtract_step_gaps acc b h1 h2).1 (subtract_step_gaps acc b h1 h2).2
  apply hgen
  · intro p hp
    by_cases h : a.from_ < a.to_
    · simp only [h, if_true, List.mem_singleton] at hp
      rw [hp]
      exact h
    · simp [h] at hp
  · by_cases h : a.from_ < a.to_ <;> simp [h]

/-- C10: after `Player::setup_pieces` a time lies in a black period exactly when it is below
the film length and in the output period of no video content, and in a silent period
exactly when it is below the film length and in the output period of no audio content;
the periods of either list are non-empty, in increasing order and separated from one
another.  For the 72 frames of video and 289920 ticks of audio of `player_subframe_test`
(film length 73 frames) there is the single black period `[72 frames, 73 frames)` and the
single silent period `[289920, 73 frames)`. -/
theorem setup_pieces_gaps (film : Film) :
    (∀ t, (∃ p ∈ (Player.setup_pieces film).black, p.contains t)
        ↔ t < film.length ∧ ∀ c ∈ film.content, c.video = true → ¬ c.period.contains t)
    ∧ (∀ t, (∃ p ∈ (Player.setup_pieces film).silent, p.contains t)
        ↔ t < film.length ∧ ∀ c ∈ film.content, c.audio = true → ¬ c.period.contains t)
    ∧ (∀ p ∈ (Player.setup_pieces film).black, p.from_ < p.to_)
    ∧ (Player.setup_pieces film).black.Pairwise (fun p q => p.to_ < q.from_)
    ∧ (∀ p ∈ (Player.setup_pieces film).silent, p.from_ < p.to_)
    ∧ (Player.setup_pieces film).silent.Pairwise (fun p q => p.to_ < q.from_)
    ∧ subframeFilm.length = from_frames 73 24
    ∧ Player.setup_pieces subframeFilm
        = { black := [⟨from_frames 72 24, from_frames 73 24⟩],
            silent := [⟨289920, from_frames 73 24⟩] } := by
  refine ⟨?_, ?_, (subtract_gaps _ _).1, (subtract_gaps _ _).2, (subtract_gaps _ _).1,
    (subtract_gaps _ _).2, by decide, by decide⟩
  · intro t
    simp only [Player.setup_pieces]
    rw [subtract_contains]
    simp only [List.mem_map, List.mem_filter, Period.contains]
    constructor
    · rintro ⟨h, hall⟩
      exact ⟨h.2, fun c hc hv => hall c.period ⟨c, ⟨hc, hv⟩, rfl⟩⟩
    · rintro ⟨h, hall⟩
      refine ⟨⟨Nat.zero_le _, h⟩, ?_⟩
      rintro b ⟨c, ⟨hc, hv⟩, rfl⟩
      exact hall c hc hv
  · intro t
    simp only [Player.setup_pieces]
    rw [subtract_contains]
    simp only [List.mem_map, List.mem_filter, Period.contains]
    constructor
    · rintro ⟨h, hall⟩
      exact ⟨h.2, fun c hc hv => hall c.period ⟨c, ⟨hc, hv⟩, rfl⟩⟩
    · rintro ⟨h, hall⟩
      refine ⟨⟨Nat.zero_le _, h⟩, ?_⟩
      rintro b ⟨c, ⟨hc, hv⟩, rfl⟩
      exact hall c hc hv

/-! ### AudioMapping: construction and default mappings -/

theorem setCell_shape (gain : List (List ℚ)) (n k i j : Nat) (v : ℚ) (h : Shape gain n k) :
    Shape (setCell gain i j v) n k := by
  unfold setCell
  refine ⟨by rw [List.length_modify]; exact h.1, ?_⟩
  intro row hrow
  obtain ⟨a, ha⟩ := List.mem_iff_getElem?.mp hrow
  rw [List.getElem?_modify] at ha
  cases hg : gain[a]? with
  | none => simp [hg] at ha
  | some r =>
    have hr : r.length = k := h.2 r (List.mem_iff_getElem?.mpr ⟨a, hg⟩)
    simp only [hg, Option.map_eq_map, Option.map_some', Option.some.injEq] at ha
    rw [← ha]
    split_ifs
    · rw [List.length_set]
      exact hr
    · exact hr

theorem setCell_cell (gain : List (List ℚ)) (n k i j : Nat) (v : ℚ) (h : Shape gain n k)
    (hi : i < n) (hj : j < k) (a b : Nat) :
    cell (setCell gain i j v) a b = if a = i ∧ b = j then v else cell gain a b := by
  unfold cell setCell
  simp only [List.getD_eq_getElem?_getD, List.getElem?_modify]
  have hlen : i < gain.length := by rw [h.1]; exact hi
  by_cases hai : a = i
  · subst hai
    have hg : gain[a]? = some gain[a] := List.getElem?_eq_getElem hlen
    have hr : gain[a].length = k := h.2 _ (List.getElem_mem _)
    simp only [hg, Option.map_eq_map, Option.map_some', if_true, Option.getD_some, true_and,
      List.getElem?_set]
    by_cases hbj : b = j
    · subst hbj
      simp [hr, hj]
    · have : ¬ j = b := fun e => hbj e.symm
      simp [hbj, this]
  · have : ¬ i = a := fun e => hai e.symm
    cases hg : gain[a]? <;> simp [hg, hai, this]

theorem shape_row0 (gain : List (List ℚ)) (n k : Nat) (h : Shape gain n k) (hn : 0 < n) :
    (gain.getD 0 []).length = k := by
  have hlen : 0 < gain.length := by rw [h.1]; exact hn
  rw [List.getD_eq_getElem _ _ hlen]
  exact h.2 _ (List.getElem_mem _)

theorem zeroRow_spec (n k i : Nat) (hi : i < n) :
    ∀ (js : List Nat) (gain : List (List ℚ)), (∀ j ∈ js, j < k) → Shape gain n k →
      Shape (js.foldl (fun gain j => setCell gain i j 0) gain) n k
      ∧ ∀ a b, cell (js.foldl (fun gain j => setCell gain i j 0) gain) a b
          = if a = i ∧ b ∈ js then 0 else cell gain a b := by
  intro js
  induction js with
  | nil => intro gain _ h; simp [h]
  | cons j js ih =>
    intro gain hjs h
    have hj : j < k := hjs j (List.mem_cons_self _ _)
    obtain ⟨hs, hc⟩ := ih (setCell gain i j 0) (fun x hx => hjs x (List.mem_cons_of_mem _ hx))
      (setCell_shape gain n k i j 0 h)
    refine ⟨hs, ?_⟩
    intro a b
    rw [List.foldl_cons, hc a b, setCell_cell gain n k i j 0 h hi hj]
    by_cases ha : a = i <;> by_cases hb : b = j <;> by_cases hm : b ∈ js <;>
      simp [ha, hb, hm]

theorem zeroAll_spec (n k : Nat) :
    ∀ (is : List Nat) (gain : List (List ℚ)), (∀ i ∈ is, i < n) → Shape gain n k →
      Shape (is.foldl (fun gain i =>
        (List.range k).foldl (fun gain j => setCell gain i j 0) gain) gain) n k
      ∧ ∀ a b, cell (is.foldl (fun gain i =>
          (List.range k).foldl (fun gain j => setCell gain i j 0) gain) gain) a b
          = if a ∈ is ∧ b < k then 0 else cell gain a b := by
  intro is
  induction is with
  | nil => intro gain _ h; simp [h]
  | cons i is ih =>
    intro gain his h
    have hi : i < n := his i (List.mem_cons_self _ _)
    obtain ⟨hs1, hc1⟩ := zeroRow_spec n k i hi (List.range k) gain
      (fun j hj => List.mem_range.mp hj) h
    obtain ⟨hs, hc⟩ := ih _ (fun x hx => his x (List.mem_cons_of_mem _ hx)) hs1
    refine ⟨hs, ?_⟩
    intro a b
    rw [List.foldl_cons, hc a b, hc1 a b]
    by_cases ha : a = i <;> by_cases hb : b < k <;> by_cases hm : a ∈ is <;>
      simp [ha, hb, hm, List.mem_range]

theorem make_zero_spec (m : AudioMapping) (h : m.WF) :
    m.make_zero.WF
    ∧ m.make_zero._input_channels = m._input_channels
    ∧ m.make_zero._output_channels = m._output_channels
    ∧ ∀ a b, a < m._input_channels → b < m._output_channels →
        cell m.make_zero._gain a b = 0 := by
  obtain ⟨hs, hc⟩ := zeroAll_spec m._input_channels m._output_channels
    (List.range m._input_channels) m._gain (fun i hi => List.mem_range.mp hi) h
  refine ⟨hs, rfl, rfl, ?_⟩
  intro a b ha hb
  have := hc a b
  simp only [List.mem_range, ha, hb, and_self, if_true] at this
  exact this

theorem get_eq_cell (m : AudioMapping) (h : m.WF) (a b : Nat) (ha : a < m._input_channels)
    (hb : b < m._output_channels) : m.get a b = some (cell m._gain a b) := by
  unfold AudioMapping.get
  have h0 := shape_row0 m._gain _ _ h (by omega)
  rw [if_pos (by rw [h.1]; exact ha), if_pos (by rw [h0]; exact hb)]

theorem set_spec (m : AudioMapping) (h : m.WF) (i j : Nat) (g : ℚ) (hi : i < m._input_channels)
    (hj : j < m._output_channels) :
    ∃ m', m.set i j g = some m' ∧ m'.WF
      ∧ m'._input_channels = m._input_channels ∧ m'._output_channels = m._output_channels
      ∧ ∀ a b, cell m'._gain a b = if a = i ∧ b = j then g else cell m._gain a b := by
  unfold AudioMapping.set
  have h0 := shape_row0 m._gain _ _ h (by omega)
  rw [if_pos (by rw [h.1]; exact hi), if_pos (by rw [h0]; exact hj)]
  exact ⟨_, rfl, setCell_shape _ _ _ i j g h, rfl, rfl,
    setCell_cell _ _ _ i j g h hi hj⟩

theorem create_wf (i o : Nat) :
    Shape ((resize ([] : List (List ℚ)) i []).map (fun row => resize row o 0)) i o := by
  unfold resize
  simp only [List.take_nil, List.length_nil, Nat.sub_zero, List.nil_append, List.map_replicate,
    List.length_replicate]
  refine ⟨List.length_replicate _ _, ?_⟩
  intro row hrow
  rw [List.eq_of_mem_replicate hrow]
  exact List.length_replicate _ _

/-- C11: `AudioMapping (i, o)` has `input_channels () = i`, `output_channels () = o` and
`get (a, b) = 0` for every `a < i` and `b < o`; its matrix has `i` rows of `o` gains. -/
theorem create_zero (i o : Nat) :
    (AudioMapping.create i o).input_channels = i
    ∧ (AudioMapping.create i o).output_channels = o
    ∧ (AudioMapping.create i o).WF
    ∧ ∀ a b, a < i → b < o → (AudioMapping.create i o).get a b = some 0 := by
  have hwf : AudioMapping.WF
      { _input_channels := i, _output_channels := o,
        _gain := (resize ([] : List (List ℚ)) i []).map (fun row => resize row o 0) } :=
    create_wf i o
  obtain ⟨h1, h2, h3, h4⟩ := make_zero_spec _ hwf
  refine ⟨h2, h3, h1, ?_⟩
  intro a b ha hb
  have hg := get_eq_cell (AudioMapping.create i o) h1 a b ha hb
  rw [hg]
  exact congrArg some (h4 a b ha hb)

theorem create_zero_witness :
    (AudioMapping.create 2 3).get 1 2 = some 0 :=
  (create_zero 2 3).2.2.2 1 2 (by decide) (by decide)

theorem diagonalLoop_spec :
    ∀ (is : List Nat) (m : AudioMapping), m.WF →
      (∀ i ∈ is, i < m._input_channels ∧ i < m._output_channels) →
      ∃ m', diagonalLoop is m = some m' ∧ m'.WF
        ∧ m'._input_channels = m._input_channels ∧ m'._output_channels = m._output_channels
        ∧ ∀ a b, cell m'._gain a b = if a = b ∧ a ∈ is then 1 else cell m._gain a b := by
  intro is
  induction is with
  | nil => intro m h _; exact ⟨m, rfl, h, rfl, rfl, by simp⟩
  | cons i is ih =>
    intro m h his
    obtain ⟨hi1, hi2⟩ := his i (List.mem_cons_self _ _)
    obtain ⟨m1, e1, w1, d1, d2, c1⟩ := set_spec m h i i 1 hi1 hi2
    obtain ⟨m2, e2, w2, d3, d4, c2⟩ := ih m1 w1 (by
      intro x hx
      rw [d1, d2]
      exact his x (List.mem_cons_of_mem _ hx))
    refine ⟨m2, ?_, w2, d3.trans d1, d4.trans d2, ?_⟩
    · unfold diagonalLoop
      rw [e1]
      exact e2
    · intro a b
      rw [c2 a b, c1 a b]
      by_cases hab : a = b
      · subst hab
        by_cases hai : a = i <;> by_cases hm : a ∈ is <;> simp [hai, hm]
      · have hne : ¬ (a = i ∧ b = i) := fun hh => hab (hh.1.trans hh.2.symm)
        simp [hab, hne]

/-- C13: for an `AudioMapping` whose input channel count is not 1, `make_default` without a
processor completes, whatever the gains were, and leaves the 1:1 mapping: `get (a, b)` is
1 when `a = b` and 0 for every other cell in range (a cell with `a = b` in range has
`a < min (input_channels, output_channels)`); the channel counts are unchanged. -/
theorem make_default_one_to_one (m : AudioMapping) (hwf : m.WF)
    (hin : m.input_channels ≠ 1) (filename : Option String)
    (regex_match : String → String → Bool) :
    ∃ m', m.make_default none filename regex_match = some m'
      ∧ m'.input_channels = m.input_channels ∧ m'.output_channels = m.output_channels
      ∧ ∀ a b, a < m.input_channels → b < m.output_channels →
          m'.get a b = some (if a = b then 1 else 0) := by
  obtain ⟨z1, z2, z3, z4⟩ := make_zero_spec m hwf
  obtain ⟨m', e, w, d1, d2, c⟩ := diagonalLoop_spec
    (List.range (min m.make_zero.input_channels m.make_zero.output_channels)) m.make_zero z1
    (by
      intro i hi
      have := List.mem_range.mp hi
      simp only [AudioMapping.input_channels, AudioMapping.output_channels] at this
      omega)
  refine ⟨m', ?_, d1.trans z2, d2.trans z3, ?_⟩
  · unfold AudioMapping.make_default
    have hne : ¬ m.make_zero.input_channels = 1 := by
      simp only [AudioMapping.input_channels] at hin ⊢
      rw [z2]
      exact hin
    simp only [hne, if_false]
    exact e
  · intro a b ha hb
    simp only [AudioMapping.input_channels, AudioMapping.output_channels] at ha hb
    rw [get_eq_cell m' w a b (by rw [d1, z2]; exact ha) (by rw [d2, z3]; exact hb), c a b,
      z4 a b ha hb]
    by_cases hab : a = b
    · subst hab
      have hmem : a ∈ List.range
          (min m.make_zero.input_channels m.make_zero.output_channels) := by
        rw [List.mem_range]
        simp only [AudioMapping.input_channels, AudioMapping.output_channels, z2, z3]
        omega
      simp [hmem]
    · simp [hab]

theorem make_default_one_to_one_witness :
    ∃ m', (AudioMapping.mk 3 2 [[5, 5], [5, 5], [5, 5]]).make_default none none
        (fun _ _ => false) = some m'
      ∧ m'.get 1 1 = some 1 ∧ m'.get 2 1 = some 0 := by
  obtain ⟨m', e, _, _, h⟩ := make_default_one_to_one
    (AudioMapping.mk 3 2 [[5, 5], [5, 5], [5, 5]])
    ⟨rfl, by decide⟩ (by decide) none (fun _ _ => false)
  exact ⟨m', e, h 1 1 (by decide) (by decide), h 2 1 (by decide) (by decide)⟩

theorem guessLoop_no_match (regex_match : String → String → Bool) (filename : String)
    (m : AudioMapping) (guessed : Bool) :
    ∀ table : List (String × Nat),
      (∀ rc ∈ table, ¬ (regex_match filename rc.1 = true ∧ rc.2 < m.output_channels)) →
      guessLoop regex_match filename table (m, guessed) = some (m, guessed) := by
  intro table
  induction table with
  | nil => intro _; rfl
  | cons rc rest ih =>
    intro h
    obtain ⟨r, c⟩ := rc
    have h0 := h (r, c) (List.mem_cons_self _ _)
    unfold guessLoop
    have hcond : (regex_match filename r && decide (c < m.output_channels)) = false := by
      cases hr : regex_match filename r
      · rfl
      · simp only [Bool.true_and, decide_eq_false_iff_not]
        exact fun hc => h0 ⟨hr, hc⟩
    rw [hcond]
    simp only [Bool.false_eq_true, if_false]
    exact ih (fun x hx => h x (List.mem_cons_of_mem _ hx))

theorem make_default_mono (m : AudioMapping) (hwf : m.WF) (hin : m.input_channels = 1)
    (filename : Option String) (regex_match : String → String → Bool)
    (hno : ∀ f, filename = some f → ∀ rc ∈ channelRegex,
      ¬ (regex_match f rc.1 = true ∧ rc.2 < m.output_channels)) :
    (m.output_channels ≤ CENTRE → m.make_default none filename regex_match = none)
    ∧ (CENTRE < m.output_channels →
        ∃ m', m.make_default none filename regex_match = some m'
          ∧ ∀ b, b < m.output_channels →
              m'.get 0 b = some (if b = CENTRE then 1 else 0)) := by
  obtain ⟨z1, z2, z3, z4⟩ := make_zero_spec m hwf
  simp only [AudioMapping.input_channels, AudioMapping.output_channels] at hin hno ⊢
  have hmd : m.make_default none filename regex_match = m.make_zero.set 0 CENTRE 1 := by
    cases filename with
    | none =>
      unfold AudioMapping.make_default
      simp only [AudioMapping.input_channels, z2, hin, if_true, Bool.not_false]
    | some f =>
      have hg := guessLoop_no_match regex_match f m.make_zero false channelRegex
        (by
          intro rc hrc
          simp only [AudioMapping.output_channels, z3]
          exact hno f rfl rc hrc)
      unfold AudioMapping.make_default
      simp only [AudioMapping.input_channels, z2, hin, if_true, hg, Bool.not_false]
  have hrow := shape_row0 m.make_zero._gain _ _ z1 (by rw [z2, hin]; exact Nat.one_pos)
  constructor
  · intro hle
    rw [hmd]
    unfold AudioMapping.set
    have : ¬ CENTRE < (m.make_zero._gain.getD 0 []).length := by
      rw [hrow, z3]
      omega
    simp only [this, if_false, ite_self]
  · intro hlt
    obtain ⟨m', e, w, d1, d2, c⟩ := set_spec m.make_zero z1 0 CENTRE 1
      (by rw [z2, hin]; exact Nat.one_pos) (by rw [z3]; exact hlt)
    refine ⟨m', hmd.trans e, ?_⟩
    intro b hb
    rw [get_eq_cell m' w 0 b (by rw [d1, z2, hin]; exact Nat.one_pos) (by rw [d2, z3]; exact hb),
      c 0 b, z4 0 b (by rw [hin]; exact Nat.one_pos) hb]
    simp

/-- C14 (fails on the code): for the mapping `AudioMapping (1, 2)`, one input channel and two
output channels, `make_default` with no processor and no file name does not complete: the
fall-back `set (0, CENTRE, 1)` fails the assertion `output_channel < _gain[0].size ()` of
`set`, the centre channel being number 2; with three output channels it completes with
gain 1 into the centre and 0 elsewhere. -/
theorem make_default_mono_stereo_fails (regex_match : String → String → Bool) :
    (AudioMapping.create 1 2).input_channels = 1
    ∧ (AudioMapping.create 1 2).output_channels = 2
    ∧ (AudioMapping.create 1 2).make_default none none regex_match = none
    ∧ (AudioMapping.create 1 3).make_default none none regex_match
        = some ⟨1, 3, [[0, 0, 1]]⟩ :=
  ⟨by decide, by decide, rfl, rfl⟩

/-! ### AudioMapping: the digest -/

theorem wholeGains_wf (v : Fin 6 → Fin (2 ^ 24 + 1)) : (wholeGains v).WF := by
  refine ⟨rfl, ?_⟩
  intro row hrow
  simp only [wholeGains, List.mem_singleton] at hrow
  rw [hrow]
  exact List.length_ofFn _

theorem wholeGains_get (v : Fin 6 → Fin (2 ^ 24 + 1)) (k : Fin 6) :
    (wholeGains v).get 0 k = some (((v k : Nat) : ℚ)) := by
  rw [get_eq_cell (wholeGains v) (wholeGains_wf v) 0 k Nat.one_pos k.isLt]
  unfold cell wholeGains
  simp only [List.getD_cons_zero]
  rw [List.getD_eq_getElem _ _ (by rw [List.length_ofFn]; exact k.isLt), List.getElem_ofFn]

/-- A digest of bounded length is not one-to-one: whatever the digester, if its digests are
taken from at most 2^128 values (as the 32 hexadecimal digits of a 128-bit hash are),
there are two mappings with different gains and the same digest, already among the
mappings of one input to six outputs with whole-number gains up to 2^24.  The argument
counts the mappings and names no pair of them. -/
theorem digest_not_unique :
    ¬ ∃ (σ D : Type) (_ : Fintype D) (_ : Fintype.card D ≤ 2 ^ 128) (digester : Digester σ D),
      ∀ m1 m2 : AudioMapping, m1.WF → m2.WF →
        (m1.digest digester = m2.digest digester ↔ sameConfig m1 m2) := by
  rintro ⟨σ, D, hD, hcard, digester, hiff⟩
  have hlt : Fintype.card D < Fintype.card (Fin 6 → Fin (2 ^ 24 + 1)) := by
    rw [Fintype.card_fun, Fintype.card_fin, Fintype.card_fin]
    refine lt_of_le_of_lt hcard ?_
    norm_num
  obtain ⟨x, y, hne, heq⟩ :=
    Fintype.exists_ne_map_eq_of_card_lt (fun v => (wholeGains v).digest digester) hlt
  have hsame := (hiff (wholeGains x) (wholeGains y) (wholeGains_wf x) (wholeGains_wf y)).mp heq
  apply hne
  funext k
  have h := hsame.2.2 0 k Nat.one_pos k.isLt
  rw [wholeGains_get, wholeGains_get] at h
  have h' : ((x k : Nat) : ℚ) = ((y k : Nat) : ℚ) := Option.some.inj h
  exact Fin.ext (Nat.cast_injective h')

theorem foldl_cells {σ : Type} (add : σ → ℚ → σ) (gain : List (List ℚ)) (k : Nat) :
    ∀ (is : List Nat) (s : σ),
      is.foldl (fun s i => (List.range k).foldl (fun s j => add s (cell gain i j)) s) s
        = (is.flatMap (fun i => (List.range k).map (fun j => cell gain i j))).foldl add s := by
  intro is
  induction is with
  | nil => intro s; rfl
  | cons i is ih =>
    intro s
    rw [List.foldl_cons, ih, List.flatMap_cons, List.foldl_append, List.foldl_map]

theorem foldl_record (l : List ℚ) :
    ∀ s : List (Nat ⊕ ℚ), l.foldl (fun s g => s ++ [Sum.inr g]) s = s ++ l.map Sum.inr := by
  induction l with
  | nil => intro s; simp
  | cons g l ih => intro s; rw [List.foldl_cons, ih]; simp

theorem fed_eq (m : AudioMapping) :
    m.fed = [Sum.inl m._input_channels, Sum.inl m._output_channels]
      ++ ((List.range m._input_channels).flatMap
          (fun i => (List.range m._output_channels).map (fun j => cell m._gain i j))).map
        Sum.inr := by
  unfold AudioMapping.fed AudioMapping.digest
  simp only [recorder]
  rw [foldl_cells (fun s g => s ++ [Sum.inr g]), foldl_record]
  rfl

theorem digest_eq_feed {σ D : Type} (digester : Digester σ D) (m : AudioMapping) :
    m.digest digester = digester.get (feed digester m.fed) := by
  rw [fed_eq]
  unfold AudioMapping.digest feed
  rw [foldl_cells digester.add_float, List.foldl_append, List.foldl_map]
  rfl

theorem map_getD_range (row : List ℚ) :
    (List.range row.length).map (fun j => row.getD j 0) = row := by
  apply List.ext_getElem
  · simp
  · intro n h1 h2
    simp only [List.getElem_map, List.getElem_range]
    exact List.getD_eq_getElem _ _ h2

theorem cells_eq_flatten (k : Nat) :
    ∀ (gain : List (List ℚ)), (∀ row ∈ gain, row.length = k) →
      (List.range gain.length).flatMap
          (fun i => (List.range k).map (fun j => cell gain i j))
        = gain.flatten := by
  intro gain
  induction gain with
  | nil => intro _; rfl
  | cons row rest ih =>
    intro h
    have hrow : row.length = k := h row (List.mem_cons_self _ _)
    rw [List.length_cons, List.range_succ_eq_map, List.flatMap_cons, List.flatten_cons]
    congr 1
    · simp only [cell, List.getD_cons_zero]
      rw [← hrow]
      exact map_getD_range row
    · rw [List.flatMap_map]
      simp only [cell, List.getD_cons_succ]
      exact ih (fun r hr => h r (List.mem_cons_of_mem _ hr))

theorem flatten_inj (k : Nat) :
    ∀ (g1 g2 : List (List ℚ)), g1.length = g2.length →
      (∀ row ∈ g1, row.length = k) → (∀ row ∈ g2, row.length = k) →
      g1.flatten = g2.flatten → g1 = g2 := by
  intro g1
  induction g1 with
  | nil =>
    intro g2 hl _ _ _
    cases g2 with
    | nil => rfl
    | cons r t => simp at hl
  | cons r1 t1 ih =>
    intro g2 hl h1 h2 hf
    cases g2 with
    | nil => simp at hl
    | cons r2 t2 =>
      have hr1 : r1.length = k := h1 r1 (List.mem_cons_self _ _)
      have hr2 : r2.length = k := h2 r2 (List.mem_cons_self _ _)
      rw [List.flatten_cons, List.flatten_cons] at hf
      obtain ⟨e1, e2⟩ := List.append_inj hf (hr1.trans hr2.symm)
      rw [e1, ih t2 (by simpa using hl) (fun r hr => h1 r (List.mem_cons_of_mem _ hr))
        (fun r hr => h2 r (List.mem_cons_of_mem _ hr)) e2]

theorem fed_eq_iff (m1 m2 : AudioMapping) (h1 : m1.WF) (h2 : m2.WF) :
    m1.fed = m2.fed ↔ sameConfig m1 m2 := by
  rw [fed_eq, fed_eq]
  constructor
  · intro h
    simp only [List.cons_append, List.nil_append, List.cons.injEq, Sum.inl.injEq] at h
    obtain ⟨hin, hout, hcells⟩ := h
    have hc := List.map_injective_iff.mpr Sum.inr_injective hcells
    rw [← h1.1, ← h2.1, cells_eq_flatten _ _ h1.2, cells_eq_flatten _ _ h2.2] at hc
    have hg : m1._gain = m2._gain :=
      flatten_inj m2._output_channels _ _ (by rw [h1.1, h2.1, hin])
        (fun r hr => (h1.2 r hr).trans hout) h2.2 hc
    refine ⟨hin, hout, ?_⟩
    intro a b _ _
    unfold AudioMapping.get
    rw [hg]
  · rintro ⟨hin, hout, hget⟩
    simp only [AudioMapping.input_channels, AudioMapping.output_channels] at hin hout hget
    rw [← hin, ← hout]
    congr 2
    apply List.flatMap_congr
    intro i hi
    apply List.map_congr_left
    intro j hj
    have ha := List.mem_range.mp hi
    have hb := List.mem_range.mp hj
    have e := hget i j ha hb
    rw [get_eq_cell m1 h1 i j ha hb,
      get_eq_cell m2 h2 i j (by rw [← hin]; exact ha) (by rw [← hout]; exact hb)] at e
    exact Option.some.inj e

/-- What `AudioMapping::digest` gives for gains taken as numbers: it feeds its digester the
input channel count, the output channel count and then every gain, row by row, and
returns what the digester makes of them; two mappings are fed as the same sequence
exactly when they have the same channel counts and the same gain in every cell.  So
mappings with the same configuration have the same digest, and mappings with different
configurations have the same digest only if the digester gives the same result for two
different sequences. -/
theorem digest_determined {σ D : Type} (digester : Digester σ D) :
    (∀ m : AudioMapping, m.digest digester = digester.get (feed digester m.fed))
    ∧ (∀ m1 m2 : AudioMapping, m1.WF → m2.WF → (m1.fed = m2.fed ↔ sameConfig m1 m2))
    ∧ (∀ m1 m2 : AudioMapping, m1.WF → m2.WF → sameConfig m1 m2 →
        m1.digest digester = m2.digest digester)
    ∧ (∀ m1 m2 : AudioMapping, m1.WF → m2.WF →
        m1.digest digester = m2.digest digester → ¬ sameConfig m1 m2 →
        m1.fed ≠ m2.fed
          ∧ digester.get (feed digester m1.fed) = digester.get (feed digester m2.fed)) := by
  refine ⟨digest_eq_feed digester, fed_eq_iff, ?_, ?_⟩
  · intro m1 m2 h1 h2 hs
    rw [digest_eq_feed, digest_eq_feed, (fed_eq_iff m1 m2 h1 h2).mpr hs]
  · intro m1 m2 h1 h2 hd hs
    refine ⟨fun e => hs ((fed_eq_iff m1 m2 h1 h2).mp e), ?_⟩
    rw [← digest_eq_feed, ← digest_eq_feed]
    exact hd

/-! ### JSONServer: the status request -/

theorem intercalate_go_eq (s : String) :
    ∀ (l : List String) (acc : String),
      String.intercalate.go acc s l = acc ++ String.intercalate.go "" s l := by
  intro l
  induction l with
  | nil => intro acc; simp [String.intercalate.go]
  | cons a l ih =>
    intro acc
    simp only [String.intercalate.go]
    rw [ih (acc ++ s ++ a), ih ("" ++ s ++ a)]
    simp [String.append_assoc]

theorem intercalate_cons_cons (s a b : String) (l : List String) :
    s.intercalate (a :: b :: l) = a ++ s ++ s.intercalate (b :: l) := by
  simp only [String.intercalate, String.intercalate.go]
  rw [intercalate_go_eq s l (a ++ s ++ b), intercalate_go_eq s l b]
  simp [String.append_assoc]

theorem jobsLoop_eq (show_float : ℚ → String) (jobs : List Job) :
    jobsLoop show_float jobs = ", ".intercalate (jobs.map (jobEntry show_float)) := by
  induction jobs with
  | nil => rfl
  | cons i rest ih =>
    cases rest with
    | nil => simp [jobsLoop, String.intercalate, String.intercalate.go]
    | cons j rest' =>
      rw [List.map_cons, List.map_cons, intercalate_cons_cons, ← List.map_cons, ← ih]
      simp [jobsLoop]

theorem status_json_not_empty (inner : String) :
    ("\x7b \"jobs\": [" ++ inner ++ "] \x7d").isEmpty = false := by
  rw [Bool.eq_false_iff]
  intro h
  have e := (String.isEmpty_iff _).mp h
  have hl := congrArg String.length e
  simp only [String.length_append] at hl
  have h1 : ("\x7b \"jobs\": [").length = 11 := by decide
  have h2 : ("").length = 0 := rfl
  omega

/-- C15: for a URL whose `action` parameter is `status`, the body built by
`JSONServer::request` is `\x7b "jobs": [` followed by one entry for every job of the job
manager, in their order and separated by `", "`, followed by `] \x7d`; the entry of a job
carries the DCP name of its film if it has one, then its name, its progress as a
number if it has one and the token `unknown` otherwise, and its status; the reply wraps
this body, and the jobs are the same after the request as before. -/
theorem request_status (split_get_request : String → List (String × String))
    (show_float : ℚ → String) (url : String) (jobs : List Job)
    (haction : (split_get_request url).lookup "action" = some "status") :
    requestBody split_get_request show_float url jobs
      = "\x7b \"jobs\": [" ++ ", ".intercalate (jobs.map (jobEntry show_float)) ++ "] \x7d"
    ∧ (∀ i : Job, jobEntry show_float i
        = "\x7b "
          ++ (match i.film with
              | some dcp_name => "\"dcp\": \"" ++ dcp_name ++ "\", "
              | none => "")
          ++ "\"name\": \"" ++ i.json_name ++ "\", "
          ++ "\"progress\": "
          ++ (match i.progress with
              | some p => show_float p
              | none => "unknown")
          ++ ", "
          ++ "\"status\": \"" ++ i.json_status ++ "\" \x7d")
    ∧ (request split_get_request show_float url jobs).1
      = "HTTP/1.1 200 OK\r\n" ++ "Content-Length: "
        ++ toString (requestBody split_get_request show_float url jobs).utf8ByteSize
        ++ "\r\n" ++ "Content-Type: application/json\r\n" ++ "\r\n"
        ++ requestBody split_get_request show_float url jobs ++ "\r\n"
    ∧ (request split_get_request show_float url jobs).2 = jobs := by
  refine ⟨?_, ?_, rfl, rfl⟩
  · unfold requestBody
    simp only [haction, if_true, status_json_not_empty, Bool.false_eq_true, if_false]
    rw [jobsLoop_eq]
  · intro i
    unfold jobEntry
    cases i.progress <;> cases i.film <;>
      (apply String.ext; simp [String.data_append])

theorem request_status_witness :
    requestBody (fun _ => [("action", "status")]) (fun _ => "0.5") "/?action=status" statusJobs
      = "\x7b \"jobs\": [\x7b \"dcp\": \"Film_FTR\", \"name\": \"transcode\", "
        ++ "\"progress\": 0.5, \"status\": \"running\" \x7d, "
        ++ "\x7b \"name\": \"examine\", \"progress\": unknown, \"status\": \"new\" \x7d] \x7d" :=
  (request_status (fun _ => [("action", "status")]) (fun _ => "0.5") "/?action=status"
    statusJobs rfl).1.trans (by decide)

/-! ### kdm_cli: durations -/


theorem isdigit_toNat (c : Char) (h : isdigit c = true) : 48 ≤ c.toNat ∧ c.toNat ≤ 57 := by
  unfold isdigit at h
  rw [decide_eq_true_eq] at h
  obtain ⟨h1, h2⟩ := h
  rw [Char.le_def] at h1 h2
  exact ⟨h1, h2⟩

theorem isdigit_props (c : Char) (h : isdigit c = true) :
    c ≠ '-' ∧ c ≠ '+' ∧ isspace c = false ∧ (c != Char.ofNat 0) = true := by
  obtain ⟨h1, h2⟩ := isdigit_toNat c h
  have ne : ∀ d : Char, (d.toNat < 48 ∨ 57 < d.toNat) → c ≠ d := by
    intro d hd e
    rw [e] at h1 h2
    omega
  refine ⟨ne _ (by decide), ne _ (by decide), ?_, ?_⟩
  · unfold isspace
    simp only [Bool.or_eq_false_iff, beq_eq_false_iff_ne]
    exact ⟨⟨⟨⟨⟨ne _ (by decide), ne _ (by decide)⟩, ne _ (by decide)⟩, ne _ (by decide)⟩,
      ne _ (by decide)⟩, ne _ (by decide)⟩
  · simp only [bne_iff_ne]
    exact ne _ (by decide)

theorem takeWhile_append_stop (p : Char → Bool) (l rest : List Char)
    (hl : ∀ c ∈ l, p c = true) (hr : ∀ c ∈ rest.head?, p c = false) :
    (l ++ rest).takeWhile p = l ∧ (l ++ rest).dropWhile p = rest := by
  induction l with
  | nil =>
    cases rest with
    | nil => simp
    | cons c t =>
      have hc : p c = false := hr c rfl
      simp [List.takeWhile_cons, List.dropWhile_cons, hc]
  | cons c l ih =>
    have hc : p c = true := hl c (List.mem_cons_self _ _)
    obtain ⟨h1, h2⟩ := ih (fun x hx => hl x (List.mem_cons_of_mem _ hx))
    simp [List.takeWhile_cons, List.dropWhile_cons, hc, h1, h2]

theorem takeWhile_append_all (p : Char → Bool) (l rest : List Char)
    (hl : ∀ c ∈ l, p c = true) : (l ++ rest).takeWhile p = l ++ rest.takeWhile p := by
  induction l with
  | nil => rfl
  | cons c l ih =>
    have hc : p c = true := hl c (List.mem_cons_self _ _)
    simp [List.takeWhile_cons, hc, ih (fun x hx => hl x (List.mem_cons_of_mem _ hx))]

theorem head_takeWhile (p : Char → Bool) (l : List Char) :
    ∀ c ∈ (l.takeWhile p).head?, c ∈ l.head? ∧ p c = true := by
  intro c hc
  cases l with
  | nil => simp at hc
  | cons a t =>
    by_cases ha : p a = true
    · simp only [List.takeWhile_cons, ha, if_true, List.head?_cons, Option.mem_def,
        Option.some.injEq] at hc
      subst hc
      exact ⟨rfl, ha⟩
    · simp [List.takeWhile_cons, ha] at hc

theorem scan_int_digits (negative : Bool) (ds rest : List Char) (hne : ds ≠ [])
    (hds : ∀ c ∈ ds, isdigit c = true) (hrest : ∀ c ∈ rest.head?, isdigit c = false) :
    scan_int ((if negative then ['-'] else []) ++ ds ++ rest)
      = some (if negative then - (digitsValue ds : Int) else (digitsValue ds : Int), rest) := by
  obtain ⟨c0, ds', rfl⟩ := List.exists_cons_of_ne_nil hne
  have h0 := isdigit_props c0 (hds c0 (List.mem_cons_self _ _))
  obtain ⟨ht, hd⟩ := takeWhile_append_stop isdigit (c0 :: ds') rest hds hrest
  unfold scan_int
  cases negative with
  | true =>
    have e1 : (['-'] ++ c0 :: ds' ++ rest).dropWhile isspace = '-' :: (c0 :: ds' ++ rest) := by
      simp [List.dropWhile_cons, isspace]
    simp only [if_true, e1, ht, hd]
    simp
  | false =>
    have e1 : (c0 :: ds' ++ rest).dropWhile isspace = c0 :: (ds' ++ rest) := by
      simp [List.dropWhile_cons, h0.2.2.1]
    have e2 : (match c0 :: (ds' ++ rest) with
        | '-' :: t => (true, t)
        | '+' :: t => (false, t)
        | _ => (false, c0 :: (ds' ++ rest))) = (false, c0 :: ds' ++ rest) := by
      split
      · rename_i t heq
        exact absurd (List.cons.inj heq).1 h0.1
      · rename_i t heq
        exact absurd (List.cons.inj heq).1 h0.2.1
      · rfl
    simp only [Bool.false_eq_true, if_false, List.nil_append, e1, e2, ht, hd]
    simp

theorem scan_word_unit (unit rest : List Char) (hu : ∀ c ∈ unit, isspace c = false)
    (hne : unit ≠ []) (hlen : unit.length ≤ 63) (hrest : ∀ c ∈ rest.head?, isspace c = true) :
    scan_word 63 (' ' :: (unit ++ rest)) = unit := by
  obtain ⟨u0, us, rfl⟩ := List.exists_cons_of_ne_nil hne
  have h0 : isspace u0 = false := hu u0 (List.mem_cons_self _ _)
  have e1 : (' ' :: (u0 :: us ++ rest)).dropWhile isspace = u0 :: us ++ rest := by
    have hs : isspace ' ' = true := by decide
    simp [List.dropWhile_cons, hs, h0]
  obtain ⟨ht, _⟩ := takeWhile_append_stop (fun c => !isspace c) (u0 :: us) rest
    (fun c hc => by simp [hu c hc]) (fun c hc => by simp [hrest c hc])
  unfold scan_word
  rw [e1, ht]
  exact List.take_of_length_le hlen

theorem scan_durationText (garbage : Int) (negative : Bool) (ds : List Char) (unit : String)
    (tail : List Char) (hne : ds ≠ []) (hds : ∀ c ∈ ds, isdigit c = true)
    (hu : ∀ c ∈ unit.data, isspace c = false ∧ (c != Char.ofNat 0) = true)
    (hune : unit.data ≠ []) (hlen : unit.data.length ≤ 63)
    (htail : ∀ c ∈ tail.head?, isspace c = true ∨ c = Char.ofNat 0) :
    scan_duration garbage (durationText negative ds unit tail)
      = (wrap32 (if negative then - (digitsValue ds : Int) else (digitsValue ds : Int)),
         unit) := by
  have hbody : ∀ c ∈ (if negative then ['-'] else []) ++ ds ++ ' ' :: unit.data,
      (c != Char.ofNat 0) = true := by
    intro c hc
    simp only [List.mem_append, List.mem_cons] at hc
    rcases hc with (hc | hc) | hc | hc
    · cases negative
      · simp at hc
      · simp only [if_true, List.mem_singleton] at hc
        rw [hc]
        decide
    · exact (isdigit_props c (hds c hc)).2.2.2
    · rw [hc]
      decide
    · exact (hu c hc).2
  have hcstr : c_str (durationText negative ds unit tail)
      = (if negative then ['-'] else []) ++ ds
          ++ (' ' :: (unit.data ++ tail.takeWhile (fun c => c != Char.ofNat 0))) := by
    unfold c_str durationText
    simp only
    rw [takeWhile_append_all _ _ _ hbody]
    simp [List.append_assoc]
  have htail' : ∀ c ∈ (tail.takeWhile (fun c => c != Char.ofNat 0)).head?,
      isspace c = true := by
    intro c hc
    obtain ⟨h1, h2⟩ := head_takeWhile _ tail c hc
    rcases htail c h1 with h | h
    · exact h
    · rw [h] at h2
      simp at h2
  have hscan := scan_int_digits negative ds
    (' ' :: (unit.data ++ tail.takeWhile (fun c => c != Char.ofNat 0))) hne hds
    (by
      intro c hc
      simp only [List.head?_cons, Option.mem_def, Option.some.injEq] at hc
      rw [← hc]
      decide)
  unfold scan_duration
  rw [hcstr, hscan]
  simp only
  rw [scan_word_unit unit.data _ (fun c hc => (hu c hc).1) hune hlen htail']

theorem wrap32_of_range (x : Int) (h1 : -2 ^ 31 ≤ x) (h2 : x < 2 ^ 31) : wrap32 x = x := by
  unfold wrap32
  rw [Int.emod_eq_of_lt (by omega) (by omega)]
  omega

theorem unitHours_cases (unit : String) (f : Int) (hmem : (unit, f) ∈ unitHours) :
    (f = 1 ∧ (unit = "hour" ∨ unit = "hours")) ∨ (f = 24 ∧ (unit = "day" ∨ unit = "days"))
    ∨ (f = 168 ∧ (unit = "week" ∨ unit = "weeks"))
    ∨ (f = 8760 ∧ (unit = "year" ∨ unit = "years")) := by
  simp only [unitHours, List.mem_cons, Prod.mk.injEq, List.mem_singleton, List.not_mem_nil,
    or_false] at hmem
  rcases hmem with h | h | h | h | h | h | h | h <;> obtain ⟨hu, hf⟩ := h <;> subst hu
    <;> subst hf <;> simp

theorem duration_of_scan (garbage : Int) (d : String) (N : Int) (unit : String) (f : Int)
    (hscan : scan_duration garbage d = (wrap32 N, unit)) (hmem : (unit, f) ∈ unitHours)
    (hN : N ≠ 0) (h1 : -2 ^ 31 ≤ N * f) (h2 : N * f < 2 ^ 31) :
    duration_from_string garbage d = Except.ok (N * f) := by
  unfold duration_from_string
  rw [hscan]
  have hcases := unitHours_cases unit f hmem
  have hw : wrap32 N = N := by
    apply wrap32_of_range
    · rcases hcases with ⟨rfl, _⟩ | ⟨rfl, _⟩ | ⟨rfl, _⟩ | ⟨rfl, _⟩ <;> omega
    · rcases hcases with ⟨rfl, _⟩ | ⟨rfl, _⟩ | ⟨rfl, _⟩ | ⟨rfl, _⟩ <;> omega
  simp only [hw, hN, if_false]
  rcases hcases with ⟨rfl, hu⟩ | ⟨rfl, hu⟩ | ⟨rfl, hu⟩ | ⟨rfl, hu⟩
  · rcases hu with rfl | rfl <;> simp
  · have hw24 : wrap32 (N * 24) = N * 24 := wrap32_of_range _ (by omega) (by omega)
    rcases hu with rfl | rfl <;> simp [hw24]
  · have hw24 : wrap32 (N * 24) = N * 24 := wrap32_of_range _ (by omega) (by omega)
    have hw7 : wrap32 (N * 24 * 7) = N * 24 * 7 := wrap32_of_range _ (by omega) (by omega)
    rcases hu with rfl | rfl <;> simp [hw24, hw7] <;> omega
  · have hw24 : wrap32 (N * 24) = N * 24 := wrap32_of_range _ (by omega) (by omega)
    have hw365 : wrap32 (N * 24 * 365) = N * 24 * 365 :=
      wrap32_of_range _ (by omega) (by omega)
    rcases hu with rfl | rfl <;> simp [hw24, hw365] <;> omega

theorem unitHours_chars (unit : String) (f : Int) (hmem : (unit, f) ∈ unitHours) :
    (∀ c ∈ unit.data, isspace c = false ∧ (c != Char.ofNat 0) = true)
    ∧ unit.data ≠ [] ∧ unit.data.length ≤ 63 ∧ unit.data.count ' ' = 0 := by
  rcases unitHours_cases unit f hmem with ⟨_, hu⟩ | ⟨_, hu⟩ | ⟨_, hu⟩ | ⟨_, hu⟩
    <;> rcases hu with rfl | rfl <;> decide

/-- C17 (does not hold as stated): the string `1 day 12 hours` is not a count, a space and
a unit name, yet `duration_from_string` raises nothing on it and returns 24 hours, what
it returns on `1 day`. -/
theorem duration_accepts_trailing_text :
    duration_from_string 0 "1 day 12 hours" = Except.ok 24
    ∧ duration_from_string 0 "1 day" = Except.ok 24
    ∧ ¬ ∃ (negative : Bool) (ds : List Char) (unit : String) (f : Int),
        (∀ c ∈ ds, isdigit c = true) ∧ (unit, f) ∈ unitHours
        ∧ "1 day 12 hours" = durationText negative ds unit [] := by
  refine ⟨by decide, by decide, ?_⟩
  rintro ⟨negative, ds, unit, f, hds, hmem, heq⟩
  have hcount := congrArg (fun s : String => s.data.count ' ') heq
  have hu := (unitHours_chars unit f hmem).2.2.2
  have hd : ds.count ' ' = 0 := by
    rw [List.count_eq_zero]
    intro hmem'
    have := (isdigit_props ' ' (hds ' ' hmem')).2.2.1
    revert this
    decide
  have hl : ("1 day 12 hours" : String).data.count ' ' = 3 := by decide
  simp only [hl, durationText, List.append_nil, List.count_append, List.count_cons, hu, hd,
    beq_self_eq_true, if_true] at hcount
  cases negative <;> simp at hcount

/-- C17 (amended): `duration_from_string` reads its argument as `sscanf` with `"%d %63s"`
does.  When the argument is a count `N` written in decimal digits, with or without a
minus sign, then a space and one of the unit names, then nothing more or white space and
anything at all, and `N` is not zero and `N` times the hours of the unit fits an `int`,
it returns `N` hours for hour/hours, `24 N` for day/days, `168 N` for week/weeks and
`8760 N` for year/years.  It raises `KDMCLIError` "could not understand duration" when no
count can be read, when the count is zero, and when the word after the count is missing
or is not one of the unit names; it raises nothing else. -/
theorem duration_from_string_spec (garbage : Int) :
    (∀ (negative : Bool) (ds : List Char) (unit : String) (f : Int) (tail : List Char),
      ds ≠ [] → (∀ c ∈ ds, isdigit c = true) → (unit, f) ∈ unitHours →
      (∀ c ∈ tail.head?, isspace c = true ∨ c = Char.ofNat 0) →
      (if negative then - (digitsValue ds : Int) else (digitsValue ds : Int)) ≠ 0 →
      -2 ^ 31 ≤ (if negative then - (digitsValue ds : Int) else (digitsValue ds : Int)) * f →
      (if negative then - (digitsValue ds : Int) else (digitsValue ds : Int)) * f < 2 ^ 31 →
      duration_from_string garbage (durationText negative ds unit tail)
        = Except.ok
            ((if negative then - (digitsValue ds : Int) else (digitsValue ds : Int)) * f))
    ∧ (∀ d : String, scan_int (c_str d) = none →
        duration_from_string garbage d = Except.error (Failure.duration d))
    ∧ (∀ d : String, (scan_duration garbage d).1 = 0 →
        duration_from_string garbage d = Except.error (Failure.duration d))
    ∧ (∀ d : String, (∀ f, ((scan_duration garbage d).2, f) ∉ unitHours) →
        duration_from_string garbage d = Except.error (Failure.duration d))
    ∧ (∀ d : String, duration_from_string garbage d = Except.error (Failure.duration d)
        ∨ ∃ hours, duration_from_string garbage d = Except.ok hours) := by
  have hunknown : ∀ d : String, (∀ f, ((scan_duration garbage d).2, f) ∉ unitHours) →
      duration_from_string garbage d = Except.error (Failure.duration d) := by
    intro d h
    unfold duration_from_string
    have e1 : ¬ ((scan_duration garbage d).2 = "year" ∨ (scan_duration garbage d).2 = "years") :=
      fun e => e.elim (fun e => h 8760 (by rw [e]; decide)) (fun e => h 8760 (by rw [e]; decide))
    have e2 : ¬ ((scan_duration garbage d).2 = "week" ∨ (scan_duration garbage d).2 = "weeks") :=
      fun e => e.elim (fun e => h 168 (by rw [e]; decide)) (fun e => h 168 (by rw [e]; decide))
    have e3 : ¬ ((scan_duration garbage d).2 = "day" ∨ (scan_duration garbage d).2 = "days") :=
      fun e => e.elim (fun e => h 24 (by rw [e]; decide)) (fun e => h 24 (by rw [e]; decide))
    have e4 : ¬ ((scan_duration garbage d).2 = "hour" ∨ (scan_duration garbage d).2 = "hours") :=
      fun e => e.elim (fun e => h 1 (by rw [e]; decide)) (fun e => h 1 (by rw [e]; decide))
    simp only [e1, e2, e3, e4, if_false, ite_self]
  refine ⟨?_, ?_, ?_, hunknown, ?_⟩
  · intro negative ds unit f tail hne hds hmem htail hN h1 h2
    obtain ⟨hu, hune, hlen, _⟩ := unitHours_chars unit f hmem
    exact duration_of_scan garbage _ _ unit f
      (scan_durationText garbage negative ds unit tail hne hds hu hune hlen htail)
      hmem hN h1 h2
  · intro d hscan
    apply hunknown
    intro f
    unfold scan_duration
    rw [hscan]
    show ("", f) ∉ unitHours
    intro hmem
    exact (unitHours_chars "" f hmem).2.1 rfl
  · intro d h0
    unfold duration_from_string
    simp only [h0, if_true]
  · intro d
    unfold duration_from_string
    dsimp only
    split_ifs
    · exact Or.inl rfl
    · exact Or.inr ⟨_, rfl⟩
    · exact Or.inr ⟨_, rfl⟩
    · exact Or.inr ⟨_, rfl⟩
    · exact Or.inr ⟨_, rfl⟩
    · exact Or.inl rfl

theorem duration_from_string_spec_witness :
    durationText false ['2'] "weeks" [] = "2 weeks"
    ∧ duration_from_string 5 "2 weeks" = Except.ok 336 :=
  ⟨by decide,
   (duration_from_string_spec 5).1 false ['2'] "weeks" 168 [] (by decide) (by decide)
     (by decide) (by decide) (by decide) (by decide) (by decide)⟩

/-! ### kdm_cli: finding a DKDM -/

theorem sub_find_dkdm_loop_eq (cpl_id : String) (l : List DKDMBase) :
    sub_find_dkdm_loop cpl_id l
      = (all_dkdms l).find? (fun d => decide (d.cpl_id = cpl_id)) := by
  refine all_dkdms.induct
    (fun l => sub_find_dkdm_loop cpl_id l
      = (all_dkdms l).find? (fun d => decide (d.cpl_id = cpl_id)))
    (fun i => sub_find_dkdm_child cpl_id i
      = (dkdms_below i).find? (fun d => decide (d.cpl_id = cpl_id))) ?_ ?_ ?_ ?_ l
  · intro name children ih
    simpa [sub_find_dkdm_child, dkdms_below] using ih
  · intro d
    by_cases h : d.cpl_id = cpl_id <;> simp [sub_find_dkdm_child, dkdms_below, h]
  · simp [sub_find_dkdm_loop, all_dkdms]
  · intro i rest ihi ihrest
    rw [sub_find_dkdm_loop, all_dkdms, List.find?_append, ihi, ihrest]
    cases List.find? (fun d => decide (d.cpl_id = cpl_id)) (dkdms_below i) <;> rfl

/-! ### kdm_cli: computations -/

theorem bind_eq {α β : Type} (m : Cli α) (k : α → Cli β) : (m >>= k) = Cli.bind m k := rfl

theorem pure_eq {α : Type} (a : α) : (pure a : Cli α) = Cli.pure a := rfl

theorem bind_ok {α β : Type} (m : Cli α) (k : α → Cli β) (b : β) :
    (Cli.bind m k).2 = Except.ok b ↔ ∃ a, m.2 = Except.ok a ∧ (k a).2 = Except.ok b := by
  rcases m with ⟨es, r⟩
  cases r <;> simp [Cli.bind]

theorem bind_error {α β : Type} (m : Cli α) (k : α → Cli β) (s : Stop) :
    (Cli.bind m k).2 = Except.error s
      ↔ m.2 = Except.error s ∨ ∃ a, m.2 = Except.ok a ∧ (k a).2 = Except.error s := by
  rcases m with ⟨es, r⟩
  cases r <;> simp [Cli.bind]

theorem raises_bind {α β : Type} (Q : Failure → Prop) (m : Cli α) (k : α → Cli β)
    (hm : Raises Q m) (hk : ∀ a, Raises Q (k a)) : Raises Q (Cli.bind m k) := by
  intro s hs
  rcases (bind_error m k s).1 hs with h | ⟨a, _, h⟩
  · exact hm s h
  · exact hk a s h

theorem raises_pure {α : Type} (Q : Failure → Prop) (a : α) : Raises Q (Cli.pure a) := by
  intro s hs
  simp [Cli.pure] at hs

theorem raises_out (Q : Failure → Prop) (x : String) : Raises Q (out x) := by
  intro s hs
  simp [out] at hs

theorem raises_raise {α : Type} (Q : Failure → Prop) (f : Failure) (hf : Q f) :
    Raises Q (raise f : Cli α) := by
  intro s hs
  simp only [raise, Except.error.injEq] at hs
  exact ⟨f, hs.symm, hf⟩

theorem raises_call {α : Type} (Q : Failure → Prop) (r : Except Exn α)
    (hQ : ∀ e, Q (Failure.thrown e)) : Raises Q (call r) := by
  cases r with
  | ok a => exact raises_pure Q a
  | error e => exact raises_raise Q _ (hQ e)

theorem raises_perform {α : Type} (Q : Failure → Prop) (e : Effect) (r : Except Exn α)
    (hQ : ∀ e, Q (Failure.thrown e)) : Raises Q (perform e r) := by
  intro s hs
  cases r with
  | ok a => simp [perform] at hs
  | error x =>
    simp only [perform, Except.error.injEq] at hs
    exact ⟨_, hs.symm, hQ x⟩

theorem raises_ite {α : Type} (Q : Failure → Prop) (c : Prop) [Decidable c] (a b : Cli α)
    (ha : Raises Q a) (hb : Raises Q b) : Raises Q (if c then a else b) := by
  split <;> assumption

theorem raises_mono {α : Type} (Q Q2 : Failure → Prop) (m : Cli α) (h : ∀ f, Q f → Q2 f)
    (hm : Raises Q m) : Raises Q2 m := by
  intro s hs
  obtain ⟨f, hf, hq⟩ := hm s hs
  exact ⟨f, hf, h f hq⟩

theorem raises_catch_file_error {α : Type} (m : Cli α)
    (hm : Raises (fun f => f.is_not_found = false) m) :
    Raises (fun f => f.is_not_found = false) (catch_file_error m) := by
  intro s hs
  unfold catch_file_error at hs
  split at hs
  · simp only [Except.error.injEq] at hs
    exact ⟨_, hs.symm, rfl⟩
  · exact hm s hs

theorem raises_catch_film_read {α : Type} (program_name film_dir : String) (m : Cli α)
    (hm : Raises (fun _ => True) m) :
    Raises (fun f => f.is_not_found = false) (catch_film_read program_name film_dir m) := by
  intro s hs
  unfold catch_film_read at hs
  split at hs
  · simp only [Except.error.injEq] at hs
    exact ⟨_, hs.symm, rfl⟩
  · rename_i hne
    obtain ⟨f, hf, _⟩ := hm s hs
    rcases m with ⟨es, r⟩
    subst hf
    simp only at hs
    subst hs
    exact absurd rfl (hne es f)

theorem raises_write_files (env : Env) (kdms : List KDMWithMetadata) (zip : Bool)
    (output container_name_format filename_format : String) (verbose : Bool) :
    Raises (fun f => f.is_not_found = false)
      (write_files env kdms zip output container_name_format filename_format verbose) := by
  unfold write_files
  simp only [bind_eq, pure_eq]
  apply raises_ite
  · refine raises_bind _ _ _ (raises_perform _ _ _ (fun _ => rfl)) (fun N => ?_)
    exact raises_ite _ _ _ _ (raises_out _ _) (raises_pure _ _)
  · refine raises_bind _ _ _ (raises_perform _ _ _ (fun _ => rfl)) (fun N => ?_)
    exact raises_ite _ _ _ _ (raises_out _ _) (raises_pure _ _)

theorem raises_from_film_loop (env : Env) (film : KDMFilm) (cpl : String)
    (valid_from valid_to : Int) (formulation : Formulation) (p : Bool) (a : Option Int)
    (screens : List Screen) (kdms : List KDMWithMetadata) :
    Raises (fun f => f.is_not_found = false)
      (from_film_loop env film cpl valid_from valid_to formulation p a screens kdms) := by
  induction screens generalizing kdms with
  | nil => exact raises_pure _ _
  | cons i rest ih =>
    unfold from_film_loop
    simp only [bind_eq]
    refine raises_bind _ _ _ (raises_call _ _ (fun _ => rfl)) (fun x => ?_)
    cases x with
    | none => exact ih _
    | some x => exact ih _

theorem raises_kdm_from_dkdm (env : Env) (dkdm : DecryptedKDM) (target : String)
    (trusted_devices : List String) (valid_from valid_to : LocalTime)
    (formulation : Formulation) (p : Bool) (a : Option Int) :
    Raises (fun f => f.is_not_found = false)
      (kdm_from_dkdm env dkdm target trusted_devices valid_from valid_to formulation p a) := by
  unfold kdm_from_dkdm
  exact raises_ite _ _ _ _ (raises_raise _ _ rfl) (raises_call _ _ (fun _ => rfl))

theorem raises_from_dkdm_loop (env : Env) (dkdm : DecryptedKDM) (valid_from valid_to : Int)
    (formulation : Formulation) (p : Bool) (a : Option Int)
    (screens : List Screen) (kdms : List KDMWithMetadata) :
    Raises (fun f => f.is_not_found = false)
      (from_dkdm_loop env dkdm valid_from valid_to formulation p a screens kdms) := by
  induction screens generalizing kdms with
  | nil => exact raises_pure _ _
  | cons i rest ih =>
    unfold from_dkdm_loop
    cases i.recipient with
    | none => exact ih _
    | some recipient =>
      simp only [bind_eq]
      exact raises_bind _ _ _ (raises_kdm_from_dkdm _ _ _ _ _ _ _ _ _) (fun x => ih _)

theorem raises_from_dkdm (env : Env) (screens : List Screen) (dkdm : DecryptedKDM)
    (verbose : Bool) (output container_name_format filename_format : String)
    (valid_from valid_to : Int) (formulation : Formulation) (p : Bool) (a : Option Int)
    (email zip : Bool) :
    Raises (fun f => f.is_not_found = false)
      (from_dkdm env screens dkdm verbose output container_name_format filename_format
        valid_from valid_to formulation p a email zip) := by
  unfold from_dkdm
  apply raises_catch_file_error
  simp only [bind_eq, pure_eq]
  refine raises_bind _ _ _ (raises_from_dkdm_loop _ _ _ _ _ _ _ _ _) (fun kdms => ?_)
  refine raises_bind _ _ _ (raises_write_files _ _ _ _ _ _ _) (fun _ => ?_)
  exact raises_ite _ _ _ _ (raises_perform _ _ _ (fun _ => rfl)) (raises_pure _ _)

theorem raises_from_film (env : Env) (program_name : String) (screens : List Screen)
    (film_dir : String) (verbose : Bool) (output container_name_format filename_format : String)
    (valid_from valid_to : Int) (formulation : Formulation) (p : Bool) (a : Option Int)
    (email zip : Bool) :
    Raises (fun f => f.is_not_found = false)
      (from_film env program_name screens film_dir verbose output container_name_format
        filename_format valid_from valid_to formulation p a email zip) := by
  unfold from_film
  simp only [bind_eq, pure_eq]
  refine raises_bind _ _ _ (raises_catch_film_read _ _ _ ?_) (fun film => ?_)
  · refine raises_bind _ _ _ (raises_call _ _ (fun _ => trivial)) (fun film => ?_)
    refine raises_ite _ _ _ _ ?_ ?_
    · exact raises_bind _ _ _ (raises_out _ _) (fun _ => raises_pure _ _)
    · exact raises_bind _ _ _ (raises_pure _ _) (fun _ => raises_pure _ _)
  · split
    · exact raises_raise _ _ rfl
    · exact raises_raise _ _ rfl
    · apply raises_catch_file_error
      refine raises_bind _ _ _ (raises_from_film_loop _ _ _ _ _ _ _ _ _ _) (fun kdms => ?_)
      refine raises_bind _ _ _ (raises_write_files _ _ _ _ _ _ _) (fun _ => ?_)
      exact raises_ite _ _ _ _ (raises_perform _ _ _ (fun _ => rfl)) (raises_pure _ _)

theorem raises_not_not_found {α : Type} (m : Cli α)
    (hm : Raises (fun f => f.is_not_found = false) m) (t : String) :
    m.2 ≠ Except.error (Stop.raise (Failure.not_found t)) := by
  intro h
  obtain ⟨f, hf, hq⟩ := hm _ h
  simp only [Stop.raise.injEq] at hf
  subst hf
  simp [Failure.is_not_found] at hq

theorem read_dkdm_some (env : Env) (thing : String) (a : Option EncryptedKDM)
    (h : (Cli.bind (call (env.file_to_string thing)) (fun text =>
      Cli.bind (call (env.encrypted_kdm text)) (fun dkdm => Cli.pure (some dkdm)))).2
        = Except.ok a) : ∃ dkdm, a = some dkdm := by
  obtain ⟨text, _, h⟩ := (bind_ok _ _ _).1 h
  obtain ⟨dkdm, _, h⟩ := (bind_ok _ _ _).1 h
  simp only [Cli.pure, Except.ok.injEq] at h
  exact ⟨dkdm, h.symm⟩

theorem raises_read_dkdm (env : Env) (thing : String) :
    Raises (fun f => f.is_not_found = false)
      (Cli.bind (call (env.file_to_string thing)) (fun text =>
        Cli.bind (call (env.encrypted_kdm text)) (fun dkdm => Cli.pure (some dkdm)))) :=
  raises_bind _ _ _ (raises_call _ _ (fun _ => rfl)) (fun _ =>
    raises_bind _ _ _ (raises_call _ _ (fun _ => rfl)) (fun _ => raises_pure _ _))

theorem raises_from_found (env : Env) (s : CliState) (screens : List Screen)
    (valid_from valid_to : Int) (dkdm : EncryptedKDM) :
    Raises (fun f => f.is_not_found = false)
      (Cli.bind (call (env.decrypted_kdm dkdm)) (fun decrypted =>
        from_dkdm env screens decrypted s.verbose s.output s.container_name_format
          s.filename_format valid_from valid_to s.formulation
          s.disable_forensic_marking_picture s.disable_forensic_marking_audio s.email
          s.zip)) :=
  raises_bind _ _ _ (raises_call _ _ (fun _ => rfl)) (fun _ =>
    raises_from_dkdm _ _ _ _ _ _ _ _ _ _ _ _ _ _)

theorem generate_not_found (env : Env) (program_name : String) (s : CliState)
    (screens : List Screen) (valid_from valid_to : Int) (thing t : String) :
    (generate env program_name s screens valid_from valid_to thing).2
        = Except.error (Stop.raise (Failure.not_found t))
      ↔ t = thing
        ∧ ¬ (env.is_directory thing = true
              ∧ env.is_regular_file (env.path_append thing "metadata.xml") = true)
        ∧ env.is_regular_file thing = false ∧ find_dkdm env thing = none := by
  unfold generate
  by_cases hfilm : env.is_directory thing = true
      ∧ env.is_regular_file (env.path_append thing "metadata.xml") = true
  · rw [if_pos hfilm]
    constructor
    · intro h
      exact absurd h (raises_not_not_found _ (raises_from_film _ _ _ _ _ _ _ _ _ _ _ _ _ _ _) t)
    · intro h
      exact absurd hfilm h.2.1
  · rw [if_neg hfilm]
    simp only [bind_eq, pure_eq]
    by_cases hreg : env.is_regular_file thing = true
    · rw [if_pos hreg]
      constructor
      · intro h
        rcases (bind_error _ _ _).1 h with h | ⟨a, ha, h⟩
        · exact absurd h (raises_not_not_found _ (raises_read_dkdm env thing) t)
        · obtain ⟨dkdm, rfl⟩ := read_dkdm_some env thing a ha
          exact absurd h (raises_not_not_found _ (raises_from_found _ _ _ _ _ _) t)
      · intro h
        rw [hreg] at h
        exact absurd h.2.2.1 (by simp)
    · rw [if_neg hreg]
      have hreg2 : env.is_regular_file thing = false := by simpa using hreg
      cases hfind : find_dkdm env thing with
      | none =>
        simp [Cli.bind, Cli.pure, raise, hfilm, hreg2]
        exact eq_comm
      | some dkdm =>
        constructor
        · intro h
          have h2 : (Cli.bind (call (env.decrypted_kdm dkdm)) (fun decrypted =>
              from_dkdm env screens decrypted s.verbose s.output s.container_name_format
                s.filename_format valid_from valid_to s.formulation
                s.disable_forensic_marking_picture s.disable_forensic_marking_audio s.email
                s.zip)).2 = Except.error (Stop.raise (Failure.not_found t)) := by
            simpa [Cli.bind, Cli.pure] using h
          exact absurd h2 (raises_not_not_found _ (raises_from_found _ _ _ _ _ _) t)
        · intro h
          exact absurd h.2.2.2 (by simp)

theorem raises_generate (env : Env) (program_name : String) (s : CliState)
    (screens : List Screen) (valid_from valid_to : Int) (thing : String) :
    Raises (fun _ => True) (generate env program_name s screens valid_from valid_to thing) := by
  unfold generate
  simp only [bind_eq, pure_eq]
  refine raises_ite _ _ _ _ ?_ ?_
  · exact raises_mono _ _ _ (fun _ _ => trivial) (raises_from_film _ _ _ _ _ _ _ _ _ _ _ _ _ _ _)
  · refine raises_bind _ _ _ ?_ (fun dkdm => ?_)
    · refine raises_ite _ _ _ _ ?_ (raises_pure _ _)
      exact raises_mono _ _ _ (fun _ _ => trivial) (raises_read_dkdm env thing)
    · cases dkdm with
      | none => exact raises_raise _ _ trivial
      | some dkdm =>
        exact raises_mono _ _ _ (fun _ _ => trivial) (raises_from_found _ _ _ _ _ _)

theorem fails_of_raises {α : Type} (Q : Failure → Prop) (m : Cli α) (hm : Raises Q m) :
    Fails Q m := by
  intro f hf
  obtain ⟨g, hg, hq⟩ := hm _ hf
  simp only [Stop.raise.injEq] at hg
  exact hg ▸ hq

theorem fails_bind {α β : Type} (Q : Failure → Prop) (m : Cli α) (k : α → Cli β)
    (hm : Fails Q m) (hk : ∀ a, Fails Q (k a)) : Fails Q (Cli.bind m k) := by
  intro f hf
  rcases (bind_error m k _).1 hf with h | ⟨a, _, h⟩
  · exact hm f h
  · exact hk a f h

theorem fails_exit {α : Type} (Q : Failure → Prop) : Fails Q (exit : Cli α) := by
  intro f hf
  simp [exit] at hf

theorem bind_effects {α β : Type} (m : Cli α) (k : α → Cli β) (hm : m.1 = [])
    (hk : ∀ a, (k a).1 = []) : (Cli.bind m k).1 = [] := by
  rcases m with ⟨es, r⟩
  simp only at hm
  subst hm
  cases r with
  | error s => rfl
  | ok a => simpa [Cli.bind] using hk a

theorem call_effects {α : Type} (r : Except Exn α) : (call r).1 = [] := by
  cases r <;> rfl

theorem option_step_raises (env : Env) (program_name : String) (s : CliState) (c : Opt)
    (hc : c ≠ Opt.h) :
    Raises (fun f => f.is_not_found = false) (option_step env program_name s c) := by
  cases c <;> simp only [option_step, bind_eq, pure_eq]
  all_goals
    repeat' first
      | exact raises_pure _ _
      | exact raises_raise _ _ rfl
      | exact raises_call _ _ (fun _ => rfl)
      | exact absurd rfl hc
      | apply raises_ite
      | refine raises_bind _ _ _ ?_ (fun _ => ?_)
      | split

theorem option_step_effects (env : Env) (program_name : String) (s : CliState) (c : Opt)
    (hc : c ≠ Opt.h) : (option_step env program_name s c).1 = [] := by
  cases c <;> simp only [option_step, bind_eq, pure_eq]
  all_goals
    repeat' first
      | rfl
      | exact call_effects _
      | exact absurd rfl hc
      | refine bind_effects _ _ ?_ (fun _ => ?_)
      | split

theorem option_loop_raises (env : Env) (program_name : String) (opts : List Opt)
    (s : CliState) (hh : Opt.h ∉ opts) :
    Raises (fun f => f.is_not_found = false) (option_loop env program_name opts s) := by
  induction opts generalizing s with
  | nil => exact raises_pure _ _
  | cons c rest ih =>
    simp only [List.mem_cons, not_or] at hh
    unfold option_loop
    simp only [bind_eq]
    exact raises_bind _ _ _ (option_step_raises env program_name s c (Ne.symm hh.1))
      (fun s2 => ih s2 hh.2)

theorem option_loop_effects (env : Env) (program_name : String) (opts : List Opt)
    (s : CliState) (hh : Opt.h ∉ opts) : (option_loop env program_name opts s).1 = [] := by
  induction opts generalizing s with
  | nil => rfl
  | cons c rest ih =>
    simp only [List.mem_cons, not_or] at hh
    unfold option_loop
    simp only [bind_eq]
    exact bind_effects _ _ (option_step_effects env program_name s c (Ne.symm hh.1))
      (fun s2 => ih s2 hh.2)

theorem option_step_fails (env : Env) (program_name : String) (s : CliState) (c : Opt) :
    Fails (fun f => f.is_not_found = false) (option_step env program_name s c) := by
  by_cases hc : c = Opt.h
  · subst hc
    intro f hf
    simp [option_step, bind_eq, Cli.bind, outs, exit] at hf
  · exact fails_of_raises _ _ (option_step_raises env program_name s c hc)

theorem option_loop_fails (env : Env) (program_name : String) (opts : List Opt)
    (s : CliState) :
    Fails (fun f => f.is_not_found = false) (option_loop env program_name opts s) := by
  induction opts generalizing s with
  | nil => exact fails_of_raises _ _ (raises_pure _ _)
  | cons c rest ih =>
    unfold option_loop
    simp only [bind_eq]
    exact fails_bind _ _ _ (option_step_fails env program_name s c) (fun s2 => ih s2)

theorem option_step_keeps (env : Env) (program_name : String) (s s2 : CliState) (c : Opt)
    (h : (option_step env program_name s c).2 = Except.ok s2) :
    ((∀ x, c ≠ Opt.d x) → s.duration_string = none → s2.duration_string = none)
    ∧ ((∀ x, c ≠ Opt.t x) → s.valid_to = none → s2.valid_to = none)
    ∧ ((∀ x, c ≠ Opt.f x) → s.valid_from = none → s2.valid_from = none)
    ∧ ((∀ x, c ≠ Opt.c x) → s.cinema_name = none → s2.cinema_name = none)
    ∧ ((∀ x, c ≠ Opt.C x) → s.screens = [] → s2.screens = [])
    ∧ (c ≠ Opt.B → s.list_cinemas = false → s2.list_cinemas = false)
    ∧ (c ≠ Opt.D → s.list_dkdm_cpls = false → s2.list_dkdm_cpls = false) := by
  cases c <;> simp only [option_step, bind_eq, pure_eq] at h
  all_goals try (simp only [Cli.pure, Except.ok.injEq] at h; subst h; simp)
  case h => simp [Cli.bind, outs, exit] at h
  case f =>
    obtain ⟨time, _, h⟩ := (bind_ok _ _ _).1 h
    simp only [Cli.pure, Except.ok.injEq] at h
    subst h
    simp
  case t =>
    obtain ⟨time, _, h⟩ := (bind_ok _ _ _).1 h
    simp only [Cli.pure, Except.ok.injEq] at h
    subst h
    simp
  case F =>
    split_ifs at h
    all_goals first
      | (simp only [Cli.pure, Except.ok.injEq] at h; subst h; simp)
      | simp [raise] at h
  case a =>
    split at h
    · split_ifs at h <;> (simp only [Cli.pure, Except.ok.injEq] at h; subst h; simp)
    · simp only [Cli.pure, Except.ok.injEq] at h; subst h; simp
    · simp only [Cli.pure, Except.ok.injEq] at h; subst h; simp
  case C =>
    obtain ⟨text, _, h⟩ := (bind_ok _ _ _).1 h
    obtain ⟨leaf, _, h⟩ := (bind_ok _ _ _).1 h
    simp only [Cli.pure, Except.ok.injEq] at h
    subst h
    simp
  case T =>
    split at h
    · simp only [Cli.pure, Except.ok.injEq] at h; subst h; simp
    · rename_i back hback
      obtain ⟨text, _, h⟩ := (bind_ok _ _ _).1 h
      obtain ⟨device, _, h⟩ := (bind_ok _ _ _).1 h
      simp only [Cli.pure, Except.ok.injEq] at h
      subst h
      have hne : s.screens ≠ [] := by
        intro hs
        rw [hs] at hback
        simp at hback
      simp [hne]

theorem option_loop_keeps (env : Env) (program_name : String) (opts : List Opt)
    (s s2 : CliState) (h : (option_loop env program_name opts s).2 = Except.ok s2) :
    ((∀ x, Opt.d x ∉ opts) → s.duration_string = none → s2.duration_string = none)
    ∧ ((∀ x, Opt.t x ∉ opts) → s.valid_to = none → s2.valid_to = none)
    ∧ ((∀ x, Opt.f x ∉ opts) → s.valid_from = none → s2.valid_from = none)
    ∧ ((∀ x, Opt.c x ∉ opts) → s.cinema_name = none → s2.cinema_name = none)
    ∧ ((∀ x, Opt.C x ∉ opts) → s.screens = [] → s2.screens = [])
    ∧ (Opt.B ∉ opts → s.list_cinemas = false → s2.list_cinemas = false)
    ∧ (Opt.D ∉ opts → s.list_dkdm_cpls = false → s2.list_dkdm_cpls = false) := by
  induction opts generalizing s with
  | nil =>
    simp only [option_loop, Cli.pure, Except.ok.injEq] at h
    subst h
    simp
  | cons c rest ih =>
    unfold option_loop at h
    simp only [bind_eq] at h
    obtain ⟨s1, h1, h2⟩ := (bind_ok _ _ _).1 h
    have k1 := option_step_keeps env program_name s s1 c h1
    have k2 := ih s1 h2
    simp only [List.mem_cons, not_or] at *
    refine ⟨?_, ?_, ?_, ?_, ?_, ?_, ?_⟩
    · exact fun hx hs => k2.1 (fun x => (hx x).2) (k1.1 (fun x => Ne.symm (hx x).1) hs)
    · exact fun hx hs => k2.2.1 (fun x => (hx x).2) (k1.2.1 (fun x => Ne.symm (hx x).1) hs)
    · exact fun hx hs =>
        k2.2.2.1 (fun x => (hx x).2) (k1.2.2.1 (fun x => Ne.symm (hx x).1) hs)
    · exact fun hx hs =>
        k2.2.2.2.1 (fun x => (hx x).2) (k1.2.2.2.1 (fun x => Ne.symm (hx x).1) hs)
    · exact fun hx hs =>
        k2.2.2.2.2.1 (fun x => (hx x).2) (k1.2.2.2.2.1 (fun x => Ne.symm (hx x).1) hs)
    · exact fun hx hs => k2.2.2.2.2.2.1 hx.2 (k1.2.2.2.2.2.1 (Ne.symm hx.1) hs)
    · exact fun hx hs => k2.2.2.2.2.2.2 hx.2 (k1.2.2.2.2.2.2 (Ne.symm hx.1) hs)

theorem duration_error (garbage : Int) (d : String) (f : Failure)
    (h : duration_from_string garbage d = Except.error f) : f = Failure.duration d := by
  unfold duration_from_string at h
  dsimp only at h
  split_ifs at h <;> simp only [Except.error.injEq, reduceCtorEq] at h <;> exact h.symm

theorem raises_choose_screens (env : Env) (s : CliState) :
    Raises (fun f => f.is_not_found = false) (choose_screens env s) := by
  unfold choose_screens
  simp only [bind_eq, pure_eq]
  refine raises_ite _ _ _ _ ?_ (raises_pure _ _)
  split
  · exact raises_raise _ _ rfl
  · refine raises_bind _ _ _ ?_ (fun _ => raises_pure _ _)
    unfold find_cinema
    split
    · exact raises_raise _ _ rfl
    · exact raises_pure _ _

theorem choose_screens_effects (env : Env) (s : CliState) : (choose_screens env s).1 = [] := by
  unfold choose_screens
  simp only [bind_eq, pure_eq]
  split
  · split
    · rfl
    · refine bind_effects _ _ ?_ (fun _ => rfl)
      unfold find_cinema
      split <;> rfl
  · rfl

theorem raises_choose_valid_to (env : Env) (s : CliState) (valid_from : Int) :
    Raises (fun f => f.is_not_found = false) (choose_valid_to env s valid_from) := by
  unfold choose_valid_to
  split
  · split
    · exact raises_pure _ _
    · rename_i f hf
      rw [duration_error _ _ _ hf]
      exact raises_raise _ _ rfl
  · exact raises_pure _ _
  · exact raises_raise _ _ rfl

theorem choose_valid_to_effects (env : Env) (s : CliState) (valid_from : Int) :
    (choose_valid_to env s valid_from).1 = [] := by
  unfold choose_valid_to
  split
  · split <;> rfl
  · rfl
  · rfl

theorem listings_pure (env : Env) (s : CliState) (hB : s.list_cinemas = false)
    (hD : s.list_dkdm_cpls = false) : listings env s = Cli.pure () := by
  simp [listings, hB, hD]

theorem fails_listings (env : Env) (s : CliState) :
    Fails (fun f => f.is_not_found = false) (listings env s) := by
  intro f hf
  unfold listings at hf
  split_ifs at hf <;> simp [bind_eq, Cli.bind, outs, exit, Cli.pure] at hf

theorem raises_arguments (env : Env) (s : CliState) (things : List String) :
    Raises (fun f => f.is_not_found = false) (arguments env s things) := by
  unfold arguments
  simp only [bind_eq, pure_eq]
  refine raises_ite _ _ _ _ (raises_raise _ _ rfl) ?_
  split
  · exact raises_raise _ _ rfl
  · split
    · exact raises_raise _ _ rfl
    · refine raises_bind _ _ _ (raises_choose_screens env s) (fun _ => ?_)
      refine raises_bind _ _ _ (raises_choose_valid_to env s _) (fun _ => ?_)
      refine raises_ite _ _ _ _ ?_ ?_
      · exact raises_bind _ _ _ (raises_out _ _) (fun _ => raises_pure _ _)
      · exact raises_bind _ _ _ (raises_pure _ _) (fun _ => raises_pure _ _)

theorem fails_checks (env : Env) (s : CliState) (things : List String) :
    Fails (fun f => f.is_not_found = false) (checks env s things) :=
  fails_bind _ _ _ (fails_listings env s)
    (fun _ => fails_of_raises _ _ (raises_arguments env s things))

theorem checks_quiet (env : Env) (s : CliState) (things : List String)
    (hB : s.list_cinemas = false) (hD : s.list_dkdm_cpls = false) :
    checks env s things = arguments env s things := by
  unfold checks
  rw [bind_eq, listings_pure env s hB hD]
  rcases h : arguments env s things with ⟨es, r⟩
  cases r <;> simp [Cli.bind, Cli.pure, h]

theorem arguments_fail (env : Env) (s : CliState) (things : List String)
    (h : (s.duration_string = none ∧ s.valid_to = none) ∨ s.valid_from = none ∨ things = []
      ∨ (s.screens = [] ∧ s.cinema_name = none)) :
    ∃ f, arguments env s things = ([], Except.error (Stop.raise f)) := by
  unfold arguments
  by_cases h1 : s.duration_string = none ∧ s.valid_to = none
  · exact ⟨_, by rw [if_pos h1]; rfl⟩
  · rw [if_neg h1]
    cases h2 : s.valid_from with
    | none => exact ⟨_, rfl⟩
    | some valid_from =>
      cases things with
      | nil => exact ⟨_, rfl⟩
      | cons thing rest =>
        rcases h with h | h | h | h
        · exact absurd h h1
        · rw [h2] at h
          exact absurd h (by simp)
        · exact absurd h (by simp)
        · refine ⟨Failure.no_screens, ?_⟩
          simp [bind_eq, choose_screens, h.1, h.2, Cli.bind, raise]

theorem arguments_ok (env : Env) (s : CliState) (things : List String) (r : Checked)
    (h : (arguments env s things).2 = Except.ok r) :
    things.head? = some r.thing
    ∧ ∀ d, s.duration_string = some d →
        ∃ hours, duration_from_string env.garbage d = Except.ok hours := by
  unfold arguments at h
  simp only [bind_eq, pure_eq] at h
  by_cases h1 : s.duration_string = none ∧ s.valid_to = none
  · rw [if_pos h1] at h
    simp [raise] at h
  · rw [if_neg h1] at h
    split at h
    · simp [raise] at h
    · split at h
      · simp [raise] at h
      · rename_i valid_from _ thing rest
        obtain ⟨screens, _, h⟩ := (bind_ok _ _ _).1 h
        obtain ⟨valid_to, hv, h⟩ := (bind_ok _ _ _).1 h
        have hr : r.thing = thing := by
          split_ifs at h
          all_goals
            obtain ⟨_, _, h⟩ := (bind_ok _ _ _).1 h
            simp only [Cli.pure, Except.ok.injEq] at h
            rw [← h]
        refine ⟨by simp [hr], ?_⟩
        intro d hd
        unfold choose_valid_to at hv
        rw [hd] at hv
        simp only at hv
        cases hdur : duration_from_string env.garbage d with
        | ok hours => exact ⟨hours, rfl⟩
        | error f =>
          rw [hdur] at hv
          simp [raise] at hv

theorem arguments_raise_quiet (env : Env) (s : CliState) (things : List String) (st : Stop)
    (h : (arguments env s things).2 = Except.error st) : (arguments env s things).1 = [] := by
  unfold arguments at h ⊢
  simp only [bind_eq, pure_eq] at h ⊢
  by_cases h1 : s.duration_string = none ∧ s.valid_to = none
  · rw [if_pos h1]
    rfl
  · rw [if_neg h1] at h ⊢
    split
    · rfl
    · split
      · rfl
      · rename_i valid_from hvf _ thing rest
        simp only [hvf] at h
        have e1 := choose_screens_effects env s
        rcases hcs : choose_screens env s with ⟨es1, r1⟩
        rw [hcs] at e1 h
        simp only at e1
        subst e1
        cases r1 with
        | error x => rfl
        | ok screens =>
          have e2 := choose_valid_to_effects env s valid_from
          rcases hcv : choose_valid_to env s valid_from with ⟨es2, r2⟩
          rw [hcv] at e2 h
          simp only at e2
          subst e2
          cases r2 with
          | error x => rfl
          | ok valid_to =>
            exfalso
            by_cases hv : s.verbose = true
            · simp [Cli.bind, hv, out, Cli.pure] at h
            · simp [Cli.bind, hv, Cli.pure] at h

theorem bind_of_ok {α β : Type} (m : Cli α) (k : α → Cli β) (a : α)
    (h : m = ([], Except.ok a)) : Cli.bind m k = k a := by
  subst h
  simp [Cli.bind]

theorem bind_of_error {α β : Type} (m : Cli α) (k : α → Cli β) (es : List Effect) (s : Stop)
    (h : m = (es, Except.error s)) : Cli.bind m k = (es, Except.error s) := by
  subst h
  rfl

theorem kdm_cli_body_cases (env : Env) (program_name : String) (opts : List Opt)
    (things : List String) (hh : Opt.h ∉ opts) (hB : Opt.B ∉ opts) (hD : Opt.D ∉ opts) :
    (∃ f, (option_loop env program_name opts (CliState.initial env)).2
          = Except.error (Stop.raise f)
        ∧ kdm_cli_body env program_name opts things = ([], Except.error (Stop.raise f)))
    ∨ (∃ s, (option_loop env program_name opts (CliState.initial env)).2 = Except.ok s
        ∧ checks env s things = arguments env s things
        ∧ kdm_cli_body env program_name opts things
          = Cli.bind (arguments env s things) (fun r =>
              generate env program_name s r.screens r.valid_from r.valid_to r.thing)) := by
  have he := option_loop_effects env program_name opts (CliState.initial env) hh
  have hr := option_loop_raises env program_name opts (CliState.initial env) hh
  rcases hol : option_loop env program_name opts (CliState.initial env) with ⟨es, r⟩
  rw [hol] at he
  simp only at he
  subst he
  cases r with
  | error st =>
    obtain ⟨f, hf, _⟩ := hr st (by rw [hol])
    subst hf
    refine Or.inl ⟨f, rfl, ?_⟩
    unfold kdm_cli_body
    rw [bind_eq, bind_of_error _ _ _ _ hol]
  | ok s =>
    have hk := option_loop_keeps env program_name opts (CliState.initial env) s (by rw [hol])
    have hq := checks_quiet env s things (hk.2.2.2.2.2.1 hB rfl) (hk.2.2.2.2.2.2 hD rfl)
    refine Or.inr ⟨s, rfl, hq, ?_⟩
    unfold kdm_cli_body
    rw [bind_eq, bind_of_ok _ _ _ hol, bind_eq, hq]

theorem kdm_cli_body_not_found (env : Env) (program_name : String) (opts : List Opt)
    (things : List String) (thing : String) :
    (kdm_cli_body env program_name opts things).2
        = Except.error (Stop.raise (Failure.not_found thing))
      ↔ ∃ s r, (option_loop env program_name opts (CliState.initial env)).2 = Except.ok s
          ∧ (checks env s things).2 = Except.ok r
          ∧ (generate env program_name s r.screens r.valid_from r.valid_to r.thing).2
            = Except.error (Stop.raise (Failure.not_found thing)) := by
  unfold kdm_cli_body
  simp only [bind_eq]
  rw [bind_error]
  constructor
  · rintro (h | ⟨s, hs, h⟩)
    · exact absurd (option_loop_fails env program_name opts _ _ h) (by simp [Failure.is_not_found])
    · rcases (bind_error _ _ _).1 h with h | ⟨r, hr, h⟩
      · exact absurd (fails_checks env s things _ h) (by simp [Failure.is_not_found])
      · exact ⟨s, r, hs, hr, h⟩
  · rintro ⟨s, r, hs, hr, h⟩
    exact Or.inr ⟨s, hs, (bind_error _ _ _).2 (Or.inr ⟨r, hr, h⟩)⟩

theorem checks_thing (env : Env) (s : CliState) (things : List String) (r : Checked)
    (h : (checks env s things).2 = Except.ok r) : things.head? = some r.thing := by
  unfold checks at h
  rw [bind_eq] at h
  obtain ⟨_, _, h⟩ := (bind_ok _ _ _).1 h
  exact (arguments_ok env s things r h).1

/-- C18: `find_dkdm` returns the first DKDM with the given CPL id among the DKDMs of the
configured tree taken at every depth in depth-first order, children in their order: it
returns a DKDM exactly when one with that CPL id exists, the DKDM returned has that CPL
id and no DKDM before it has; the search is a total function of the tree.  The making of
the KDMs in `kdm_cli` raises "could not find film or CPL ID corresponding to" the
argument exactly when the argument is neither a film directory nor a regular file and
`find_dkdm` finds nothing, and so does `kdm_cli` in every run in which the options are
read and the checks of the arguments pass; it raises it in no other run. -/
theorem find_dkdm_first (env : Env) (cpl_id : String) :
    find_dkdm env cpl_id
        = (all_dkdms env.dkdms.children).find? (fun d => decide (d.cpl_id = cpl_id))
    ∧ ((∃ dkdm, find_dkdm env cpl_id = some dkdm)
        ↔ ∃ d ∈ all_dkdms env.dkdms.children, d.cpl_id = cpl_id)
    ∧ (∀ dkdm, find_dkdm env cpl_id = some dkdm →
        dkdm.cpl_id = cpl_id
        ∧ ∃ before after, all_dkdms env.dkdms.children = before ++ dkdm :: after
            ∧ ∀ d ∈ before, d.cpl_id ≠ cpl_id)
    ∧ (∀ (program_name : String) (s : CliState) (screens : List Screen)
        (valid_from valid_to : Int) (thing t : String),
        (generate env program_name s screens valid_from valid_to thing).2
            = Except.error (Stop.raise (Failure.not_found t))
          ↔ t = thing
            ∧ ¬ (env.is_directory thing = true
                  ∧ env.is_regular_file (env.path_append thing "metadata.xml") = true)
            ∧ env.is_regular_file thing = false ∧ find_dkdm env thing = none)
    ∧ (∀ (program_name : String) (opts : List Opt) (things : List String) (thing : String),
        (kdm_cli_body env program_name opts things).2
            = Except.error (Stop.raise (Failure.not_found thing))
          ↔ (∃ s r, (option_loop env program_name opts (CliState.initial env)).2
                  = Except.ok s
                ∧ (checks env s things).2 = Except.ok r)
            ∧ things.head? = some thing
            ∧ ¬ (env.is_directory thing = true
                  ∧ env.is_regular_file (env.path_append thing "metadata.xml") = true)
            ∧ env.is_regular_file thing = false ∧ find_dkdm env thing = none) := by
  have hfind : find_dkdm env cpl_id
      = (all_dkdms env.dkdms.children).find? (fun d => decide (d.cpl_id = cpl_id)) :=
    sub_find_dkdm_loop_eq cpl_id env.dkdms.children
  refine ⟨hfind, ?_, ?_, ?_, ?_⟩
  · rw [hfind]
    constructor
    · rintro ⟨dkdm, h⟩
      exact ⟨dkdm, List.mem_of_find?_eq_some h, by simpa using List.find?_some h⟩
    · rintro ⟨d, hd, hcpl⟩
      cases h : List.find? (fun d => decide (d.cpl_id = cpl_id)) (all_dkdms env.dkdms.children)
        with
      | some dkdm => exact ⟨dkdm, rfl⟩
      | none =>
        rw [List.find?_eq_none] at h
        exact absurd hcpl (by simpa using h d hd)
  · intro dkdm h
    rw [hfind, List.find?_eq_some] at h
    obtain ⟨hp, before, after, heq, hbefore⟩ := h
    refine ⟨by simpa using hp, before, after, heq, ?_⟩
    intro d hd
    simpa using hbefore d hd
  · intro program_name s screens valid_from valid_to thing t
    exact generate_not_found env program_name s screens valid_from valid_to thing t
  · intro program_name opts things thing
    rw [kdm_cli_body_not_found]
    constructor
    · rintro ⟨s, r, hs, hr, h⟩
      have hg := (generate_not_found env program_name s r.screens r.valid_from r.valid_to
        r.thing thing).1 h
      have ht := checks_thing env s things r hr
      rw [← hg.1] at ht
      refine ⟨⟨s, r, hs, hr⟩, ht, ?_⟩
      rw [hg.1]
      exact hg.2
    · rintro ⟨⟨s, r, hs, hr⟩, ht, hrest⟩
      have ht2 := checks_thing env s things r hr
      rw [ht] at ht2
      simp only [Option.some.injEq] at ht2
      refine ⟨s, r, hs, hr, ?_⟩
      rw [← ht2]
      exact (generate_not_found env program_name s r.screens r.valid_from r.valid_to
        thing thing).2 ⟨rfl, hrest⟩

theorem find_dkdm_first_witness :
    find_dkdm storedEnv "b" = some ⟨"b", "2"⟩
    ∧ all_dkdms storedEnv.dkdms.children = [⟨"a", "1"⟩, ⟨"b", "2"⟩, ⟨"b", "3"⟩]
    ∧ (kdm_cli_body storedEnv "kdm_cli" [Opt.f "now", Opt.d "1 day", Opt.C "test/data/cert.pem"]
        ["c"]).2 = Except.error (Stop.raise (Failure.not_found "c")) :=
  ⟨(find_dkdm_first storedEnv "b").1.trans (by decide), by decide,
   ((find_dkdm_first storedEnv "b").2.2.2.2 "kdm_cli"
      [Opt.f "now", Opt.d "1 day", Opt.C "test/data/cert.pem"] ["c"] "c").2
     ⟨⟨_, _, rfl, rfl⟩, by decide, by decide, by decide, by decide⟩⟩

theorem option_step_sets (env : Env) (program_name : String) (s s2 : CliState) (c : Opt)
    (h : (option_step env program_name s c).2 = Except.ok s2) :
    ((s.valid_from ≠ none ∨ ∃ x, c = Opt.f x) → s2.valid_from ≠ none)
    ∧ ((s.duration_string ≠ none ∨ ∃ x, c = Opt.d x) → s2.duration_string ≠ none)
    ∧ ((s.screens ≠ [] ∨ ∃ x, c = Opt.C x) → s2.screens ≠ []) := by
  cases c <;> simp only [option_step, bind_eq, pure_eq] at h
  all_goals try (simp only [Cli.pure, Except.ok.injEq] at h; subst h; simp)
  case h => simp [Cli.bind, outs, exit] at h
  case f =>
    obtain ⟨time, _, h⟩ := (bind_ok _ _ _).1 h
    simp only [Cli.pure, Except.ok.injEq] at h
    subst h
    simp
  case t =>
    obtain ⟨time, _, h⟩ := (bind_ok _ _ _).1 h
    simp only [Cli.pure, Except.ok.injEq] at h
    subst h
    simp
  case F =>
    split_ifs at h
    all_goals first
      | (simp only [Cli.pure, Except.ok.injEq] at h; subst h; simp)
      | simp [raise] at h
  case a =>
    split at h
    · split_ifs at h <;> (simp only [Cli.pure, Except.ok.injEq] at h; subst h; simp)
    · simp only [Cli.pure, Except.ok.injEq] at h; subst h; simp
    · simp only [Cli.pure, Except.ok.injEq] at h; subst h; simp
  case C =>
    obtain ⟨text, _, h⟩ := (bind_ok _ _ _).1 h
    obtain ⟨leaf, _, h⟩ := (bind_ok _ _ _).1 h
    simp only [Cli.pure, Except.ok.injEq] at h
    subst h
    simp
  case T =>
    split at h
    · simp only [Cli.pure, Except.ok.injEq] at h; subst h; simp
    · obtain ⟨text, _, h⟩ := (bind_ok _ _ _).1 h
      obtain ⟨device, _, h⟩ := (bind_ok _ _ _).1 h
      simp only [Cli.pure, Except.ok.injEq] at h
      subst h
      simp

theorem option_loop_sets (env : Env) (program_name : String) (opts : List Opt)
    (s s2 : CliState) (h : (option_loop env program_name opts s).2 = Except.ok s2) :
    ((s.valid_from ≠ none ∨ ∃ x, Opt.f x ∈ opts) → s2.valid_from ≠ none)
    ∧ ((s.duration_string ≠ none ∨ ∃ x, Opt.d x ∈ opts) → s2.duration_string ≠ none)
    ∧ ((s.screens ≠ [] ∨ ∃ x, Opt.C x ∈ opts) → s2.screens ≠ []) := by
  induction opts generalizing s with
  | nil =>
    simp only [option_loop, Cli.pure, Except.ok.injEq] at h
    subst h
    simp
  | cons c rest ih =>
    unfold option_loop at h
    simp only [bind_eq] at h
    obtain ⟨s1, h1, h2⟩ := (bind_ok _ _ _).1 h
    have k1 := option_step_sets env program_name s s1 c h1
    have k2 := ih s1 h2
    refine ⟨?_, ?_, ?_⟩
    · rintro (hs | ⟨x, hx⟩)
      · exact k2.1 (Or.inl (k1.1 (Or.inl hs)))
      · rcases List.mem_cons.mp hx with hx | hx
        · exact k2.1 (Or.inl (k1.1 (Or.inr ⟨x, hx.symm⟩)))
        · exact k2.1 (Or.inr ⟨x, hx⟩)
    · rintro (hs | ⟨x, hx⟩)
      · exact k2.2.1 (Or.inl (k1.2.1 (Or.inl hs)))
      · rcases List.mem_cons.mp hx with hx | hx
        · exact k2.2.1 (Or.inl (k1.2.1 (Or.inr ⟨x, hx.symm⟩)))
        · exact k2.2.1 (Or.inr ⟨x, hx⟩)
    · rintro (hs | ⟨x, hx⟩)
      · exact k2.2.2 (Or.inl (k1.2.2 (Or.inl hs)))
      · rcases List.mem_cons.mp hx with hx | hx
        · exact k2.2.2 (Or.inl (k1.2.2 (Or.inr ⟨x, hx.symm⟩)))
        · exact k2.2.2 (Or.inr ⟨x, hx⟩)

theorem arguments_pass (env : Env) (s : CliState) (thing : String) (rest : List String)
    (valid_from : Int) (d : String) (hours : Int)
    (hf : s.valid_from = some valid_from) (hd : s.duration_string = some d)
    (hdur : duration_from_string env.garbage d = Except.ok hours) (hs : s.screens ≠ []) :
    (arguments env s (thing :: rest)).2
      = Except.ok ⟨s.screens, valid_from, valid_from + hours * 3600, thing⟩ := by
  unfold arguments
  have h1 : ¬ (s.duration_string = none ∧ s.valid_to = none) := by
    rw [hd]
    simp
  rw [if_neg h1, hf]
  simp only [bind_eq, pure_eq, choose_screens, if_neg hs, choose_valid_to, hd, hdur]
  by_cases hv : s.verbose = true
  · simp [Cli.bind, Cli.pure, hv, out]
  · simp [Cli.bind, Cli.pure, hv]

theorem generate_dkdm (env : Env) (program_name : String) (s : CliState)
    (screens : List Screen) (valid_from valid_to : Int) (thing text : String)
    (dkdm : EncryptedKDM) (decrypted : DecryptedKDM)
    (hfilm : ¬ (env.is_directory thing = true
      ∧ env.is_regular_file (env.path_append thing "metadata.xml") = true))
    (hfile : env.is_regular_file thing = true)
    (htext : env.file_to_string thing = Except.ok text)
    (hdkdm : env.encrypted_kdm text = Except.ok dkdm)
    (hdec : env.decrypted_kdm dkdm = Except.ok decrypted) :
    generate env program_name s screens valid_from valid_to thing
      = from_dkdm env screens decrypted s.verbose s.output s.container_name_format
          s.filename_format valid_from valid_to s.formulation
          s.disable_forensic_marking_picture s.disable_forensic_marking_audio s.email
          s.zip := by
  unfold generate
  rw [if_neg hfilm]
  simp only [bind_eq, pure_eq, if_pos hfile, htext, hdkdm, hdec, call, Cli.bind, Cli.pure,
    List.nil_append]
  rfl

/-- C16 (does not hold as stated): with `--valid-from now`, `--valid-duration`, a
`--certificate` and a readable DKDM file `kdm_cli` returns an error when the duration is
`"0 weeks"`, which is not understood, when the option `--formulation` has a value that is
not known, and when the signing certificate chain of the configuration is not valid;
with `"2 weeks"` and the same files it returns none. -/
theorem kdm_cli_zero_duration :
    kdm_cli testEnv "kdm_cli"
        [Opt.v, Opt.f "now", Opt.d "0 weeks", Opt.C "test/data/cert.pem"] ["test/data/dkdm.xml"]
      = ⟨[], Outcome.returned (some "kdm_cli: could not understand duration \"0 weeks\"")⟩
    ∧ kdm_cli testEnv "kdm_cli"
        [Opt.f "now", Opt.d "2 weeks", Opt.C "test/data/cert.pem", Opt.F "bogus"]
        ["test/data/dkdm.xml"]
      = ⟨[], Outcome.returned (some "kdm_cli: unrecognised KDM formulation bogus")⟩
    ∧ kdm_cli unsignedEnv "kdm_cli"
        [Opt.f "now", Opt.d "2 weeks", Opt.C "test/data/cert.pem"] ["test/data/dkdm.xml"]
      = ⟨[], Outcome.returned (some "kdm_cli: signing certificate chain is invalid.")⟩
    ∧ (kdm_cli testEnv "kdm_cli"
        [Opt.v, Opt.f "now", Opt.d "2 weeks", Opt.C "test/data/cert.pem"]
        ["test/data/dkdm.xml"]).outcome = Outcome.returned none := by
  decide

/-- C16 (amended): for every list of options without `--help` and the two `--list` options,
whatever the collaborators do, `kdm_cli` lets no exception escape: it returns, with no
value when the making of the KDMs succeeds and otherwise with the text of the exception.
It returns an error, and has neither written to `out` nor written or e-mailed a KDM, if
neither `--valid-to` nor `--valid-duration` is given, if `--valid-from` is not given, if
no argument follows the options, if neither a `--certificate` nor a `--cinema` is given,
and also if the duration that was given is not understood.  With `--valid-from`,
`--valid-duration`, a `--certificate` and a readable DKDM file it returns no error when
the options are read without an error, the duration is understood and the making of the
KDMs from the DKDM raises nothing. -/
theorem kdm_cli_errors (env : Env) (program_name : String) (opts : List Opt)
    (things : List String) (hh : Opt.h ∉ opts) (hB : Opt.B ∉ opts) (hD : Opt.D ∉ opts) :
    (∃ error, (kdm_cli env program_name opts things).outcome = Outcome.returned error)
    ∧ ((kdm_cli env program_name opts things).outcome = Outcome.returned none
        ↔ (kdm_cli_body env program_name opts things).2 = Except.ok ())
    ∧ (∀ f, (kdm_cli_body env program_name opts things).2 = Except.error (Stop.raise f) →
        (kdm_cli env program_name opts things).outcome
          = Outcome.returned (some (f.what program_name)))
    ∧ ((((∀ x, Opt.t x ∉ opts) ∧ (∀ x, Opt.d x ∉ opts)) ∨ (∀ x, Opt.f x ∉ opts)
          ∨ things = [] ∨ ((∀ x, Opt.C x ∉ opts) ∧ (∀ x, Opt.c x ∉ opts))) →
        ∃ message,
          kdm_cli env program_name opts things = ⟨[], Outcome.returned (some message)⟩)
    ∧ (∀ s d f, (option_loop env program_name opts (CliState.initial env)).2 = Except.ok s →
        s.duration_string = some d → duration_from_string env.garbage d = Except.error f →
        ∃ message,
          kdm_cli env program_name opts things = ⟨[], Outcome.returned (some message)⟩)
    ∧ ((kdm_cli env program_name opts things).outcome = Outcome.returned none
        ↔ ∃ s r, (option_loop env program_name opts (CliState.initial env)).2 = Except.ok s
            ∧ (checks env s things).2 = Except.ok r
            ∧ (generate env program_name s r.screens r.valid_from r.valid_to r.thing).2
              = Except.ok ())
    ∧ (∀ s d hours thing rest text dkdm decrypted,
        (∃ x, Opt.f x ∈ opts) → (∃ x, Opt.d x ∈ opts) → (∃ x, Opt.C x ∈ opts) →
        things = thing :: rest →
        (option_loop env program_name opts (CliState.initial env)).2 = Except.ok s →
        s.duration_string = some d → duration_from_string env.garbage d = Except.ok hours →
        ¬ (env.is_directory thing = true
          ∧ env.is_regular_file (env.path_append thing "metadata.xml") = true) →
        env.is_regular_file thing = true →
        env.file_to_string thing = Except.ok text →
        env.encrypted_kdm text = Except.ok dkdm →
        env.decrypted_kdm dkdm = Except.ok decrypted →
        ∃ valid_from, s.valid_from = some valid_from ∧ s.screens ≠ []
          ∧ ((from_dkdm env s.screens decrypted s.verbose s.output s.container_name_format
                s.filename_format valid_from (valid_from + hours * 3600) s.formulation
                s.disable_forensic_marking_picture s.disable_forensic_marking_audio s.email
                s.zip).2 = Except.ok () →
              (kdm_cli env program_name opts things).outcome = Outcome.returned none)) := by
  have hout : (kdm_cli env program_name opts things).outcome = Outcome.returned none
      ↔ (kdm_cli_body env program_name opts things).2 = Except.ok () := by
    unfold kdm_cli
    rcases hb : kdm_cli_body env program_name opts things with ⟨es, r⟩
    cases r with
    | ok u => simp
    | error st => cases st <;> simp
  have hraised : ∀ f,
      (kdm_cli_body env program_name opts things).2 = Except.error (Stop.raise f) →
      (kdm_cli env program_name opts things).outcome
        = Outcome.returned (some (f.what program_name)) := by
    intro f hf
    unfold kdm_cli
    rcases hb : kdm_cli_body env program_name opts things with ⟨es, r⟩
    rw [hb] at hf
    simp only at hf
    subst hf
    rfl
  have hquiet : ∀ s st, (arguments env s things).2 = Except.error st →
      kdm_cli_body env program_name opts things
        = Cli.bind (arguments env s things) (fun r =>
            generate env program_name s r.screens r.valid_from r.valid_to r.thing) →
      ∃ message,
        kdm_cli env program_name opts things = ⟨[], Outcome.returned (some message)⟩ := by
    intro s st hst hbody
    have he := arguments_raise_quiet env s things st hst
    obtain ⟨f, hf, _⟩ := raises_arguments env s things st hst
    subst hf
    rcases ha : arguments env s things with ⟨es, r⟩
    rw [ha] at he hst
    simp only at he hst
    subst he
    subst hst
    refine ⟨f.what program_name, ?_⟩
    unfold kdm_cli
    rw [hbody, bind_of_error _ _ _ _ ha]
  refine ⟨?_, hout, hraised, ?_⟩
  · rcases kdm_cli_body_cases env program_name opts things hh hB hD with
      ⟨f, hf, hbody⟩ | ⟨s, hs, hchecks, hbody⟩
    · exact ⟨_, hraised f (by rw [hbody])⟩
    · have hr : Raises (fun _ => True) (kdm_cli_body env program_name opts things) := by
        rw [hbody]
        exact raises_bind _ _ _
          (raises_mono _ _ _ (fun _ _ => trivial) (raises_arguments env s things))
          (fun r => raises_generate env program_name s _ _ _ _)
      unfold kdm_cli
      rcases hb : kdm_cli_body env program_name opts things with ⟨es, r⟩
      cases r with
      | ok u => exact ⟨_, rfl⟩
      | error st =>
        obtain ⟨f, hf, _⟩ := hr st (by rw [hb])
        subst hf
        exact ⟨_, rfl⟩
  rcases kdm_cli_body_cases env program_name opts things hh hB hD with
    ⟨f, hf, hbody⟩ | ⟨s, hs, hchecks, hbody⟩
  · have hrun : kdm_cli env program_name opts things
        = ⟨[], Outcome.returned (some (f.what program_name))⟩ := by
      unfold kdm_cli
      rw [hbody]
    refine ⟨fun _ => ⟨_, hrun⟩, ?_, ?_, ?_⟩
    · intro s d g hs
      rw [hf] at hs
      exact absurd hs (by simp)
    · rw [hrun]
      constructor
      · intro h
        exact absurd h (by simp)
      · rintro ⟨s, r, hs, _⟩
        rw [hf] at hs
        exact absurd hs (by simp)
    · intro s d hours thing rest text dkdm decrypted _ _ _ _ hs
      rw [hf] at hs
      exact absurd hs (by simp)
  · have hk := option_loop_keeps env program_name opts (CliState.initial env) s hs
    have hsets := option_loop_sets env program_name opts (CliState.initial env) s hs
    refine ⟨?_, ?_, ?_, ?_⟩
    · intro hcond
      have hs' : (s.duration_string = none ∧ s.valid_to = none) ∨ s.valid_from = none
          ∨ things = [] ∨ (s.screens = [] ∧ s.cinema_name = none) := by
        rcases hcond with h | h | h | h
        · exact Or.inl ⟨hk.1 h.2 rfl, hk.2.1 h.1 rfl⟩
        · exact Or.inr (Or.inl (hk.2.2.1 h rfl))
        · exact Or.inr (Or.inr (Or.inl h))
        · exact Or.inr (Or.inr (Or.inr ⟨hk.2.2.2.2.1 h.1 rfl, hk.2.2.2.1 h.2 rfl⟩))
      obtain ⟨f, hf⟩ := arguments_fail env s things hs'
      exact hquiet s (Stop.raise f) (by rw [hf]) hbody
    · intro s2 d f hs2 hd hdur
      rw [hs] at hs2
      simp only [Except.ok.injEq] at hs2
      subst hs2
      cases ha : (arguments env s things).2 with
      | error st => exact hquiet s st ha hbody
      | ok r =>
        obtain ⟨hours, hh2⟩ := (arguments_ok env s things r ha).2 d hd
        rw [hdur] at hh2
        exact absurd hh2 (by simp)
    · rw [hout, hbody]
      constructor
      · intro hu
        obtain ⟨r, hr, hg⟩ := (bind_ok _ _ _).1 hu
        exact ⟨s, r, hs, by rw [hchecks]; exact hr, hg⟩
      · rintro ⟨s2, r, hs2, hr, hg⟩
        rw [hs] at hs2
        simp only [Except.ok.injEq] at hs2
        subst hs2
        rw [hchecks] at hr
        exact (bind_ok _ _ _).2 ⟨r, hr, hg⟩
    · intro s2 d hours thing rest text dkdm decrypted hf hd hC hthings hs2 hdur hhours
        hfilm hfile htext hdkdm hdec
      rw [hs] at hs2
      simp only [Except.ok.injEq] at hs2
      subst hs2
      have hvf : s.valid_from ≠ none := hsets.1 (Or.inr hf)
      have hsc : s.screens ≠ [] := hsets.2.2 (Or.inr hC)
      obtain ⟨valid_from, hvf⟩ := Option.ne_none_iff_exists'.mp hvf
      refine ⟨valid_from, hvf, hsc, ?_⟩
      intro hgen
      rw [hout, hbody, hthings]
      refine (bind_ok _ _ _).2 ⟨_, arguments_pass env s thing rest valid_from d hours hvf hdur
        hhours hsc, ?_⟩
      rw [generate_dkdm env program_name s _ _ _ thing text dkdm decrypted hfilm hfile htext
        hdkdm hdec]
      exact hgen

theorem kdm_cli_errors_witness :
    Opt.h ∉ [Opt.v, Opt.f "now", Opt.d "2 weeks", Opt.C "test/data/cert.pem"]
    ∧ (∃ message,
        kdm_cli testEnv "kdm_cli"
            [Opt.v, Opt.f "now", Opt.d "2 weeks", Opt.C "test/data/cert.pem"] []
          = ⟨[], Outcome.returned (some message)⟩)
    ∧ (kdm_cli testEnv "kdm_cli"
        [Opt.v, Opt.f "now", Opt.d "2 weeks", Opt.C "test/data/cert.pem"]
        ["test/data/dkdm.xml"]).outcome = Outcome.returned none := by
  refine ⟨by decide,
    (kdm_cli_errors testEnv "kdm_cli"
      [Opt.v, Opt.f "now", Opt.d "2 weeks", Opt.C "test/data/cert.pem"] []
      (by decide) (by decide) (by decide)).2.2.2.1 (Or.inr (Or.inr (Or.inl rfl))), ?_⟩
  obtain ⟨valid_from, _, _, h⟩ :=
    (kdm_cli_errors testEnv "kdm_cli"
      [Opt.v, Opt.f "now", Opt.d "2 weeks", Opt.C "test/data/cert.pem"] ["test/data/dkdm.xml"]
      (by decide) (by decide) (by decide)).2.2.2.2.2.2
      ((option_loop testEnv "kdm_cli"
        [Opt.v, Opt.f "now", Opt.d "2 weeks", Opt.C "test/data/cert.pem"]
        (CliState.initial testEnv)).2.toOption.getD (CliState.initial testEnv))
      "2 weeks" 336 "test/data/dkdm.xml" [] "DKDM" ⟨"cpl", "DKDM"⟩
      ⟨⟨0, 0, 0⟩, ⟨0, 0, 0⟩, some "film", "title", "then", ["key"]⟩
      ⟨_, List.mem_cons_of_mem _ (List.mem_cons_self _ _)⟩
      ⟨_, List.mem_cons_of_mem _ (List.mem_cons_of_mem _ (List.mem_cons_self _ _))⟩
      ⟨_, List.mem_cons_of_mem _ (List.mem_cons_of_mem _ (List.mem_cons_of_mem _
        (List.mem_cons_self _ _)))⟩
      rfl (by decide) (by decide) (by decide) (by decide) (by decide) (by decide) (by decide)
      (by decide)
  have hvf : valid_from = 1000 := by
    rename_i hv _
    have : (some (1000 : Int)) = some valid_from := by
      rw [← hv]
      decide
    exact (Option.some.inj this).symm
  subst hvf
  exact h (by decide)

/-! ### CinemaKDMs::collect -/

theorem list_remove_length (l : List ScreenKDM) (value : ScreenKDM) :
    (list_remove l value).length ≤ l.length :=
  List.length_filter_le _ l

theorem collect_inner_finishes (fuel : Nat) (before after : List ScreenKDM) (ck : CinemaKDMs)
    (h : after.length ≤ fuel) :
    collect_inner fuel before after ck ≠ Halt.unfinished
    ∧ ∀ r ck2, collect_inner fuel before after ck = Halt.result (r, ck2) →
        r.length ≤ before.length + after.length := by
  induction fuel generalizing before after ck with
  | zero =>
    cases after with
    | nil =>
      refine ⟨by simp [collect_inner], ?_⟩
      intro r ck2 hr
      simp only [collect_inner, Halt.result.injEq, Prod.mk.injEq] at hr
      simp [← hr.1]
    | cons x rest => simp at h
  | succ fuel ih =>
    cases after with
    | nil =>
      refine ⟨by simp [collect_inner], ?_⟩
      intro r ck2 hr
      simp only [collect_inner, Halt.result.injEq, Prod.mk.injEq] at hr
      simp [← hr.1]
    | cons x rest =>
      simp only [List.length_cons, Nat.add_le_add_iff_right] at h
      unfold collect_inner
      by_cases hc : x.screen.cinema = ck.cinema
      · rw [if_pos hc]
        by_cases hd : rest.head? = some x
        · rw [if_pos hd]
          exact ⟨by simp, by simp⟩
        · rw [if_neg hd]
          have hl1 := list_remove_length before x
          have hl2 := list_remove_length rest x
          obtain ⟨h1, h2⟩ := ih (list_remove before x) (list_remove rest x)
            { ck with screen_kdms := ck.screen_kdms ++ [x] } (by omega)
          refine ⟨h1, ?_⟩
          intro r ck2 hr
          have := h2 r ck2 hr
          simp only [List.length_cons]
          omega
      · rw [if_neg hc]
        obtain ⟨h1, h2⟩ := ih (before ++ [x]) rest ck h
        refine ⟨h1, ?_⟩
        intro r ck2 hr
        have := h2 r ck2 hr
        simp only [List.length_append, List.length_cons, List.length_nil] at this ⊢
        omega

theorem collect_loop_finishes (fuel : Nat) (screen_kdms : List ScreenKDM)
    (cinema_kdms : List CinemaKDMs) (h : screen_kdms.length ≤ fuel) :
    collect_loop fuel screen_kdms cinema_kdms ≠ Halt.unfinished := by
  induction fuel generalizing screen_kdms cinema_kdms with
  | zero =>
    cases screen_kdms with
    | nil => simp [collect_loop]
    | cons x rest => simp at h
  | succ fuel ih =>
    cases screen_kdms with
    | nil => simp [collect_loop]
    | cons x rest =>
      simp only [List.length_cons, Nat.add_le_add_iff_right] at h
      unfold collect_loop
      by_cases hd : rest.head? = some x
      · rw [if_pos hd]
        simp
      · rw [if_neg hd]
        obtain ⟨h1, h2⟩ := collect_inner_finishes (list_remove rest x).length []
          (list_remove rest x) ⟨x.screen.cinema, [x]⟩ (le_refl _)
        cases hi : collect_inner (list_remove rest x).length [] (list_remove rest x)
            ⟨x.screen.cinema, [x]⟩ with
        | result p =>
          obtain ⟨r, ck2⟩ := p
          have hl := h2 r ck2 hi
          have hl2 := list_remove_length rest x
          simp only [List.length_nil, Nat.zero_add] at hl
          exact ih r _ (by omega)
        | undefined => simp
        | unfinished => exact absurd hi h1

theorem collect_finishes (screen_kdms : List ScreenKDM) :
    CinemaKDMs.collect screen_kdms ≠ Halt.unfinished :=
  collect_loop_finishes _ _ _ (le_refl _)

/-- C19 (failing input): for the KDMs of two screens of one cinema followed by the first of
them once more, `collect` gives one group of two KDMs, so the KDM that occurs twice is
there once and one of three KDMs is lost; when the two equal KDMs come first, the
iterator of the outer loop is used after `remove` has erased its element. -/
theorem collect_drops_duplicate :
    CinemaKDMs.collect [kdmA1, kdmA2, kdmA1] = Halt.result [⟨some cinemaA, [kdmA1, kdmA2]⟩]
    ∧ CinemaKDMs.collect [kdmA1, kdmA1, kdmA2] = Halt.undefined := by
  decide

/-! ### ScreenKDM::write_files -/

theorem foldl_stdout_step (l : List ScreenKDM) (n : Nat) (fs : FileSystem) :
    l.foldl stdout_step (n, fs)
      = (n + l.length, { fs with stdout := fs.stdout ++ l.map (fun i => i.kdm_as_xml) }) := by
  induction l generalizing n fs with
  | nil => simp
  | cons i rest ih =>
    rw [List.foldl_cons, stdout_step, ih]
    simp [Nat.add_assoc, Nat.add_comm 1]

theorem write_step_spec (naming : Naming) (directory : String)
    (confirm_overwrite : String → Bool) (st : WriteState) (i : ScreenKDM) :
    (if ¬ st.fs.path_exists (write_out naming directory st.name_values i) = true
        ∨ confirm_overwrite (write_out naming directory st.name_values i) = true then
      (write_step naming directory confirm_overwrite st i).written = st.written + 1
      ∧ (write_step naming directory confirm_overwrite st i).fs.writes
        = st.fs.writes ++ [(write_out naming directory st.name_values i, i.kdm_as_xml)]
    else
      (write_step naming directory confirm_overwrite st i).written = st.written
      ∧ (write_step naming directory confirm_overwrite st i).fs = st.fs)
    ∧ (write_step naming directory confirm_overwrite st i).fs.stdout = st.fs.stdout := by
  unfold write_step
  split_ifs with h
  · exact ⟨⟨rfl, rfl⟩, rfl⟩
  · exact ⟨⟨rfl, rfl⟩, rfl⟩

theorem foldl_write_step (naming : Naming) (directory : String)
    (confirm_overwrite : String → Bool) (l : List ScreenKDM) (st : WriteState) :
    (l.foldl (write_step naming directory confirm_overwrite) st).fs.writes.length
        + st.written
      = st.fs.writes.length + (l.foldl (write_step naming directory confirm_overwrite) st).written
    ∧ st.written ≤ (l.foldl (write_step naming directory confirm_overwrite) st).written
    ∧ (l.foldl (write_step naming directory confirm_overwrite) st).written
      ≤ st.written + l.length
    ∧ (l.foldl (write_step naming directory confirm_overwrite) st).fs.stdout = st.fs.stdout
    ∧ ((∀ p, confirm_overwrite p = true) →
      (l.foldl (write_step naming directory confirm_overwrite) st).written
        = st.written + l.length) := by
  induction l generalizing st with
  | nil => simp
  | cons i rest ih =>
    rw [List.foldl_cons]
    obtain ⟨h1, h2, h3, h4, h5⟩ := ih (write_step naming directory confirm_overwrite st i)
    obtain ⟨hs, hso⟩ := write_step_spec naming directory confirm_overwrite st i
    simp only [List.length_cons]
    split_ifs at hs with hc
    · obtain ⟨hw, hf⟩ := hs
      rw [hf, List.length_append] at h1
      simp only [List.length_cons, List.length_nil] at h1
      refine ⟨by omega, by omega, by omega, by rw [h4, hso], fun hall => ?_⟩
      have := h5 hall
      omega
    · obtain ⟨hw, hf⟩ := hs
      rw [hf] at h1
      refine ⟨by omega, by omega, by omega, by rw [h4, hso], fun hall => ?_⟩
      exact absurd (Or.inr (hall _)) hc

theorem foldl_write_step_names (naming : Naming) (directory : String)
    (confirm_overwrite : String → Bool) (l : List ScreenKDM) (st : WriteState) :
    (l.foldl (write_step naming directory confirm_overwrite) st).name_values
      = l.foldl write_name_values st.name_values := by
  induction l generalizing st with
  | nil => rfl
  | cons i rest ih =>
    rw [List.foldl_cons, List.foldl_cons, ih]
    congr 1
    unfold write_step
    split_ifs <;> rfl

/-- C20: `ScreenKDM::write_files` returns the number of KDMs that it wrote.  With the
directory `-` it sends every KDM to the standard output, in order, and returns the length
of the list.  With another directory it makes the directory if it does not exist and
returns 0 for the empty list, and for a list `done` followed by a KDM `i` it does what it
does for `done` and then, when the file for `i` does not exist by then or
`confirm_overwrite` returns true for it, writes the file and returns one more, and
otherwise leaves the file system as it is and returns the same number.  So the number
returned is the number of files written, it is at most the length of the list, and it is
the length of the list when `confirm_overwrite` always returns true. -/
theorem write_files_count (naming : Naming) (screen_kdms : List ScreenKDM)
    (directory : String) (name_values : Char → Option String)
    (confirm_overwrite : String → Bool) (fs : FileSystem) :
    (directory = "-" →
      ScreenKDM.write_files naming screen_kdms directory name_values confirm_overwrite fs
        = (screen_kdms.length,
           { fs with stdout := fs.stdout ++ screen_kdms.map (fun i => i.kdm_as_xml) }))
    ∧ (directory ≠ "-" →
      ScreenKDM.write_files naming [] directory name_values confirm_overwrite fs
        = (0, if fs.path_exists directory = true then fs else fs.create_directories directory)
      ∧ (∀ (i : ScreenKDM),
          if ¬ (ScreenKDM.write_files naming screen_kdms directory name_values
                  confirm_overwrite fs).2.path_exists
                (write_out naming directory (screen_kdms.foldl write_name_values name_values) i)
                = true
              ∨ confirm_overwrite
                (write_out naming directory (screen_kdms.foldl write_name_values name_values) i)
                = true then
            ScreenKDM.write_files naming (screen_kdms ++ [i]) directory name_values
                confirm_overwrite fs
              = ((ScreenKDM.write_files naming screen_kdms directory name_values
                    confirm_overwrite fs).1 + 1,
                 (ScreenKDM.write_files naming screen_kdms directory name_values
                    confirm_overwrite fs).2.write
                   (write_out naming directory
                     (screen_kdms.foldl write_name_values name_values) i)
                   i.kdm_as_xml)
          else
            ScreenKDM.write_files naming (screen_kdms ++ [i]) directory name_values
                confirm_overwrite fs
              = ScreenKDM.write_files naming screen_kdms directory name_values
                  confirm_overwrite fs)
      ∧ (ScreenKDM.write_files naming screen_kdms directory name_values confirm_overwrite
          fs).2.writes.length
        = fs.writes.length
          + (ScreenKDM.write_files naming screen_kdms directory name_values confirm_overwrite
              fs).1
      ∧ (ScreenKDM.write_files naming screen_kdms directory name_values confirm_overwrite
          fs).2.stdout = fs.stdout
      ∧ (ScreenKDM.write_files naming screen_kdms directory name_values confirm_overwrite
          fs).1 ≤ screen_kdms.length
      ∧ ((∀ p, confirm_overwrite p = true) →
          (ScreenKDM.write_files naming screen_kdms directory name_values confirm_overwrite
            fs).1 = screen_kdms.length)) := by
  constructor
  · intro hd
    unfold ScreenKDM.write_files
    rw [if_pos hd, foldl_stdout_step]
    simp
  · intro hd
    obtain ⟨h1, h2, h3, h4, h5⟩ := foldl_write_step naming directory confirm_overwrite
      screen_kdms (write_start directory name_values fs)
    have hnames := foldl_write_step_names naming directory confirm_overwrite screen_kdms
      (write_start directory name_values fs)
    have hn0 : (write_start directory name_values fs).name_values = name_values := rfl
    rw [hn0] at hnames
    have hw : (write_start directory name_values fs).fs.writes = fs.writes := by
      unfold write_start
      dsimp only
      split_ifs <;> rfl
    have hs : (write_start directory name_values fs).fs.stdout = fs.stdout := by
      unfold write_start
      dsimp only
      split_ifs <;> rfl
    have h0 : (write_start directory name_values fs).written = 0 := rfl
    rw [hw, h0] at h1
    rw [h0] at h3 h5
    unfold ScreenKDM.write_files
    simp only [if_neg hd]
    refine ⟨?_, ?_, by simpa using h1, by rw [← hs]; exact h4, by simpa using h3, ?_⟩
    · unfold write_start
      simp only [List.foldl_nil]
      by_cases hx : fs.path_exists directory = true
      · simp [hx]
      · simp [hx]
    · intro i
      rw [List.foldl_append, List.foldl_cons, List.foldl_nil, ← hnames]
      unfold write_step
      split_ifs with hc
      · rfl
      · rfl
    · intro hall
      simpa using h5 hall

theorem write_files_count_witness :
    ScreenKDM.write_files screenNaming [kdmA1, kdmA2, kdmA1] "-" (fun _ => none)
        (fun _ => false) ⟨["out/A2.xml"], [], []⟩
      = (3, ⟨["out/A2.xml"], ["kdm 1", "kdm 2", "kdm 1"], []⟩)
    ∧ ScreenKDM.write_files screenNaming [kdmA1] "out" (fun _ => none)
        (fun _ => false) ⟨["out/A2.xml"], [], []⟩
      = (1, ⟨["out/A2.xml", "out", "out/A1.xml"], [], [("out/A1.xml", "kdm 1")]⟩)
    ∧ ScreenKDM.write_files screenNaming ([kdmA1] ++ [kdmA2]) "out" (fun _ => none)
        (fun _ => false) ⟨["out/A2.xml"], [], []⟩
      = ScreenKDM.write_files screenNaming [kdmA1] "out" (fun _ => none)
        (fun _ => false) ⟨["out/A2.xml"], [], []⟩ :=
  ⟨((write_files_count screenNaming [kdmA1, kdmA2, kdmA1] "-" (fun _ => none)
      (fun _ => false) ⟨["out/A2.xml"], [], []⟩).1 rfl).trans (by decide),
   by decide,
   (if_neg (by decide : ¬ _)).mp
     (((write_files_count screenNaming [kdmA1] "out" (fun _ => none)
        (fun _ => false) ⟨["out/A2.xml"], [], []⟩).2 (by decide)).2.1 kdmA2)⟩

theorem list_remove_not_mem (l : List ScreenKDM) (x : ScreenKDM) (h : x ∉ l) :
    list_remove l x = l := by
  unfold list_remove
  rw [List.filter_eq_self]
  intro y hy
  simp only [ne_eq, decide_not, Bool.not_eq_true', decide_eq_false_iff_not]
  intro hxy
  exact h (hxy ▸ hy)

theorem head_ne_of_not_mem (l : List ScreenKDM) (x : ScreenKDM) (h : x ∉ l) :
    ¬ l.head? = some x := by
  intro hh
  exact h (List.mem_of_mem_head? hh)

theorem collect_inner_nodup (after : List ScreenKDM) (fuel : Nat) (before : List ScreenKDM)
    (ck : CinemaKDMs) (hn : (before ++ after).Nodup) (hf : after.length ≤ fuel) :
    collect_inner fuel before after ck
      = Halt.result
          (before ++ after.filter (fun y => y.screen.cinema ≠ ck.cinema),
           ⟨ck.cinema,
            ck.screen_kdms ++ after.filter (fun y => y.screen.cinema = ck.cinema)⟩) := by
  induction after generalizing fuel before ck with
  | nil => cases fuel <;> simp [collect_inner]
  | cons x rest ih =>
    cases fuel with
    | zero => simp at hf
    | succ fuel =>
      simp only [List.length_cons, Nat.add_le_add_iff_right] at hf
      have hx : x ∉ before ∧ x ∉ rest := by
        rw [List.nodup_append] at hn
        refine ⟨fun hb => hn.2.2 hb (List.mem_cons_self _ _) , ?_⟩
        exact (List.nodup_cons.1 hn.2.1).1
      unfold collect_inner
      by_cases hc : x.screen.cinema = ck.cinema
      · rw [if_pos hc, if_neg (head_ne_of_not_mem rest x hx.2), list_remove_not_mem _ _ hx.1,
          list_remove_not_mem _ _ hx.2]
        have hn2 : (before ++ rest).Nodup := by
          rw [List.nodup_append] at hn ⊢
          exact ⟨hn.1, (List.nodup_cons.1 hn.2.1).2,
            fun a ha hb => hn.2.2 ha (List.mem_cons_of_mem _ hb)⟩
        rw [ih fuel before _ hn2 hf]
        simp [hc]
      · rw [if_neg hc]
        have hn2 : ((before ++ [x]) ++ rest).Nodup := by simpa using hn
        rw [ih fuel (before ++ [x]) ck hn2 hf]
        simp [hc]

theorem collect_loop_nodup (fuel : Nat) (l : List ScreenKDM) (acc : List CinemaKDMs)
    (hn : l.Nodup) (hf : l.length ≤ fuel) :
    collect_loop fuel l acc = Halt.result (acc ++ groups_by_cinema fuel l) := by
  induction fuel generalizing l acc with
  | zero =>
    cases l with
    | nil => simp [collect_loop, groups_by_cinema]
    | cons x rest => simp at hf
  | succ fuel ih =>
    cases l with
    | nil => simp [collect_loop, groups_by_cinema]
    | cons x rest =>
      simp only [List.length_cons, Nat.add_le_add_iff_right] at hf
      obtain ⟨hx, hrest⟩ := List.nodup_cons.1 hn
      unfold collect_loop
      rw [if_neg (head_ne_of_not_mem rest x hx), list_remove_not_mem _ _ hx,
        collect_inner_nodup rest rest.length [] ⟨x.screen.cinema, [x]⟩ (by simpa using hrest)
          (le_refl _)]
      simp only [List.nil_append]
      rw [ih _ _ (hrest.filter _) (le_trans (List.length_filter_le _ _) hf)]
      simp [groups_by_cinema]

theorem groups_by_cinema_spec (fuel : Nat) (l : List ScreenKDM) (hf : l.length ≤ fuel) :
    (∀ g ∈ groups_by_cinema fuel l,
      g.screen_kdms ≠ []
      ∧ g.screen_kdms = l.filter (fun y => y.screen.cinema = g.cinema))
    ∧ ((groups_by_cinema fuel l).map (fun g => g.cinema)).Nodup
    ∧ ((groups_by_cinema fuel l).flatMap (fun g => g.screen_kdms)).Perm l
    ∧ ((groups_by_cinema fuel l).filterMap (fun g => g.screen_kdms.head?)).Sublist l := by
  induction fuel generalizing l with
  | zero =>
    cases l with
    | nil => simp [groups_by_cinema]
    | cons x rest => simp at hf
  | succ fuel ih =>
    cases l with
    | nil => simp [groups_by_cinema]
    | cons x rest =>
      simp only [List.length_cons, Nat.add_le_add_iff_right] at hf
      obtain ⟨h1, h2, h3, h4⟩ :=
        ih (rest.filter (fun y => y.screen.cinema ≠ x.screen.cinema))
          (le_trans (List.length_filter_le _ _) hf)
      have hne : ∀ g ∈ groups_by_cinema fuel
          (rest.filter (fun y => y.screen.cinema ≠ x.screen.cinema)),
          g.cinema ≠ x.screen.cinema := by
        intro g hg
        obtain ⟨hg1, hg2⟩ := h1 g hg
        obtain ⟨k, hk⟩ := List.exists_mem_of_ne_nil _ hg1
        rw [hg2] at hk
        simp only [ne_eq, decide_not, List.mem_filter, Bool.not_eq_true',
          decide_eq_false_iff_not, decide_eq_true_eq] at hk
        intro hgc
        exact hk.1.2 (hk.2.trans hgc)
      simp only [groups_by_cinema]
      refine ⟨?_, ?_, ?_, ?_⟩
      · intro g hg
        rcases List.mem_cons.1 hg with rfl | hg
        · simp
        · obtain ⟨hg1, hg2⟩ := h1 g hg
          refine ⟨hg1, ?_⟩
          rw [hg2, List.filter_filter]
          have hx : ¬ x.screen.cinema = g.cinema := fun h => hne g hg h.symm
          rw [List.filter_cons_of_neg (by simpa using hx)]
          apply List.filter_congr
          intro y _
          by_cases hy : y.screen.cinema = g.cinema
          · simp [hy, hne g hg]
          · simp [hy]
      · rw [List.map_cons, List.nodup_cons]
        refine ⟨?_, h2⟩
        intro hmem
        obtain ⟨g, hg, hgc⟩ := List.mem_map.1 hmem
        exact hne g hg hgc
      · rw [List.flatMap_cons]
        simp only [List.cons_append]
        refine List.Perm.cons x ?_
        refine (List.Perm.append_left _ h3).trans ?_
        have := List.filter_append_perm (fun y => decide (y.screen.cinema = x.screen.cinema))
          rest
        simpa using this
      · rw [List.filterMap_cons_some (by simp : _ = some x)]
        exact List.Sublist.cons₂ x (h4.trans (List.filter_sublist _))

theorem collect_nodup (l : List ScreenKDM) (hn : l.Nodup) :
    ∃ groups, CinemaKDMs.collect l = Halt.result groups
      ∧ (∀ g ∈ groups, g.screen_kdms ≠ []
          ∧ g.screen_kdms = l.filter (fun y => y.screen.cinema = g.cinema))
      ∧ (groups.map (fun g => g.cinema)).Nodup
      ∧ (groups.flatMap (fun g => g.screen_kdms)).Perm l
      ∧ (groups.filterMap (fun g => g.screen_kdms.head?)).Sublist l := by
  refine ⟨groups_by_cinema l.length l, ?_, groups_by_cinema_spec l.length l (le_refl _)⟩
  unfold CinemaKDMs.collect
  rw [collect_loop_nodup _ _ _ hn (le_refl _)]
  simp

/-! ### Decoder::position -/

theorem consider_ignored (pos : Option Int) (part : DecoderPart) (h : part.ignore = true) :
    consider pos part = pos := by
  simp [consider, h]

theorem consider_none (part : DecoderPart) (h : part.ignore = false) :
    consider none part = some part.position := by
  simp [consider, h]

theorem consider_some (p : Int) (part : DecoderPart) (h : part.ignore = false) :
    consider (some p) part = some (min part.position p) := by
  by_cases hlt : part.position < p
  · simp [consider, h, hlt, min_eq_left (le_of_lt hlt)]
  · simp [consider, h, hlt, min_eq_right (not_lt.1 hlt)]

theorem foldl_consider (l : List DecoderPart) (pos : Option Int) :
    match l.foldl consider pos with
    | none => pos = none ∧ ∀ part ∈ l, part.ignore = true
    | some r =>
      (pos = some r ∨ ∃ part ∈ l, part.ignore = false ∧ part.position = r)
      ∧ (∀ q, pos = some q → r ≤ q)
      ∧ ∀ part ∈ l, part.ignore = false → r ≤ part.position := by
  induction l generalizing pos with
  | nil => cases pos <;> simp
  | cons x rest ih =>
    rw [List.foldl_cons]
    have h := ih (consider pos x)
    cases hx : x.ignore with
    | true =>
      rw [consider_ignored pos x hx] at h ⊢
      cases hr : List.foldl consider pos rest with
      | none =>
        rw [hr] at h
        simp only at h ⊢
        refine ⟨h.1, ?_⟩
        intro part hp
        rcases List.mem_cons.1 hp with rfl | hp
        · exact hx
        · exact h.2 part hp
      | some r =>
        rw [hr] at h
        simp only at h ⊢
        obtain ⟨h1, h2, h3⟩ := h
        refine ⟨?_, h2, ?_⟩
        · rcases h1 with h1 | ⟨part, hp, hi, hq⟩
          · exact Or.inl h1
          · exact Or.inr ⟨part, List.mem_cons_of_mem _ hp, hi, hq⟩
        · intro part hp hi
          rcases List.mem_cons.1 hp with rfl | hp
          · rw [hx] at hi
            exact absurd hi (by simp)
          · exact h3 part hp hi
    | false =>
      have hc : ∃ c, consider pos x = some c ∧ c ≤ x.position
          ∧ (c = x.position ∨ pos = some c) ∧ ∀ q, pos = some q → c ≤ q := by
        cases pos with
        | none => exact ⟨_, consider_none x hx, le_refl _, Or.inl rfl, by simp⟩
        | some p =>
          refine ⟨_, consider_some p x hx, min_le_left _ _, ?_, ?_⟩
          · rcases min_choice x.position p with hm | hm
            · exact Or.inl hm
            · exact Or.inr (by rw [hm])
          · intro q hq
            simp only [Option.some.injEq] at hq
            rw [← hq]
            exact min_le_right _ _
      obtain ⟨c, hc1, hc2, hc3, hc4⟩ := hc
      rw [hc1] at h ⊢
      cases hr : List.foldl consider (some c) rest with
      | none =>
        rw [hr] at h
        exact absurd h.1 (by simp)
      | some r =>
        rw [hr] at h
        simp only at h ⊢
        obtain ⟨h1, h2, h3⟩ := h
        have hrc : r ≤ c := h2 c rfl
        refine ⟨?_, ?_, ?_⟩
        · rcases h1 with h1 | ⟨part, hp, hi, hq⟩
          · simp only [Option.some.injEq] at h1
            subst h1
            rcases hc3 with hc3 | hc3
            · exact Or.inr ⟨x, List.mem_cons_self _ _, hx, hc3.symm⟩
            · exact Or.inl hc3
          · exact Or.inr ⟨part, List.mem_cons_of_mem _ hp, hi, hq⟩
        · intro q hq
          exact le_trans hrc (hc4 q hq)
        · intro part hp hi
          rcases List.mem_cons.1 hp with rfl | hp
          · exact le_trans hrc hc2
          · exact h3 part hp hi

theorem position_eq_foldl (d : Decoder) :
    d.position = ((d.video.toList ++ d.audio.toList ++ d.caption).foldl consider none).getD 0 := by
  unfold Decoder.position
  cases d.video <;> cases d.audio <;> simp [List.foldl_append]

/-- C22: `Decoder::position` is the earliest of the positions of the parts of the decoder
that are not ignored (the video, the audio and every caption decoder): it is the position
of one of them and no later than the position of any; when there is no such part, it is
the zero `ContentTime`. -/
theorem position_earliest (d : Decoder) :
    (d.parts = [] → d.position = 0)
    ∧ (d.parts ≠ [] →
        (∃ part ∈ d.parts, d.position = part.position)
        ∧ ∀ part ∈ d.parts, d.position ≤ part.position) := by
  rw [position_eq_foldl]
  have h := foldl_consider (d.video.toList ++ d.audio.toList ++ d.caption) none
  unfold Decoder.parts
  cases hr : List.foldl consider none (d.video.toList ++ d.audio.toList ++ d.caption) with
  | none =>
    rw [hr] at h
    simp only at h
    have hnil : (d.video.toList ++ d.audio.toList ++ d.caption).filter
        (fun part => !part.ignore) = [] := by
      rw [List.filter_eq_nil_iff]
      intro part hp
      simp [h.2 part hp]
    exact ⟨fun _ => rfl, fun hne => absurd hnil hne⟩
  | some r =>
    rw [hr] at h
    simp only at h
    obtain ⟨h1, _, h3⟩ := h
    rcases h1 with h1 | ⟨part, hp, hi, hq⟩
    · exact absurd h1 (by simp)
    · have hmem : part ∈ (d.video.toList ++ d.audio.toList ++ d.caption).filter
          (fun part => !part.ignore) := by
        rw [List.mem_filter]
        exact ⟨hp, by simp [hi]⟩
      refine ⟨fun hnil => ?_, fun _ => ⟨⟨part, hmem, hq.symm⟩, ?_⟩⟩
      · rw [hnil] at hmem
        exact absurd hmem (List.not_mem_nil _)
      · intro q hq2
        rw [List.mem_filter] at hq2
        exact h3 q hq2.1 (by simpa using hq2.2)

theorem position_earliest_witness :
    (⟨some ⟨false, 5⟩, some ⟨true, 1⟩, [⟨false, 3⟩, ⟨false, 4⟩]⟩ : Decoder).parts ≠ []
    ∧ ∃ part ∈ (⟨some ⟨false, 5⟩, some ⟨true, 1⟩, [⟨false, 3⟩, ⟨false, 4⟩]⟩ : Decoder).parts,
        (⟨some ⟨false, 5⟩, some ⟨true, 1⟩, [⟨false, 3⟩, ⟨false, 4⟩]⟩ : Decoder).position
          = part.position :=
  ⟨by decide,
   ((position_earliest ⟨some ⟨false, 5⟩, some ⟨true, 1⟩, [⟨false, 3⟩, ⟨false, 4⟩]⟩).2
      (by decide)).1⟩

/-! ### AudioMapping: every `int` as an index -/

theorem wf_cons (m : AudioMapping) (h : m.WF) (hn : 0 < m._input_channels) :
    ∃ row rest, m._gain = row :: rest ∧ row.length = m._output_channels := by
  cases hg : m._gain with
  | nil =>
    have := h.1
    rw [hg] at this
    simp at this
    omega
  | cons row rest =>
    exact ⟨row, rest, rfl, h.2 row (by rw [hg]; exact List.mem_cons_self _ _)⟩

theorem wf_row (m : AudioMapping) (h : m.WF) (a : Nat) (ha : a < m._input_channels) :
    (m._gain.getD a []).length = m._output_channels := by
  have hlen : a < m._gain.length := by rw [h.1]; exact ha
  rw [List.getD_eq_getElem _ _ hlen]
  exact h.2 _ (List.getElem_mem _)

theorem get_at_in_range (m : AudioMapping) (h : m.WF) (a b : Nat)
    (ha : a < m._input_channels) (hb : b < m._output_channels) :
    m.get_at a b = Except.ok (cell m._gain a b) := by
  obtain ⟨row, rest, hg, hrow⟩ := wf_cons m h (by omega)
  have hr := wf_row m h a ha
  have hl := h.1
  unfold AudioMapping.get_at
  rw [hg] at hr hl ⊢
  simp only [Int.toNat_ofNat, List.length_cons] at hl ⊢
  split_ifs <;> first | rfl | (exfalso; omega)

theorem set_at_in_range (m : AudioMapping) (h : m.WF) (a b : Nat) (g : ℚ)
    (ha : a < m._input_channels) (hb : b < m._output_channels) :
    m.set_at a b g = Except.ok { m with _gain := setCell m._gain a b g } := by
  obtain ⟨row, rest, hg, hrow⟩ := wf_cons m h (by omega)
  have hr := wf_row m h a ha
  have hl := h.1
  unfold AudioMapping.set_at
  rw [hg] at hr hl
  simp only [hg, Int.toNat_ofNat, List.length_cons] at hl ⊢
  split_ifs <;> first | rfl | (exfalso; omega)

theorem set_at_above (m : AudioMapping) (h : m.WF) (i j : Int) (g : ℚ)
    (hout : (m._input_channels : Int) ≤ i ∨ (0 < m._input_channels
      ∧ i < (m._input_channels : Int) ∧ (m._output_channels : Int) ≤ j)) :
    m.set_at i j g = Except.error Fault.assertion := by
  have hl := h.1
  unfold AudioMapping.set_at
  cases hg : m._gain with
  | nil =>
    rw [hg] at hl
    simp only [List.length_nil] at hl ⊢
    split_ifs <;> first | rfl | (exfalso; omega)
  | cons row rest =>
    have hrow : row.length = m._output_channels :=
      h.2 row (by rw [hg]; exact List.mem_cons_self _ _)
    rw [hg] at hl
    simp only [List.length_cons] at hl ⊢
    split_ifs <;> first | rfl | (exfalso; omega)

theorem get_at_above (m : AudioMapping) (h : m.WF) (i j : Int)
    (hout : (m._input_channels : Int) ≤ i ∨ (0 < m._input_channels
      ∧ i < (m._input_channels : Int) ∧ (m._output_channels : Int) ≤ j)) :
    m.get_at i j = Except.error Fault.assertion := by
  have hl := h.1
  unfold AudioMapping.get_at
  cases hg : m._gain with
  | nil =>
    rw [hg] at hl
    simp only [List.length_nil] at hl ⊢
    split_ifs <;> first | rfl | (exfalso; omega)
  | cons row rest =>
    have hrow : row.length = m._output_channels :=
      h.2 row (by rw [hg]; exact List.mem_cons_self _ _)
    rw [hg] at hl
    simp only [List.length_cons] at hl ⊢
    split_ifs <;> first | rfl | (exfalso; omega)

theorem set_at_below (m : AudioMapping) (h : m.WF) (i j : Int) (g : ℚ)
    (hi : i < (m._input_channels : Int)) (hj : j < (m._output_channels : Int))
    (hneg : i < 0 ∨ j < 0) :
    m.set_at i j g = Except.error Fault.outside := by
  have hl := h.1
  unfold AudioMapping.set_at
  cases hg : m._gain with
  | nil =>
    rw [hg] at hl
    simp only [List.length_nil] at hl ⊢
    split_ifs <;> first | rfl | (exfalso; omega)
  | cons row rest =>
    have hrow : row.length = m._output_channels :=
      h.2 row (by rw [hg]; exact List.mem_cons_self _ _)
    rw [hg] at hl
    simp only [List.length_cons] at hl ⊢
    split_ifs <;> first | rfl | (exfalso; omega)

theorem get_at_below (m : AudioMapping) (h : m.WF) (i j : Int)
    (hi : i < (m._input_channels : Int)) (hj : j < (m._output_channels : Int))
    (hneg : i < 0 ∨ j < 0) :
    m.get_at i j = Except.error Fault.outside := by
  have hl := h.1
  unfold AudioMapping.get_at
  cases hg : m._gain with
  | nil =>
    rw [hg] at hl
    simp only [List.length_nil] at hl ⊢
    split_ifs <;> first | rfl | (exfalso; omega)
  | cons row rest =>
    have hrow : row.length = m._output_channels :=
      h.2 row (by rw [hg]; exact List.mem_cons_self _ _)
    rw [hg] at hl
    simp only [List.length_cons] at hl ⊢
    split_ifs <;> first | rfl | (exfalso; omega)

theorem set_at_frame (m : AudioMapping) (h : m.WF) (i j : Nat) (g : ℚ)
    (hi : i < m._input_channels) (hj : j < m._output_channels) :
    ∃ m2, m.set_at i j g = Except.ok m2 ∧ m2.WF
      ∧ m2.input_channels = m.input_channels ∧ m2.output_channels = m.output_channels
      ∧ m2.get_at i j = Except.ok g
      ∧ ∀ a b : Nat, a < m._input_channels → b < m._output_channels → ¬ (a = i ∧ b = j) →
          m2.get_at a b = m.get_at a b := by
  have hwf : AudioMapping.WF { m with _gain := setCell m._gain i j g } :=
    setCell_shape _ _ _ i j g h
  refine ⟨_, set_at_in_range m h i j g hi hj, hwf, rfl, rfl, ?_, ?_⟩
  · rw [get_at_in_range _ hwf i j hi hj]
    simp [setCell_cell _ _ _ i j g h hi hj]
  · intro a b ha hb hne
    rw [get_at_in_range _ hwf a b ha hb, get_at_in_range m h a b ha hb]
    simp [setCell_cell _ _ _ i j g h hi hj, hne]

/-- C24 (failing input): in a mapping of two input and two output channels, `get` and
`set` with the input channel -1, and with the output channel -1, pass both assertions,
which compare the indices with the sizes from above only, and go on to an element
outside the matrix. -/
theorem negative_index_outside :
    (AudioMapping.create 2 2).get_at (-1) 0 = Except.error Fault.outside
    ∧ (AudioMapping.create 2 2).set_at (-1) 0 1 = Except.error Fault.outside
    ∧ (AudioMapping.create 2 2).get_at 0 (-1) = Except.error Fault.outside
    ∧ (AudioMapping.create 2 2).set_at 0 (-1) 1 = Except.error Fault.outside := by
  decide

/-! ### AudioMapping: XML -/

theorem as_xml_gains_spec (conv : Convert) (m : AudioMapping) (h : m.WF) (c : Nat)
    (hc : c < m._input_channels) (ds : List Nat) (hds : ∀ d ∈ ds, d < m._output_channels)
    (node : List Element) :
    as_xml_gains conv m c ds node
      = some (node ++ ds.map (fun d => gain_element conv c d (cell m._gain c d))) := by
  induction ds generalizing node with
  | nil => simp [as_xml_gains]
  | cons d rest ih =>
    unfold as_xml_gains
    rw [get_eq_cell m h c d hc (hds d (List.mem_cons_self _ _))]
    simp only
    rw [ih (fun x hx => hds x (List.mem_cons_of_mem _ hx))]
    simp

theorem as_xml_rows_spec (conv : Convert) (m : AudioMapping) (h : m.WF) (cs : List Nat)
    (hcs : ∀ c ∈ cs, c < m._input_channels) (node : List Element) :
    as_xml_rows conv m cs node
      = some (node ++ cs.flatMap (fun c => (List.range m._output_channels).map
          (fun d => gain_element conv c d (cell m._gain c d)))) := by
  induction cs generalizing node with
  | nil => simp [as_xml_rows]
  | cons c rest ih =>
    unfold as_xml_rows
    rw [as_xml_gains_spec conv m h c (hcs c (List.mem_cons_self _ _)) _
      (fun d hd => List.mem_range.1 hd)]
    simp only
    rw [ih (fun x hx => hcs x (List.mem_cons_of_mem _ hx))]
    simp

theorem create_spec (i o : Nat) :
    (AudioMapping.create i o).WF ∧ (AudioMapping.create i o)._input_channels = i
    ∧ (AudioMapping.create i o)._output_channels = o
    ∧ ∀ a b, a < i → b < o → cell (AudioMapping.create i o)._gain a b = 0 :=
  make_zero_spec
    { _input_channels := i, _output_channels := o,
      _gain := (resize ([] : List (List ℚ)) i []).map (fun row => resize row o 0) }
    (create_wf i o)

theorem attribute_input (conv : Convert) (c d : Nat) (g : ℚ) :
    number_attribute conv (gain_element conv c d g) "Input"
      = Except.ok (conv.string_to_int (conv.int_to_string c)) := rfl

theorem attribute_output (conv : Convert) (c d : Nat) (g : ℚ) :
    number_attribute conv (gain_element conv c d g) "Output"
      = Except.ok (conv.string_to_int (conv.int_to_string d)) := by
  have hne : ("Output" == "Input") = false := by decide
  simp [number_attribute, gain_element, List.lookup, hne]

theorem gain_element_content (conv : Convert) (c d : Nat) (g : ℚ) :
    (gain_element conv c d g).content = conv.float_to_string g := rfl

theorem read_gains_spec (conv : Convert) (state_version : Int) (hv : 32 ≤ state_version)
    (f : Nat → Nat → ℚ) (n k : Nat) (pairs : List (Nat × Nat))
    (hpairs : ∀ p ∈ pairs, p.1 < n ∧ p.2 < k
      ∧ conv.string_to_int (conv.int_to_string p.1) = p.1
      ∧ conv.string_to_int (conv.int_to_string p.2) = p.2
      ∧ conv.string_to_float (conv.float_to_string (f p.1 p.2)) = f p.1 p.2)
    (m : AudioMapping) (h : m.WF) (hn : m._input_channels = n) (hk : m._output_channels = k) :
    ∃ m2, read_gains conv state_version
        (pairs.map (fun p => gain_element conv p.1 p.2 (f p.1 p.2))) m = Except.ok m2
      ∧ m2.WF ∧ m2._input_channels = n ∧ m2._output_channels = k
      ∧ ∀ a b, cell m2._gain a b = if (a, b) ∈ pairs then f a b else cell m._gain a b := by
  induction pairs generalizing m with
  | nil => exact ⟨m, rfl, h, hn, hk, by simp⟩
  | cons p rest ih =>
    obtain ⟨hp1, hp2, hi1, hi2, hf⟩ := hpairs p (List.mem_cons_self _ _)
    have hlt : ¬ state_version < 32 := by omega
    have hset := set_at_in_range m h p.1 p.2 (f p.1 p.2) (by omega) (by omega)
    have hwf : AudioMapping.WF { m with _gain := setCell m._gain p.1 p.2 (f p.1 p.2) } :=
      setCell_shape _ _ _ p.1 p.2 (f p.1 p.2) h
    obtain ⟨m2, hm2, hwf2, hn2, hk2, hcell⟩ :=
      ih (fun q hq => hpairs q (List.mem_cons_of_mem _ hq))
        { m with _gain := setCell m._gain p.1 p.2 (f p.1 p.2) } hwf hn hk
    refine ⟨m2, ?_, hwf2, hn2, hk2, ?_⟩
    · rw [List.map_cons, read_gains]
      simp only [hlt, if_false, attribute_input, attribute_output, gain_element_content, hi1,
        hi2, hf, bind, Except.bind, hset]
      exact hm2
    · intro a b
      rw [hcell a b]
      have hc := setCell_cell m._gain _ _ p.1 p.2 (f p.1 p.2) h (by omega) (by omega) a b
      simp only at hc ⊢
      rw [hc]
      by_cases hr : (a, b) ∈ rest
      · simp [hr]
      · by_cases hab : a = p.1 ∧ b = p.2
        · have : (a, b) = p := by
            obtain ⟨h1, h2⟩ := hab
            subst h1
            subst h2
            rfl
          simp [this, hab]
        · have : ¬ (a, b) = p := by
            intro heq
            apply hab
            rw [← heq]
            exact ⟨rfl, rfl⟩
          simp [hr, hab, this]

theorem filter_gains (conv : Convert) (f : Nat → Nat → ℚ) (pairs : List (Nat × Nat))
    (name : String) :
    (pairs.map (fun p => gain_element conv p.1 p.2 (f p.1 p.2))).filter
        (fun e => e.name = name)
      = if name = "Gain" then pairs.map (fun p => gain_element conv p.1 p.2 (f p.1 p.2))
        else [] := by
  by_cases h : name = "Gain"
  · rw [if_pos h, List.filter_eq_self]
    intro e he
    obtain ⟨p, _, rfl⟩ := List.mem_map.1 he
    simp [gain_element, h]
  · rw [if_neg h, List.filter_eq_nil_iff]
    intro e he
    obtain ⟨p, _, rfl⟩ := List.mem_map.1 he
    simp only [gain_element, decide_eq_true_eq]
    exact fun heq => h heq.symm

theorem flatMap_pairs {α : Type} (g : Nat → Nat → α) (cs ds : List Nat) :
    cs.flatMap (fun c => ds.map (fun d => g c d))
      = (cs.flatMap (fun c => ds.map (fun d => (c, d)))).map (fun p => g p.1 p.2) := by
  induction cs with
  | nil => rfl
  | cons c rest ih =>
    simp only [List.flatMap_cons, ih, List.map_append, List.map_map]
    rfl

theorem as_xml_spec (conv : Convert) (m : AudioMapping) (h : m.WF) :
    m.as_xml conv []
      = some ([⟨"InputChannels", [], conv.int_to_string m._input_channels, []⟩,
               ⟨"OutputChannels", [], conv.int_to_string m._output_channels, []⟩]
          ++ ((List.range m._input_channels).flatMap
                (fun c => (List.range m._output_channels).map (fun d => (c, d)))).map
              (fun p => gain_element conv p.1 p.2 (cell m._gain p.1 p.2))) := by
  unfold AudioMapping.as_xml
  rw [as_xml_rows_spec conv m h _ (fun c hc => List.mem_range.1 hc)]
  rw [flatMap_pairs (fun c d => gain_element conv c d (cell m._gain c d))]
  rfl

/-- C25: when the conversions of numbers to text and back (`raw_convert`) give back the
channel counts, the channel numbers and the gains of a mapping `m`, the constructor from
XML, for a state version of 32 or more, makes from the node that `m.as_xml` wrote a
mapping with the input channel count, the output channel count and the gain of every
cell of `m`. -/
theorem xml_round_trip (conv : Convert) (MAX_DCP_AUDIO_CHANNELS : Int) (m : AudioMapping)
    (state_version : Int) (hwf : m.WF) (hv : 32 ≤ state_version)
    (hint : ∀ n : Nat, n ≤ max m._input_channels m._output_channels →
      conv.string_to_int (conv.int_to_string n) = n)
    (hfloat : ∀ a b g, m.get a b = some g →
      conv.string_to_float (conv.float_to_string g) = g) :
    ∃ node m2, m.as_xml conv [] = some node
      ∧ AudioMapping.from_xml conv MAX_DCP_AUDIO_CHANNELS node state_version = Except.ok m2
      ∧ m2.input_channels = m.input_channels ∧ m2.output_channels = m.output_channels
      ∧ ∀ a b, a < m.input_channels → b < m.output_channels → m2.get a b = m.get a b := by
  obtain ⟨cwf, cn, ck, _⟩ := create_spec m._input_channels m._output_channels
  have hpairs : ∀ p ∈ (List.range m._input_channels).flatMap
      (fun c => (List.range m._output_channels).map (fun d => (c, d))),
      p.1 < m._input_channels ∧ p.2 < m._output_channels
      ∧ conv.string_to_int (conv.int_to_string p.1) = p.1
      ∧ conv.string_to_int (conv.int_to_string p.2) = p.2
      ∧ conv.string_to_float (conv.float_to_string (cell m._gain p.1 p.2))
        = cell m._gain p.1 p.2 := by
    intro p hp
    simp only [List.mem_flatMap, List.mem_range, List.mem_map] at hp
    obtain ⟨c, hc, d, hd, rfl⟩ := hp
    exact ⟨hc, hd, hint c (le_trans (le_of_lt hc) (le_max_left _ _)),
      hint d (le_trans (le_of_lt hd) (le_max_right _ _)),
      hfloat c d _ (get_eq_cell m hwf c d hc hd)⟩
  obtain ⟨m2, hm2, hwf2, hn2, hk2, hcell⟩ :=
    read_gains_spec conv state_version hv (fun a b => cell m._gain a b) m._input_channels
      m._output_channels _ hpairs (AudioMapping.create m._input_channels m._output_channels)
      cwf cn ck
  refine ⟨_, m2, as_xml_spec conv m hwf, ?_, hn2, hk2, ?_⟩
  · have hlt : ¬ state_version < 32 := by omega
    have hle : ¬ state_version ≤ 5 := by omega
    have hin : conv.string_to_int (conv.int_to_string m._input_channels)
        = m._input_channels := hint _ (le_max_left _ _)
    have hout : conv.string_to_int (conv.int_to_string m._output_channels)
        = m._output_channels := hint _ (le_max_right _ _)
    have hsetup : setup_at (m._input_channels : Int) (m._output_channels : Int)
        = Except.ok (AudioMapping.create m._input_channels m._output_channels) := by
      unfold setup_at
      rw [if_neg (by omega)]
      simp
    unfold AudioMapping.from_xml
    simp only [hlt, hle, if_false, number_child, List.filter_append, filter_gains,
      List.filter_cons, List.filter_nil, bind, Except.bind]
    simp only [reduceCtorEq, String.reduceEq, decide_True, decide_False, if_true, if_false,
      List.append_nil, List.nil_append, hin, hout, hsetup]
    exact hm2
  · intro a b ha hb
    have ha2 : a < m2._input_channels := by rw [hn2]; exact ha
    have hb2 : b < m2._output_channels := by rw [hk2]; exact hb
    rw [get_eq_cell m2 hwf2 a b ha2 hb2, get_eq_cell m hwf a b ha hb, hcell a b]
    have hmem : (a, b) ∈ (List.range m._input_channels).flatMap
        (fun c => (List.range m._output_channels).map (fun d => (c, d))) := by
      simp only [List.mem_flatMap, List.mem_range, List.mem_map]
      exact ⟨a, ha, b, hb, rfl⟩
    rw [if_pos hmem]

theorem monoRight_wf : monoRight.WF := by
  unfold AudioMapping.WF monoRight
  decide

theorem xml_round_trip_witness :
    monoRight.WF
    ∧ ∃ node m2, monoRight.as_xml tallyConvert [] = some node
      ∧ AudioMapping.from_xml tallyConvert 16 node 32 = Except.ok m2
      ∧ m2.input_channels = monoRight.input_channels
      ∧ m2.output_channels = monoRight.output_channels
      ∧ ∀ a b, a < monoRight.input_channels → b < monoRight.output_channels →
          m2.get a b = monoRight.get a b :=
  ⟨monoRight_wf,
   xml_round_trip tallyConvert 16 monoRight 32 monoRight_wf (by decide)
     (by
       intro n _
       show (((List.replicate (n : Int).toNat 'I').length : Nat) : Int) = n
       simp)
     (by
       intro a b g h
       unfold AudioMapping.get monoRight at h
       split_ifs at h with h1 h2
       simp only [List.length_singleton, Nat.lt_one_iff] at h1
       subst h1
       simp only [List.getD_cons_zero, List.length_cons, List.length_nil] at h2
       have hb : b = 0 ∨ b = 1 := by omega
       rcases hb with rfl | rfl <;> simp [cell] at h <;> subst h <;> simp [tallyConvert])⟩

/-! ### AudioMapping::mapped_output_channels -/

theorem mapped_row_spec (row : List ℚ) (used : List Nat) (hused : ∀ j ∈ used, j < row.length)
    (mapped : List Nat) :
    mapped_row row used mapped
      = Except.ok (mapped ++ used.filter (fun j => |row.getD j 0| > minus_96_db)) := by
  induction used generalizing mapped with
  | nil => simp [mapped_row]
  | cons j rest ih =>
    have hj := hused j (List.mem_cons_self _ _)
    have hrest := fun x hx => hused x (List.mem_cons_of_mem _ hx)
    unfold mapped_row
    rw [if_neg (by omega)]
    by_cases hg : |row.getD j 0| > minus_96_db
    · rw [if_pos hg, ih hrest, List.filter_cons_of_pos (by simpa using hg)]
      simp
    · rw [if_neg hg, ih hrest, List.filter_cons_of_neg (by simpa using hg)]

theorem mapped_row_outside (row : List ℚ) (used : List Nat)
    (hused : ∃ j ∈ used, row.length ≤ j) (mapped : List Nat) :
    mapped_row row used mapped = Except.error Fault.outside := by
  induction used generalizing mapped with
  | nil =>
    obtain ⟨j, hj, _⟩ := hused
    exact absurd hj (List.not_mem_nil _)
  | cons j rest ih =>
    unfold mapped_row
    by_cases hj : row.length ≤ j
    · rw [if_pos hj]
    · rw [if_neg hj]
      have hrest : ∃ x ∈ rest, row.length ≤ x := by
        obtain ⟨x, hx, hle⟩ := hused
        rcases List.mem_cons.1 hx with rfl | hx
        · exact absurd hle hj
        · exact ⟨x, hx, hle⟩
      split_ifs
      · exact ih hrest _
      · exact ih hrest _

theorem mapped_rows_spec (used : List Nat) (k : Nat) (hused : ∀ j ∈ used, j < k)
    (rows : List (List ℚ)) (hrows : ∀ row ∈ rows, row.length = k) (mapped : List Nat) :
    mapped_rows used rows mapped
      = Except.ok (mapped ++ rows.flatMap
          (fun row => used.filter (fun j => |row.getD j 0| > minus_96_db))) := by
  induction rows generalizing mapped with
  | nil => simp [mapped_rows]
  | cons row rest ih =>
    unfold mapped_rows
    have hk := hrows row (List.mem_cons_self _ _)
    rw [mapped_row_spec row used (fun j hj => by rw [hk]; exact hused j hj)]
    simp only
    rw [ih (fun r hr => hrows r (List.mem_cons_of_mem _ hr))]
    simp

theorem mapped_outside (used : List Nat) (m : AudioMapping) (h : m.WF)
    (hn : 0 < m._input_channels) (hused : ∃ j ∈ used, m._output_channels ≤ j) :
    m.mapped_output_channels used = Except.error Fault.outside := by
  obtain ⟨row, rest, hg, hrow⟩ := wf_cons m h hn
  unfold AudioMapping.mapped_output_channels
  rw [hg, mapped_rows, mapped_row_outside row used (by rw [hrow]; exact hused)]

theorem mem_list_unique (x : Nat) (l : List Nat) : x ∈ list_unique l ↔ x ∈ l := by
  induction l using list_unique.induct with
  | case1 => simp [list_unique]
  | case2 a => simp [list_unique]
  | case3 a rest ih =>
    rw [list_unique, if_pos rfl, ih]
    simp
  | case4 a b rest hne ih =>
    rw [list_unique, if_neg hne, List.mem_cons, ih]
    simp

theorem sorted_list_unique (l : List Nat) (h : l.Sorted (fun a b => a ≤ b)) :
    (list_unique l).Sorted (fun a b => a < b) := by
  induction l using list_unique.induct with
  | case1 => simp [list_unique]
  | case2 a => simp [list_unique]
  | case3 a rest ih =>
    rw [list_unique, if_pos rfl]
    exact ih (List.Sorted.of_cons h)
  | case4 a b rest hne ih =>
    rw [list_unique, if_neg hne]
    unfold List.Sorted at h ih ⊢
    rw [List.pairwise_cons] at h ⊢
    refine ⟨?_, ih h.2⟩
    intro x hx
    rw [mem_list_unique] at hx
    have hax := h.1 x hx
    have hab := h.1 b (List.mem_cons_self _ _)
    rcases List.mem_cons.1 hx with rfl | hx
    · omega
    · have hbx := (List.pairwise_cons.1 h.2).1 x hx
      omega

theorem mapped_output_channels_spec (used : List Nat) (m : AudioMapping) (h : m.WF)
    (hused : ∀ j ∈ used, j < m._output_channels) :
    ∃ mapped, m.mapped_output_channels used = Except.ok mapped
      ∧ mapped.Sorted (fun a b => a < b)
      ∧ (∀ j, j ∈ mapped ↔ j ∈ used
          ∧ ∃ i, i < m._input_channels ∧ |cell m._gain i j| > minus_96_db)
      ∧ ∀ j ∈ mapped, j < m._output_channels := by
  have hmem : ∀ j, j ∈ list_unique (List.insertionSort (fun a b => a ≤ b)
      ([] ++ m._gain.flatMap
        (fun row => used.filter (fun j => |row.getD j 0| > minus_96_db))))
      ↔ j ∈ used ∧ ∃ i, i < m._input_channels ∧ |cell m._gain i j| > minus_96_db := by
    intro j
    rw [mem_list_unique, (List.perm_insertionSort _ _).mem_iff]
    simp only [List.nil_append, List.mem_flatMap, List.mem_filter, decide_eq_true_eq]
    constructor
    · rintro ⟨row, hrow, hj, hg⟩
      obtain ⟨i, hi, rfl⟩ := List.mem_iff_getElem.1 hrow
      refine ⟨hj, i, by rw [← h.1]; exact hi, ?_⟩
      unfold cell
      rw [List.getD_eq_getElem _ _ hi]
      exact hg
    · rintro ⟨hj, i, hi, hg⟩
      have hi2 : i < m._gain.length := by rw [h.1]; exact hi
      refine ⟨m._gain[i], List.getElem_mem _, hj, ?_⟩
      unfold cell at hg
      rw [List.getD_eq_getElem _ _ hi2] at hg
      exact hg
  unfold AudioMapping.mapped_output_channels
  rw [mapped_rows_spec used m._output_channels hused m._gain h.2 []]
  refine ⟨_, rfl, sorted_list_unique _ (List.sorted_insertionSort _ _), hmem, ?_⟩
  intro j hj
  exact hused j ((hmem j).1 hj).1

/-- C28 (failing input): for a mapping of one input channel to two output channels,
`mapped_output_channels` reads the cell of the centre channel, the third, in a row of
two gains: it reads outside the matrix. -/
theorem mapped_output_channels_outside :
    (AudioMapping.create 1 2).mapped_output_channels used_audio_channels
      = Except.error Fault.outside :=
  mapped_outside used_audio_channels (AudioMapping.create 1 2) (create_spec 1 2).1
    (by rw [(create_spec 1 2).2.1]; exact Nat.one_pos)
    ⟨2, by decide, by rw [(create_spec 1 2).2.2.1]⟩

/-! ### JSONServer: the length of the body -/

theorem utf8ByteSize_go_append (l1 l2 : List Char) :
    String.utf8ByteSize.go (l1 ++ l2)
      = String.utf8ByteSize.go l1 + String.utf8ByteSize.go l2 := by
  induction l1 with
  | nil => simp [String.utf8ByteSize.go]
  | cons c rest ih =>
    show String.utf8ByteSize.go (rest ++ l2) + c.utf8Size
      = (String.utf8ByteSize.go rest + c.utf8Size) + String.utf8ByteSize.go l2
    rw [ih]
    omega

theorem utf8ByteSize_append (s t : String) :
    (s ++ t).utf8ByteSize = s.utf8ByteSize + t.utf8ByteSize := by
  cases s
  cases t
  exact utf8ByteSize_go_append _ _

theorem request_body_length (split_get_request : String → List (String × String))
    (show_float : ℚ → String) (url : String) (jobs : List Job) :
    (request split_get_request show_float url jobs).1
      = ("HTTP/1.1 200 OK\r\n" ++ "Content-Length: "
          ++ toString (requestBody split_get_request show_float url jobs).utf8ByteSize
          ++ "\r\n" ++ "Content-Type: application/json\r\n") ++ "\r\n"
        ++ (requestBody split_get_request show_float url jobs ++ "\r\n")
    ∧ (requestBody split_get_request show_float url jobs ++ "\r\n").utf8ByteSize
      = (requestBody split_get_request show_float url jobs).utf8ByteSize + 2 := by
  constructor
  · unfold request
    simp only [String.append_assoc]
  · rw [utf8ByteSize_append]
    rfl

/-- C29 (failing input): for the URL `/?action=status` and no job, the reply of
`JSONServer::request` has the header `Content-Length: 14`, the length of the JSON text,
and 16 bytes after the blank line that ends the headers, the JSON text and a line end. -/
theorem content_length_short :
    (request (fun _ => [("action", "status")]) (fun _ => "") "/?action=status" []).1
      = "HTTP/1.1 200 OK\r\nContent-Length: 14\r\nContent-Type: application/json\r\n\r\n"
        ++ "\x7b \"jobs\": [] \x7d\r\n"
    ∧ content_length
        (request (fun _ => [("action", "status")]) (fun _ => "") "/?action=status" []).1
      = some 14
    ∧ bytes_after_headers
        (request (fun _ => [("action", "status")]) (fun _ => "") "/?action=status" []).1
      = some 16 := by
  decide

/-! ### FFmpegExaminer: pull-down -/

theorem drop_leading_iff (p l r : List Char) : drop_leading p l = some r ↔ l = p ++ r := by
  induction p generalizing l with
  | nil => simp [drop_leading, eq_comm]
  | cons c ps ih =>
    cases l with
    | nil => simp [drop_leading]
    | cons d rest =>
      unfold drop_leading
      by_cases h : c = d
      · subst h
        simp [ih]
      · simp only [if_neg h, List.cons_append, List.cons.injEq]
        constructor
        · intro hh
          exact absurd hh (by simp)
        · rintro ⟨hh, _⟩
          exact absurd hh.symm h

theorem find_after_isSome (p l : List Char) :
    (find_after p l).isSome = true ↔ ∃ pre post, l = pre ++ p ++ post := by
  induction l with
  | nil =>
    unfold find_after
    constructor
    · intro h
      obtain ⟨r, hr⟩ := Option.isSome_iff_exists.1 h
      exact ⟨[], r, by simpa using (drop_leading_iff p [] r).1 hr⟩
    · rintro ⟨pre, post, h⟩
      have hp : p = [] := by
        have := congrArg List.length h
        simp only [List.length_nil, List.length_append] at this
        exact List.eq_nil_of_length_eq_zero (by omega)
      subst hp
      rfl
  | cons c rest ih =>
    unfold find_after
    cases hd : drop_leading p (c :: rest) with
    | some r =>
      simp only [Option.isSome_some, true_iff]
      exact ⟨[], r, by simpa using (drop_leading_iff _ _ _).1 hd⟩
    | none =>
      simp only
      rw [ih]
      constructor
      · rintro ⟨pre, post, h⟩
        exact ⟨c :: pre, post, by simp [h]⟩
      · rintro ⟨pre, post, h⟩
        cases pre with
        | nil =>
          have := (drop_leading_iff p (c :: rest) post).2 (by simpa using h)
          rw [hd] at this
          exact absurd this (by simp)
        | cons d pre =>
          simp only [List.cons_append, List.cons.injEq] at h
          exact ⟨pre, post, by simpa using h.2⟩

theorem frame_reference_length (top_field_first : Bool) (repeat_pict : Int) :
    (frame_reference top_field_first repeat_pict).length = 2 := by
  unfold frame_reference
  cases top_field_first <;> by_cases h : repeat_pict ≠ 0 <;> simp [h] <;> rfl

theorem video_packet_step (AVERROR_EOF : Int) (frames_round : Int → Int) (ex : Examiner)
    (send : Int) (flush : Bool) (received : Received) (r : Bool × Examiner)
    (h : video_packet AVERROR_EOF frames_round ex send flush received = Except.ok r) :
    r.2.video_stream = ex.video_stream ∧ r.2.pulldown = ex.pulldown
    ∧ (r.2.temporal_reference = ex.temporal_reference
      ∨ (ex.temporal_reference.length < 32
        ∧ ∃ top_field_first repeat_pict frame_time,
          received = Received.frame top_field_first repeat_pict frame_time
          ∧ r.2.temporal_reference
            = ex.temporal_reference ++ frame_reference top_field_first repeat_pict)) := by
  unfold video_packet at h
  by_cases h1 : ex.video_stream = none
  · rw [if_pos h1] at h
    exact absurd h (by simp)
  rw [if_neg h1] at h
  by_cases h2 : ex.first_video ≠ none ∧ ex.need_video_length = false
      ∧ ex.temporal_reference.length ≥ PULLDOWN_CHECK_FRAMES * 2
  · rw [if_pos h2] at h
    simp only [Except.ok.injEq] at h
    subst h
    exact ⟨rfl, rfl, Or.inl rfl⟩
  rw [if_neg h2] at h
  by_cases h3 : send < 0 ∧ ¬ (send = AVERROR_EOF ∧ flush = true)
  · rw [if_pos h3] at h
    exact absurd h (by simp)
  rw [if_neg h3] at h
  cases received with
  | again =>
    simp only [Except.ok.injEq] at h
    subst h
    exact ⟨rfl, rfl, Or.inl rfl⟩
  | eof =>
    simp only [Except.ok.injEq] at h
    subst h
    exact ⟨rfl, rfl, Or.inl rfl⟩
  | frame top_field_first repeat_pict frame_time =>
    simp only [Except.ok.injEq] at h
    subst h
    refine ⟨rfl, rfl, ?_⟩
    by_cases hl : ex.temporal_reference.length < PULLDOWN_CHECK_FRAMES * 2
    · right
      exact ⟨hl, _, _, _, rfl, by simp only [if_pos hl]⟩
    · left
      simp only [if_neg hl]

theorem frames_reference_length (frames : List (Bool × Int)) :
    (frames_reference frames).length = 2 * frames.length := by
  induction frames with
  | nil => rfl
  | cons f rest ih =>
    have hf : (frame_reference f.1 f.2).data.length = 2 := frame_reference_length f.1 f.2
    simp only [frames_reference, List.flatMap_cons, List.length_append, List.length_cons] at ih ⊢
    rw [ih, hf]
    omega

theorem take_full (seen more : List (Bool × Int)) (s : String)
    (hs : s.data = frames_reference (seen.take 16)) (hfull : 32 ≤ s.length) :
    (seen ++ more).take 16 = seen.take 16 := by
  have hl : s.length = 2 * (seen.take 16).length := by
    rw [← frames_reference_length, ← hs]
    rfl
  have h16 : 16 ≤ seen.length := by
    rw [List.length_take] at hl
    omega
  exact List.take_append_of_le_length h16

theorem take_room (seen : List (Bool × Int)) (f : Bool × Int) (s : String)
    (hs : s.data = frames_reference (seen.take 16)) (hroom : s.length < 32) :
    seen.take 16 = seen ∧ (seen ++ [f]).take 16 = seen ++ [f] := by
  have hl : s.length = 2 * (seen.take 16).length := by
    rw [← frames_reference_length, ← hs]
    rfl
  have h16 : seen.length < 16 := by
    rw [List.length_take] at hl
    omega
  exact ⟨List.take_of_length_le (by omega),
    List.take_of_length_le (by simp only [List.length_append, List.length_singleton]; omega)⟩

theorem video_packet_taken (AVERROR_EOF : Int) (frames_round : Int → Int) (ex : Examiner)
    (send : Int) (flush : Bool) (received : Received) (r : Bool × Examiner)
    (seen : List (Bool × Int))
    (h : video_packet AVERROR_EOF frames_round ex send flush received = Except.ok r)
    (hs : ex.temporal_reference.data = frames_reference (seen.take 16)) :
    r.2.video_stream = ex.video_stream ∧ r.2.pulldown = ex.pulldown
    ∧ r.2.temporal_reference.data
      = frames_reference ((seen ++ received_frame received).take 16)
    ∧ (r.1 = false → received = Received.eof ∨ 32 ≤ r.2.temporal_reference.length)
    ∧ (r.1 = true → received ≠ Received.eof) := by
  unfold video_packet at h
  by_cases h1 : ex.video_stream = none
  · rw [if_pos h1] at h
    exact absurd h (by simp)
  rw [if_neg h1] at h
  by_cases h2 : ex.first_video ≠ none ∧ ex.need_video_length = false
      ∧ ex.temporal_reference.length ≥ PULLDOWN_CHECK_FRAMES * 2
  · rw [if_pos h2] at h
    simp only [Except.ok.injEq] at h
    subst h
    have hfull : 32 ≤ ex.temporal_reference.length := h2.2.2
    refine ⟨rfl, rfl, ?_, fun _ => Or.inr hfull, fun hc => absurd hc (by simp)⟩
    rw [take_full seen _ _ hs hfull]
    exact hs
  rw [if_neg h2] at h
  by_cases h3 : send < 0 ∧ ¬ (send = AVERROR_EOF ∧ flush = true)
  · rw [if_pos h3] at h
    exact absurd h (by simp)
  rw [if_neg h3] at h
  cases received with
  | again =>
    simp only [Except.ok.injEq] at h
    subst h
    exact ⟨rfl, rfl, by simpa [received_frame] using hs, fun hc => absurd hc (by simp),
      fun _ => by simp⟩
  | eof =>
    simp only [Except.ok.injEq] at h
    subst h
    exact ⟨rfl, rfl, by simpa [received_frame] using hs, fun _ => Or.inl rfl,
      fun hc => absurd hc (by simp)⟩
  | frame top_field_first repeat_pict frame_time =>
    simp only [Except.ok.injEq] at h
    subst h
    refine ⟨rfl, rfl, ?_, fun hc => absurd hc (by simp), fun _ => by simp⟩
    by_cases hl : ex.temporal_reference.length < PULLDOWN_CHECK_FRAMES * 2
    · simp only [if_pos hl]
      obtain ⟨e1, e2⟩ := take_room seen (top_field_first, repeat_pict) _ hs hl
      rw [received_frame, e2, String.data_append, hs, e1]
      simp [frames_reference]
    · simp only [if_neg hl]
      have hfull : 32 ≤ ex.temporal_reference.length := by
        unfold PULLDOWN_CHECK_FRAMES at hl
        omega
      rw [take_full seen _ _ hs hfull]
      exact hs

theorem read_loop_taken (AVERROR_EOF : Int) (frames_round : Int → Int)
    (packets : List ReadPacket) (ex result : Examiner) (seen : List (Bool × Int))
    (h : read_loop AVERROR_EOF frames_round packets ex = Except.ok result)
    (hs : ex.temporal_reference.data = frames_reference (seen.take 16)) :
    result.video_stream = ex.video_stream ∧ result.pulldown = ex.pulldown
    ∧ result.temporal_reference.data
      = frames_reference ((seen ++ video_frames ex.video_stream packets).take 16) := by
  induction packets generalizing ex seen with
  | nil =>
    simp only [read_loop, Except.ok.injEq] at h
    subst h
    exact ⟨rfl, rfl, by simpa [video_frames] using hs⟩
  | cons packet rest ih =>
    unfold read_loop at h
    have hstep : ∀ ex1, (if ex.video_stream = some packet.stream_index then
          (video_packet AVERROR_EOF frames_round ex packet.send false packet.received
            >>= fun r => pure r.2 : Except ExaminerError Examiner)
        else pure ex) = Except.ok ex1 →
        ex1.video_stream = ex.video_stream ∧ ex1.pulldown = ex.pulldown
        ∧ ex1.temporal_reference.data
          = frames_reference ((seen ++ (if ex.video_stream = some packet.stream_index then
              received_frame packet.received else [])).take 16) := by
      intro ex1 h1
      by_cases hv : ex.video_stream = some packet.stream_index
      · rw [if_pos hv] at h1
        rw [if_pos hv]
        cases hvp : video_packet AVERROR_EOF frames_round ex packet.send false
            packet.received with
        | error e =>
          rw [hvp] at h1
          exact absurd h1 (by simp [bind, Except.bind])
        | ok r =>
          rw [hvp] at h1
          simp only [bind, Except.bind, pure, Except.pure, Except.ok.injEq] at h1
          subst h1
          obtain ⟨k1, k2, k3, _, _⟩ := video_packet_taken _ _ _ _ _ _ _ seen hvp hs
          exact ⟨k1, k2, k3⟩
      · rw [if_neg hv] at h1
        rw [if_neg hv]
        simp only [pure, Except.pure, Except.ok.injEq] at h1
        subst h1
        exact ⟨rfl, rfl, by simpa using hs⟩
    cases hfirst : (if ex.video_stream = some packet.stream_index then
          (video_packet AVERROR_EOF frames_round ex packet.send false packet.received
            >>= fun r => pure r.2 : Except ExaminerError Examiner)
        else pure ex) with
    | error e =>
      rw [hfirst] at h
      exact absurd h (by simp [bind, Except.bind])
    | ok ex1 =>
      rw [hfirst] at h
      obtain ⟨k1, k2, k3⟩ := hstep ex1 hfirst
      have hvf : video_frames ex.video_stream (packet :: rest)
          = (if ex.video_stream = some packet.stream_index then
              received_frame packet.received else [])
            ++ video_frames ex.video_stream rest := by
        simp [video_frames]
      rw [hvf, ← List.append_assoc]
      cases hga : packet.got_all_audio with
      | error e =>
        rw [hga] at h
        exact absurd h (by simp [bind, Except.bind])
      | ok got_all_audio =>
        rw [hga] at h
        simp only [bind, Except.bind] at h
        by_cases hbreak : ex1.first_video ≠ none ∧ got_all_audio = true
            ∧ ex1.temporal_reference.length ≥ PULLDOWN_CHECK_FRAMES * 2
        · rw [if_pos hbreak] at h
          simp only [pure, Except.pure, Except.ok.injEq] at h
          subst h
          refine ⟨k1, k2, ?_⟩
          rw [take_full _ _ _ k3 hbreak.2.2]
          exact k3
        · rw [if_neg hbreak] at h
          obtain ⟨j1, j2, j3⟩ := ih ex1 _ h k3
          rw [k1] at j3
          exact ⟨j1.trans k1, j2.trans k2, j3⟩

theorem flush_loop_taken (AVERROR_EOF : Int) (frames_round : Int → Int)
    (flush : List (Int × Received)) (ex result : Examiner) (seen : List (Bool × Int))
    (h : flush_loop AVERROR_EOF frames_round flush ex = Except.ok result)
    (hs : ex.temporal_reference.data = frames_reference (seen.take 16)) :
    result.video_stream = ex.video_stream ∧ result.pulldown = ex.pulldown
    ∧ result.temporal_reference.data
      = frames_reference ((seen ++ flush_frames flush).take 16) := by
  induction flush generalizing ex seen with
  | nil =>
    unfold flush_loop at h
    cases hvp : video_packet AVERROR_EOF frames_round ex AVERROR_EOF true Received.eof with
    | error e =>
      rw [hvp] at h
      exact absurd h (by simp [bind, Except.bind])
    | ok r =>
      rw [hvp] at h
      simp only [bind, Except.bind, pure, Except.pure, Except.ok.injEq] at h
      subst h
      obtain ⟨k1, k2, k3, _, _⟩ := video_packet_taken _ _ _ _ _ _ _ seen hvp hs
      exact ⟨k1, k2, by simpa [flush_frames, received_frame] using k3⟩
  | cons answer rest ih =>
    unfold flush_loop at h
    cases hvp : video_packet AVERROR_EOF frames_round ex answer.1 true answer.2 with
    | error e =>
      rw [hvp] at h
      exact absurd h (by simp [bind, Except.bind])
    | ok r =>
      rw [hvp] at h
      simp only [bind, Except.bind] at h
      obtain ⟨k1, k2, k3, k4, k5⟩ := video_packet_taken _ _ _ _ _ _ _ seen hvp hs
      by_cases hr : r.1 = true
      · rw [if_pos hr] at h
        obtain ⟨j1, j2, j3⟩ := ih r.2 _ h k3
        refine ⟨j1.trans k1, j2.trans k2, ?_⟩
        rw [j3, flush_frames, if_neg (k5 hr), List.append_assoc]
      · rw [if_neg hr] at h
        simp only [pure, Except.pure, Except.ok.injEq] at h
        subst h
        refine ⟨k1, k2, ?_⟩
        rcases k4 (by simpa using hr) with heof | hfull
        · rw [k3, flush_frames, if_pos heof, heof]
          rfl
        · by_cases heof : answer.2 = Received.eof
          · rw [k3, flush_frames, if_pos heof, heof]
            rfl
          · rw [flush_frames, if_neg heof, ← List.append_assoc, take_full _ _ _ k3 hfull]
            exact k3

theorem decode_all_taken (AVERROR_EOF : Int) (frames_round : Int → Int) (ex : Examiner)
    (packets : List ReadPacket) (flush : List (Int × Received))
    (audio_flush : Except ExaminerError Unit) (result : Examiner)
    (h : decode_all AVERROR_EOF frames_round ex packets flush audio_flush = Except.ok result) :
    result.pulldown = false
    ∧ result.temporal_reference.data
      = frames_reference ((decoded_frames ex.video_stream packets flush).take 16) := by
  unfold decode_all at h
  dsimp only at h
  cases hr : read_loop AVERROR_EOF frames_round packets
      { ex with temporal_reference := "", pulldown := false } with
  | error e =>
    rw [hr] at h
    exact absurd h (by simp [bind, Except.bind])
  | ok ex1 =>
    rw [hr] at h
    obtain ⟨k1, k2, k3⟩ := read_loop_taken _ _ _ _ _ [] hr rfl
    simp only [List.nil_append] at k3
    have k1 : ex1.video_stream = ex.video_stream := k1
    have k2 : ex1.pulldown = false := k2
    have k3 : ex1.temporal_reference.data
        = frames_reference ((video_frames ex.video_stream packets).take 16) := k3
    simp only [bind, Except.bind] at h
    have hk2 : ∀ ex2, (if ex1.video_stream ≠ none then
        flush_loop AVERROR_EOF frames_round flush ex1 else pure ex1) = Except.ok ex2 →
        ex2.pulldown = false
        ∧ ex2.temporal_reference.data
          = frames_reference ((decoded_frames ex.video_stream packets flush).take 16) := by
      intro ex2 h2
      unfold decoded_frames
      by_cases hv : ex1.video_stream ≠ none
      · rw [if_pos hv] at h2
        rw [if_pos (by rw [← k1]; exact hv)]
        obtain ⟨j1, j2, j3⟩ := flush_loop_taken _ _ _ _ _ _ h2 k3
        exact ⟨j2.trans k2, j3⟩
      · rw [if_neg hv] at h2
        rw [if_neg (by rw [← k1]; exact hv)]
        simp only [pure, Except.pure, Except.ok.injEq] at h2
        subst h2
        exact ⟨k2, by simpa using k3⟩
    cases hf : (if ex1.video_stream ≠ none then
        flush_loop AVERROR_EOF frames_round flush ex1 else pure ex1) with
    | error e =>
      rw [hf] at h
      exact absurd h (by simp)
    | ok ex2 =>
      rw [hf] at h
      cases audio_flush with
      | error e => exact absurd h (by simp)
      | ok u =>
        simp only [pure, Except.pure, Except.ok.injEq] at h
        subst h
        exact hk2 _ hf

/-- C23: a call of `video_packet` that decodes a frame while `temporal_reference` has
fewer than 32 characters adds the two characters of that frame, `T` or `B` and then `3`
or `2`, and every other call leaves the string as it is.  When the constructor ends,
the string is the text of the first 16 of the video frames that the decoder has, two
characters for each in their order, so it has at most 32 characters, and `_pulldown` is
set exactly when the string contains `T2T3B2B3T2T3B2B3` or `B2B3T2T3B2B3T2T3`.  The
check raises nothing: the constructor fails exactly when its loops fail. -/
theorem temporal_reference_pulldown (AVERROR_EOF : Int) (frames_round : Int → Int)
    (ex : Examiner) (packets : List ReadPacket) (flush : List (Int × Received))
    (audio_flush : Except ExaminerError Unit) :
    (∀ (before : Examiner) (send : Int) (null : Bool) (received : Received)
        (r : Bool × Examiner),
        video_packet AVERROR_EOF frames_round before send null received = Except.ok r →
        (∀ top_field_first repeat_pict frame_time,
          received = Received.frame top_field_first repeat_pict frame_time →
          before.temporal_reference.length < 32 →
          r.2.temporal_reference
            = before.temporal_reference
              ++ (if top_field_first then "T" else "B")
              ++ (if repeat_pict ≠ 0 then "3" else "2"))
        ∧ ((received = Received.again ∨ received = Received.eof
              ∨ 32 ≤ before.temporal_reference.length) →
          r.2.temporal_reference = before.temporal_reference))
    ∧ (∀ e, examine AVERROR_EOF frames_round ex packets flush audio_flush = Except.error e
        ↔ decode_all AVERROR_EOF frames_round ex packets flush audio_flush = Except.error e)
    ∧ (∀ result,
        examine AVERROR_EOF frames_round ex packets flush audio_flush = Except.ok result →
        result.temporal_reference.data
          = ((decoded_frames ex.video_stream packets flush).take 16).flatMap
              (fun f => [if f.1 = true then 'T' else 'B', if f.2 ≠ 0 then '3' else '2'])
        ∧ result.temporal_reference.length
          = 2 * min 16 (decoded_frames ex.video_stream packets flush).length
        ∧ result.temporal_reference.length ≤ 32
        ∧ (result.pulldown = true
          ↔ (∃ pre post,
              result.temporal_reference.data = pre ++ "T2T3B2B3T2T3B2B3".data ++ post)
            ∨ ∃ pre post,
              result.temporal_reference.data = pre ++ "B2B3T2T3B2B3T2T3".data ++ post)) := by
  refine ⟨?_, ?_, ?_⟩
  · intro before send null received r h
    rcases (video_packet_step AVERROR_EOF frames_round before send null received r h).2.2
      with h3 | ⟨hl, a, b, c, hr, h3⟩
    · refine ⟨?_, fun _ => h3⟩
      intro top_field_first repeat_pict frame_time hrec hroom
      exfalso
      subst hrec
      unfold video_packet at h
      by_cases h1 : before.video_stream = none
      · rw [if_pos h1] at h
        exact absurd h (by simp)
      rw [if_neg h1] at h
      have hroom2 : ¬ before.temporal_reference.length ≥ PULLDOWN_CHECK_FRAMES * 2 := by
        unfold PULLDOWN_CHECK_FRAMES
        omega
      rw [if_neg (fun hc => hroom2 hc.2.2)] at h
      by_cases h4 : send < 0 ∧ ¬ (send = AVERROR_EOF ∧ null = true)
      · rw [if_pos h4] at h
        exact absurd h (by simp)
      rw [if_neg h4] at h
      simp only [Except.ok.injEq] at h
      subst h
      have hlt : before.temporal_reference.length < PULLDOWN_CHECK_FRAMES * 2 := by
        unfold PULLDOWN_CHECK_FRAMES
        omega
      simp only [if_pos hlt] at h3
      have hlen := congrArg String.length h3
      rw [String.length_append, frame_reference_length] at hlen
      omega
    · refine ⟨?_, ?_⟩
      · intro top_field_first repeat_pict frame_time hrec _
        rw [hr] at hrec
        cases hrec
        rw [h3, frame_reference, String.append_assoc]
      · rintro (hc | hc | hc)
        · rw [hr] at hc
          exact absurd hc (by simp)
        · rw [hr] at hc
          exact absurd hc (by simp)
        · omega
  · intro e
    unfold examine
    cases decode_all AVERROR_EOF frames_round ex packets flush audio_flush <;> simp
  · intro result h
    unfold examine at h
    cases hd : decode_all AVERROR_EOF frames_round ex packets flush audio_flush with
    | error e =>
      rw [hd] at h
      exact absurd h (by simp)
    | ok decoded =>
      rw [hd] at h
      simp only [Except.ok.injEq] at h
      obtain ⟨hp, hdata⟩ := decode_all_taken _ _ _ _ _ _ _ hd
      have htr : result.temporal_reference = decoded.temporal_reference := by
        rw [← h]
        unfold check_pulldown
        split_ifs <;> rfl
      have hpd : result.pulldown = true
          ↔ found decoded.temporal_reference "T2T3B2B3T2T3B2B3" = true
            ∨ found decoded.temporal_reference "B2B3T2T3B2B3T2T3" = true := by
        rw [← h]
        unfold check_pulldown
        split_ifs with hc
        · simp [hc]
        · simp [hc, hp]
      have hlen : decoded.temporal_reference.length
          = 2 * min 16 (decoded_frames ex.video_stream packets flush).length := by
        have hfl := frames_reference_length
          ((decoded_frames ex.video_stream packets flush).take 16)
        rw [← hdata, List.length_take] at hfl
        exact hfl
      refine ⟨?_, by rw [htr]; exact hlen, by rw [htr, hlen]; omega, ?_⟩
      · rw [htr, hdata]
        unfold frames_reference
        congr 1
        funext f
        unfold frame_reference
        cases f.1 <;> by_cases h0 : f.2 = 0 <;> simp [h0]
      · rw [hpd, htr]
        unfold found
        rw [find_after_isSome, find_after_isSome]

theorem temporal_reference_pulldown_witness :
    ∃ result,
      examine (-541478725) (fun t => t) ⟨some 0, none, false, 0, "", false⟩
          (telecinePackets.take 14) telecineFlush (Except.ok ()) = Except.ok result
      ∧ result.pulldown = true
      ∧ result.temporal_reference.length
        = 2 * min 16 (decoded_frames (some 0) (telecinePackets.take 14) telecineFlush).length :=
  ⟨⟨some 0, some 0, false, 0, "T2T3B2B3T2T3B2B3T2T3B2B3T2T3B2B3", true⟩, by decide, rfl,
   ((temporal_reference_pulldown (-541478725) (fun t => t)
      ⟨some 0, none, false, 0, "", false⟩ (telecinePackets.take 14) telecineFlush
      (Except.ok ())).2.2
      ⟨some 0, some 0, false, 0, "T2T3B2B3T2T3B2B3T2T3B2B3T2T3B2B3", true⟩ (by decide)).2.1⟩

/-! ### content_factory -/

/-- C21 (does not hold as stated): `broken.xml` is not a directory, and `content_factory`
neither returns a list of one content for it nor raises `KDMAsContentError`: the
exception raised by the reading of the XML file leaves `content_factory`. -/
theorem content_factory_unreadable_xml :
    exampleFiles.is_directory "broken.xml" = false
    ∧ content_factory exampleFiles "broken.xml"
      = Except.error (FactoryError.thrown (Exn.std "could not parse XML"))
    ∧ (¬ ∃ single, content_factory exampleFiles "broken.xml" = Except.ok [single])
    ∧ content_factory exampleFiles "broken.xml"
      ≠ Except.error FactoryError.KDMAsContentError := by
  have h : content_factory exampleFiles "broken.xml"
      = Except.error (FactoryError.thrown (Exn.std "could not parse XML")) := by decide
  refine ⟨rfl, h, ?_, ?_⟩
  · rintro ⟨single, hs⟩
    rw [h] at hs
    exact absurd hs (by simp)
  · rw [h]
    simp

/-- C21 (amended): for a path that is not a directory, `content_factory` returns a list of
exactly one content, or raises `KDMAsContentError`, or lets through the exception raised
by the reading of an XML file.  With the extension of the path in lower case: an image
file gives `ImageContent`; else the extension `.srt`, `.ssa`, `.ass` or `.stl` gives
`StringTextFileContent`; else `.xml` gives the exception of the reading if the file
cannot be read, `KDMAsContentError` if the root is `DCinemaSecurityMessage` and
`DCPSubtitleContent` otherwise; else `.mxf` gives `DCPSubtitleContent`,
`VideoMXFContent` or `AtmosMXFContent` by the first of the three checks that passes, in
this order; everything else gives `FFmpegContent`.  For an empty directory the list is
empty. -/
theorem content_factory_spec (env : FactoryEnv) (path : String) :
    (env.is_directory path = false →
      (env.valid_image_file path = true →
        content_factory env path = Except.ok [MadeContent.ImageContent path])
      ∧ (env.valid_image_file path = false →
          (tolower (env.extension path) = ".srt" ∨ tolower (env.extension path) = ".ssa"
            ∨ tolower (env.extension path) = ".ass"
            ∨ tolower (env.extension path) = ".stl") →
          content_factory env path = Except.ok [MadeContent.StringTextFileContent path])
      ∧ (env.valid_image_file path = false → tolower (env.extension path) = ".xml" →
          (∀ e, env.root_name path = Except.error e →
            content_factory env path = Except.error (FactoryError.thrown e))
          ∧ (env.root_name path = Except.ok "DCinemaSecurityMessage" →
            content_factory env path = Except.error FactoryError.KDMAsContentError)
          ∧ (∀ root, env.root_name path = Except.ok root → root ≠ "DCinemaSecurityMessage" →
            content_factory env path = Except.ok [MadeContent.DCPSubtitleContent path]))
      ∧ (env.valid_image_file path = false → tolower (env.extension path) = ".mxf" →
          (env.smpte_subtitle_valid_mxf path = true →
            content_factory env path = Except.ok [MadeContent.DCPSubtitleContent path])
          ∧ (env.smpte_subtitle_valid_mxf path = false → env.video_valid_mxf path = true →
            content_factory env path = Except.ok [MadeContent.VideoMXFContent path])
          ∧ (env.smpte_subtitle_valid_mxf path = false → env.video_valid_mxf path = false →
            env.atmos_valid_mxf path = true →
            content_factory env path = Except.ok [MadeContent.AtmosMXFContent path])
          ∧ (env.smpte_subtitle_valid_mxf path = false → env.video_valid_mxf path = false →
            env.atmos_valid_mxf path = false →
            content_factory env path = Except.ok [MadeContent.FFmpegContent path]))
      ∧ (env.valid_image_file path = false →
          tolower (env.extension path) ∉ [".srt", ".ssa", ".ass", ".stl", ".xml", ".mxf"] →
          content_factory env path = Except.ok [MadeContent.FFmpegContent path])
      ∧ ((∃ single, content_factory env path = Except.ok [single])
          ∨ (content_factory env path = Except.error FactoryError.KDMAsContentError
            ∧ tolower (env.extension path) = ".xml"
            ∧ env.root_name path = Except.ok "DCinemaSecurityMessage")
          ∨ ∃ e, content_factory env path = Except.error (FactoryError.thrown e)
            ∧ tolower (env.extension path) = ".xml"
            ∧ env.root_name path = Except.error e))
    ∧ (env.is_directory path = true → env.is_empty path = true →
        content_factory env path = Except.ok []) := by
  constructor
  · intro hfile
    have hxml : ¬ (".xml" = ".srt" ∨ ".xml" = ".ssa" ∨ ".xml" = ".ass" ∨ ".xml" = ".stl") := by
      decide
    have hmxf : ¬ (".mxf" = ".srt" ∨ ".mxf" = ".ssa" ∨ ".mxf" = ".ass" ∨ ".mxf" = ".stl") := by
      decide
    have hmx : ¬ ".mxf" = ".xml" := by decide
    unfold content_factory
    simp only [hfile, Bool.false_eq_true, if_false]
    refine ⟨?_, ?_, ?_, ?_, ?_, ?_⟩
    · intro himage
      rw [if_pos himage]
    · intro himage hext
      rw [if_neg (by simp [himage]), if_pos hext]
    · intro himage hext
      rw [if_neg (by simp [himage]), hext, if_neg hxml, if_pos rfl]
      refine ⟨?_, ?_, ?_⟩
      · intro e he
        rw [he]
      · intro hr
        rw [hr]
        simp
      · intro root hr hne
        rw [hr]
        simp [hne]
    · intro himage hext
      rw [if_neg (by simp [himage]), hext, if_neg hmxf, if_neg hmx]
      refine ⟨?_, ?_, ?_, ?_⟩
      · intro h1
        simp [h1]
      · intro h1 h2
        simp [h1, h2]
      · intro h1 h2 h3
        simp [h1, h2, h3]
      · intro h1 h2 h3
        simp [h1, h2, h3]
    · intro himage hext
      simp only [List.mem_cons, List.mem_singleton, List.not_mem_nil, or_false, not_or] at hext
      obtain ⟨e1, e2, e3, e4, e5, e6⟩ := hext
      simp [himage, e1, e2, e3, e4, e5, e6]
    · by_cases himage : env.valid_image_file path = true
      · exact Or.inl ⟨_, by rw [if_pos himage]⟩
      · rw [if_neg himage]
        by_cases htext : tolower (env.extension path) = ".srt"
            ∨ tolower (env.extension path) = ".ssa" ∨ tolower (env.extension path) = ".ass"
            ∨ tolower (env.extension path) = ".stl"
        · exact Or.inl ⟨_, by rw [if_pos htext]⟩
        · rw [if_neg htext]
          by_cases hx : tolower (env.extension path) = ".xml"
          · rw [if_pos hx]
            cases hr : env.root_name path with
            | error e => exact Or.inr (Or.inr ⟨e, rfl, hx, rfl⟩)
            | ok root =>
              by_cases hk : root = "DCinemaSecurityMessage"
              · subst hk
                exact Or.inr (Or.inl ⟨by simp, hx, rfl⟩)
              · exact Or.inl ⟨MadeContent.DCPSubtitleContent path, by simp [hk]⟩
          · rw [if_neg hx]
            left
            split_ifs <;> exact ⟨_, rfl⟩
  · intro hdir hempty
    unfold content_factory
    simp [hdir, hempty]

theorem content_factory_spec_witness :
    exampleFiles.is_directory "a.SRT" = false
    ∧ tolower (exampleFiles.extension "a.SRT") = ".srt"
    ∧ content_factory exampleFiles "a.SRT"
      = Except.ok [MadeContent.StringTextFileContent "a.SRT"] :=
  ⟨rfl, by decide,
   ((content_factory_spec exampleFiles "a.SRT").1 rfl).2.1 (by decide) (Or.inl (by decide))⟩

/-! ### guess_crop -/

theorem first_line_pure (f : Int → Bool) (l : List Int) :
    first_line (fun y => Except.ok (f y)) l = Except.ok (l.find? f) := by
  induction l with
  | nil => rfl
  | cons y rest ih =>
    unfold first_line
    cases hy : f y with
    | true => simp [List.find?_cons, hy]
    | false => simp [List.find?_cons, hy, ih]

theorem find_range_some (p : Nat → Bool) (k i : Nat) (h : (List.range k).find? p = some i) :
    i < k ∧ p i = true ∧ ∀ j, j < i → p j = false := by
  induction k with
  | zero => simp at h
  | succ k ih =>
    rw [List.range_succ, List.find?_append] at h
    cases hk : (List.range k).find? p with
    | some i2 =>
      rw [hk] at h
      simp at h
      subst h
      obtain ⟨h1, h2, h3⟩ := ih hk
      exact ⟨by omega, h2, h3⟩
    | none =>
      rw [hk] at h
      simp only [Option.none_or, Option.or] at h
      have hnone := List.find?_eq_none.mp hk
      by_cases hp : p k = true
      · simp [List.find?_cons, hp] at h
        subst h
        refine ⟨by omega, hp, ?_⟩
        intro j hj
        have := hnone j (List.mem_range.mpr hj)
        simpa using this
      · simp [List.find?_cons, hp] at h

theorem find_range_none (p : Nat → Bool) (k : Nat) (h : (List.range k).find? p = none) :
    ∀ j, j < k → p j = false := by
  intro j hj
  have := List.find?_eq_none.mp h j (List.mem_range.mpr hj)
  simpa using this

theorem find_reverse_some (p : Nat → Bool) (k i : Nat)
    (h : (List.range k).reverse.find? p = some i) :
    i < k ∧ p i = true ∧ ∀ j, i < j → j < k → p j = false := by
  induction k with
  | zero => simp at h
  | succ k ih =>
    rw [List.range_succ, List.reverse_append, List.reverse_singleton, List.singleton_append,
      List.find?_cons] at h
    cases hp : p k with
    | true =>
      rw [hp] at h
      simp only [Option.some.injEq] at h
      subst h
      exact ⟨by omega, hp, fun j h1 h2 => by omega⟩
    | false =>
      rw [hp] at h
      obtain ⟨h1, h2, h3⟩ := ih h
      refine ⟨by omega, h2, ?_⟩
      intro j hj1 hj2
      by_cases hjk : j = k
      · subst hjk
        exact hp
      · exact h3 j hj1 (by omega)

theorem find_reverse_none (p : Nat → Bool) (k : Nat)
    (h : (List.range k).reverse.find? p = none) : ∀ j, j < k → p j = false := by
  intro j hj
  have := List.find?_eq_none.mp h j (List.mem_reverse.mpr (List.mem_range.mpr hj))
  simpa using this

theorem find_ascending_some (f : Int → Bool) (n y : Int)
    (h : (ascending n).find? f = some y) :
    0 ≤ y ∧ y < n ∧ f y = true ∧ ∀ z, 0 ≤ z → z < y → f z = false := by
  unfold ascending at h
  rw [List.find?_map] at h
  cases hk : (List.range n.toNat).find? (f ∘ Int.ofNat) with
  | none => rw [hk] at h; simp at h
  | some i =>
    rw [hk] at h
    simp only [Option.map_some', Option.some.injEq] at h
    subst h
    obtain ⟨h1, h2, h3⟩ := find_range_some _ _ _ hk
    refine ⟨Int.ofNat_nonneg i, ?_, h2, ?_⟩
    · show (i : Int) < n
      omega
    · intro z hz0 hz
      have hz2 : z < (i : Int) := hz
      have := h3 z.toNat (by omega)
      simpa [Function.comp, Int.toNat_of_nonneg hz0] using this

theorem find_ascending_none (f : Int → Bool) (n : Int) (h : (ascending n).find? f = none) :
    ∀ z, 0 ≤ z → z < n → f z = false := by
  unfold ascending at h
  rw [List.find?_map] at h
  cases hk : (List.range n.toNat).find? (f ∘ Int.ofNat) with
  | some i => rw [hk] at h; simp at h
  | none =>
    intro z hz0 hz
    have := find_range_none _ _ hk z.toNat (by omega)
    simpa [Function.comp, Int.toNat_of_nonneg hz0] using this

theorem find_descending_some (f : Int → Bool) (n y : Int)
    (h : (descending n).find? f = some y) :
    0 ≤ y ∧ y < n ∧ f y = true ∧ ∀ z, y < z → z < n → f z = false := by
  unfold descending at h
  rw [List.find?_map] at h
  cases hk : (List.range n.toNat).reverse.find? (f ∘ Int.ofNat) with
  | none => rw [hk] at h; simp at h
  | some i =>
    rw [hk] at h
    simp only [Option.map_some', Option.some.injEq] at h
    subst h
    obtain ⟨h1, h2, h3⟩ := find_reverse_some _ _ _ hk
    refine ⟨Int.ofNat_nonneg i, ?_, h2, ?_⟩
    · show (i : Int) < n
      omega
    · intro z hz hzn
      have hz2 : (i : Int) < z := hz
      have := h3 z.toNat (by omega) (by omega)
      simpa [Function.comp, Int.toNat_of_nonneg (by omega : 0 ≤ z)] using this

theorem find_descending_none (f : Int → Bool) (n : Int) (h : (descending n).find? f = none) :
    ∀ z, 0 ≤ z → z < n → f z = false := by
  unfold descending at h
  rw [List.find?_map] at h
  cases hk : (List.range n.toNat).reverse.find? (f ∘ Int.ofNat) with
  | some i => rw [hk] at h; simp at h
  | none =>
    intro z hz0 hz
    have := find_reverse_none _ _ hk z.toNat (by omega)
    simpa [Function.comp, Int.toNat_of_nonneg hz0] using this

theorem line_rgb24_spec (rnd : ℚ → ℚ) (image : Image) (step : Int) (t : ℚ) (n : Nat) :
    ∀ (offset : Int) (b : ℚ), t < line_rgb24 rnd image step n offset b
      ↔ t < b ∨ ∃ p : Nat, p < n ∧ t < image.average_rgb rnd (offset + p * step) := by
  induction n with
  | zero => intro offset b; simp [line_rgb24]
  | succ n ih =>
    intro offset b
    unfold line_rgb24
    rw [ih, lt_max_iff]
    constructor
    · rintro ((h | h) | ⟨p, hp, h⟩)
      · exact Or.inl h
      · exact Or.inr ⟨0, by omega, by simpa using h⟩
      · refine Or.inr ⟨p + 1, by omega, ?_⟩
        have e : offset + ((p + 1 : Nat) : Int) * step = offset + step + p * step := by
          push_cast; ring
        rw [e]; exact h
    · rintro (h | ⟨p, hp, h⟩)
      · exact Or.inl (Or.inl h)
      · cases p with
        | zero => exact Or.inl (Or.inr (by simpa using h))
        | succ p =>
          refine Or.inr ⟨p, by omega, ?_⟩
          have e : offset + ((p + 1 : Nat) : Int) * step = offset + step + p * step := by
            push_cast; ring
          rw [e] at h; exact h

theorem line_yuv420p_spec (image : Image) (step : Int) (t : ℚ) (n : Nat) :
    ∀ (offset : Int) (b : ℚ), t < line_yuv420p image step n offset b
      ↔ t < b ∨ ∃ p : Nat, p < n ∧ t < image.just_y (offset + p * step) := by
  induction n with
  | zero => intro offset b; simp [line_yuv420p]
  | succ n ih =>
    intro offset b
    unfold line_yuv420p
    rw [ih, lt_max_iff]
    constructor
    · rintro ((h | h) | ⟨p, hp, h⟩)
      · exact Or.inl h
      · exact Or.inr ⟨0, by omega, by simpa using h⟩
      · refine Or.inr ⟨p + 1, by omega, ?_⟩
        have e : offset + ((p + 1 : Nat) : Int) * step = offset + step + p * step := by
          push_cast; ring
        rw [e]; exact h
    · rintro (h | ⟨p, hp, h⟩)
      · exact Or.inl (Or.inl h)
      · cases p with
        | zero => exact Or.inl (Or.inr (by simpa using h))
        | succ p =>
          refine Or.inr ⟨p, by omega, ?_⟩
          have e : offset + ((p + 1 : Nat) : Int) * step = offset + step + p * step := by
            push_cast; ring
          rw [e] at h; exact h

theorem brightness_nonneg (image : Image) (x y : Int) : 0 ≤ image.brightness x y := by
  unfold Image.brightness
  cases image.pixel_format <;> positivity

theorem computed_rgb24 (rnd : ℚ → ℚ) (image : Image) (x y : Int)
    (hfmt : image.pixel_format = AVPixelFormat.AV_PIX_FMT_RGB24) :
    image.computed_brightness rnd x y = image.average_rgb rnd (x * 3 + y * image.stride)
    ∧ image.computed_brightness rnd x y = rnd (image.brightness x y) := by
  have e : (((image.byte (x * 3 + y * image.stride) 0 + image.byte (x * 3 + y * image.stride) 1
        + image.byte (x * 3 + y * image.stride) 2 : Nat) : ℚ) / (3 * 256))
      = ((image.byte (x * 3 + y * image.stride) 0 : ℚ)
          + image.byte (x * 3 + y * image.stride) 1
          + image.byte (x * 3 + y * image.stride) 2) / 3 / 256 := by
    push_cast
    ring
  unfold Image.computed_brightness Image.brightness Image.average_rgb
  rw [hfmt]
  exact ⟨rfl, congrArg rnd e⟩

theorem computed_yuv420p (rnd : ℚ → ℚ) (image : Image) (x y : Int)
    (hfmt : image.pixel_format = AVPixelFormat.AV_PIX_FMT_YUV420P) :
    image.computed_brightness rnd x y = image.just_y (x + y * image.stride)
    ∧ image.computed_brightness rnd x y = image.brightness x y := by
  unfold Image.computed_brightness Image.brightness Image.just_y
  rw [hfmt]
  exact ⟨rfl, rfl⟩

theorem rows_test (rnd : ℚ → ℚ) (image : Image) (t : ℚ)
    (hfmt : image.pixel_format = AVPixelFormat.AV_PIX_FMT_RGB24
      ∨ image.pixel_format = AVPixelFormat.AV_PIX_FMT_YUV420P) :
    ∃ f : Int → Bool,
      (fun y => image_in_line rnd image t 0 y image.width true) = (fun y => Except.ok (f y))
      ∧ ∀ y, f y = true
        ↔ t < 0 ∨ ∃ x, 0 ≤ x ∧ x < image.width ∧ t < image.computed_brightness rnd x y := by
  rcases hfmt with hfmt | hfmt
  · refine ⟨fun y => decide (t < line_rgb24 rnd image 3 image.width.toNat
      (0 * 3 + y * image.stride) 0), ?_, ?_⟩
    · funext y
      simp [image_in_line, hfmt]
    · intro y
      rw [decide_eq_true_iff, line_rgb24_spec]
      apply or_congr Iff.rfl
      constructor
      · rintro ⟨p, hp, h⟩
        refine ⟨p, Int.ofNat_nonneg p, by omega, ?_⟩
        rw [(computed_rgb24 rnd image p y hfmt).1]
        have e : (p : Int) * 3 + y * image.stride = 0 * 3 + y * image.stride + p * 3 := by
          ring
        rw [e]; exact h
      · rintro ⟨x, hx0, hxw, h⟩
        refine ⟨x.toNat, by omega, ?_⟩
        rw [(computed_rgb24 rnd image x y hfmt).1] at h
        have e : 0 * 3 + y * image.stride + ((x.toNat : Nat) : Int) * 3
            = x * 3 + y * image.stride := by
          rw [Int.toNat_of_nonneg hx0]; ring
        rw [e]; exact h
  · refine ⟨fun y => decide (t < line_yuv420p image 1 image.width.toNat
      (0 + y * image.stride) 0), ?_, ?_⟩
    · funext y
      simp [image_in_line, hfmt]
    · intro y
      rw [decide_eq_true_iff, line_yuv420p_spec]
      apply or_congr Iff.rfl
      constructor
      · rintro ⟨p, hp, h⟩
        refine ⟨p, Int.ofNat_nonneg p, by omega, ?_⟩
        rw [(computed_yuv420p rnd image p y hfmt).1]
        have e : (p : Int) + y * image.stride = 0 + y * image.stride + p * 1 := by
          ring
        rw [e]; exact h
      · rintro ⟨x, hx0, hxw, h⟩
        refine ⟨x.toNat, by omega, ?_⟩
        rw [(computed_yuv420p rnd image x y hfmt).1] at h
        have e : 0 + y * image.stride + ((x.toNat : Nat) : Int) * 1
            = x + y * image.stride := by
          rw [Int.toNat_of_nonneg hx0]; ring
        rw [e]; exact h

theorem columns_test (rnd : ℚ → ℚ) (image : Image) (t : ℚ)
    (hfmt : image.pixel_format = AVPixelFormat.AV_PIX_FMT_RGB24
      ∨ image.pixel_format = AVPixelFormat.AV_PIX_FMT_YUV420P) :
    ∃ g : Int → Bool,
      (fun x => image_in_line rnd image t x 0 image.height false) = (fun x => Except.ok (g x))
      ∧ ∀ x, g x = true
        ↔ t < 0 ∨ ∃ y, 0 ≤ y ∧ y < image.height ∧ t < image.computed_brightness rnd x y := by
  rcases hfmt with hfmt | hfmt
  · refine ⟨fun x => decide (t < line_rgb24 rnd image image.stride image.height.toNat
      (x * 3 + 0 * image.stride) 0), ?_, ?_⟩
    · funext x
      simp [image_in_line, hfmt]
    · intro x
      rw [decide_eq_true_iff, line_rgb24_spec]
      apply or_congr Iff.rfl
      constructor
      · rintro ⟨p, hp, h⟩
        refine ⟨p, Int.ofNat_nonneg p, by omega, ?_⟩
        rw [(computed_rgb24 rnd image x p hfmt).1]
        have e : x * 3 + (p : Int) * image.stride
            = x * 3 + 0 * image.stride + p * image.stride := by
          ring
        rw [e]; exact h
      · rintro ⟨y, hy0, hyh, h⟩
        refine ⟨y.toNat, by omega, ?_⟩
        rw [(computed_rgb24 rnd image x y hfmt).1] at h
        have e : x * 3 + 0 * image.stride + ((y.toNat : Nat) : Int) * image.stride
            = x * 3 + y * image.stride := by
          rw [Int.toNat_of_nonneg hy0]; ring
        rw [e]; exact h
  · refine ⟨fun x => decide (t < line_yuv420p image image.stride image.height.toNat
      (x + 0 * image.stride) 0), ?_, ?_⟩
    · funext x
      simp [image_in_line, hfmt]
    · intro x
      rw [decide_eq_true_iff, line_yuv420p_spec]
      apply or_congr Iff.rfl
      constructor
      · rintro ⟨p, hp, h⟩
        refine ⟨p, Int.ofNat_nonneg p, by omega, ?_⟩
        rw [(computed_yuv420p rnd image x p hfmt).1]
        have e : x + (p : Int) * image.stride
            = x + 0 * image.stride + p * image.stride := by
          ring
        rw [e]; exact h
      · rintro ⟨y, hy0, hyh, h⟩
        refine ⟨y.toNat, by omega, ?_⟩
        rw [(computed_yuv420p rnd image x y hfmt).1] at h
        have e : x + 0 * image.stride + ((y.toNat : Nat) : Int) * image.stride
            = x + y * image.stride := by
          rw [Int.toNat_of_nonneg hy0]; ring
        rw [e]; exact h

theorem find_pair (f : Int → Bool) (n : Int) (P : Int → Prop)
    (hP : ∀ y, f y = true ↔ P y) :
    ((ascending n).find? f = none ∧ (descending n).find? f = none
      ∧ ∀ z, 0 ≤ z → z < n → ¬ P z)
    ∨ ∃ a b, (ascending n).find? f = some a ∧ (descending n).find? f = some b
      ∧ 0 ≤ a ∧ a < n ∧ P a ∧ (∀ z, 0 ≤ z → z < a → ¬ P z)
      ∧ 0 ≤ b ∧ b < n ∧ P b ∧ (∀ z, b < z → z < n → ¬ P z) := by
  have hn : ∀ z, f z = false → ¬ P z := by
    intro z hz hp
    rw [(hP z).mpr hp] at hz
    exact absurd hz (by simp)
  cases h1 : (ascending n).find? f with
  | none =>
    have hnone := find_ascending_none f n h1
    cases h2 : (descending n).find? f with
    | none => exact Or.inl ⟨rfl, rfl, fun z h0 hz => hn z (hnone z h0 hz)⟩
    | some b =>
      obtain ⟨hb0, hbn, hb, _⟩ := find_descending_some f n b h2
      rw [hnone b hb0 hbn] at hb
      exact absurd hb (by simp)
  | some a =>
    obtain ⟨ha0, han, ha, hra⟩ := find_ascending_some f n a h1
    cases h2 : (descending n).find? f with
    | none =>
      have hnone := find_descending_none f n h2
      rw [hnone a ha0 han] at ha
      exact absurd ha (by simp)
    | some b =>
      obtain ⟨hb0, hbn, hb, hrb⟩ := find_descending_some f n b h2
      exact Or.inr ⟨a, b, rfl, rfl, ha0, han, (hP a).mp ha, fun z h0 hz => hn z (hra z h0 hz),
        hb0, hbn, (hP b).mp hb, fun z h0 hz => hn z (hrb z h0 hz)⟩

theorem guess_crop_spec (rnd : ℚ → ℚ) (image : Image) (t : ℚ)
    (hfmt : image.pixel_format = AVPixelFormat.AV_PIX_FMT_RGB24
      ∨ image.pixel_format = AVPixelFormat.AV_PIX_FMT_YUV420P) :
    ∃ crop, guess_crop rnd image t = Except.ok crop
      ∧ (((∀ y, 0 ≤ y → y < image.height →
            ¬ (t < 0 ∨ ∃ x, 0 ≤ x ∧ x < image.width
              ∧ t < image.computed_brightness rnd x y))
          ∧ crop.top = 0 ∧ crop.bottom = 0)
        ∨ (0 ≤ crop.top ∧ crop.top < image.height
          ∧ (t < 0 ∨ ∃ x, 0 ≤ x ∧ x < image.width
            ∧ t < image.computed_brightness rnd x crop.top)
          ∧ (∀ y, 0 ≤ y → y < crop.top →
            ¬ (t < 0 ∨ ∃ x, 0 ≤ x ∧ x < image.width
              ∧ t < image.computed_brightness rnd x y))
          ∧ 0 ≤ crop.bottom ∧ crop.bottom < image.height
          ∧ (t < 0 ∨ ∃ x, 0 ≤ x ∧ x < image.width
            ∧ t < image.computed_brightness rnd x (image.height - 1 - crop.bottom))
          ∧ (∀ y, image.height - 1 - crop.bottom < y → y < image.height →
            ¬ (t < 0 ∨ ∃ x, 0 ≤ x ∧ x < image.width
              ∧ t < image.computed_brightness rnd x y))))
      ∧ (((∀ x, 0 ≤ x → x < image.width →
            ¬ (t < 0 ∨ ∃ y, 0 ≤ y ∧ y < image.height
              ∧ t < image.computed_brightness rnd x y))
          ∧ crop.left = 0 ∧ crop.right = 0)
        ∨ (0 ≤ crop.left ∧ crop.left < image.width
          ∧ (t < 0 ∨ ∃ y, 0 ≤ y ∧ y < image.height
            ∧ t < image.computed_brightness rnd crop.left y)
          ∧ (∀ x, 0 ≤ x → x < crop.left →
            ¬ (t < 0 ∨ ∃ y, 0 ≤ y ∧ y < image.height
              ∧ t < image.computed_brightness rnd x y))
          ∧ 0 ≤ crop.right ∧ crop.right < image.width
          ∧ (t < 0 ∨ ∃ y, 0 ≤ y ∧ y < image.height
            ∧ t < image.computed_brightness rnd (image.width - 1 - crop.right) y)
          ∧ (∀ x, image.width - 1 - crop.right < x → x < image.width →
            ¬ (t < 0 ∨ ∃ y, 0 ≤ y ∧ y < image.height
              ∧ t < image.computed_brightness rnd x y)))) := by
  obtain ⟨f, hf, hfs⟩ := rows_test rnd image t hfmt
  obtain ⟨g, hg, hgs⟩ := columns_test rnd image t hfmt
  have hrows := find_pair f image.height _ hfs
  have hcols := find_pair g image.width _ hgs
  have key : guess_crop rnd image t = Except.ok
      { left := match (ascending image.width).find? g with
          | some x => x
          | none => 0
        right := match (descending image.width).find? g with
          | some x => image.width - 1 - x
          | none => 0
        top := match (ascending image.height).find? f with
          | some y => y
          | none => 0
        bottom := match (descending image.height).find? f with
          | some y => image.height - 1 - y
          | none => 0 } := by
    unfold guess_crop
    simp only [hf, hg, first_line_pure]
    cases (ascending image.width).find? g <;> cases (descending image.width).find? g <;>
      cases (ascending image.height).find? f <;> cases (descending image.height).find? f <;>
      rfl
  have e : ∀ n b : Int, n - 1 - (n - 1 - b) = b := fun n b => by ring
  refine ⟨_, key, ?_, ?_⟩
  · rcases hrows with ⟨h1, h2, h3⟩ | ⟨a, b, h1, h2, ha0, han, ha, hra, hb0, hbn, hb, hrb⟩
    · left
      rw [h1, h2]
      exact ⟨h3, rfl, rfl⟩
    · right
      simp only [h1, h2, e]
      exact ⟨ha0, han, ha, hra, by omega, by omega, hb, hrb⟩
  · rcases hcols with ⟨h1, h2, h3⟩ | ⟨a, b, h1, h2, ha0, han, ha, hra, hb0, hbn, hb, hrb⟩
    · left
      rw [h1, h2]
      exact ⟨h3, rfl, rfl⟩
    · right
      simp only [h1, h2, e]
      exact ⟨ha0, han, ha, hra, by omega, by omega, hb, hrb⟩

theorem guess_crop_other (rnd : ℚ → ℚ) (image : Image) (t : ℚ) (id : Nat)
    (hfmt : image.pixel_format = AVPixelFormat.other id) (hh : 0 < image.height) :
    guess_crop rnd image t = Except.error Fault.assertion := by
  obtain ⟨k, hk⟩ : ∃ k, image.height.toNat = k + 1 := ⟨image.height.toNat - 1, by omega⟩
  unfold guess_crop
  simp only [ascending, hk, List.range_succ_eq_map, List.map_cons, first_line, image_in_line,
    hfmt]

theorem computed_nonneg (rnd : ℚ → ℚ) (hrnd : ∀ q, 0 ≤ q → 0 ≤ rnd q) (image : Image)
    (x y : Int) : 0 ≤ image.computed_brightness rnd x y := by
  unfold Image.computed_brightness Image.average_rgb Image.just_y
  cases image.pixel_format with
  | AV_PIX_FMT_RGB24 => exact hrnd _ (by positivity)
  | AV_PIX_FMT_YUV420P => positivity
  | other id => exact le_refl 0

theorem guess_crop_dark (rnd : ℚ → ℚ) (image : Image) (t : ℚ)
    (hfmt : image.pixel_format = AVPixelFormat.AV_PIX_FMT_RGB24
      ∨ image.pixel_format = AVPixelFormat.AV_PIX_FMT_YUV420P)
    (ht : 0 ≤ t) (hdark : ∀ x y, ¬ image.computed_bright rnd t x y) :
    guess_crop rnd image t = Except.ok ⟨0, 0, 0, 0⟩ := by
  obtain ⟨crop, hcrop, hrows, hcols⟩ := guess_crop_spec rnd image t hfmt
  have hv : crop.top = 0 ∧ crop.bottom = 0 := by
    rcases hrows with ⟨_, h1, h2⟩ | ⟨ht0, hth, hlit, _⟩
    · exact ⟨h1, h2⟩
    · rcases hlit with hneg | ⟨x, hx0, hxw, hx⟩
      · exact absurd hneg (not_lt.mpr ht)
      · exact absurd ⟨hx0, hxw, ht0, hth, hx⟩ (hdark x _)
  have hz : crop.left = 0 ∧ crop.right = 0 := by
    rcases hcols with ⟨_, h1, h2⟩ | ⟨hl0, hlw, hlit, _⟩
    · exact ⟨h1, h2⟩
    · rcases hlit with hneg | ⟨y, hy0, hyh, hy⟩
      · exact absurd hneg (not_lt.mpr ht)
      · exact absurd ⟨hl0, hlw, hy0, hyh, hy⟩ (hdark _ y)
  rw [hcrop]
  obtain ⟨h1, h2⟩ := hv
  obtain ⟨h3, h4⟩ := hz
  cases crop
  simp only at h1 h2 h3 h4
  subst h1 h2 h3 h4
  rfl

theorem dotImage_bright : dotImage.computed_bright to_double (1 / 2) 1 1 := by
  refine ⟨by decide, by decide, by decide, by decide, ?_⟩
  norm_num [Image.computed_brightness, Image.just_y, dotImage, Image.byte]

theorem faintImage_average (offset : Int) :
    faintImage.average_rgb to_double offset = 0
    ∨ faintImage.average_rgb to_double offset = faintThreshold := by
  have hz : to_double 0 = 0 := by simp [to_double, nearest]
  unfold Image.average_rgb Image.byte faintImage
  dsimp only
  by_cases h0 : offset + 0 = 12
  · have h1 : ¬ offset + 1 = 12 := by omega
    have h2 : ¬ offset + 2 = 12 := by omega
    right
    rw [if_pos h0, if_neg h1, if_neg h2]
    norm_num
    exact to_double_faint
  by_cases h1 : offset + 1 = 12
  · have h2 : ¬ offset + 2 = 12 := by omega
    right
    rw [if_neg h0, if_pos h1, if_neg h2]
    norm_num
    exact to_double_faint
  by_cases h2 : offset + 2 = 12
  · right
    rw [if_neg h0, if_neg h1, if_pos h2]
    norm_num
    exact to_double_faint
  · left
    rw [if_neg h0, if_neg h1, if_neg h2]
    norm_num
    exact hz

theorem faintImage_dark (x y : Int) : ¬ faintImage.computed_bright to_double faintThreshold x y := by
  rintro ⟨_, _, _, _, h⟩
  rw [(computed_rgb24 to_double faintImage x y rfl).1] at h
  rcases faintImage_average (x * 3 + y * faintImage.stride) with e | e
  · rw [e] at h
    unfold faintThreshold at h
    norm_num at h
  · rw [e] at h
    exact lt_irrefl _ h

/-- C26 (does not hold as stated): in the image `faintImage` in `AV_PIX_FMT_RGB24` the pixel
in the middle has the brightness 1/768, which is greater than the threshold
`faintThreshold`, the `double` nearest to 1/768; `guess_crop` computes the brightness in
double precision, finds it equal to the threshold and returns the crop of four zeros,
and the first row of the rectangle that is left, row 0, has no bright pixel. -/
theorem guess_crop_rounding :
    faintImage.pixel_format = AVPixelFormat.AV_PIX_FMT_RGB24
    ∧ faintImage.bright faintThreshold 1 1
    ∧ guess_crop to_double faintImage faintThreshold = Except.ok ⟨0, 0, 0, 0⟩
    ∧ ¬ ∃ x, faintImage.bright faintThreshold x 0 := by
  refine ⟨rfl, ⟨by decide, by decide, by decide, by decide, ?_⟩, ?_, ?_⟩
  · norm_num [Image.brightness, faintImage, Image.byte, faintThreshold]
  · exact guess_crop_dark to_double faintImage faintThreshold (Or.inl rfl)
      (by unfold faintThreshold; norm_num) faintImage_dark
  · rintro ⟨x, _, hx, _, _, h⟩
    have hx3 : x < 3 := hx
    have hb : faintImage.brightness x 0 = 0 := by
      unfold Image.brightness Image.byte faintImage
      dsimp only
      have h0 : ¬ x * 3 + 0 * 9 + 0 = 12 := by omega
      have h1 : ¬ x * 3 + 0 * 9 + 1 = 12 := by omega
      have h2 : ¬ x * 3 + 0 * 9 + 2 = 12 := by omega
      rw [if_neg h0, if_neg h1, if_neg h2]
      norm_num
    rw [hb] at h
    unfold faintThreshold at h
    norm_num at h

/-- C26 (amended): for an image in `AV_PIX_FMT_RGB24` or `AV_PIX_FMT_YUV420P` that has a
pixel whose brightness as `guess_crop` computes it (the quotient in double precision of
R + G + B by 768, or Y divided by 256) is greater than the threshold, `guess_crop` returns
a crop, and it is the tightest one: every such bright pixel is in the rectangle
`[left, width - right)` by `[top, height - bottom)`, the first and the last row and the
first and the last column of the rectangle each have such a bright pixel, the four values
are not negative, and the rows and columns outside the rectangle have no such bright
pixel, so that the four values are the numbers of dark rows and columns at the four
edges.  Of the rounding `rnd` to double precision this uses only that it gives no
negative result for a value that is not negative. -/
theorem guess_crop_tightest (rnd : ℚ → ℚ) (hrnd : ∀ q, 0 ≤ q → 0 ≤ rnd q) (image : Image)
    (t : ℚ)
    (hfmt : image.pixel_format = AVPixelFormat.AV_PIX_FMT_RGB24
      ∨ image.pixel_format = AVPixelFormat.AV_PIX_FMT_YUV420P)
    (x0 y0 : Int) (hbright : image.computed_bright rnd t x0 y0) :
    ∃ crop, guess_crop rnd image t = Except.ok crop
      ∧ (∀ x y, image.computed_bright rnd t x y →
          crop.left ≤ x ∧ x < image.width - crop.right
          ∧ crop.top ≤ y ∧ y < image.height - crop.bottom)
      ∧ (∃ x, image.computed_bright rnd t x crop.top)
      ∧ (∃ x, image.computed_bright rnd t x (image.height - 1 - crop.bottom))
      ∧ (∃ y, image.computed_bright rnd t crop.left y)
      ∧ (∃ y, image.computed_bright rnd t (image.width - 1 - crop.right) y)
      ∧ 0 ≤ crop.left ∧ 0 ≤ crop.right ∧ 0 ≤ crop.top ∧ 0 ≤ crop.bottom
      ∧ (∀ x y, y < crop.top ∨ image.height - crop.bottom ≤ y →
          ¬ image.computed_bright rnd t x y)
      ∧ (∀ x y, x < crop.left ∨ image.width - crop.right ≤ x →
          ¬ image.computed_bright rnd t x y) := by
  obtain ⟨hx0, hxw, hy0, hyh, hb⟩ := hbright
  have hw : 0 < image.width := by omega
  have hh : 0 < image.height := by omega
  have hrow : ∀ y, (t < 0 ∨ ∃ x, 0 ≤ x ∧ x < image.width
      ∧ t < image.computed_brightness rnd x y)
      → ∃ x, 0 ≤ x ∧ x < image.width ∧ t < image.computed_brightness rnd x y := by
    rintro y (hneg | h)
    · exact ⟨0, le_refl 0, hw, lt_of_lt_of_le hneg (computed_nonneg rnd hrnd image 0 y)⟩
    · exact h
  have hcol : ∀ x, (t < 0 ∨ ∃ y, 0 ≤ y ∧ y < image.height
      ∧ t < image.computed_brightness rnd x y)
      → ∃ y, 0 ≤ y ∧ y < image.height ∧ t < image.computed_brightness rnd x y := by
    rintro x (hneg | h)
    · exact ⟨0, le_refl 0, hh, lt_of_lt_of_le hneg (computed_nonneg rnd hrnd image x 0)⟩
    · exact h
  obtain ⟨crop, hcrop, hrows, hcols⟩ := guess_crop_spec rnd image t hfmt
  have hin : ∀ x y, image.computed_bright rnd t x y →
      crop.left ≤ x ∧ x < image.width - crop.right
      ∧ crop.top ≤ y ∧ y < image.height - crop.bottom := by
    rintro x y ⟨h1, h2, h3, h4, h5⟩
    rcases hrows with ⟨hdark, _, _⟩ | ⟨_, _, _, hlead, _, _, _, htrail⟩
    · exact absurd (Or.inr ⟨x, h1, h2, h5⟩) (hdark y h3 h4)
    · rcases hcols with ⟨hdark, _, _⟩ | ⟨_, _, _, hleft, _, _, _, hright⟩
      · exact absurd (Or.inr ⟨y, h3, h4, h5⟩) (hdark x h1 h2)
      · refine ⟨?_, ?_, ?_, ?_⟩
        · by_contra hc
          exact hleft x h1 (by omega) (Or.inr ⟨y, h3, h4, h5⟩)
        · by_contra hc
          exact hright x (by omega) h2 (Or.inr ⟨y, h3, h4, h5⟩)
        · by_contra hc
          exact hlead y h3 (by omega) (Or.inr ⟨x, h1, h2, h5⟩)
        · by_contra hc
          exact htrail y (by omega) h4 (Or.inr ⟨x, h1, h2, h5⟩)
  rcases hrows with ⟨hdark, _, _⟩ | ⟨ht0, hth, hlt, _, hb0, hbh, hlb, _⟩
  · exact absurd (Or.inr ⟨x0, hx0, hxw, hb⟩) (hdark y0 hy0 hyh)
  rcases hcols with ⟨hdark, _, _⟩ | ⟨hl0, hlw, hll, _, hr0, hrw, hlr, _⟩
  · exact absurd (Or.inr ⟨y0, hy0, hyh, hb⟩) (hdark x0 hx0 hxw)
  obtain ⟨xt, hxt0, hxtw, hxt⟩ := hrow _ hlt
  obtain ⟨xb, hxb0, hxbw, hxb⟩ := hrow _ hlb
  obtain ⟨yl, hyl0, hylh, hyl⟩ := hcol _ hll
  obtain ⟨yr, hyr0, hyrh, hyr⟩ := hcol _ hlr
  refine ⟨crop, hcrop, hin, ⟨xt, hxt0, hxtw, ht0, hth, hxt⟩,
    ⟨xb, hxb0, hxbw, by omega, by omega, hxb⟩, ⟨yl, hl0, hlw, hyl0, hylh, hyl⟩,
    ⟨yr, by omega, by omega, hyr0, hyrh, hyr⟩, hl0, hr0, ht0, hb0, ?_, ?_⟩
  · intro x y hy hxy
    have := hin x y hxy
    omega
  · intro x y hx hxy
    have := hin x y hxy
    omega

theorem guess_crop_tightest_witness :
    dotImage.computed_bright to_double (1 / 2) 1 1
    ∧ ∃ crop, guess_crop to_double dotImage (1 / 2) = Except.ok crop
      ∧ crop.left ≤ 1 ∧ 1 < dotImage.width - crop.right
      ∧ crop.top ≤ 1 ∧ 1 < dotImage.height - crop.bottom := by
  obtain ⟨crop, h1, h2, _⟩ :=
    guess_crop_tightest to_double (nearest_nonneg 53) dotImage (1 / 2) (Or.inr rfl) 1 1
      dotImage_bright
  exact ⟨dotImage_bright, crop, h1, h2 1 1 dotImage_bright⟩

/-- C27: for an image of positive width and height and every threshold, `guess_crop`
returns a crop if the pixel format is `AV_PIX_FMT_RGB24` or `AV_PIX_FMT_YUV420P`, and a
crop that it returns does not remove the whole picture: the four values are not
negative, `top + bottom < height` and `left + right < width`; for an image with no pixel
brighter than the threshold the crop is four zeros.  The first part holds whatever the
rounding `rnd` to double precision is; the last uses that the rounding keeps the order
and that the threshold is a `double`, which the rounding leaves as it is. -/
theorem guess_crop_keeps_picture (rnd : ℚ → ℚ) (image : Image) (t : ℚ)
    (hw : 0 < image.width) (hh : 0 < image.height) :
    ((image.pixel_format = AVPixelFormat.AV_PIX_FMT_RGB24
        ∨ image.pixel_format = AVPixelFormat.AV_PIX_FMT_YUV420P) →
      ∃ crop, guess_crop rnd image t = Except.ok crop)
    ∧ ∀ crop, guess_crop rnd image t = Except.ok crop →
      0 ≤ crop.left ∧ 0 ≤ crop.right ∧ 0 ≤ crop.top ∧ 0 ≤ crop.bottom
      ∧ crop.top + crop.bottom < image.height
      ∧ crop.left + crop.right < image.width
      ∧ ((∀ a b, a ≤ b → rnd a ≤ rnd b) → rnd t = t →
          (∀ x y, ¬ image.bright t x y) → crop = ⟨0, 0, 0, 0⟩) := by
  constructor
  · intro hfmt
    obtain ⟨crop, hcrop, _⟩ := guess_crop_spec rnd image t hfmt
    exact ⟨crop, hcrop⟩
  · intro crop hcrop
    have hfmt : image.pixel_format = AVPixelFormat.AV_PIX_FMT_RGB24
        ∨ image.pixel_format = AVPixelFormat.AV_PIX_FMT_YUV420P := by
      cases hp : image.pixel_format with
      | AV_PIX_FMT_RGB24 => exact Or.inl rfl
      | AV_PIX_FMT_YUV420P => exact Or.inr rfl
      | other id =>
        rw [guess_crop_other rnd image t id hp hh] at hcrop
        exact absurd hcrop (by simp)
    obtain ⟨crop2, hcrop2, hrows, hcols⟩ := guess_crop_spec rnd image t hfmt
    rw [hcrop] at hcrop2
    cases hcrop2
    have hv : 0 ≤ crop.top ∧ 0 ≤ crop.bottom ∧ crop.top + crop.bottom < image.height := by
      rcases hrows with ⟨_, h1, h2⟩ | ⟨ht0, hth, hlit, _, hb0, hbh, _, htrail⟩
      · exact ⟨by omega, by omega, by omega⟩
      · refine ⟨ht0, hb0, ?_⟩
        by_contra hc
        exact htrail crop.top (by omega) hth hlit
    have hz : 0 ≤ crop.left ∧ 0 ≤ crop.right ∧ crop.left + crop.right < image.width := by
      rcases hcols with ⟨_, h1, h2⟩ | ⟨hl0, hlw, hlit, _, hr0, hrw, _, hright⟩
      · exact ⟨by omega, by omega, by omega⟩
      · refine ⟨hl0, hr0, ?_⟩
        by_contra hc
        exact hright crop.left (by omega) hlw hlit
    refine ⟨hz.1, hz.2.1, hv.1, hv.2.1, hv.2.2, hz.2.2, ?_⟩
    intro hmono hfix hnone
    have ht : 0 ≤ t := by
      by_contra hneg
      exact hnone 0 0 ⟨le_refl 0, hw, le_refl 0, hh,
        lt_of_lt_of_le (not_le.mp hneg) (brightness_nonneg image 0 0)⟩
    have hdark : ∀ x y, ¬ image.computed_bright rnd t x y := by
      rintro x y ⟨h1, h2, h3, h4, h5⟩
      have hexact : image.brightness x y ≤ t := by
        by_contra hc
        exact hnone x y ⟨h1, h2, h3, h4, not_le.mp hc⟩
      rcases hfmt with hf | hf
      · rw [(computed_rgb24 rnd image x y hf).2] at h5
        have := hmono _ _ hexact
        rw [hfix] at this
        exact absurd h5 (not_lt.mpr this)
      · rw [(computed_yuv420p rnd image x y hf).2] at h5
        exact absurd h5 (not_lt.mpr hexact)
    have := guess_crop_dark rnd image t hfmt ht hdark
    rw [hcrop] at this
    exact Except.ok.inj this

theorem dotImage_dark (x y : Int) : ¬ dotImage.bright 1 x y := by
  rintro ⟨_, _, _, _, h⟩
  have hb : dotImage.brightness x y < 1 := by
    unfold Image.brightness Image.byte dotImage
    dsimp only
    rw [div_lt_one (by norm_num)]
    have : (if x + y * 4 + 0 = 5 then 200 else 0) % 256 < 256 := Nat.mod_lt _ (by norm_num)
    exact_mod_cast this
  exact absurd h (not_lt.mpr hb.le)

theorem guess_crop_keeps_picture_witness :
    0 < dotImage.width ∧ 0 < dotImage.height
    ∧ (∃ crop, guess_crop to_double dotImage 1 = Except.ok crop)
    ∧ guess_crop (fun q => q) dotImage 1 = Except.ok ⟨0, 0, 0, 0⟩ := by
  refine ⟨by decide, by decide,
    (guess_crop_keeps_picture to_double dotImage 1 (by decide) (by decide)).1 (Or.inr rfl),
    ?_⟩
  obtain ⟨crop, hcrop⟩ :=
    (guess_crop_keeps_picture (fun q => q) dotImage 1 (by decide) (by decide)).1 (Or.inr rfl)
  have hzero := ((guess_crop_keeps_picture (fun q => q) dotImage 1 (by decide)
    (by decide)).2 crop hcrop).2.2.2.2.2.2 (fun _ _ h => h) rfl dotImage_dark
  rw [hcrop, hzero]

theorem guess_crop_dotImage :
    guess_crop to_double dotImage (1 / 2) = Except.ok ⟨1, 1, 1, 1⟩ := by
  norm_num [guess_crop, ascending, descending, first_line, image_in_line, dotImage,
    line_yuv420p, Image.just_y, Image.byte, List.range_succ]
end DCPOMatic
